import Mathlib

/-!
# Polynomial spring force fields (SOFA)

A shallow embedding of

* `SofaKernel/modules/SofaDeformable/PolynomialSpringsForceField.inl`
  (interaction springs between two point sets), and
* `SofaKernel/modules/SofaDeformable/PolynomialRestShapeSpringsForceField.inl`
  (springs anchored at rest positions).

Scalars (`Real` / `double` in the source) are taken in an arbitrary linearly
ordered field `R`; the two library functions the source calls, `std::sqrt`
(through `Vec::norm`) and `exp`, are passed in as `MathOps R`.  A
`helper::vector` is a `List`; an access `v[i]` outside the bounds of the
vector has no defined behaviour in the source and makes the embedded function
return `none`.  Points and forces are 3-vectors (`Dimension = 3`).
-/

namespace Sofa

/-- Library functions on scalars used by the force fields: `std::sqrt` and `exp`. -/
structure MathOps (R : Type) where
  sqrt : R → R
  exp : R → R

/-- A coordinate or a force (`Coord`, `Deriv`) of a 3-d point set. -/
abbrev Vec3 (R : Type) := Fin 3 → R

/-- A dense 3x3 block (`JacobianMatrix` of the interaction field). -/
abbrev Mat3 (R : Type) := Fin 3 → Fin 3 → R

section Basics

variable {R : Type} [LinearOrderedField R]

/-- The scalar product `dot(a, b)` of two 3-vectors. -/
def dot (a b : Vec3 R) : R := a 0 * b 0 + a 1 * b 1 + a 2 * b 2

/-- The Euclidean length `a.norm()`, the square root of `dot(a, a)`. -/
def norm (M : MathOps R) (a : Vec3 R) : R := M.sqrt (dot a a)

/-- Division of a vector by a scalar, `a / s`. -/
def vdiv (a : Vec3 R) (s : R) : Vec3 R := fun k => a k / s

/-- The product `J * v` of a 3x3 block and a 3-vector. -/
def mulVec3 (J : Mat3 R) (v : Vec3 R) : Vec3 R :=
  fun p => J p 0 * v 0 + J p 1 * v 1 + J p 2 * v 2

/-- The assignment `J[p][q] = v`. -/
def setEntry (J : Mat3 R) (p q : Fin 3) (v : R) : Mat3 R :=
  Function.update J p (Function.update (J p) q v)

end Basics

section Vectors

variable {α : Type}

/-- The call `v.resize(n)`: keeps the first `n` entries and pads with the
default value `d` up to length `n`. -/
def resize (v : List α) (n : Nat) (d : α) : List α :=
  v.take n ++ List.replicate (n - v.length) d

/-- The assignment `v[i] = x`; undefined outside the bounds of `v`. -/
def setAt (v : List α) (i : Nat) (x : α) : Option (List α) :=
  if i < v.length then some (v.set i x) else none

end Vectors

section Polynomials

variable {R : Type} [LinearOrderedField R]

/-- The table `m_polynomialsMap` filled by the loop of `bwdInit`: one list of
consecutive slots of the stiffness array per entry of the degree vector, the
running `inputIndex` starting at `inputIndex`. -/
def fillPolynomialsMap : List Nat → Nat → List (List Nat)
  | [], _ => []
  | d :: ds, inputIndex =>
      (List.range d).map (fun polynomialIndex => inputIndex + polynomialIndex)
        :: fillPolynomialsMap ds (inputIndex + d)

/-- Body shared by the two `PolynomialValue` methods: accumulates
`stiffness[map[springIndex][degreeIndex]] * strain^(degreeIndex+1)` for
`degreeIndex = 0 .. degree[springIndex]-1`. -/
def polynomialValueLoop (stiffness : List R) (degree : List Nat) (pmap : List (List Nat))
    (springIndex : Nat) (strainValue : R) : Option R := do
  let deg ← degree[springIndex]?
  let acc ← (List.range deg).foldlM
    (fun (acc : R × R) (degreeIndex : Nat) => do
      let highOrderStrain := acc.1 * strainValue
      let row ← pmap[springIndex]?
      let slot ← row[degreeIndex]?
      let c ← stiffness[slot]?
      pure (highOrderStrain, acc.2 + c * highOrderStrain))
    ((1 : R), (0 : R))
  pure acc.2

/-- Body shared by the two `PolynomialDerivativeValue` methods: the loop runs
over `degreeIndex = 1 .. degree[springIndex]-1` and adds
`degreeIndex * stiffness[map[springIndex][degreeIndex-1]] * strain^(degreeIndex-1)`. -/
def polynomialDerivativeLoop (stiffness : List R) (degree : List Nat) (pmap : List (List Nat))
    (springIndex : Nat) (strainValue : R) : Option R := do
  let deg ← degree[springIndex]?
  let acc ← ((List.range deg).drop 1).foldlM
    (fun (acc : R × R) (degreeIndex : Nat) => do
      let row ← pmap[springIndex]?
      let slot ← row[degreeIndex - 1]?
      let c ← stiffness[slot]?
      pure (acc.1 * strainValue, acc.2 + (degreeIndex : R) * c * acc.1))
    ((1 : R), (0 : R))
  pure acc.2

end Polynomials

section Matrices

variable {R : Type} [LinearOrderedField R]

/-- The entries of a `BaseMatrix`, by row and column. -/
abbrev BaseMatrix (R : Type) := Nat → Nat → R

/-- The call `mat->add(i, j, v)`: adds `v` to the entry of row `i`, column `j`. -/
def BaseMatrix.add (mat : BaseMatrix R) (i j : Nat) (v : R) : BaseMatrix R :=
  fun r c => if r = i ∧ c = j then mat r c + v else mat r c

/-- The matrices that the matrix references of a `MultiMatrixAccessor` point
to, by address. -/
abbrev MatrixStore (R : Type) := Nat → BaseMatrix R

/-- The call `matrix->add(i, j, v)` through the pointer `matrix` of a matrix
reference; undefined through a null pointer. -/
def MatrixStore.add (store : MatrixStore R) (matrix : Option Nat) (i j : Nat) (v : R) :
    Option (MatrixStore R) :=
  matrix.map (fun address => Function.update store address ((store address).add i j v))

/-- A `MultiMatrixAccessor::MatrixRef`: the pointer `matrix` (`none` when null)
and the `offset` of the state in it. -/
structure MatrixRef where
  matrix : Option Nat
  offset : Nat

/-- A `MultiMatrixAccessor::InteractionMatrixRef`: the pointer `matrix` (`none`
when null) and the offsets of the two states in it. -/
structure InteractionMatrixRef where
  matrix : Option Nat
  offRow : Nat
  offCol : Nat

/-- The scan `for (s = 0; s < addSubIndex.size() && !contains; s++)
if (curIndex == addSubIndex[s]) contains = true;` of `addSubKToMatrix`. -/
def contains (addSubIndex : List Nat) (curIndex : Nat) : Bool :=
  match addSubIndex with
  | [] => false
  | x :: rest => if curIndex = x then true else contains rest curIndex

end Matrices


/-! ## The interaction force field -/

/-- State of a `PolynomialSpringsForceField`: its `Data` fields, the sizes of
the two mechanical states it links, and the member arrays. -/
structure PolynomialSpringsForceField (R : Type) where
  d_firstObjectPoints : List Nat
  d_secondObjectPoints : List Nat
  d_polynomialStiffness : List R
  d_polynomialDegree : List Nat
  d_computeZeroLength : Int
  d_zeroLength : List R
  d_recomputeIndices : Bool
  d_compressible : Bool
  mstate1Size : Nat
  mstate2Size : Nat
  m_firstObjectIndices : List Nat
  m_secondObjectIndices : List Nat
  m_differential : List (Mat3 R)
  m_springLength : List R
  m_strainValue : List R
  m_weightedCoordinateDifference : List (Vec3 R)
  m_initialSpringLength : List R
  m_computeSpringsZeroLength : List Int
  m_strainSign : List R
  m_polynomialsMap : List (List Nat)

namespace PolynomialSpringsForceField

variable {R : Type} [LinearOrderedField R]

/-- The method `PolynomialValue(springIndex, strainValue)`. -/
def PolynomialValue (st : PolynomialSpringsForceField R) (springIndex : Nat) (strainValue : R) :
    Option R :=
  polynomialValueLoop st.d_polynomialStiffness st.d_polynomialDegree st.m_polynomialsMap
    springIndex strainValue

/-- The method `PolynomialDerivativeValue(springIndex, strainValue)`. -/
def PolynomialDerivativeValue (st : PolynomialSpringsForceField R) (springIndex : Nat)
    (strainValue : R) : Option R :=
  polynomialDerivativeLoop st.d_polynomialStiffness st.d_polynomialDegree st.m_polynomialsMap
    springIndex strainValue

/-- The method `recomputeIndices()`: copies the two explicit lists, replaces an
empty one by all the points of its mechanical state, and clears both when the
first is longer than the second. -/
def recomputeIndices (st : PolynomialSpringsForceField R) : PolynomialSpringsForceField R :=
  let first := st.d_firstObjectPoints
  let second := st.d_secondObjectPoints
  let first := if first.length = 0 then List.range st.mstate1Size else first
  let second := if second.length = 0 then List.range st.mstate2Size else second
  if first.length > second.length then
    { st with m_firstObjectIndices := [], m_secondObjectIndices := [] }
  else
    { st with m_firstObjectIndices := first, m_secondObjectIndices := second }

/-- The two nested loops of `ComputeJacobian` that fill the 3x3 block. -/
def jacobianLoop (polynomialDerivativeRes polynomialForceRes : R) (w : Vec3 R)
    (jacobMatrix : Mat3 R) : Mat3 R :=
  (List.finRange 3).foldl
    (fun J firstIndex =>
      let J1 := (List.finRange 3).foldl
        (fun J secondIndex =>
          setEntry J firstIndex secondIndex
            ((polynomialDerivativeRes - polynomialForceRes) * w firstIndex * w secondIndex))
        J
      setEntry J1 firstIndex firstIndex (J1 firstIndex firstIndex + polynomialForceRes))
    jacobMatrix

/-- The method `ComputeJacobian(stiffnessIndex, springIndex)`. -/
def ComputeJacobian (st : PolynomialSpringsForceField R) (stiffnessIndex springIndex : Nat) :
    Option (PolynomialSpringsForceField R) := do
  let strain ← st.m_strainValue[springIndex]?
  let polynomialForceRes :=
    (← st.PolynomialValue stiffnessIndex strain) / (← st.m_springLength[springIndex]?)
  let polynomialDerivativeRes :=
    (← st.PolynomialDerivativeValue stiffnessIndex strain)
      / (← st.m_initialSpringLength[springIndex]?)
  let jacobMatrix ← st.m_differential[springIndex]?
  let w ← st.m_weightedCoordinateDifference[springIndex]?
  let differential ← setAt st.m_differential springIndex
    (jacobianLoop polynomialDerivativeRes polynomialForceRes w jacobMatrix)
  pure { st with m_differential := differential }

/-- First lines of the loop body of `addForce`: the two endpoints of spring `i`
and the spring vector `dx = p2[secondIndex] - p1[firstIndex]`. -/
def springVector (st : PolynomialSpringsForceField R) (p1 p2 : List (Vec3 R)) (i : Nat) :
    Option (Nat × Nat × Vec3 R) := do
  let firstIndex ← st.m_firstObjectIndices[i]?
  let secondIndex ← st.m_secondObjectIndices[i]?
  let x2 ← p2[secondIndex]?
  let x1 ← p1[firstIndex]?
  pure (firstIndex, secondIndex, x2 - x1)

/-- The block `if (m_computeSpringsZeroLength[i] == 1) { ... }` of the loop body:
stores the current length as zero length of spring `i` and clears its flag.
Returns `m_initialSpringLength` and `m_computeSpringsZeroLength`. -/
def captureZeroLength (st : PolynomialSpringsForceField R) (i : Nat) (springLength : R) :
    Option (List R × List Int) := do
  let flag ← st.m_computeSpringsZeroLength[i]?
  if flag = 1 then do
    let initial ← setAt st.m_initialSpringLength i springLength
    let flags ← setAt st.m_computeSpringsZeroLength i 0
    pure (initial, flags)
  else
    pure (st.m_initialSpringLength, st.m_computeSpringsZeroLength)

/-- The strain sign `length - zeroLength >= 0 ? 1.0 : compressionValue`. -/
def strainSignOf (compressionValue springLength initialSpringLength : R) : R :=
  if springLength - initialSpringLength ≥ 0 then 1 else compressionValue

/-- The strain `fabs(length - zeroLength) / zeroLength`. -/
def strainOf (springLength initialSpringLength : R) : R :=
  abs (springLength - initialSpringLength) / initialSpringLength

/-- The writes of the loop body to the per-spring working arrays, for the
spring vector `dx` of spring `i`. -/
def storeSpring (M : MathOps R) (compressionValue : R) (st : PolynomialSpringsForceField R)
    (i : Nat) (dx : Vec3 R) : Option (PolynomialSpringsForceField R) := do
  let _ ← st.m_weightedCoordinateDifference[i]?
  let m_springLength ← setAt st.m_springLength i (norm M dx)
  let latch ← captureZeroLength st i (norm M dx)
  let m_weightedCoordinateDifference ←
    setAt st.m_weightedCoordinateDifference i (vdiv dx (norm M dx))
  let initialSpringLength ← latch.1[i]?
  let m_strainValue ← setAt st.m_strainValue i (strainOf (norm M dx) initialSpringLength)
  let m_strainSign ←
    setAt st.m_strainSign i (strainSignOf compressionValue (norm M dx) initialSpringLength)
  pure { st with
    m_springLength := m_springLength
    m_initialSpringLength := latch.1
    m_computeSpringsZeroLength := latch.2
    m_weightedCoordinateDifference := m_weightedCoordinateDifference
    m_strainValue := m_strainValue
    m_strainSign := m_strainSign }

/-- The two updates `f1[firstIndex] += F * sign * direction` and
`f2[secondIndex] += -F * sign * direction`. -/
def accumulateForce (f1 f2 : List (Vec3 R)) (firstIndex secondIndex : Nat)
    (forceValue strainSign : R) (direction : Vec3 R) :
    Option (List (Vec3 R) × List (Vec3 R)) := do
  let f1Old ← f1[firstIndex]?
  let f1 ← setAt f1 firstIndex (f1Old + (forceValue * strainSign) • direction)
  let f2Old ← f2[secondIndex]?
  let f2 ← setAt f2 secondIndex (f2Old + (-forceValue * strainSign) • direction)
  pure (f1, f2)

/-- The body of the loop of `addForce` for spring `i`, the polynomial group
being `stiffnessIndex` (group `0` in the first branch, `i` in the second).
The accumulator holds the field and the two force vectors. -/
def addForceSpring (M : MathOps R) (compressionValue : R) (p1 p2 : List (Vec3 R))
    (stiffnessIndex : Nat)
    (acc : PolynomialSpringsForceField R × List (Vec3 R) × List (Vec3 R)) (i : Nat) :
    Option (PolynomialSpringsForceField R × List (Vec3 R) × List (Vec3 R)) := do
  let v ← springVector acc.1 p1 p2 i
  let st ← storeSpring M compressionValue acc.1 i v.2.2
  let strain ← st.m_strainValue[i]?
  let forceValue ← st.PolynomialValue stiffnessIndex strain
  let strainSign ← st.m_strainSign[i]?
  let direction ← st.m_weightedCoordinateDifference[i]?
  let f ← accumulateForce acc.2.1 acc.2.2 v.1 v.2.1 forceValue strainSign direction
  let st ← st.ComputeJacobian stiffnessIndex i
  pure (st, f.1, f.2)

/-- The method `addForce(mparams, f1, f2, p1, p2, v1, v2)`; returns the field
and the two force vectors after the call. The vectors `f1` and `f2` are two
vectors here, as in a call between two distinct states; the call within one
state, where both references denote the same vector, is `addForceSameState`. -/
def addForce (M : MathOps R) (st : PolynomialSpringsForceField R)
    (f1 f2 p1 p2 : List (Vec3 R)) :
    Option (PolynomialSpringsForceField R × List (Vec3 R) × List (Vec3 R)) :=
  let f1 := resize f1 p1.length 0
  let f2 := resize f2 p2.length 0
  let st := if st.d_recomputeIndices then st.recomputeIndices else st
  let compressionValue : R := if st.d_compressible then -1 else 0
  if st.d_polynomialDegree.length ≠ st.m_firstObjectIndices.length then
    (List.range st.m_firstObjectIndices.length).foldlM
      (fun acc i => addForceSpring M compressionValue p1 p2 0 acc i) (st, f1, f2)
  else
    (List.range st.m_firstObjectIndices.length).foldlM
      (fun acc i => addForceSpring M compressionValue p1 p2 i acc i) (st, f1, f2)

/-- The loop of `bwdInit` that clears the capture flags and stores the
configured zero lengths (the branch `computeZeroLength != 1`). -/
def initZeroLengthLoop (zeroLength : List R) (n : Nat) (initial : List R) (flags : List Int) :
    Option (List R × List Int) :=
  (List.range n).foldlM
    (fun (acc : List R × List Int) index => do
      let flags ← setAt acc.2 index 0
      let z ← if zeroLength.length > 1 then zeroLength[index]? else zeroLength[0]?
      let initial ← setAt acc.1 index z
      pure (initial, flags))
    (initial, flags)

/-- The method `bwdInit()`. -/
def bwdInit (st : PolynomialSpringsForceField R) : Option (PolynomialSpringsForceField R) := do
  let zeroLength := st.d_zeroLength
  let st :=
    if st.d_polynomialStiffness.isEmpty then { st with d_polynomialStiffness := [100] } else st
  let st := st.recomputeIndices
  let n := st.m_firstObjectIndices.length
  let st := { st with
    m_differential := resize st.m_differential n 0
    m_springLength := resize st.m_springLength n 0
    m_strainValue := resize st.m_strainValue n 0
    m_weightedCoordinateDifference := resize st.m_weightedCoordinateDifference n 0
    m_initialSpringLength := resize st.m_initialSpringLength n 0
    m_computeSpringsZeroLength := resize st.m_computeSpringsZeroLength n 0 }
  let st ←
    if st.d_computeZeroLength = 1 then
      pure { st with m_computeSpringsZeroLength := st.m_computeSpringsZeroLength.map (fun _ => 1) }
    else do
      let r ← initZeroLengthLoop zeroLength st.m_computeSpringsZeroLength.length
        st.m_initialSpringLength st.m_computeSpringsZeroLength
      pure { st with m_initialSpringLength := r.1, m_computeSpringsZeroLength := r.2 }
  let st := { st with m_strainSign := resize st.m_strainSign n 0 }
  let st :=
    if st.d_polynomialDegree.isEmpty then { st with d_polynomialDegree := [1] } else st
  pure { st with m_polynomialsMap := fillPolynomialsMap st.d_polynomialDegree 0 }

/-- Body of the innermost loop of `addKToMatrix` in the branch
`mstate1 == mstate2`: the four `mat->add` calls for the entry `(i, j)` of the
block. -/
def addKToMatrixEntry (mref : MatrixRef) (firstIndex secondIndex : Nat) (i j : Fin 3)
    (stiffnessDeriv : R) (store : MatrixStore R) : Option (MatrixStore R) := do
  let store ← store.add mref.matrix (mref.offset + 3 * firstIndex + i)
    (mref.offset + 3 * firstIndex + j) (-stiffnessDeriv)
  let store ← store.add mref.matrix (mref.offset + 3 * firstIndex + i)
    (mref.offset + 3 * secondIndex + j) stiffnessDeriv
  let store ← store.add mref.matrix (mref.offset + 3 * secondIndex + i)
    (mref.offset + 3 * firstIndex + j) stiffnessDeriv
  store.add mref.matrix (mref.offset + 3 * secondIndex + i)
    (mref.offset + 3 * secondIndex + j) (-stiffnessDeriv)

/-- Body of the innermost loop of `addKToMatrix` in the branch of two distinct
states: the four `add` calls through the four matrix references. -/
def addKToMatrixCrossEntry (mref11 mref22 : MatrixRef) (mref12 mref21 : InteractionMatrixRef)
    (firstIndex secondIndex : Nat) (i j : Fin 3) (stiffnessDeriv : R) (store : MatrixStore R) :
    Option (MatrixStore R) := do
  let store ← store.add mref11.matrix (mref11.offset + 3 * firstIndex + i)
    (mref11.offset + 3 * firstIndex + j) (-stiffnessDeriv)
  let store ← store.add mref12.matrix (mref12.offRow + 3 * firstIndex + i)
    (mref12.offCol + 3 * secondIndex + j) stiffnessDeriv
  let store ← store.add mref21.matrix (mref21.offRow + 3 * secondIndex + i)
    (mref21.offCol + 3 * firstIndex + j) stiffnessDeriv
  store.add mref22.matrix (mref22.offset + 3 * secondIndex + i)
    (mref22.offset + 3 * secondIndex + j) (-stiffnessDeriv)

/-- Body of the loop over the springs of `addKToMatrix`, for spring `index`;
`entry` is the body of the innermost loop of the branch. -/
def addKToMatrixSpring (st : PolynomialSpringsForceField R) (kFact : R)
    (entry : Nat → Nat → Fin 3 → Fin 3 → R → MatrixStore R → Option (MatrixStore R))
    (store : MatrixStore R) (index : Nat) : Option (MatrixStore R) := do
  let firstIndex ← st.m_firstObjectIndices[index]?
  let secondIndex ← st.m_secondObjectIndices[index]?
  let jacobMatrix ← st.m_differential[index]?
  (List.finRange 3).foldlM
    (fun store i =>
      (List.finRange 3).foldlM
        (fun store j => entry firstIndex secondIndex i j (jacobMatrix i j * kFact) store)
        store)
    store

/-- The method `addKToMatrix(mparams, matrix)`. `sameState` is the test
`mstate1 == mstate2`, `kFact` the factor read from `mparams`, and `mref11`,
`mref22`, `mref12`, `mref21` are what the accessor returns for
`getMatrix(mstate1)`, `getMatrix(mstate2)`, `getMatrix(mstate1, mstate2)` and
`getMatrix(mstate2, mstate1)`. Row and column numbers are natural numbers: they
are the values of the `unsigned int` expressions `offset + Dimension * index + i`
of the source as long as these stay below `2^32`. -/
def addKToMatrix (st : PolynomialSpringsForceField R) (kFact : R) (sameState : Bool)
    (mref11 mref22 : MatrixRef) (mref12 mref21 : InteractionMatrixRef)
    (store : MatrixStore R) : Option (MatrixStore R) :=
  if sameState then
    if mref11.matrix.isNone then some store
    else
      (List.range st.m_firstObjectIndices.length).foldlM
        (addKToMatrixSpring st kFact (addKToMatrixEntry mref11)) store
  else
    if mref11.matrix.isNone && mref22.matrix.isNone && mref12.matrix.isNone
        && mref21.matrix.isNone then some store
    else
      (List.range st.m_firstObjectIndices.length).foldlM
        (addKToMatrixSpring st kFact (addKToMatrixCrossEntry mref11 mref22 mref12 mref21)) store

/-- Body of the loop over the springs of `addSubKToMatrix`, for spring `index`:
the three reads, the scan of `addSubIndex` for the first endpoint, and the
nested loops when it is found; `entry` is the body of the innermost loop. -/
def addSubKToMatrixSpring (st : PolynomialSpringsForceField R) (kFact : R)
    (entry : Nat → Nat → Fin 3 → Fin 3 → R → MatrixStore R → Option (MatrixStore R))
    (addSubIndex : List Nat) (store : MatrixStore R) (index : Nat) : Option (MatrixStore R) := do
  let firstIndex ← st.m_firstObjectIndices[index]?
  let secondIndex ← st.m_secondObjectIndices[index]?
  let jacobMatrix ← st.m_differential[index]?
  if !contains addSubIndex firstIndex then pure store
  else
    (List.finRange 3).foldlM
      (fun store i =>
        (List.finRange 3).foldlM
          (fun store j => entry firstIndex secondIndex i j (jacobMatrix i j * kFact) store)
          store)
      store

/-- The method `addSubKToMatrix(mparams, matrix, addSubIndex)`, with the
arguments of `addKToMatrix` and the list `addSubIndex`. -/
def addSubKToMatrix (st : PolynomialSpringsForceField R) (kFact : R) (sameState : Bool)
    (mref11 mref22 : MatrixRef) (mref12 mref21 : InteractionMatrixRef)
    (addSubIndex : List Nat) (store : MatrixStore R) : Option (MatrixStore R) :=
  if sameState then
    if mref11.matrix.isNone then some store
    else
      (List.range st.m_firstObjectIndices.length).foldlM
        (addSubKToMatrixSpring st kFact (addKToMatrixEntry mref11) addSubIndex) store
  else
    if mref11.matrix.isNone && mref22.matrix.isNone && mref12.matrix.isNone
        && mref21.matrix.isNone then some store
    else
      (List.range st.m_firstObjectIndices.length).foldlM
        (addSubKToMatrixSpring st kFact (addKToMatrixCrossEntry mref11 mref22 mref12 mref21)
          addSubIndex) store

/-- Body of the loop of `addDForce` for spring `index`:
`forceDelta = jacobMatrix * (dx2[second] - dx1[first])`,
`df1[first] += forceDelta * kFactor` and `df2[second] -= forceDelta * kFactor`. -/
def addDForceSpring (st : PolynomialSpringsForceField R) (kFactor : R) (dx1 dx2 : List (Vec3 R))
    (acc : List (Vec3 R) × List (Vec3 R)) (index : Nat) :
    Option (List (Vec3 R) × List (Vec3 R)) := do
  let jacobMatrix ← st.m_differential[index]?
  let secondIndex ← st.m_secondObjectIndices[index]?
  let x2 ← dx2[secondIndex]?
  let firstIndex ← st.m_firstObjectIndices[index]?
  let x1 ← dx1[firstIndex]?
  let forceDelta := mulVec3 jacobMatrix (x2 - x1)
  let df1Old ← acc.1[firstIndex]?
  let df1 ← setAt acc.1 firstIndex (df1Old + kFactor • forceDelta)
  let df2Old ← acc.2[secondIndex]?
  let df2 ← setAt acc.2 secondIndex (df2Old - kFactor • forceDelta)
  pure (df1, df2)

/-- The method `addDForce(mparams, df1, df2, dx1, dx2)`; `kFactor` is the factor
read from `mparams`. Returns the two vectors `df1` and `df2` after the call. -/
def addDForce (st : PolynomialSpringsForceField R) (kFactor : R) (df1 df2 dx1 dx2 : List (Vec3 R)) :
    Option (List (Vec3 R) × List (Vec3 R)) :=
  (List.range st.m_firstObjectIndices.length).foldlM (addDForceSpring st kFactor dx1 dx2)
    (df1, df2)

end PolynomialSpringsForceField

/-! ## The anchored (rest shape) force field -/

/-- State of a `PolynomialRestShapeSpringsForceField`: its `Data` fields, what
it reads from its context (the size and rest positions of its mechanical state,
the positions of the external rest state when the link is set), and the member
arrays. -/
structure PolynomialRestShapeSpringsForceField (R : Type) where
  points : List Nat
  d_polynomialStiffness : List R
  d_polynomialDegree : List Nat
  external_points : List Nat
  d_recomputeIndices : Bool
  d_zeroLength : List R
  d_smoothShift : R
  d_smoothScale : R
  mstateSize : Nat
  mstateRestPosition : List (Vec3 R)
  restMState : Option (List (Vec3 R))
  useRestMState : Bool
  m_indices : List Nat
  m_ext_indices : List Nat
  m_differential : List (Vec3 R)
  m_directionSpringLength : List R
  m_strainValue : List R
  m_weightedCoordinateDifference : List (Vec3 R)
  m_coordinateSquaredNorm : List R
  m_polynomialsMap : List (List Nat)

namespace PolynomialRestShapeSpringsForceField

variable {R : Type} [LinearOrderedField R]

/-- The method `PolynomialValue(springIndex, strainValue)`. -/
def PolynomialValue (st : PolynomialRestShapeSpringsForceField R) (springIndex : Nat)
    (strainValue : R) : Option R :=
  polynomialValueLoop st.d_polynomialStiffness st.d_polynomialDegree st.m_polynomialsMap
    springIndex strainValue

/-- The method `PolynomialDerivativeValue(springIndex, strainValue)`. -/
def PolynomialDerivativeValue (st : PolynomialRestShapeSpringsForceField R) (springIndex : Nat)
    (strainValue : R) : Option R :=
  polynomialDerivativeLoop st.d_polynomialStiffness st.d_polynomialDegree st.m_polynomialsMap
    springIndex strainValue

/-- The method `getExtPosition()`: the positions of the external rest state
when `useRestMState`, the rest positions of the own state otherwise. -/
def getExtPosition (st : PolynomialRestShapeSpringsForceField R) : Option (List (Vec3 R)) :=
  if st.useRestMState then st.restMState else some st.mstateRestPosition

/-- The method `recomputeIndices()`. -/
def recomputeIndices (st : PolynomialRestShapeSpringsForceField R) :
    Option (PolynomialRestShapeSpringsForceField R) := do
  let indices := if st.points.isEmpty then List.range st.mstateSize else st.points
  let ext ←
    if st.external_points.isEmpty then
      if st.useRestMState then do
        let p0 ← st.getExtPosition
        pure (List.range p0.length)
      else
        pure (List.range st.mstateSize)
    else
      pure st.external_points
  if indices.length > ext.length then
    pure { st with m_indices := [], m_ext_indices := [] }
  else
    pure { st with m_indices := indices, m_ext_indices := ext }

/-- The zero length of spring `i`: `i < zeroLength.size() ? zeroLength[i] : zeroLength[0]`. -/
def zeroLengthOf (zeroLength : List R) (i : Nat) : Option R :=
  if i < zeroLength.length then zeroLength[i]? else zeroLength[0]?

/-- The loop of `ComputeJacobian` that fills the diagonal 3-vector. -/
def jacobianLoop (polynomialDerivativeRes polynomialForceRes exponentialDerivative : R)
    (w : Vec3 R) (jacobVector : Vec3 R) : Vec3 R :=
  (List.finRange 3).foldl
    (fun J index =>
      Function.update J index
        ((polynomialDerivativeRes - polynomialForceRes) * exponentialDerivative
          * w index * w index + polynomialForceRes))
    jacobVector

/-- The method `ComputeJacobian(stiffnessIndex, springIndex)`. -/
def ComputeJacobian (M : MathOps R) (st : PolynomialRestShapeSpringsForceField R)
    (stiffnessIndex springIndex : Nat) : Option (PolynomialRestShapeSpringsForceField R) := do
  let strain ← st.m_strainValue[springIndex]?
  let force ← st.PolynomialValue stiffnessIndex strain
  let directionSpringLength ← st.m_directionSpringLength[springIndex]?
  let derivative ← st.PolynomialDerivativeValue stiffnessIndex strain
  let z ← zeroLengthOf st.d_zeroLength springIndex
  let squaredNorm ← st.m_coordinateSquaredNorm[springIndex]?
  let jacobVector ← st.m_differential[springIndex]?
  let w ← st.m_weightedCoordinateDifference[springIndex]?
  let differential ← setAt st.m_differential springIndex
    (jacobianLoop (derivative / z) (force / directionSpringLength)
      (1 - st.d_smoothScale * M.exp (st.d_smoothShift - st.d_smoothScale * squaredNorm))
      w jacobVector)
  pure { st with m_differential := differential }

/-- First lines of the loop body of `addForce`: the node of spring `i` and the
spring vector `dx = p1[index] - p0[ext_index]`. -/
def springVector (st : PolynomialRestShapeSpringsForceField R) (p1 p0 : List (Vec3 R))
    (i : Nat) : Option (Nat × Vec3 R) := do
  let index ← st.m_indices[i]?
  let ext_index ← if st.useRestMState then st.m_ext_indices[i]? else pure index
  let x1 ← p1[index]?
  let x0 ← p0[ext_index]?
  pure (index, x1 - x0)

/-- The regularised length `sqrt(dot(dx,dx) + exp(shift - scale * dot(dx,dx)))`. -/
def directionLength (M : MathOps R) (shift scale : R) (dx : Vec3 R) : R :=
  M.sqrt (dot dx dx + M.exp (shift - scale * dot dx dx))

/-- The writes of the loop body to the per-spring working arrays, for the
spring vector `dx` of spring `i`. -/
def storeSpring (M : MathOps R) (st : PolynomialRestShapeSpringsForceField R)
    (i : Nat) (dx : Vec3 R) : Option (PolynomialRestShapeSpringsForceField R) := do
  let m_coordinateSquaredNorm ← setAt st.m_coordinateSquaredNorm i (dot dx dx)
  let z ← zeroLengthOf st.d_zeroLength i
  let m_strainValue ← setAt st.m_strainValue i (norm M dx / z)
  let m_directionSpringLength ← setAt st.m_directionSpringLength i
    (directionLength M st.d_smoothShift st.d_smoothScale dx)
  let m_weightedCoordinateDifference ← setAt st.m_weightedCoordinateDifference i
    (vdiv dx (directionLength M st.d_smoothShift st.d_smoothScale dx))
  pure { st with
    m_coordinateSquaredNorm := m_coordinateSquaredNorm
    m_strainValue := m_strainValue
    m_directionSpringLength := m_directionSpringLength
    m_weightedCoordinateDifference := m_weightedCoordinateDifference }

/-- The body of the loop of `addForce` for spring `i`, the polynomial group
being `stiffnessIndex` (group `0` in the first branch, `i` in the second).
The accumulator holds the field and the force vector. -/
def addForceSpring (M : MathOps R) (p1 p0 : List (Vec3 R)) (stiffnessIndex : Nat)
    (acc : PolynomialRestShapeSpringsForceField R × List (Vec3 R)) (i : Nat) :
    Option (PolynomialRestShapeSpringsForceField R × List (Vec3 R)) := do
  let v ← springVector acc.1 p1 p0 i
  let st ← storeSpring M acc.1 i v.2
  let strain ← st.m_strainValue[i]?
  let forceValue ← st.PolynomialValue stiffnessIndex strain
  let direction ← st.m_weightedCoordinateDifference[i]?
  let fOld ← acc.2[v.1]?
  let f1 ← setAt acc.2 v.1 (fOld - forceValue • direction)
  let st ← ComputeJacobian M st stiffnessIndex i
  pure (st, f1)

/-- The method `addForce(mparams, f, x, v)`; returns the field and the force
vector after the call. -/
def addForce (M : MathOps R) (st : PolynomialRestShapeSpringsForceField R)
    (f p1 : List (Vec3 R)) :
    Option (PolynomialRestShapeSpringsForceField R × List (Vec3 R)) := do
  let p0 ← st.getExtPosition
  let f1 := resize f p1.length 0
  let st ← if st.d_recomputeIndices then st.recomputeIndices else pure st
  if st.d_polynomialDegree.length ≠ st.m_indices.length then
    (List.range st.m_indices.length).foldlM
      (fun acc i => addForceSpring M p1 p0 0 acc i) (st, f1)
  else
    (List.range st.m_indices.length).foldlM
      (fun acc i => addForceSpring M p1 p0 i acc i) (st, f1)

/-- Body of the loop over the springs of `addKToMatrix`, for spring `index`. -/
def addKToMatrixSpring (st : PolynomialRestShapeSpringsForceField R) (kFact : R)
    (mref : MatrixRef) (store : MatrixStore R) (index : Nat) : Option (MatrixStore R) := do
  let curIndex ← st.m_indices[index]?
  let jacobVector ← st.m_differential[index]?
  (List.finRange 3).foldlM
    (fun store i =>
      store.add mref.matrix (mref.offset + 3 * curIndex + i) (mref.offset + 3 * curIndex + i)
        (-kFact * jacobVector i))
    store

/-- The method `addKToMatrix(mparams, matrix)`; `kFact` is the factor read from
`mparams` and `mref` what the accessor returns for `getMatrix(mstate)`. Row and
column numbers are natural numbers: they are the values of the `unsigned int`
expressions `offset + Dimension * curIndex + i` of the source as long as these
stay below `2^32`. -/
def addKToMatrix (st : PolynomialRestShapeSpringsForceField R) (kFact : R) (mref : MatrixRef)
    (store : MatrixStore R) : Option (MatrixStore R) :=
  (List.range st.m_indices.length).foldlM (addKToMatrixSpring st kFact mref) store

/-- The method `bwdInit()`. -/
def bwdInit (st : PolynomialRestShapeSpringsForceField R) :
    Option (PolynomialRestShapeSpringsForceField R) := do
  let st :=
    if st.d_polynomialStiffness.isEmpty then { st with d_polynomialStiffness := [100] } else st
  let st := if st.d_zeroLength.isEmpty then { st with d_zeroLength := [1] } else st
  let st := { st with useRestMState := st.restMState.isSome }
  let st ← st.recomputeIndices
  let st :=
    if st.d_polynomialDegree.isEmpty then { st with d_polynomialDegree := [1] } else st
  let st := { st with m_polynomialsMap := fillPolynomialsMap st.d_polynomialDegree 0 }
  let n := st.m_indices.length
  pure { st with
    m_differential := resize st.m_differential n 0
    m_directionSpringLength := resize st.m_directionSpringLength n 0
    m_strainValue := resize st.m_strainValue n 0
    m_weightedCoordinateDifference := resize st.m_weightedCoordinateDifference n 0
    m_coordinateSquaredNorm := resize st.m_coordinateSquaredNorm n 0 }

/-- Body of the loop over the springs of `addSubKToMatrix`, for spring `index`:
the two reads, the scan of `addSubIndex` for the node, and the loop over the
coordinates when it is found. -/
def addSubKToMatrixSpring (st : PolynomialRestShapeSpringsForceField R) (kFact : R)
    (mref : MatrixRef) (addSubIndex : List Nat) (store : MatrixStore R) (index : Nat) :
    Option (MatrixStore R) := do
  let curIndex ← st.m_indices[index]?
  let jacobVector ← st.m_differential[index]?
  if !contains addSubIndex curIndex then pure store
  else
    (List.finRange 3).foldlM
      (fun store i =>
        store.add mref.matrix (mref.offset + 3 * curIndex + i) (mref.offset + 3 * curIndex + i)
          (-kFact * jacobVector i))
      store

/-- The method `addSubKToMatrix(mparams, matrix, addSubIndex)`. -/
def addSubKToMatrix (st : PolynomialRestShapeSpringsForceField R) (kFact : R) (mref : MatrixRef)
    (addSubIndex : List Nat) (store : MatrixStore R) : Option (MatrixStore R) :=
  (List.range st.m_indices.length).foldlM (addSubKToMatrixSpring st kFact mref addSubIndex) store

/-- The loop over the coordinates in the body of `addDForce`:
`df1[node][coordIndex] += jacobVector[coordIndex] * dx1[node][coordIndex] * kFactor`. -/
def addDForceLoop (kFactor : R) (jacobVector dxNode dfNode : Vec3 R) : Vec3 R :=
  (List.finRange 3).foldl
    (fun d coordIndex =>
      Function.update d coordIndex
        (d coordIndex + jacobVector coordIndex * dxNode coordIndex * kFactor))
    dfNode

/-- Body of the loop of `addDForce` for spring `index`. -/
def addDForceSpring (st : PolynomialRestShapeSpringsForceField R) (kFactor : R)
    (dx1 : List (Vec3 R)) (df1 : List (Vec3 R)) (index : Nat) : Option (List (Vec3 R)) := do
  let jacobVector ← st.m_differential[index]?
  let node ← st.m_indices[index]?
  let dfNode ← df1[node]?
  let dxNode ← dx1[node]?
  setAt df1 node (addDForceLoop kFactor jacobVector dxNode dfNode)

/-- The method `addDForce(mparams, df, dx)`; `kFactor` is the factor read from
`mparams`. Returns the vector `df` after the call. -/
def addDForce (st : PolynomialRestShapeSpringsForceField R) (kFactor : R)
    (df dx : List (Vec3 R)) : Option (List (Vec3 R)) :=
  (List.range st.m_indices.length).foldlM (addDForceSpring st kFactor dx) df

end PolynomialRestShapeSpringsForceField

/-! ## Auxiliary definitions used in the statements -/

section Statements

variable {R : Type} [LinearOrderedField R]

/-- The coefficient that slot `k` of the row `row` of the table addresses,
`stiffness[row[k]]`. -/
def coeffAt (stiffness : List R) (row : List Nat) (k : Nat) : R :=
  stiffness.getD (row.getD k 0) 0

/-- An interaction field as it is after construction and before `bwdInit`:
the `Data` fields are set, the member arrays are empty. -/
def PolynomialSpringsForceField.configured (firstObjectPoints secondObjectPoints : List Nat)
    (polynomialStiffness : List R) (polynomialDegree : List Nat) (computeZeroLength : Int)
    (zeroLength : List R) (recomputeIndices compressible : Bool) (mstate1Size mstate2Size : Nat) :
    PolynomialSpringsForceField R where
  d_firstObjectPoints := firstObjectPoints
  d_secondObjectPoints := secondObjectPoints
  d_polynomialStiffness := polynomialStiffness
  d_polynomialDegree := polynomialDegree
  d_computeZeroLength := computeZeroLength
  d_zeroLength := zeroLength
  d_recomputeIndices := recomputeIndices
  d_compressible := compressible
  mstate1Size := mstate1Size
  mstate2Size := mstate2Size
  m_firstObjectIndices := []
  m_secondObjectIndices := []
  m_differential := []
  m_springLength := []
  m_strainValue := []
  m_weightedCoordinateDifference := []
  m_initialSpringLength := []
  m_computeSpringsZeroLength := []
  m_strainSign := []
  m_polynomialsMap := []

/-- An anchored field as it is after construction and before `bwdInit`: the
`Data` fields and the context are set, the member arrays are empty. -/
def PolynomialRestShapeSpringsForceField.configured (points : List Nat)
    (polynomialStiffness : List R) (polynomialDegree : List Nat) (external_points : List Nat)
    (recomputeIndices : Bool) (zeroLength : List R) (smoothShift smoothScale : R)
    (mstateSize : Nat) (mstateRestPosition : List (Vec3 R))
    (restMState : Option (List (Vec3 R))) : PolynomialRestShapeSpringsForceField R where
  points := points
  d_polynomialStiffness := polynomialStiffness
  d_polynomialDegree := polynomialDegree
  external_points := external_points
  d_recomputeIndices := recomputeIndices
  d_zeroLength := zeroLength
  d_smoothShift := smoothShift
  d_smoothScale := smoothScale
  mstateSize := mstateSize
  mstateRestPosition := mstateRestPosition
  restMState := restMState
  useRestMState := false
  m_indices := []
  m_ext_indices := []
  m_differential := []
  m_directionSpringLength := []
  m_strainValue := []
  m_weightedCoordinateDifference := []
  m_coordinateSquaredNorm := []
  m_polynomialsMap := []

/-- An interaction field with the cubic law of degree vector `[3]` and
coefficients `[2, 3, 4]`, its table filled as `bwdInit` fills it. -/
def cubicInteraction : PolynomialSpringsForceField ℚ :=
  { PolynomialSpringsForceField.configured [] [] [2, 3, 4] [3] 1 [] false false 1 1 with
    m_polynomialsMap := fillPolynomialsMap [3] 0 }

/-- An anchored field with the cubic law of degree vector `[3]` and
coefficients `[2, 3, 4]`, its table filled as `bwdInit` fills it. -/
def cubicAnchored : PolynomialRestShapeSpringsForceField ℚ :=
  { PolynomialRestShapeSpringsForceField.configured [] [2, 3, 4] [3] [] false [1] 0 1 1
      [0] none with
    m_polynomialsMap := fillPolynomialsMap [3] 0 }

/-- Group `g` of the polynomial data can be read: it has a degree `d` and a
row in the table, and the first `d` slots of the row lie inside the stiffness
array. -/
def GroupReadable (stiffness : List R) (degree : List Nat) (pmap : List (List Nat))
    (g : Nat) : Prop :=
  ∃ d row, degree[g]? = some d ∧ pmap[g]? = some row ∧
    ∀ k, k < d → ∃ slot, row[k]? = some slot ∧ slot < stiffness.length

/-- Rational stand-ins for the library functions: `Rat.sqrt` is the exact root
on squares of rationals; `exp` is only called by the anchored field and is
given its value at `0`. -/
def ratOps : MathOps ℚ := ⟨Rat.sqrt, fun _ => 1⟩

/-- An interaction field with one spring (points `0` and `0`), the linear law
`F(s) = s`, zero length `z` configured (`computeZeroLength = 0`), as `bwdInit`
leaves it. -/
def oneSpring (z : ℚ) (compressible : Bool) : PolynomialSpringsForceField ℚ :=
  { PolynomialSpringsForceField.configured [] [] [1] [1] 0 [z] false compressible 1 1 with
    m_firstObjectIndices := [0]
    m_secondObjectIndices := [0]
    m_differential := [0]
    m_springLength := [0]
    m_strainValue := [0]
    m_weightedCoordinateDifference := [0]
    m_initialSpringLength := [z]
    m_computeSpringsZeroLength := [0]
    m_strainSign := [0]
    m_polynomialsMap := [[0]] }

/-- An interaction field with one spring (points `0` and `0`), the linear law
`F(s) = s` and `computeZeroLength = 1`, as `bwdInit` leaves it: the capture
flag of the spring is set. -/
def captureSpring : PolynomialSpringsForceField ℚ :=
  { PolynomialSpringsForceField.configured [] [] [1] [1] 1 [] false false 1 1 with
    m_firstObjectIndices := [0]
    m_secondObjectIndices := [0]
    m_differential := [0]
    m_springLength := [0]
    m_strainValue := [0]
    m_weightedCoordinateDifference := [0]
    m_initialSpringLength := [0]
    m_computeSpringsZeroLength := [1]
    m_strainSign := [0]
    m_polynomialsMap := [[0]] }

/-- The polynomial group that `addForce` passes for spring `i`: group `0` when
the number of groups differs from the number of springs, group `i` otherwise. -/
def PolynomialSpringsForceField.groupOf (st : PolynomialSpringsForceField R) (i : Nat) : Nat :=
  if st.d_polynomialDegree.length ≠ st.m_firstObjectIndices.length then 0 else i

/-- The field as the loop of `addForce` sees it: after `recomputeIndices()` when
`recompute_indices` is set. -/
def PolynomialSpringsForceField.resolved (st : PolynomialSpringsForceField R) :
    PolynomialSpringsForceField R :=
  if st.d_recomputeIndices then st.recomputeIndices else st

/-- Every access of the loop of `addForce` is inside its vector: the second
index list is at least as long as the first, the indices of the springs are
points of `p1` and `p2`, every per-spring working array has an entry for every
spring, and the polynomial group of every spring can be read. -/
structure PolynomialSpringsForceField.Ready (st : PolynomialSpringsForceField R)
    (p1 p2 : List (Vec3 R)) : Prop where
  second : st.m_firstObjectIndices.length ≤ st.m_secondObjectIndices.length
  first_lt : ∀ i a : Nat, st.m_firstObjectIndices[i]? = some a → a < p1.length
  second_lt : ∀ i b : Nat, i < st.m_firstObjectIndices.length →
    st.m_secondObjectIndices[i]? = some b → b < p2.length
  differential : st.m_firstObjectIndices.length ≤ st.m_differential.length
  springLength : st.m_firstObjectIndices.length ≤ st.m_springLength.length
  strainValue : st.m_firstObjectIndices.length ≤ st.m_strainValue.length
  direction : st.m_firstObjectIndices.length ≤ st.m_weightedCoordinateDifference.length
  initial : st.m_firstObjectIndices.length ≤ st.m_initialSpringLength.length
  flags : st.m_firstObjectIndices.length ≤ st.m_computeSpringsZeroLength.length
  strainSign : st.m_firstObjectIndices.length ≤ st.m_strainSign.length
  group : ∀ i : Nat, i < st.m_firstObjectIndices.length →
    GroupReadable st.d_polynomialStiffness st.d_polynomialDegree st.m_polynomialsMap
      (st.groupOf i)

/-- Two states of a field with the same configuration, the same springs and
the same sizes of the working arrays. -/
structure PolynomialSpringsForceField.SameFrame (st st' : PolynomialSpringsForceField R) :
    Prop where
  first : st'.m_firstObjectIndices = st.m_firstObjectIndices
  second : st'.m_secondObjectIndices = st.m_secondObjectIndices
  stiffness : st'.d_polynomialStiffness = st.d_polynomialStiffness
  degree : st'.d_polynomialDegree = st.d_polynomialDegree
  table : st'.m_polynomialsMap = st.m_polynomialsMap
  differential : st'.m_differential.length = st.m_differential.length
  springLength : st'.m_springLength.length = st.m_springLength.length
  strainValue : st'.m_strainValue.length = st.m_strainValue.length
  direction : st'.m_weightedCoordinateDifference.length = st.m_weightedCoordinateDifference.length
  initial : st'.m_initialSpringLength.length = st.m_initialSpringLength.length
  flags : st'.m_computeSpringsZeroLength.length = st.m_computeSpringsZeroLength.length
  strainSign : st'.m_strainSign.length = st.m_strainSign.length

/-- One call of interaction `addForce` as the simulation issues it: the sizes
of the two mechanical states at that time, the value of `recompute_indices`,
and the force and position vectors passed in. -/
structure ForceCall (R : Type) where
  mstate1Size : Nat
  mstate2Size : Nat
  recomputeIndices : Bool
  f1 : List (Vec3 R)
  f2 : List (Vec3 R)
  p1 : List (Vec3 R)
  p2 : List (Vec3 R)

/-- The field at the time of a call: the sizes of the mechanical states and
the value of `recompute_indices` are those of the call. -/
def PolynomialSpringsForceField.atCall (st : PolynomialSpringsForceField R) (c : ForceCall R) :
    PolynomialSpringsForceField R :=
  { st with
    mstate1Size := c.mstate1Size
    mstate2Size := c.mstate2Size
    d_recomputeIndices := c.recomputeIndices }

/-- A sequence of `addForce` calls on one interaction field, each on the
field as the previous call left it. -/
def addForceCalls (M : MathOps R) :
    PolynomialSpringsForceField R → List (ForceCall R) → Option (PolynomialSpringsForceField R)
  | st, [] => some st
  | st, c :: cs => do
      let r ← PolynomialSpringsForceField.addForce M (st.atCall c) c.f1 c.f2 c.p1 c.p2
      addForceCalls M r.1 cs

/-- The library functions on exact reals. -/
noncomputable def realOps : MathOps ℝ := ⟨Real.sqrt, Real.exp⟩

/-- The linear map `v ↦ J * v` of a 3x3 block, as a continuous linear map. -/
noncomputable def mulVec3CLM (J : Mat3 ℝ) : Vec3 ℝ →L[ℝ] Vec3 ℝ :=
  LinearMap.toContinuousLinearMap
    { toFun := mulVec3 J
      map_add' := by
        intro v w
        funext p
        simp only [mulVec3, Pi.add_apply]
        ring
      map_smul' := by
        intro c v
        funext p
        simp only [mulVec3, Pi.smul_apply, smul_eq_mul, RingHom.id_apply]
        ring }

/-- The coordinate `v ↦ v k` as a continuous linear map. -/
noncomputable def coordCLM (k : Fin 3) : Vec3 ℝ →L[ℝ] ℝ := ContinuousLinearMap.proj k

/-- The entry `f1[a]` after the loop body of interaction `addForce` has run for
spring `i` with the point `p2[b]` placed at `q`, everything else being fixed
(`0` where the body is undefined). -/
def forceOnFirst (M : MathOps R) (cv : R) (p1 p2 : List (Vec3 R)) (g : Nat)
    (st : PolynomialSpringsForceField R) (f1 f2 : List (Vec3 R)) (i a b : Nat) (q : Vec3 R) :
    Vec3 R :=
  ((PolynomialSpringsForceField.addForceSpring M cv p1 (p2.set b q) g (st, f1, f2) i).map
    (fun r => r.2.1.getD a 0)).getD 0

/-- The entry `f2[b]` after the loop body of interaction `addForce` has run for
spring `i` with the point `p2[b]` placed at `q`, everything else being fixed
(`0` where the body is undefined). -/
def forceOnSecond (M : MathOps R) (cv : R) (p1 p2 : List (Vec3 R)) (g : Nat)
    (st : PolynomialSpringsForceField R) (f1 f2 : List (Vec3 R)) (i b : Nat) (q : Vec3 R) :
    Vec3 R :=
  ((PolynomialSpringsForceField.addForceSpring M cv p1 (p2.set b q) g (st, f1, f2) i).map
    (fun r => r.2.2.getD b 0)).getD 0

/-- An interaction field over the reals with one spring (points `0` and `0`),
zero length `1` configured (`computeZeroLength = 0`), degree vector `[2]` and
coefficients `[2, 0]`, i.e. the law `F(s) = 2 s + 0 s^2`, as `bwdInit` leaves it. -/
noncomputable def stretchedSpring : PolynomialSpringsForceField ℝ :=
  { PolynomialSpringsForceField.configured [] [] [2, 0] [2] 0 [1] false false 1 1 with
    m_firstObjectIndices := [0]
    m_secondObjectIndices := [0]
    m_differential := [0]
    m_springLength := [0]
    m_strainValue := [0]
    m_weightedCoordinateDifference := [0]
    m_initialSpringLength := [1]
    m_computeSpringsZeroLength := [0]
    m_strainSign := [0]
    m_polynomialsMap := [[0, 1]] }

/-- An anchored field over the reals with one spring at node `0`, anchored at
the rest position `(0,0,0)` of its own state, zero length `1`, degree vector
`[2]` and coefficients `[2, 0]` (the law `F(s) = 2 s + 0 s^2`), smoothing shift
`log 3` and scale `0`, with one entry in every working array. -/
noncomputable def anchoredSpring : PolynomialRestShapeSpringsForceField ℝ :=
  { PolynomialRestShapeSpringsForceField.configured [] [2, 0] [2] [] false [1] (Real.log 3) 0 1
      [0] none with
    m_indices := [0]
    m_ext_indices := [0]
    m_differential := [0]
    m_directionSpringLength := [0]
    m_strainValue := [0]
    m_weightedCoordinateDifference := [0]
    m_coordinateSquaredNorm := [0]
    m_polynomialsMap := [[0, 1]] }

/-- What one spring with endpoints `a`, `b` and block `J` adds to the entry of
row `r` and column `c` in the same-state branch: the sum over the entries
`(i, j)` of the block of `-kFact * J[i][j]` at `(a,a)` and `(b,b)` and of
`kFact * J[i][j]` at `(a,b)` and `(b,a)`. -/
def springBlocks (kFact : R) (offset a b : Nat) (J : Mat3 R) (r c : Nat) : R :=
  ∑ i : Fin 3, ∑ j : Fin 3,
    ((if r = offset + 3 * a + i ∧ c = offset + 3 * a + j then -(kFact * J i j) else 0)
    + (if r = offset + 3 * a + i ∧ c = offset + 3 * b + j then kFact * J i j else 0)
    + (if r = offset + 3 * b + i ∧ c = offset + 3 * a + j then kFact * J i j else 0)
    + (if r = offset + 3 * b + i ∧ c = offset + 3 * b + j then -(kFact * J i j) else 0))

/-- What one anchored spring with node `a` and diagonal `J` adds to the entry
of row `r` and column `c`: `-kFact * J[d]` at the diagonal entry `d` of the
block `(a,a)`. -/
def springDiagonal (kFact : R) (offset a : Nat) (J : Vec3 R) (r c : Nat) : R :=
  ∑ d : Fin 3, if r = offset + 3 * a + d ∧ c = offset + 3 * a + d then -(kFact * J d) else 0

/-- An interaction field with one spring between the points `0` and `1` of one
state, whose cached block has all entries `1`. -/
def pairSpring : PolynomialSpringsForceField ℚ :=
  { PolynomialSpringsForceField.configured [0] [1] [1] [1] 0 [1] false false 2 2 with
    m_firstObjectIndices := [0]
    m_secondObjectIndices := [1]
    m_differential := [fun _ _ => 1]
    m_springLength := [0]
    m_strainValue := [0]
    m_weightedCoordinateDifference := [0]
    m_initialSpringLength := [1]
    m_computeSpringsZeroLength := [0]
    m_strainSign := [0]
    m_polynomialsMap := [[0]] }

/-- An anchored field with one spring at node `1` whose cached diagonal is
`(1, 2, 3)`. -/
def diagonalSpring : PolynomialRestShapeSpringsForceField ℚ :=
  { PolynomialRestShapeSpringsForceField.configured [1] [1] [1] [] false [1] 0 1 2
      [0, 0] none with
    m_indices := [1]
    m_ext_indices := [0, 1]
    m_differential := [![1, 2, 3]]
    m_directionSpringLength := [0]
    m_strainValue := [0]
    m_weightedCoordinateDifference := [0]
    m_coordinateSquaredNorm := [0]
    m_polynomialsMap := [[0]] }

/-- The entries of spring `j` in the per-spring working arrays are the same in
the two states of a field. -/
structure PolynomialSpringsForceField.AgreeAt (st st' : PolynomialSpringsForceField R)
    (j : Nat) : Prop where
  differential : st'.m_differential[j]? = st.m_differential[j]?
  springLength : st'.m_springLength[j]? = st.m_springLength[j]?
  strainValue : st'.m_strainValue[j]? = st.m_strainValue[j]?
  direction : st'.m_weightedCoordinateDifference[j]? = st.m_weightedCoordinateDifference[j]?
  initial : st'.m_initialSpringLength[j]? = st.m_initialSpringLength[j]?
  flags : st'.m_computeSpringsZeroLength[j]? = st.m_computeSpringsZeroLength[j]?
  strainSign : st'.m_strainSign[j]? = st.m_strainSign[j]?

/-- The polynomial group that anchored `addForce` passes for spring `i`: group
`0` when the number of groups differs from the number of springs, group `i`
otherwise. -/
def PolynomialRestShapeSpringsForceField.groupOf (st : PolynomialRestShapeSpringsForceField R)
    (i : Nat) : Nat :=
  if st.d_polynomialDegree.length ≠ st.m_indices.length then 0 else i

/-- Every access of the loop of anchored `addForce` is inside its vector: the
node of every spring is a point of `p1`, its reference index (the entry of
`m_ext_indices` when an external rest state is used, the node itself
otherwise) is a point of `p0`, the zero-length array is not empty, every
per-spring working array has an entry for every spring, and the polynomial
group of every spring can be read. -/
structure PolynomialRestShapeSpringsForceField.Ready
    (st : PolynomialRestShapeSpringsForceField R) (p1 p0 : List (Vec3 R)) : Prop where
  node_lt : ∀ i a : Nat, st.m_indices[i]? = some a → a < p1.length
  reference : ∀ i a : Nat, st.m_indices[i]? = some a →
    ∃ e : Nat, (if st.useRestMState then st.m_ext_indices[i]? else some a) = some e
      ∧ e < p0.length
  zeroLength : 0 < st.d_zeroLength.length
  differential : st.m_indices.length ≤ st.m_differential.length
  strainValue : st.m_indices.length ≤ st.m_strainValue.length
  directionLength : st.m_indices.length ≤ st.m_directionSpringLength.length
  direction : st.m_indices.length ≤ st.m_weightedCoordinateDifference.length
  squaredNorm : st.m_indices.length ≤ st.m_coordinateSquaredNorm.length
  group : ∀ i : Nat, i < st.m_indices.length →
    GroupReadable st.d_polynomialStiffness st.d_polynomialDegree st.m_polynomialsMap
      (st.groupOf i)

/-- Two states of an anchored field with the same configuration, the same
springs and the same sizes of the working arrays. -/
structure PolynomialRestShapeSpringsForceField.SameFrame
    (st st' : PolynomialRestShapeSpringsForceField R) : Prop where
  indices : st'.m_indices = st.m_indices
  ext_indices : st'.m_ext_indices = st.m_ext_indices
  useRest : st'.useRestMState = st.useRestMState
  stiffness : st'.d_polynomialStiffness = st.d_polynomialStiffness
  degree : st'.d_polynomialDegree = st.d_polynomialDegree
  table : st'.m_polynomialsMap = st.m_polynomialsMap
  zeroLength : st'.d_zeroLength = st.d_zeroLength
  shift : st'.d_smoothShift = st.d_smoothShift
  scale : st'.d_smoothScale = st.d_smoothScale
  differential : st'.m_differential.length = st.m_differential.length
  strainValue : st'.m_strainValue.length = st.m_strainValue.length
  directionLength : st'.m_directionSpringLength.length = st.m_directionSpringLength.length
  direction : st'.m_weightedCoordinateDifference.length = st.m_weightedCoordinateDifference.length
  squaredNorm : st'.m_coordinateSquaredNorm.length = st.m_coordinateSquaredNorm.length

/-- The entries of spring `j` in the per-spring working arrays are the same in
the two states of an anchored field. -/
structure PolynomialRestShapeSpringsForceField.AgreeAt
    (st st' : PolynomialRestShapeSpringsForceField R) (j : Nat) : Prop where
  differential : st'.m_differential[j]? = st.m_differential[j]?
  strainValue : st'.m_strainValue[j]? = st.m_strainValue[j]?
  directionLength : st'.m_directionSpringLength[j]? = st.m_directionSpringLength[j]?
  direction : st'.m_weightedCoordinateDifference[j]? = st.m_weightedCoordinateDifference[j]?
  squaredNorm : st'.m_coordinateSquaredNorm[j]? = st.m_coordinateSquaredNorm[j]?

/-- In the state `st'` left by interaction `addForce`, spring `i` has been
evaluated with the polynomial group `g`: with `s`, `sign`, `z`, `L`, `d` the
strain, strain sign, zero length, length and direction stored for the spring,
`F = PolynomialValue(g, s)` and `F' = PolynomialDerivativeValue(g, s)`, the
cached block is `J[p][q] = (F'/z - F/L) d[p] d[q] + (F/L if p = q)`, and a run
of the loop body for spring `i` with group `g` has added `F * sign * d` to the
entry of its first endpoint and `-F * sign * d` to that of its second. -/
def PolynomialSpringsForceField.EvaluatedWith (M : MathOps R) (cv : R)
    (p1 p2 : List (Vec3 R)) (st' : PolynomialSpringsForceField R) (i g : Nat) : Prop :=
  ∃ (s sign z L F F' : R) (d : Vec3 R) (J : Mat3 R),
    st'.m_strainValue[i]? = some s ∧ st'.m_strainSign[i]? = some sign
    ∧ st'.m_initialSpringLength[i]? = some z ∧ st'.m_springLength[i]? = some L
    ∧ st'.m_weightedCoordinateDifference[i]? = some d
    ∧ st'.PolynomialValue g s = some F ∧ st'.PolynomialDerivativeValue g s = some F'
    ∧ st'.m_differential[i]? = some J
    ∧ (∀ p q : Fin 3, J p q = (F' / z - F / L) * d p * d q + if p = q then F / L else 0)
    ∧ ∃ (acc rj : PolynomialSpringsForceField R × List (Vec3 R) × List (Vec3 R))
        (a b : Nat) (fa fb : Vec3 R),
      PolynomialSpringsForceField.addForceSpring M cv p1 p2 g acc i = some rj
      ∧ st'.m_firstObjectIndices[i]? = some a ∧ st'.m_secondObjectIndices[i]? = some b
      ∧ acc.2.1[a]? = some fa ∧ acc.2.2[b]? = some fb
      ∧ rj.2.1 = acc.2.1.set a (fa + (F * sign) • d)
      ∧ rj.2.2 = acc.2.2.set b (fb + (-F * sign) • d)

/-- In the state `st'` left by anchored `addForce`, spring `i` has been
evaluated with the polynomial group `g`: with `s`, `r`, `d`, `N` the strain,
regularised length, direction and squared length stored for the spring, `z` its
zero length, `F = PolynomialValue(g, s)` and
`F' = PolynomialDerivativeValue(g, s)`, the cached diagonal is
`J[k] = (F'/z - F/r) * (1 - scale * exp(shift - scale * N)) * d[k]^2 + F/r`, and
a run of the loop body for spring `i` with group `g` has subtracted `F * d`
from the entry of its node. -/
def PolynomialRestShapeSpringsForceField.EvaluatedWith (M : MathOps R)
    (p1 p0 : List (Vec3 R)) (st' : PolynomialRestShapeSpringsForceField R) (i g : Nat) : Prop :=
  ∃ (s z r N F F' : R) (d J : Vec3 R),
    st'.m_strainValue[i]? = some s
    ∧ z = st'.d_zeroLength.getD (if i < st'.d_zeroLength.length then i else 0) 0
    ∧ st'.m_directionSpringLength[i]? = some r
    ∧ st'.m_coordinateSquaredNorm[i]? = some N
    ∧ st'.m_weightedCoordinateDifference[i]? = some d
    ∧ st'.PolynomialValue g s = some F ∧ st'.PolynomialDerivativeValue g s = some F'
    ∧ st'.m_differential[i]? = some J
    ∧ (∀ k : Fin 3, J k = (F' / z - F / r)
        * (1 - st'.d_smoothScale * M.exp (st'.d_smoothShift - st'.d_smoothScale * N))
        * d k * d k + F / r)
    ∧ ∃ (acc rj : PolynomialRestShapeSpringsForceField R × List (Vec3 R)) (a : Nat)
        (fa : Vec3 R),
      PolynomialRestShapeSpringsForceField.addForceSpring M p1 p0 g acc i = some rj
      ∧ st'.m_indices[i]? = some a
      ∧ acc.2[a]? = some fa
      ∧ rj.2 = acc.2.set a (fa - F • d)

/-- An interaction field with two springs (points `0`-`0` and `1`-`1`), zero
lengths `1` configured (`computeZeroLength = 0`), and three polynomial groups
of degree `1` with the laws `F(s) = s`, `F(s) = 2 s` and `F(s) = 3 s`, as
`bwdInit` leaves it. -/
def threeGroups : PolynomialSpringsForceField ℚ :=
  { PolynomialSpringsForceField.configured [0, 1] [0, 1] [1, 2, 3] [1, 1, 1] 0 [1] false false
      2 2 with
    m_firstObjectIndices := [0, 1]
    m_secondObjectIndices := [0, 1]
    m_differential := [0, 0]
    m_springLength := [0, 0]
    m_strainValue := [0, 0]
    m_weightedCoordinateDifference := [0, 0]
    m_initialSpringLength := [1, 1]
    m_computeSpringsZeroLength := [0, 0]
    m_strainSign := [0, 0]
    m_polynomialsMap := [[0], [1], [2]] }

/-- The offset of group `g`: the sum of `degree[h]` over `h < g`. -/
def groupOffset (degree : List Nat) (g : Nat) : Nat := (degree.take g).sum

/-- The reads of the zero-length array made by `bwdInit` of the interaction
field stay inside the array: either the lengths are captured
(`computeZeroLength == 1`, nothing is read), or every spring of the resolved set
finds its entry (`zeroLength[index]` when the array has more than one entry,
`zeroLength[0]` otherwise). -/
def PolynomialSpringsForceField.ZeroLengthReadable (cfg : PolynomialSpringsForceField R) : Prop :=
  cfg.d_computeZeroLength = 1 ∨
    ∀ index, index < cfg.recomputeIndices.m_firstObjectIndices.length →
      ∃ z, (if cfg.d_zeroLength.length > 1 then cfg.d_zeroLength[index]?
        else cfg.d_zeroLength[0]?) = some z

/-- The table `pmap` lists the slots of the degree vector `degree`: one row per
group, row `g` of length `degree[g]` with entry `k` equal to
`groupOffset degree g + k`, the rows together enumerating
`0, 1, ..., (sum of the degrees) - 1`. -/
def SlotTable (degree : List Nat) (pmap : List (List Nat)) : Prop :=
  pmap.length = degree.length
  ∧ (∀ g d, degree[g]? = some d →
      ∃ row, pmap[g]? = some row ∧ row.length = d
        ∧ ∀ k, k < d → row[k]? = some (groupOffset degree g + k))
  ∧ pmap.flatten = List.range degree.sum

/-- An interaction field configured with two first points and one second
point, `recompute_indices` set: the resolver clears both lists. -/
def mismatchedInteraction : PolynomialSpringsForceField ℚ :=
  PolynomialSpringsForceField.configured [0, 1] [0] [1] [1] 0 [1] true false 2 2

/-- An anchored field configured with two points and one external point,
`recompute_indices` set: the resolver clears both lists. -/
def mismatchedAnchored : PolynomialRestShapeSpringsForceField ℚ :=
  PolynomialRestShapeSpringsForceField.configured [0, 1] [1] [1] [0] true [1] 0 0 2 [0, 0] none

/-- The interaction field with its spring set restricted to the springs whose
first endpoint occurs in `L`: the triples (first index, second index, cached
block) of the other springs are removed. -/
def PolynomialSpringsForceField.restrictTo (st : PolynomialSpringsForceField R) (L : List Nat) :
    PolynomialSpringsForceField R :=
  { st with
    m_firstObjectIndices :=
      ((st.m_firstObjectIndices.zip (st.m_secondObjectIndices.zip st.m_differential)).filter
        (fun t => decide (t.1 ∈ L))).map (fun t => t.1)
    m_secondObjectIndices :=
      ((st.m_firstObjectIndices.zip (st.m_secondObjectIndices.zip st.m_differential)).filter
        (fun t => decide (t.1 ∈ L))).map (fun t => t.2.1)
    m_differential :=
      ((st.m_firstObjectIndices.zip (st.m_secondObjectIndices.zip st.m_differential)).filter
        (fun t => decide (t.1 ∈ L))).map (fun t => t.2.2) }

/-- The anchored field with its spring set restricted to the springs whose node
occurs in `L`. -/
def PolynomialRestShapeSpringsForceField.restrictTo
    (st : PolynomialRestShapeSpringsForceField R) (L : List Nat) :
    PolynomialRestShapeSpringsForceField R :=
  { st with
    m_indices :=
      ((st.m_indices.zip st.m_differential).filter (fun t => decide (t.1 ∈ L))).map
        (fun t => t.1)
    m_differential :=
      ((st.m_indices.zip st.m_differential).filter (fun t => decide (t.1 ∈ L))).map
        (fun t => t.2) }

/-- An anchored field with one spring, configured with `points = [0]` and
`external_points = [1]` and no external rest state, the rest positions of its
own state being `(0,0,0)` and `(5,0,0)`, as `bwdInit` leaves it. -/
def shiftedAnchor : PolynomialRestShapeSpringsForceField ℚ :=
  { PolynomialRestShapeSpringsForceField.configured [0] [1] [1] [1] false [1] 0 0 2
      [0, ![5, 0, 0]] none with
    m_indices := [0]
    m_ext_indices := [1]
    m_differential := [0]
    m_directionSpringLength := [0]
    m_strainValue := [0]
    m_weightedCoordinateDifference := [0]
    m_coordinateSquaredNorm := [0]
    m_polynomialsMap := [[0]] }

/-- An interaction field with `recompute_indices` set and no explicit points,
as `bwdInit` leaves it when both states have one point: one spring and one
entry in every working array. -/
def regrownInteraction : PolynomialSpringsForceField ℚ :=
  { PolynomialSpringsForceField.configured [] [] [1] [1] 0 [1] true false 1 1 with
    m_firstObjectIndices := [0]
    m_secondObjectIndices := [0]
    m_differential := [0]
    m_springLength := [0]
    m_strainValue := [0]
    m_weightedCoordinateDifference := [0]
    m_initialSpringLength := [1]
    m_computeSpringsZeroLength := [0]
    m_strainSign := [0]
    m_polynomialsMap := [[0]] }

/-- An anchored field with `recompute_indices` set and no explicit points, as
`bwdInit` leaves it when its state has one point: one spring and one entry in
every working array. -/
def regrownAnchored : PolynomialRestShapeSpringsForceField ℚ :=
  { PolynomialRestShapeSpringsForceField.configured [] [1] [1] [] true [1] 0 0 1 [0] none with
    m_indices := [0]
    m_ext_indices := [0]
    m_differential := [0]
    m_directionSpringLength := [0]
    m_strainValue := [0]
    m_weightedCoordinateDifference := [0]
    m_coordinateSquaredNorm := [0]
    m_polynomialsMap := [[0]] }

/-- Row `r` of the product of the matrix `mat` with the displacement field
`dx`, the column `3 * j + q` of the matrix multiplying the component `q` of
`dx[j]` (offset `0`). -/
def matVec (mat : BaseMatrix R) (dx : List (Vec3 R)) (r : Nat) : R :=
  ∑ j in Finset.range dx.length, ∑ q : Fin 3, mat r (3 * j + q) * (dx.getD j 0) q

/-- The body of the loop of interaction `addDForce` when `mstate1 == mstate2`
and the two references `df1`, `df2` denote one vector `df` (and `dx1`, `dx2`
one vector `dx`): `df[first] += forceDelta * kFactor` followed by
`df[second] -= forceDelta * kFactor` on the same vector. -/
def PolynomialSpringsForceField.addDForceSameStateSpring (st : PolynomialSpringsForceField R)
    (kFactor : R) (dx : List (Vec3 R)) (df : List (Vec3 R)) (index : Nat) :
    Option (List (Vec3 R)) := do
  let jacobMatrix ← st.m_differential[index]?
  let secondIndex ← st.m_secondObjectIndices[index]?
  let x2 ← dx[secondIndex]?
  let firstIndex ← st.m_firstObjectIndices[index]?
  let x1 ← dx[firstIndex]?
  let forceDelta := mulVec3 jacobMatrix (x2 - x1)
  let dfFirst ← df[firstIndex]?
  let df ← setAt df firstIndex (dfFirst + kFactor • forceDelta)
  let dfSecond ← df[secondIndex]?
  setAt df secondIndex (dfSecond - kFactor • forceDelta)

/-- The loop of interaction `addDForce` run on one vector `df` for both
references (`mstate1 == mstate2`). -/
def PolynomialSpringsForceField.addDForceSameState (st : PolynomialSpringsForceField R)
    (kFactor : R) (df dx : List (Vec3 R)) : Option (List (Vec3 R)) :=
  (List.range st.m_firstObjectIndices.length).foldlM (st.addDForceSameStateSpring kFactor dx) df

/-- An interaction field over the reals with two springs (points `0`-`0` and
`1`-`1`), zero lengths `1` configured (`computeZeroLength = 0`), and the given
stiffness array, degree vector and table, as `bwdInit` leaves it. -/
def groupedInteraction (stiffness : List ℝ) (degree : List Nat) (table : List (List Nat)) :
    PolynomialSpringsForceField ℝ :=
  { PolynomialSpringsForceField.configured [0, 1] [0, 1] stiffness degree 0 [1] false false
      2 2 with
    m_firstObjectIndices := [0, 1]
    m_secondObjectIndices := [0, 1]
    m_differential := [0, 0]
    m_springLength := [0, 0]
    m_strainValue := [0, 0]
    m_weightedCoordinateDifference := [0, 0]
    m_initialSpringLength := [1, 1]
    m_computeSpringsZeroLength := [0, 0]
    m_strainSign := [0, 0]
    m_polynomialsMap := table }

/-- An anchored field over the reals with two springs at the nodes `0` and `1`,
anchored at the rest positions `(0,0,0)` of its own state, zero lengths `1`,
shift `0` and scale `0`, and the given stiffness array, degree vector and
table, as `bwdInit` leaves it. -/
def groupedAnchored (stiffness : List ℝ) (degree : List Nat) (table : List (List Nat)) :
    PolynomialRestShapeSpringsForceField ℝ :=
  { PolynomialRestShapeSpringsForceField.configured [0, 1] stiffness degree [] false [1] 0 0 2
      [0, 0] none with
    m_indices := [0, 1]
    m_ext_indices := [0, 1]
    m_differential := [0, 0]
    m_directionSpringLength := [0, 0]
    m_strainValue := [0, 0]
    m_weightedCoordinateDifference := [0, 0]
    m_coordinateSquaredNorm := [0, 0]
    m_polynomialsMap := table }

/-- The two updates of the loop body of interaction `addForce` when
`mstate1 == mstate2` and the references `f1`, `f2` denote one vector `f`:
`f[firstIndex] += F * sign * direction` followed by
`f[secondIndex] += -F * sign * direction` on the same vector. -/
def PolynomialSpringsForceField.accumulateForceSameState (f : List (Vec3 R))
    (firstIndex secondIndex : Nat) (forceValue strainSign : R) (direction : Vec3 R) :
    Option (List (Vec3 R)) := do
  let fOld ← f[firstIndex]?
  let f ← setAt f firstIndex (fOld + (forceValue * strainSign) • direction)
  let fOld ← f[secondIndex]?
  setAt f secondIndex (fOld + (-forceValue * strainSign) • direction)

/-- The body of the loop of interaction `addForce` for spring `i` when
`mstate1 == mstate2`: `p1` and `p2` denote one position vector `p`, and `f1`
and `f2` one force vector, held with the field by the accumulator. -/
def PolynomialSpringsForceField.addForceSameStateSpring (M : MathOps R) (compressionValue : R)
    (p : List (Vec3 R)) (stiffnessIndex : Nat)
    (acc : PolynomialSpringsForceField R × List (Vec3 R)) (i : Nat) :
    Option (PolynomialSpringsForceField R × List (Vec3 R)) := do
  let v ← PolynomialSpringsForceField.springVector acc.1 p p i
  let st ← PolynomialSpringsForceField.storeSpring M compressionValue acc.1 i v.2.2
  let strain ← st.m_strainValue[i]?
  let forceValue ← st.PolynomialValue stiffnessIndex strain
  let strainSign ← st.m_strainSign[i]?
  let direction ← st.m_weightedCoordinateDifference[i]?
  let f ← PolynomialSpringsForceField.accumulateForceSameState acc.2 v.1 v.2.1 forceValue
    strainSign direction
  let st ← st.ComputeJacobian stiffnessIndex i
  pure (st, f)

/-- The method `addForce(mparams, f1, f2, p1, p2, v1, v2)` of the interaction
field as it runs when `mstate1 == mstate2`: both force references denote the
vector `f` and both position references the vector `p`. Returns the field and
the force vector after the call. -/
def PolynomialSpringsForceField.addForceSameState (M : MathOps R)
    (st : PolynomialSpringsForceField R) (f p : List (Vec3 R)) :
    Option (PolynomialSpringsForceField R × List (Vec3 R)) :=
  let f := resize f p.length 0
  let f := resize f p.length 0
  let st := if st.d_recomputeIndices then st.recomputeIndices else st
  let compressionValue : R := if st.d_compressible then -1 else 0
  if st.d_polynomialDegree.length ≠ st.m_firstObjectIndices.length then
    (List.range st.m_firstObjectIndices.length).foldlM
      (fun acc i =>
        PolynomialSpringsForceField.addForceSameStateSpring M compressionValue p 0 acc i)
      (st, f)
  else
    (List.range st.m_firstObjectIndices.length).foldlM
      (fun acc i =>
        PolynomialSpringsForceField.addForceSameStateSpring M compressionValue p i acc i)
      (st, f)

/-- An interaction field between two distinct states of two points each, with
one spring from point `0` of the first state to point `1` of the second, the
linear law `F(s) = s` and zero length `1`, with one entry in every working
array. -/
def bridgeSpring : PolynomialSpringsForceField ℚ :=
  { PolynomialSpringsForceField.configured [0] [1] [1] [1] 0 [1] false false 2 2 with
    m_firstObjectIndices := [0]
    m_secondObjectIndices := [1]
    m_differential := [0]
    m_springLength := [0]
    m_strainValue := [0]
    m_weightedCoordinateDifference := [0]
    m_initialSpringLength := [1]
    m_computeSpringsZeroLength := [0]
    m_strainSign := [0]
    m_polynomialsMap := [[0]] }

/-- An interaction field within one state of three points (`mstate1 == mstate2`),
with one spring between the points `0` and `1`, the linear law `F(s) = s` and
zero length `1`, with one entry in every working array. -/
def chainSpring : PolynomialSpringsForceField ℚ :=
  { PolynomialSpringsForceField.configured [0] [1] [1] [1] 0 [1] false false 3 3 with
    m_firstObjectIndices := [0]
    m_secondObjectIndices := [1]
    m_differential := [0]
    m_springLength := [0]
    m_strainValue := [0]
    m_weightedCoordinateDifference := [0]
    m_initialSpringLength := [1]
    m_computeSpringsZeroLength := [0]
    m_strainSign := [0]
    m_polynomialsMap := [[0]] }

end Statements

/-! ## Theorems -/

section PolynomialTheorems

variable {R : Type} [LinearOrderedField R]

theorem coeffAt_eq (stiffness : List R) (row : List Nat) (k slot : Nat) (c : R)
    (h1 : row[k]? = some slot) (h2 : stiffness[slot]? = some c) :
    coeffAt stiffness row k = c := by
  simp [coeffAt, List.getD, h1, h2]

theorem polynomialValue_fold (stiffness : List R) (pmap : List (List Nat)) (g : Nat) (s : R)
    (row : List Nat) (hrow : pmap[g]? = some row) :
    ∀ d : Nat, (∀ k, k < d → ∃ slot, row[k]? = some slot ∧ slot < stiffness.length) →
    (List.range d).foldlM
      (fun (acc : R × R) (degreeIndex : Nat) => do
        let highOrderStrain := acc.1 * s
        let row ← pmap[g]?
        let slot ← row[degreeIndex]?
        let c ← stiffness[slot]?
        pure (highOrderStrain, acc.2 + c * highOrderStrain))
      ((1 : R), (0 : R))
    = some (s ^ d, ∑ k in Finset.range d, coeffAt stiffness row k * s ^ (k + 1)) := by
  intro d
  induction d with
  | zero => intro _; simp
  | succ d ih =>
    intro h
    have ih2 := ih (fun k hk => h k (Nat.lt_succ_of_lt hk))
    obtain ⟨slot, hslot, hlt⟩ := h d (Nat.lt_succ_self d)
    obtain ⟨c, hc⟩ : ∃ c, stiffness[slot]? = some c := ⟨_, List.getElem?_eq_getElem hlt⟩
    rw [List.range_succ, List.foldlM_append, ih2]
    simp [hrow, hslot, hc, Finset.sum_range_succ, coeffAt_eq stiffness row d slot c hslot hc,
      pow_succ]

theorem polynomialValueLoop_eq (stiffness : List R) (degree : List Nat) (pmap : List (List Nat))
    (g d : Nat) (row : List Nat) (s : R)
    (hd : degree[g]? = some d) (hrow : pmap[g]? = some row)
    (hslots : ∀ k, k < d → ∃ slot, row[k]? = some slot ∧ slot < stiffness.length) :
    polynomialValueLoop stiffness degree pmap g s
      = some (∑ k in Finset.range d, coeffAt stiffness row k * s ^ (k + 1)) := by
  have h := polynomialValue_fold stiffness pmap g s row hrow d hslots
  simp only [Option.bind_eq_bind] at h
  simp only [polynomialValueLoop, hd, Option.bind_eq_bind, Option.some_bind]
  rw [h]
  rfl

theorem polynomialValueLoop_example (t : R) :
    polynomialValueLoop [2, 3, 4] [3] (fillPolynomialsMap [3] 0) 0 t
      = some (2 * t + 3 * t ^ 2 + 4 * t ^ 3) := by
  rw [polynomialValueLoop_eq [2, 3, 4] [3] (fillPolynomialsMap [3] 0) 0 3 [0, 1, 2] t
    (by simp) (by simp [fillPolynomialsMap, List.range_succ])
    (by
      intro k hk
      interval_cases k <;> simp)]
  simp [Finset.sum_range_succ, coeffAt]

/-- C1. `PolynomialValue(g, s)` of the interaction field and of the anchored
field is the sum over `k = 0 .. degree[g]-1` of
`stiffness[slot(g,k)] * s^(k+1)`, where `slot(g,k)` is entry `k` of row `g` of
the table, whenever group `g` exists and its slots lie inside the stiffness
array; and for degree vector `[3]` and coefficients `[2,3,4]` the value is
`2s + 3s^2 + 4s^3` for every `s`. -/
theorem PolynomialValue_eq_sum (sti : PolynomialSpringsForceField R)
    (sta : PolynomialRestShapeSpringsForceField R) (g d : Nat) (row : List Nat) (s : R)
    (hS : sta.d_polynomialStiffness = sti.d_polynomialStiffness)
    (hD : sta.d_polynomialDegree = sti.d_polynomialDegree)
    (hM : sta.m_polynomialsMap = sti.m_polynomialsMap)
    (hd : sti.d_polynomialDegree[g]? = some d) (hrow : sti.m_polynomialsMap[g]? = some row)
    (hslots : ∀ k, k < d →
      ∃ slot, row[k]? = some slot ∧ slot < sti.d_polynomialStiffness.length) :
    sti.PolynomialValue g s
        = some (∑ k in Finset.range d, coeffAt sti.d_polynomialStiffness row k * s ^ (k + 1))
    ∧ sta.PolynomialValue g s
        = some (∑ k in Finset.range d, coeffAt sti.d_polynomialStiffness row k * s ^ (k + 1))
    ∧ ∀ t : R, polynomialValueLoop [2, 3, 4] [3] (fillPolynomialsMap [3] 0) 0 t
        = some (2 * t + 3 * t ^ 2 + 4 * t ^ 3) := by
  refine ⟨?_, ?_, polynomialValueLoop_example⟩
  · exact polynomialValueLoop_eq _ _ _ g d row s hd hrow hslots
  · unfold PolynomialRestShapeSpringsForceField.PolynomialValue
    rw [hS, hD, hM]
    exact polynomialValueLoop_eq _ _ _ g d row s hd hrow hslots

theorem PolynomialValue_eq_sum_witness :
    cubicInteraction.PolynomialValue 0 2 = some 48
    ∧ cubicAnchored.PolynomialValue 0 2 = some 48 := by
  have h := PolynomialValue_eq_sum cubicInteraction cubicAnchored 0 3 [0, 1, 2] 2
    rfl rfl rfl rfl rfl
    (by
      intro k hk
      interval_cases k <;> simp [cubicInteraction, PolynomialSpringsForceField.configured])
  have e : (∑ k in Finset.range 3,
      coeffAt cubicInteraction.d_polynomialStiffness [0, 1, 2] k * (2 : ℚ) ^ (k + 1)) = 48 := by
    simp [Finset.sum_range_succ, coeffAt, cubicInteraction,
      PolynomialSpringsForceField.configured]
    norm_num
  rw [e] at h
  exact ⟨h.1, h.2.1⟩

/-- C2 (the code at the failing input). For degree vector `[3]` and
coefficients `[2, 3, 4]` both `PolynomialDerivativeValue` methods return
`2 + 6 t`: the loop stops before the term `12 t^2` of the derivative
`2 + 6 t + 12 t^2` of `2 t + 3 t^2 + 4 t^3`; at `t = 1` they return `8`, not `20`. -/
theorem PolynomialDerivativeValue_cubic (t : ℚ) :
    cubicInteraction.PolynomialDerivativeValue 0 t = some (2 + 6 * t)
    ∧ cubicAnchored.PolynomialDerivativeValue 0 t = some (2 + 6 * t)
    ∧ cubicInteraction.PolynomialDerivativeValue 0 1 = some 8
    ∧ (8 : ℚ) ≠ 2 + 6 * 1 + 12 * 1 ^ 2 := by
  have e1 : List.range' 1 2 1 = [1, 2] := rfl
  refine ⟨?_, ?_, ?_, by norm_num⟩
  · simp [PolynomialSpringsForceField.PolynomialDerivativeValue, polynomialDerivativeLoop,
      cubicInteraction, PolynomialSpringsForceField.configured, fillPolynomialsMap,
      List.range_succ, e1]
    norm_num
  · simp [PolynomialRestShapeSpringsForceField.PolynomialDerivativeValue,
      polynomialDerivativeLoop, cubicAnchored, PolynomialRestShapeSpringsForceField.configured,
      fillPolynomialsMap, List.range_succ, e1]
    norm_num
  · simp [PolynomialSpringsForceField.PolynomialDerivativeValue, polynomialDerivativeLoop,
      cubicInteraction, PolynomialSpringsForceField.configured, fillPolynomialsMap,
      List.range_succ, e1]
    norm_num

end PolynomialTheorems

section InteractionStep

variable {R : Type} [LinearOrderedField R]

open PolynomialSpringsForceField

theorem setAt_eq_some {α : Type} (v : List α) (i : Nat) (x : α) (h : i < v.length) :
    setAt v i x = some (v.set i x) := by
  simp [setAt, h]

theorem lt_length_of_getElem? {α : Type} (v : List α) (i : Nat) (x : α)
    (h : v[i]? = some x) : i < v.length := by
  by_contra hc
  rw [List.getElem?_eq_none (not_lt.mp hc)] at h
  exact Option.noConfusion h

theorem getElem?_set_self {α : Type} (v : List α) (i : Nat) (x : α) (h : i < v.length) :
    (v.set i x)[i]? = some x := by
  simp [List.getElem?_set, h]

theorem springVector_eq (st : PolynomialSpringsForceField R) (p1 p2 : List (Vec3 R))
    (i a b : Nat) (x1 x2 : Vec3 R)
    (ha : st.m_firstObjectIndices[i]? = some a) (hb : st.m_secondObjectIndices[i]? = some b)
    (hx1 : p1[a]? = some x1) (hx2 : p2[b]? = some x2) :
    springVector st p1 p2 i = some (a, b, x2 - x1) := by
  simp [springVector, ha, hb, hx1, hx2]

theorem captureZeroLength_eq (st : PolynomialSpringsForceField R) (i : Nat) (L : R)
    (flag : Int) (z0 : R)
    (hflag : st.m_computeSpringsZeroLength[i]? = some flag)
    (hz0 : st.m_initialSpringLength[i]? = some z0) :
    captureZeroLength st i L
      = some (if flag = 1 then st.m_initialSpringLength.set i L else st.m_initialSpringLength,
              if flag = 1 then st.m_computeSpringsZeroLength.set i 0
              else st.m_computeSpringsZeroLength) := by
  have h1 := lt_length_of_getElem? _ _ _ hflag
  have h2 := lt_length_of_getElem? _ _ _ hz0
  by_cases hf : flag = 1
  · simp [captureZeroLength, hflag, hf, setAt, h1, h2]
  · simp [captureZeroLength, hflag, hf]

/-- The zero length of a spring after the capture block: the current length
when the flag is `1`, the stored value otherwise. -/
theorem capturedLength_getElem? (st : PolynomialSpringsForceField R) (i : Nat) (L : R)
    (flag : Int) (z0 : R) (hz0 : st.m_initialSpringLength[i]? = some z0) :
    (if flag = 1 then st.m_initialSpringLength.set i L else st.m_initialSpringLength)[i]?
      = some (if flag = 1 then L else z0) := by
  have h2 := lt_length_of_getElem? _ _ _ hz0
  by_cases hf : flag = 1
  · simp [hf, List.getElem?_set, h2]
  · simp [hf, hz0]

theorem storeSpring_eq (M : MathOps R) (cv : R) (st : PolynomialSpringsForceField R)
    (i : Nat) (dx : Vec3 R) (flag : Int) (z0 : R)
    (hflag : st.m_computeSpringsZeroLength[i]? = some flag)
    (hz0 : st.m_initialSpringLength[i]? = some z0)
    (hw : i < st.m_weightedCoordinateDifference.length)
    (hl : i < st.m_springLength.length)
    (hs : i < st.m_strainValue.length)
    (hg : i < st.m_strainSign.length) :
    storeSpring M cv st i dx
      = some { st with
          m_springLength := st.m_springLength.set i (norm M dx)
          m_initialSpringLength :=
            if flag = 1 then st.m_initialSpringLength.set i (norm M dx)
            else st.m_initialSpringLength
          m_computeSpringsZeroLength :=
            if flag = 1 then st.m_computeSpringsZeroLength.set i 0
            else st.m_computeSpringsZeroLength
          m_weightedCoordinateDifference :=
            st.m_weightedCoordinateDifference.set i (vdiv dx (norm M dx))
          m_strainValue := st.m_strainValue.set i
            (strainOf (norm M dx) (if flag = 1 then norm M dx else z0))
          m_strainSign := st.m_strainSign.set i
            (strainSignOf cv (norm M dx) (if flag = 1 then norm M dx else z0)) } := by
  obtain ⟨w0, hw0⟩ : ∃ w0, st.m_weightedCoordinateDifference[i]? = some w0 :=
    ⟨_, List.getElem?_eq_getElem hw⟩
  unfold storeSpring
  rw [hw0, setAt_eq_some _ _ _ hl, captureZeroLength_eq st i _ flag z0 hflag hz0,
    setAt_eq_some _ _ _ hw]
  simp only [Option.bind_eq_bind, Option.some_bind]
  rw [capturedLength_getElem? st i _ flag z0 hz0]
  simp only [Option.some_bind]
  rw [setAt_eq_some _ _ _ hs, setAt_eq_some _ _ _ hg]
  rfl

theorem PolynomialValue_congr (st st' : PolynomialSpringsForceField R) (g : Nat) (x : R)
    (h1 : st'.d_polynomialStiffness = st.d_polynomialStiffness)
    (h2 : st'.d_polynomialDegree = st.d_polynomialDegree)
    (h3 : st'.m_polynomialsMap = st.m_polynomialsMap) :
    st'.PolynomialValue g x = st.PolynomialValue g x := by
  unfold PolynomialSpringsForceField.PolynomialValue
  rw [h1, h2, h3]

theorem PolynomialDerivativeValue_congr (st st' : PolynomialSpringsForceField R) (g : Nat)
    (x : R)
    (h1 : st'.d_polynomialStiffness = st.d_polynomialStiffness)
    (h2 : st'.d_polynomialDegree = st.d_polynomialDegree)
    (h3 : st'.m_polynomialsMap = st.m_polynomialsMap) :
    st'.PolynomialDerivativeValue g x = st.PolynomialDerivativeValue g x := by
  unfold PolynomialSpringsForceField.PolynomialDerivativeValue
  rw [h1, h2, h3]

theorem accumulateForce_eq (f1 f2 : List (Vec3 R)) (a b : Nat) (F sign : R)
    (dir fa fb : Vec3 R) (hfa : f1[a]? = some fa) (hfb : f2[b]? = some fb) :
    accumulateForce f1 f2 a b F sign dir
      = some (f1.set a (fa + (F * sign) • dir), f2.set b (fb + (-F * sign) • dir)) := by
  have h1 := lt_length_of_getElem? _ _ _ hfa
  have h2 := lt_length_of_getElem? _ _ _ hfb
  simp [accumulateForce, hfa, hfb, setAt, h1, h2]

theorem ComputeJacobian_eq (st : PolynomialSpringsForceField R) (g i : Nat)
    (strain L z F F' : R) (Jold : Mat3 R) (w : Vec3 R)
    (hs : st.m_strainValue[i]? = some strain)
    (hF : st.PolynomialValue g strain = some F)
    (hl : st.m_springLength[i]? = some L)
    (hF' : st.PolynomialDerivativeValue g strain = some F')
    (hz : st.m_initialSpringLength[i]? = some z)
    (hJ : st.m_differential[i]? = some Jold)
    (hw : st.m_weightedCoordinateDifference[i]? = some w) :
    ComputeJacobian st g i
      = some { st with
          m_differential := st.m_differential.set i (jacobianLoop (F' / z) (F / L) w Jold) } := by
  have h1 := lt_length_of_getElem? _ _ _ hJ
  simp [ComputeJacobian, hs, hF, hl, hF', hz, hJ, hw, setAt, h1]

theorem addForceSpring_eq (M : MathOps R) (cv : R) (p1 p2 f1 f2 : List (Vec3 R))
    (st : PolynomialSpringsForceField R) (g i a b : Nat) (x1 x2 fa fb : Vec3 R)
    (flag : Int) (z0 F F' : R) (Jold : Mat3 R)
    (ha : st.m_firstObjectIndices[i]? = some a) (hb : st.m_secondObjectIndices[i]? = some b)
    (hx1 : p1[a]? = some x1) (hx2 : p2[b]? = some x2)
    (hfa : f1[a]? = some fa) (hfb : f2[b]? = some fb)
    (hflag : st.m_computeSpringsZeroLength[i]? = some flag)
    (hz0 : st.m_initialSpringLength[i]? = some z0)
    (hJ : st.m_differential[i]? = some Jold)
    (hw : i < st.m_weightedCoordinateDifference.length)
    (hl : i < st.m_springLength.length)
    (hs : i < st.m_strainValue.length)
    (hg : i < st.m_strainSign.length)
    (hF : st.PolynomialValue g
      (strainOf (norm M (x2 - x1)) (if flag = 1 then norm M (x2 - x1) else z0)) = some F)
    (hF' : st.PolynomialDerivativeValue g
      (strainOf (norm M (x2 - x1)) (if flag = 1 then norm M (x2 - x1) else z0)) = some F') :
    addForceSpring M cv p1 p2 g (st, f1, f2) i
      = some
        ({ st with
            m_springLength := st.m_springLength.set i (norm M (x2 - x1))
            m_initialSpringLength :=
              if flag = 1 then st.m_initialSpringLength.set i (norm M (x2 - x1))
              else st.m_initialSpringLength
            m_computeSpringsZeroLength :=
              if flag = 1 then st.m_computeSpringsZeroLength.set i 0
              else st.m_computeSpringsZeroLength
            m_weightedCoordinateDifference :=
              st.m_weightedCoordinateDifference.set i (vdiv (x2 - x1) (norm M (x2 - x1)))
            m_strainValue := st.m_strainValue.set i
              (strainOf (norm M (x2 - x1)) (if flag = 1 then norm M (x2 - x1) else z0))
            m_strainSign := st.m_strainSign.set i
              (strainSignOf cv (norm M (x2 - x1)) (if flag = 1 then norm M (x2 - x1) else z0))
            m_differential := st.m_differential.set i
              (jacobianLoop (F' / (if flag = 1 then norm M (x2 - x1) else z0))
                (F / norm M (x2 - x1)) (vdiv (x2 - x1) (norm M (x2 - x1))) Jold) },
          f1.set a (fa + (F * strainSignOf cv (norm M (x2 - x1))
              (if flag = 1 then norm M (x2 - x1) else z0)) • vdiv (x2 - x1) (norm M (x2 - x1))),
          f2.set b (fb + (-F * strainSignOf cv (norm M (x2 - x1))
              (if flag = 1 then norm M (x2 - x1) else z0)) • vdiv (x2 - x1) (norm M (x2 - x1)))) := by
  obtain ⟨st', hst, hst'⟩ : ∃ st', storeSpring M cv st i (x2 - x1) = some st' ∧ st' = _ :=
    ⟨_, storeSpring_eq M cv st i (x2 - x1) flag z0 hflag hz0 hw hl hs hg, rfl⟩
  have e1 : st'.m_strainValue[i]? = some
      (strainOf (norm M (x2 - x1)) (if flag = 1 then norm M (x2 - x1) else z0)) := by
    rw [hst']; exact getElem?_set_self _ _ _ hs
  have e2 : st'.m_strainSign[i]? = some
      (strainSignOf cv (norm M (x2 - x1)) (if flag = 1 then norm M (x2 - x1) else z0)) := by
    rw [hst']; exact getElem?_set_self _ _ _ hg
  have e3 : st'.m_weightedCoordinateDifference[i]?
      = some (vdiv (x2 - x1) (norm M (x2 - x1))) := by
    rw [hst']; exact getElem?_set_self _ _ _ hw
  have e4 : st'.m_springLength[i]? = some (norm M (x2 - x1)) := by
    rw [hst']; exact getElem?_set_self _ _ _ hl
  have e5 : st'.m_initialSpringLength[i]?
      = some (if flag = 1 then norm M (x2 - x1) else z0) := by
    rw [hst']; exact capturedLength_getElem? st i _ flag z0 hz0
  have e6 : st'.m_differential[i]? = some Jold := by
    rw [hst']; exact hJ
  have eF : st'.PolynomialValue g
      (strainOf (norm M (x2 - x1)) (if flag = 1 then norm M (x2 - x1) else z0)) = some F := by
    rw [hst']; exact hF
  have eF' : st'.PolynomialDerivativeValue g
      (strainOf (norm M (x2 - x1)) (if flag = 1 then norm M (x2 - x1) else z0)) = some F' := by
    rw [hst']; exact hF'
  unfold addForceSpring
  simp only [Option.bind_eq_bind]
  rw [springVector_eq st p1 p2 i a b x1 x2 ha hb hx1 hx2]
  simp only [Option.some_bind]
  rw [hst]
  simp only [Option.some_bind]
  rw [e1]
  simp only [Option.some_bind]
  rw [eF]
  simp only [Option.some_bind]
  rw [e2, e3]
  simp only [Option.some_bind]
  rw [accumulateForce_eq f1 f2 a b F _ _ fa fb hfa hfb]
  simp only [Option.some_bind]
  rw [ComputeJacobian_eq st' g i _ _ _ F F' Jold _ e1 eF e4 eF' e5 e6 e3]
  subst hst'
  rfl

end InteractionStep


section DerivativeLoop

variable {R : Type} [LinearOrderedField R]

theorem range_drop_one (d : Nat) : (List.range (d + 1)).drop 1 = (List.range d).map (· + 1) := by
  rw [List.range_succ_eq_map]
  simp

theorem polynomialDerivative_fold (stiffness : List R) (pmap : List (List Nat)) (g : Nat) (s : R)
    (row : List Nat) (hrow : pmap[g]? = some row) :
    ∀ d : Nat, (∀ k, k < d → ∃ slot, row[k]? = some slot ∧ slot < stiffness.length) →
    ((List.range d).map (· + 1)).foldlM
      (fun (acc : R × R) (degreeIndex : Nat) => do
        let row ← pmap[g]?
        let slot ← row[degreeIndex - 1]?
        let c ← stiffness[slot]?
        pure (acc.1 * s, acc.2 + (degreeIndex : R) * c * acc.1))
      ((1 : R), (0 : R))
    = some (s ^ d,
        ∑ k in Finset.range d, ((k + 1 : Nat) : R) * coeffAt stiffness row k * s ^ k) := by
  intro d
  induction d with
  | zero => intro _; simp
  | succ d ih =>
    intro h
    have ih2 := ih (fun k hk => h k (Nat.lt_succ_of_lt hk))
    obtain ⟨slot, hslot, hlt⟩ := h d (Nat.lt_succ_self d)
    obtain ⟨c, hc⟩ : ∃ c, stiffness[slot]? = some c := ⟨_, List.getElem?_eq_getElem hlt⟩
    rw [List.range_succ, List.map_append, List.foldlM_append, ih2]
    simp [hrow, hslot, hc, Finset.sum_range_succ, coeffAt_eq stiffness row d slot c hslot hc,
      pow_succ]

theorem polynomialDerivativeLoop_eq (stiffness : List R) (degree : List Nat)
    (pmap : List (List Nat)) (g d : Nat) (row : List Nat) (s : R)
    (hd : degree[g]? = some d) (hrow : pmap[g]? = some row)
    (hslots : ∀ k, k < d → ∃ slot, row[k]? = some slot ∧ slot < stiffness.length) :
    polynomialDerivativeLoop stiffness degree pmap g s
      = some (∑ k in Finset.range (d - 1),
          ((k + 1 : Nat) : R) * coeffAt stiffness row k * s ^ k) := by
  cases d with
  | zero => simp [polynomialDerivativeLoop, hd]
  | succ d =>
    have h := polynomialDerivative_fold stiffness pmap g s row hrow d
      (fun k hk => hslots k (Nat.lt_succ_of_lt hk))
    simp only [Option.bind_eq_bind] at h
    simp only [polynomialDerivativeLoop, hd, Option.bind_eq_bind, Option.some_bind,
      range_drop_one]
    rw [h]
    rfl
end DerivativeLoop

section InteractionForce

variable {R : Type} [LinearOrderedField R]

open PolynomialSpringsForceField

theorem GroupReadable.value {stiffness : List R} {degree : List Nat} {pmap : List (List Nat)}
    {g : Nat} (h : GroupReadable stiffness degree pmap g) (s : R) :
    ∃ F, polynomialValueLoop stiffness degree pmap g s = some F := by
  obtain ⟨d, row, hd, hrow, hslots⟩ := h
  exact ⟨_, polynomialValueLoop_eq stiffness degree pmap g d row s hd hrow hslots⟩

theorem GroupReadable.derivative {stiffness : List R} {degree : List Nat}
    {pmap : List (List Nat)} {g : Nat} (h : GroupReadable stiffness degree pmap g) (s : R) :
    ∃ F', polynomialDerivativeLoop stiffness degree pmap g s = some F' := by
  obtain ⟨d, row, hd, hrow, hslots⟩ := h
  exact ⟨_, polynomialDerivativeLoop_eq stiffness degree pmap g d row s hd hrow hslots⟩

theorem bwdInit_oneSpring (z : ℚ) (c : Bool) :
    bwdInit (PolynomialSpringsForceField.configured [] [] [1] [1] 0 [z] false c 1 1)
      = some (oneSpring z c) := by
  simp [bwdInit, oneSpring, configured, recomputeIndices, resize, initZeroLengthLoop, setAt,
    fillPolynomialsMap, List.range_succ]

theorem norm_two : norm ratOps ((![2, 0, 0] : Vec3 ℚ) - 0) = 2 := by
  simp [norm, dot, ratOps]
  have h := Rat.sqrt_eq 2
  rwa [show |(2 : ℚ)| = 2 by norm_num] at h

theorem oneSpring_addForce (z : ℚ) (c : Bool) (x : Vec3 ℚ) :
    addForce ratOps (oneSpring z c) [0] [0] [0] [x]
      = addForceSpring ratOps (if c then -1 else 0) [0] [x] 0 (oneSpring z c, [0], [0]) 0 := by
  simp [addForce, oneSpring, configured, resize, List.range_succ]

theorem oneSpring_readable (z : ℚ) (c : Bool) :
    GroupReadable (oneSpring z c).d_polynomialStiffness (oneSpring z c).d_polynomialDegree
      (oneSpring z c).m_polynomialsMap 0 :=
  ⟨1, [0], rfl, rfl, by
    intro k hk
    interval_cases k
    exact ⟨0, rfl, by simp [oneSpring, configured]⟩⟩

theorem oneSpring_value (z : ℚ) (c : Bool) (s : ℚ) :
    (oneSpring z c).PolynomialValue 0 s = some s := by
  simp [PolynomialSpringsForceField.PolynomialValue, polynomialValueLoop, oneSpring, configured,
    List.range_succ]

theorem oneSpring_derivative (z : ℚ) (c : Bool) (s : ℚ) :
    (oneSpring z c).PolynomialDerivativeValue 0 s = some 0 := by
  simp [PolynomialSpringsForceField.PolynomialDerivativeValue, polynomialDerivativeLoop,
    oneSpring, configured, List.range_succ]

/-- C5 (as amended). In the loop body of interaction `addForce` for spring `i`
with endpoints `a = firstIndex` and `b = secondIndex`, `dx = p2[b] - p1[a]`,
`length = |dx| > 0`, `direction = dx / length` (so that
`length * direction = dx`), zero length `z` (the current length when the
capture flag is set, the stored one otherwise), `strain = |length - z| / z`,
`sign` the strain sign and `F = PolynomialValue(group, strain)`: the force
entry of `a` is increased by `F * sign * direction` and the force entry of `b`
by `-F * sign * direction`. -/
theorem addForceSpring_accumulates (M : MathOps R) (cv : R) (p1 p2 f1 f2 : List (Vec3 R))
    (st : PolynomialSpringsForceField R) (g i a b : Nat) (x1 x2 fa fb : Vec3 R)
    (flag : Int) (z0 : R)
    (ha : st.m_firstObjectIndices[i]? = some a) (hb : st.m_secondObjectIndices[i]? = some b)
    (hx1 : p1[a]? = some x1) (hx2 : p2[b]? = some x2)
    (hlen : 0 < norm M (x2 - x1))
    (hfa : f1[a]? = some fa) (hfb : f2[b]? = some fb)
    (hflag : st.m_computeSpringsZeroLength[i]? = some flag)
    (hz0 : st.m_initialSpringLength[i]? = some z0)
    (hJ : i < st.m_differential.length)
    (hw : i < st.m_weightedCoordinateDifference.length)
    (hl : i < st.m_springLength.length)
    (hs : i < st.m_strainValue.length)
    (hg : i < st.m_strainSign.length)
    (hG : GroupReadable st.d_polynomialStiffness st.d_polynomialDegree st.m_polynomialsMap g) :
    ∃ st' f1' f2' z F sign,
      addForceSpring M cv p1 p2 g (st, f1, f2) i = some (st', f1', f2')
      ∧ z = (if flag = 1 then norm M (x2 - x1) else z0)
      ∧ st'.m_initialSpringLength[i]? = some z
      ∧ st'.m_strainValue[i]? = some (|norm M (x2 - x1) - z| / z)
      ∧ st.PolynomialValue g (|norm M (x2 - x1) - z| / z) = some F
      ∧ sign = (if norm M (x2 - x1) - z ≥ 0 then 1 else cv)
      ∧ st'.m_strainSign[i]? = some sign
      ∧ st'.m_springLength[i]? = some (norm M (x2 - x1))
      ∧ st'.m_weightedCoordinateDifference[i]? = some (vdiv (x2 - x1) (norm M (x2 - x1)))
      ∧ norm M (x2 - x1) • vdiv (x2 - x1) (norm M (x2 - x1)) = x2 - x1
      ∧ f1'[a]? = some (fa + (F * sign) • vdiv (x2 - x1) (norm M (x2 - x1)))
      ∧ f2'[b]? = some (fb + -((F * sign) • vdiv (x2 - x1) (norm M (x2 - x1)))) := by
  obtain ⟨F, hF⟩ := hG.value
    (strainOf (norm M (x2 - x1)) (if flag = 1 then norm M (x2 - x1) else z0))
  obtain ⟨F', hF'⟩ := hG.derivative
    (strainOf (norm M (x2 - x1)) (if flag = 1 then norm M (x2 - x1) else z0))
  obtain ⟨Jold, hJold⟩ : ∃ J, st.m_differential[i]? = some J := ⟨_, List.getElem?_eq_getElem hJ⟩
  have h := addForceSpring_eq M cv p1 p2 f1 f2 st g i a b x1 x2 fa fb flag z0 F F' Jold
    ha hb hx1 hx2 hfa hfb hflag hz0 hJold hw hl hs hg hF hF'
  refine ⟨_, _, _, _, F, _, h, rfl, ?_, ?_, hF, rfl, ?_, ?_, ?_, ?_, ?_, ?_⟩
  · exact capturedLength_getElem? st i _ flag z0 hz0
  · exact getElem?_set_self _ _ _ hs
  · exact getElem?_set_self _ _ _ hg
  · exact getElem?_set_self _ _ _ hl
  · exact getElem?_set_self _ _ _ hw
  · funext k
    simp only [Pi.smul_apply, smul_eq_mul, vdiv]
    exact mul_div_cancel₀ _ (ne_of_gt hlen)
  · exact getElem?_set_self _ _ _ (lt_length_of_getElem? _ _ _ hfa)
  · rw [getElem?_set_self _ _ _ (lt_length_of_getElem? _ _ _ hfb), neg_mul, neg_smul]
    rfl

theorem addForceSpring_accumulates_witness :
    (0 : ℚ) < norm ratOps ((![2, 0, 0] : Vec3 ℚ) - 0)
    ∧ ∃ st' f1' f2' z F sign,
      addForceSpring ratOps 0 [0] [![2, 0, 0]] 0 (oneSpring 1 false, [0], [0]) 0
        = some (st', f1', f2')
      ∧ z = (if (0 : Int) = 1 then norm ratOps ((![2, 0, 0] : Vec3 ℚ) - 0) else 1)
      ∧ st'.m_initialSpringLength[0]? = some z
      ∧ st'.m_strainValue[0]? = some (|norm ratOps ((![2, 0, 0] : Vec3 ℚ) - 0) - z| / z)
      ∧ (oneSpring 1 false).PolynomialValue 0
          (|norm ratOps ((![2, 0, 0] : Vec3 ℚ) - 0) - z| / z) = some F
      ∧ sign = (if norm ratOps ((![2, 0, 0] : Vec3 ℚ) - 0) - z ≥ 0 then 1 else 0)
      ∧ st'.m_strainSign[0]? = some sign
      ∧ st'.m_springLength[0]? = some (norm ratOps ((![2, 0, 0] : Vec3 ℚ) - 0))
      ∧ st'.m_weightedCoordinateDifference[0]?
          = some (vdiv ((![2, 0, 0] : Vec3 ℚ) - 0) (norm ratOps ((![2, 0, 0] : Vec3 ℚ) - 0)))
      ∧ norm ratOps ((![2, 0, 0] : Vec3 ℚ) - 0)
          • vdiv ((![2, 0, 0] : Vec3 ℚ) - 0) (norm ratOps ((![2, 0, 0] : Vec3 ℚ) - 0))
          = ![2, 0, 0] - 0
      ∧ f1'[0]? = some (0 + (F * sign) •
          vdiv ((![2, 0, 0] : Vec3 ℚ) - 0) (norm ratOps ((![2, 0, 0] : Vec3 ℚ) - 0)))
      ∧ f2'[0]? = some (0 + -((F * sign) •
          vdiv ((![2, 0, 0] : Vec3 ℚ) - 0) (norm ratOps ((![2, 0, 0] : Vec3 ℚ) - 0)))) :=
  ⟨by rw [norm_two]; norm_num,
    addForceSpring_accumulates ratOps 0 [0] [![2, 0, 0]] [0] [0] (oneSpring 1 false) 0 0 0 0
      0 ![2, 0, 0] 0 0 0 1 rfl rfl rfl rfl (by rw [norm_two]; norm_num) rfl rfl rfl rfl
      (by simp [oneSpring, configured]) (by simp [oneSpring, configured])
      (by simp [oneSpring, configured]) (by simp [oneSpring, configured])
      (by simp [oneSpring, configured]) (oneSpring_readable 1 false)⟩

theorem oneSpring_step (z : ℚ) (c : Bool) (cv : ℚ) (x : Vec3 ℚ) (F : ℚ)
    (hF : F = strainOf (norm ratOps (x - 0)) z) :
    ∃ st', addForceSpring ratOps cv [0] [x] 0 (oneSpring z c, [0], [0]) 0
        = some (st',
            [0 + (F * strainSignOf cv (norm ratOps (x - 0)) z) • vdiv (x - 0) (norm ratOps (x - 0))],
            [0 + (-F * strainSignOf cv (norm ratOps (x - 0)) z) • vdiv (x - 0) (norm ratOps (x - 0))])
      ∧ st'.m_strainValue = [strainOf (norm ratOps (x - 0)) z]
      ∧ st'.m_strainSign = [strainSignOf cv (norm ratOps (x - 0)) z]
      ∧ st'.m_weightedCoordinateDifference = [vdiv (x - 0) (norm ratOps (x - 0))]
      ∧ st'.m_initialSpringLength = [z]
      ∧ st'.m_computeSpringsZeroLength = [0] := by
  have h := addForceSpring_eq ratOps cv [0] [x] [0] [0] (oneSpring z c) 0 0 0 0 0 x 0 0 0 z
    F 0 0 rfl rfl rfl rfl rfl rfl rfl rfl rfl
    (by simp [oneSpring, configured]) (by simp [oneSpring, configured])
    (by simp [oneSpring, configured]) (by simp [oneSpring, configured])
    (by rw [hF]; exact oneSpring_value z c _) (oneSpring_derivative z c _)
  exact ⟨_, h, rfl, rfl, rfl, rfl, rfl⟩

/-- C5 (counterexample). One spring between `p1[0] = 0` and `p2[0] = (2,0,0)`
with zero length `1` and the law `F(s) = s`: strain, `F`, sign and the first
component of the direction are all `1`, and `addForce` changes the first
component of `f2[0]` (the entry of `b = secondIndex`) from `0` to `-1`, not to
`0 + F * sign * direction = 1`. -/
theorem addForce_secondIndex_counterexample :
    ∃ (st' : PolynomialSpringsForceField ℚ) (f1' f2' : List (Vec3 ℚ)) (v d : Vec3 ℚ),
      addForce ratOps (oneSpring 1 false) [0] [0] [0] [![2, 0, 0]] = some (st', f1', f2')
      ∧ st'.m_strainValue[0]? = some 1
      ∧ (oneSpring 1 false).PolynomialValue 0 1 = some 1
      ∧ st'.m_strainSign[0]? = some 1
      ∧ st'.m_weightedCoordinateDifference[0]? = some d ∧ d 0 = 1
      ∧ f2'[0]? = some v ∧ v 0 = -1
      ∧ v 0 ≠ (0 : Vec3 ℚ) 0 + 1 * 1 * d 0 := by
  obtain ⟨st', h, h1, h2, h3, -, -⟩ := oneSpring_step 1 false 0 ![2, 0, 0] 1
    (by rw [norm_two]; norm_num [strainOf])
  rw [norm_two] at h h1 h2 h3
  refine ⟨st', _, _, (0 + (-1 * strainSignOf (0 : ℚ) 2 1) • vdiv (![2, 0, 0] - 0) 2 : Vec3 ℚ),
    (vdiv (![2, 0, 0] - 0) 2 : Vec3 ℚ), (oneSpring_addForce 1 false _).trans h, ?_,
    oneSpring_value 1 false 1, ?_, ?_, ?_, ?_, ?_, ?_⟩
  · rw [h1]; norm_num [strainOf]
  · rw [h2]; norm_num [strainSignOf]
  · rw [h3]; rfl
  · norm_num [vdiv]
  · rfl
  · norm_num [vdiv, strainSignOf]
  · norm_num [vdiv, strainSignOf]

theorem norm_one : norm ratOps ((![1, 0, 0] : Vec3 ℚ) - 0) = 1 := by
  simp [norm, dot, ratOps]

/-- C8 (the code at the failing input). One spring of zero length `2` between
`p1[0] = 0` and `p2[0] = (1,0,0)` (length `1`, compressed), law `F(s) = s`, so
`F = 1/2`. With `compressible = true` the stored strain sign is `-1` and the
force `(-1/2, 0, 0)` is added to `f1[0]` and `(1/2, 0, 0)` to `f2[0]`; with
`compressible = false` the sign is `0` and no force is added. -/
theorem addForce_compressible_sign :
    (∃ (st' : PolynomialSpringsForceField ℚ) (f1' f2' : List (Vec3 ℚ)) (v w : Vec3 ℚ),
      addForce ratOps (oneSpring 2 true) [0] [0] [0] [![1, 0, 0]] = some (st', f1', f2')
      ∧ st'.m_strainValue[0]? = some (1 / 2 : ℚ)
      ∧ st'.m_strainSign[0]? = some (-1 : ℚ)
      ∧ f1'[0]? = some v ∧ v 0 = -1 / 2
      ∧ f2'[0]? = some w ∧ w 0 = 1 / 2)
    ∧ (∃ (st' : PolynomialSpringsForceField ℚ) (f1' f2' : List (Vec3 ℚ)) (v w : Vec3 ℚ),
      addForce ratOps (oneSpring 2 false) [0] [0] [0] [![1, 0, 0]] = some (st', f1', f2')
      ∧ st'.m_strainValue[0]? = some (1 / 2 : ℚ)
      ∧ st'.m_strainSign[0]? = some (0 : ℚ)
      ∧ f1'[0]? = some v ∧ v = 0
      ∧ f2'[0]? = some w ∧ w = 0) := by
  constructor
  · obtain ⟨st', h, h1, h2, -, -, -⟩ := oneSpring_step 2 true (-1) ![1, 0, 0] (1 / 2)
      (by rw [norm_one]; norm_num [strainOf])
    rw [norm_one] at h h1 h2
    refine ⟨st', _, _,
      (0 + (1 / 2 * strainSignOf (-1 : ℚ) 1 2) • vdiv (![1, 0, 0] - 0) 1 : Vec3 ℚ),
      (0 + (-(1 / 2) * strainSignOf (-1 : ℚ) 1 2) • vdiv (![1, 0, 0] - 0) 1 : Vec3 ℚ),
      (oneSpring_addForce 2 true _).trans h, ?_, ?_, ?_, ?_, ?_, ?_⟩
    · rw [h1]; norm_num [strainOf]
    · rw [h2]; norm_num [strainSignOf]
    · rfl
    · norm_num [vdiv, strainSignOf]
    · rfl
    · norm_num [vdiv, strainSignOf]
  · obtain ⟨st', h, h1, h2, -, -, -⟩ := oneSpring_step 2 false 0 ![1, 0, 0] (1 / 2)
      (by rw [norm_one]; norm_num [strainOf])
    rw [norm_one] at h h1 h2
    refine ⟨st', _, _,
      (0 + (1 / 2 * strainSignOf (0 : ℚ) 1 2) • vdiv (![1, 0, 0] - 0) 1 : Vec3 ℚ),
      (0 + (-(1 / 2) * strainSignOf (0 : ℚ) 1 2) • vdiv (![1, 0, 0] - 0) 1 : Vec3 ℚ),
      (oneSpring_addForce 2 false _).trans h, ?_, ?_, ?_, ?_, ?_, ?_⟩
    · rw [h1]; norm_num [strainOf]
    · rw [h2]; norm_num [strainSignOf]
    · rfl
    · norm_num [strainSignOf]
    · rfl
    · norm_num [strainSignOf]

end InteractionForce

section StepInversion

variable {R : Type} [LinearOrderedField R]

open PolynomialSpringsForceField

theorem setAt_inv {α : Type} (v : List α) (i : Nat) (x : α) (r : List α)
    (h : setAt v i x = some r) : i < v.length ∧ r = v.set i x := by
  unfold setAt at h
  split at h
  · exact ⟨by assumption, (Option.some.inj h).symm⟩
  · exact Option.noConfusion h

theorem springVector_inv (st : PolynomialSpringsForceField R) (p1 p2 : List (Vec3 R))
    (i : Nat) (v : Nat × Nat × Vec3 R) (h : springVector st p1 p2 i = some v) :
    ∃ a b x1 x2, st.m_firstObjectIndices[i]? = some a ∧ st.m_secondObjectIndices[i]? = some b
      ∧ p1[a]? = some x1 ∧ p2[b]? = some x2 ∧ v = (a, b, x2 - x1) := by
  simp only [springVector, Option.bind_eq_bind, Option.bind_eq_some, Option.pure_def,
    Option.some.injEq] at h
  obtain ⟨a, ha, b, hb, x2, hx2, x1, hx1, hv⟩ := h
  exact ⟨a, b, x1, x2, ha, hb, hx1, hx2, hv.symm⟩

theorem storeSpring_inv (M : MathOps R) (cv : R) (st st' : PolynomialSpringsForceField R)
    (i : Nat) (dx : Vec3 R) (h : storeSpring M cv st i dx = some st') :
    ∃ flag z0, st.m_computeSpringsZeroLength[i]? = some flag
      ∧ st.m_initialSpringLength[i]? = some z0
      ∧ i < st.m_weightedCoordinateDifference.length
      ∧ i < st.m_springLength.length
      ∧ i < st.m_strainValue.length
      ∧ i < st.m_strainSign.length := by
  simp only [storeSpring, Option.bind_eq_bind, Option.bind_eq_some, Option.pure_def,
    Option.some.injEq] at h
  obtain ⟨w0, hw0, sl, hsl, latch, hlatch, wcd, hwcd, z, hz, sv, hsv, ss, hss, -⟩ := h
  have hl := (setAt_inv _ _ _ _ hsl).1
  have hw := (setAt_inv _ _ _ _ hwcd).1
  have hs := (setAt_inv _ _ _ _ hsv).1
  have hg := (setAt_inv _ _ _ _ hss).1
  simp only [captureZeroLength, Option.bind_eq_bind, Option.bind_eq_some] at hlatch
  obtain ⟨flag, hflag, hrest⟩ := hlatch
  by_cases hf : flag = 1
  · simp only [hf, if_true, Option.bind_eq_bind, Option.bind_eq_some, Option.pure_def,
      Option.some.injEq] at hrest
    obtain ⟨ini, hini, fl, hfl, hl2⟩ := hrest
    have h1 := (setAt_inv _ _ _ _ hini).1
    exact ⟨flag, _, hflag, List.getElem?_eq_getElem h1, hw, hl, hs, hg⟩
  · simp only [hf, if_false, Option.pure_def, Option.some.injEq] at hrest
    rw [← hrest] at hz
    exact ⟨flag, z, hflag, hz, hw, hl, hs, hg⟩

theorem accumulateForce_inv (f1 f2 : List (Vec3 R)) (a b : Nat) (F sign : R)
    (dir : Vec3 R) (r : List (Vec3 R) × List (Vec3 R))
    (h : accumulateForce f1 f2 a b F sign dir = some r) :
    ∃ fa fb, f1[a]? = some fa ∧ f2[b]? = some fb := by
  simp only [accumulateForce, Option.bind_eq_bind, Option.bind_eq_some, Option.pure_def,
    Option.some.injEq] at h
  obtain ⟨fa, hfa, -, -, fb, hfb, -⟩ := h
  exact ⟨fa, fb, hfa, hfb⟩

theorem ComputeJacobian_inv (st st' : PolynomialSpringsForceField R) (g i : Nat)
    (h : ComputeJacobian st g i = some st') :
    ∃ strain F' Jold, st.m_strainValue[i]? = some strain
      ∧ st.PolynomialDerivativeValue g strain = some F'
      ∧ st.m_differential[i]? = some Jold := by
  simp only [ComputeJacobian, Option.bind_eq_bind, Option.bind_eq_some, Option.pure_def,
    Option.some.injEq] at h
  obtain ⟨strain, hs, F, -, L, -, F', hF', z, -, Jold, hJ, -⟩ := h
  exact ⟨strain, F', Jold, hs, hF', hJ⟩

theorem addForceSpring_inv (M : MathOps R) (cv : R) (p1 p2 f1 f2 : List (Vec3 R))
    (st : PolynomialSpringsForceField R) (g i : Nat)
    (r : PolynomialSpringsForceField R × List (Vec3 R) × List (Vec3 R))
    (h : addForceSpring M cv p1 p2 g (st, f1, f2) i = some r) :
    ∃ a b x1 x2 fa fb flag z0 F F' Jold,
      st.m_firstObjectIndices[i]? = some a ∧ st.m_secondObjectIndices[i]? = some b
      ∧ p1[a]? = some x1 ∧ p2[b]? = some x2
      ∧ f1[a]? = some fa ∧ f2[b]? = some fb
      ∧ st.m_computeSpringsZeroLength[i]? = some flag
      ∧ st.m_initialSpringLength[i]? = some z0
      ∧ st.m_differential[i]? = some Jold
      ∧ i < st.m_weightedCoordinateDifference.length
      ∧ i < st.m_springLength.length
      ∧ i < st.m_strainValue.length
      ∧ i < st.m_strainSign.length
      ∧ st.PolynomialValue g
          (strainOf (norm M (x2 - x1)) (if flag = 1 then norm M (x2 - x1) else z0)) = some F
      ∧ st.PolynomialDerivativeValue g
          (strainOf (norm M (x2 - x1)) (if flag = 1 then norm M (x2 - x1) else z0)) = some F' := by
  simp only [addForceSpring, Option.bind_eq_bind, Option.bind_eq_some, Option.pure_def,
    Option.some.injEq] at h
  obtain ⟨v, hv, st1, hst1, strain, hstrain, F, hF, sign, hsign, dir, hdir, f, hf, st2, hst2, -⟩ := h
  obtain ⟨a, b, x1, x2, ha, hb, hx1, hx2, rfl⟩ := springVector_inv st p1 p2 i v hv
  obtain ⟨flag, z0, hflag, hz0, hw, hl, hs, hg⟩ := storeSpring_inv M cv st st1 i _ hst1
  have e := storeSpring_eq M cv st i (x2 - x1) flag z0 hflag hz0 hw hl hs hg
  rw [e] at hst1
  have e1 := Option.some.inj hst1
  obtain ⟨fa, fb, hfa, hfb⟩ := accumulateForce_inv _ _ _ _ _ _ _ _ hf
  obtain ⟨strain', F', Jold, hs', hF', hJ⟩ := ComputeJacobian_inv st1 st2 g i hst2
  rw [hstrain] at hs'
  have hs'' := Option.some.inj hs'
  subst hs''
  subst e1
  have hstr : strain = strainOf (norm M (x2 - x1)) (if flag = 1 then norm M (x2 - x1) else z0) := by
    have := getElem?_set_self st.m_strainValue i
      (strainOf (norm M (x2 - x1)) (if flag = 1 then norm M (x2 - x1) else z0)) hs
    exact Option.some.inj (hstrain.symm.trans this)
  subst hstr
  exact ⟨a, b, x1, x2, fa, fb, flag, z0, F, F', Jold, ha, hb, hx1, hx2, hfa, hfb, hflag, hz0,
    hJ, hw, hl, hs, hg, hF, hF'⟩

end StepInversion

section Latch

variable {R : Type} [LinearOrderedField R]

open PolynomialSpringsForceField

theorem foldlM_preserves {β : Type} (f : β → Nat → Option β) (P : β → Prop)
    (hstep : ∀ b i b', P b → f b i = some b' → P b') :
    ∀ (l : List Nat) (b b' : β), P b → l.foldlM f b = some b' → P b' := by
  intro l
  induction l with
  | nil =>
    intro b b' hb h
    simp only [List.foldlM_nil, Option.pure_def, Option.some.injEq] at h
    exact h ▸ hb
  | cons x xs ih =>
    intro b b' hb h
    simp only [List.foldlM_cons, Option.bind_eq_bind, Option.bind_eq_some] at h
    obtain ⟨b1, h1, h2⟩ := h
    exact ih b1 b' (hstep b x b1 hb h1) h2

theorem addForceSpring_keeps_latch (M : MathOps R) (cv : R) (p1 p2 : List (Vec3 R)) (g j : Nat)
    (acc r : PolynomialSpringsForceField R × List (Vec3 R) × List (Vec3 R)) (i : Nat) (z : R)
    (hP : acc.1.m_computeSpringsZeroLength[i]? = some 0 ∧ acc.1.m_initialSpringLength[i]? = some z)
    (h : addForceSpring M cv p1 p2 g acc j = some r) :
    r.1.m_computeSpringsZeroLength[i]? = some 0 ∧ r.1.m_initialSpringLength[i]? = some z := by
  obtain ⟨st, f1, f2⟩ := acc
  obtain ⟨a, b, x1, x2, fa, fb, flag, z0, F, F', Jold, ha, hb, hx1, hx2, hfa, hfb, hflag, hz0,
    hJ, hw, hl, hs, hg, hF, hF'⟩ := addForceSpring_inv M cv p1 p2 f1 f2 st g j r h
  rw [addForceSpring_eq M cv p1 p2 f1 f2 st g j a b x1 x2 fa fb flag z0 F F' Jold
    ha hb hx1 hx2 hfa hfb hflag hz0 hJ hw hl hs hg hF hF'] at h
  have e := Option.some.inj h
  subst e
  obtain ⟨hP1, hP2⟩ := hP
  by_cases hji : j = i
  · subst hji
    have hf0 : flag = 0 := by
      rw [hflag] at hP1
      exact Option.some.inj hP1
    subst hf0
    exact ⟨by simpa using hP1, by simpa using hP2⟩
  · by_cases hf : flag = 1
    · simp only [hf, if_true]
      exact ⟨by rw [List.getElem?_set_ne hji]; exact hP1,
        by rw [List.getElem?_set_ne hji]; exact hP2⟩
    · simp only [hf, if_false]
      exact ⟨hP1, hP2⟩

theorem recomputeIndices_latch (st : PolynomialSpringsForceField R) :
    st.recomputeIndices.m_computeSpringsZeroLength = st.m_computeSpringsZeroLength
    ∧ st.recomputeIndices.m_initialSpringLength = st.m_initialSpringLength := by
  unfold PolynomialSpringsForceField.recomputeIndices
  constructor <;> (simp only []; split_ifs <;> rfl)

theorem fold_keeps_latch (M : MathOps R) (cv : R) (p1 p2 : List (Vec3 R)) (G : Nat → Nat)
    (l : List Nat)
    (acc r : PolynomialSpringsForceField R × List (Vec3 R) × List (Vec3 R)) (i : Nat) (z : R)
    (hP : acc.1.m_computeSpringsZeroLength[i]? = some 0 ∧ acc.1.m_initialSpringLength[i]? = some z)
    (h : l.foldlM (fun acc j => addForceSpring M cv p1 p2 (G j) acc j) acc = some r) :
    r.1.m_computeSpringsZeroLength[i]? = some 0 ∧ r.1.m_initialSpringLength[i]? = some z :=
  foldlM_preserves (fun acc j => addForceSpring M cv p1 p2 (G j) acc j)
    (fun acc => acc.1.m_computeSpringsZeroLength[i]? = some 0
      ∧ acc.1.m_initialSpringLength[i]? = some z)
    (fun b j b' hb hj => addForceSpring_keeps_latch M cv p1 p2 (G j) j b b' i z hb hj)
    l acc r hP h

theorem addForce_keeps_latch (M : MathOps R) (st : PolynomialSpringsForceField R)
    (f1 f2 p1 p2 : List (Vec3 R))
    (r : PolynomialSpringsForceField R × List (Vec3 R) × List (Vec3 R)) (i : Nat) (z : R)
    (hflag : st.m_computeSpringsZeroLength[i]? = some 0)
    (hz : st.m_initialSpringLength[i]? = some z)
    (h : addForce M st f1 f2 p1 p2 = some r) :
    r.1.m_computeSpringsZeroLength[i]? = some 0 ∧ r.1.m_initialSpringLength[i]? = some z := by
  have h0 : (if st.d_recomputeIndices = true then st.recomputeIndices
      else st).m_computeSpringsZeroLength[i]? = some 0
      ∧ (if st.d_recomputeIndices = true then st.recomputeIndices
      else st).m_initialSpringLength[i]? = some z := by
    split
    · rw [(recomputeIndices_latch st).1, (recomputeIndices_latch st).2]
      exact ⟨hflag, hz⟩
    · exact ⟨hflag, hz⟩
  unfold PolynomialSpringsForceField.addForce at h
  simp only [] at h
  generalize (if st.d_recomputeIndices = true then st.recomputeIndices else st) = st1 at h h0
  split_ifs at h
  all_goals
    first
    | exact fold_keeps_latch M _ p1 p2 (fun _ => 0) _ _ r i z h0 h
    | exact fold_keeps_latch M _ p1 p2 (fun j => j) _ _ r i z h0 h

/-- C10. Once the capture flag of spring `i` is cleared (`0`), no sequence of
interaction `addForce` calls, whatever the positions, the sizes of the point
sets and the value of `recompute_indices` at each call, sets it again, and the
stored zero length of spring `i` keeps its value. -/
theorem zeroLength_latch_once (M : MathOps R) (calls : List (ForceCall R))
    (st st' : PolynomialSpringsForceField R) (i : Nat) (z : R)
    (hflag : st.m_computeSpringsZeroLength[i]? = some 0)
    (hz : st.m_initialSpringLength[i]? = some z)
    (hrun : addForceCalls M st calls = some st') :
    st'.m_computeSpringsZeroLength[i]? = some 0 ∧ st'.m_initialSpringLength[i]? = some z := by
  induction calls generalizing st with
  | nil =>
    simp only [addForceCalls, Option.some.injEq] at hrun
    subst hrun
    exact ⟨hflag, hz⟩
  | cons c cs ih =>
    simp only [addForceCalls, Option.bind_eq_bind, Option.bind_eq_some] at hrun
    obtain ⟨r, hr, hrest⟩ := hrun
    obtain ⟨h1, h2⟩ := addForce_keeps_latch M _ c.f1 c.f2 c.p1 c.p2 r i z
      (by exact hflag) (by exact hz) hr
    exact ih r.1 h1 h2 hrest

end Latch

section WholeCall

variable {R : Type} [LinearOrderedField R]

open PolynomialSpringsForceField

theorem foldlM_range_invariant {β : Type} (f : β → Nat → Option β) (Inv : Nat → β → Prop)
    (n : Nat) (hstep : ∀ k b, k < n → Inv k b → ∃ b', f b k = some b' ∧ Inv (k + 1) b')
    (b0 : β) (h0 : Inv 0 b0) :
    ∃ b', (List.range n).foldlM f b0 = some b' ∧ Inv n b' := by
  have key : ∀ m, m ≤ n → ∃ b', (List.range m).foldlM f b0 = some b' ∧ Inv m b' := by
    intro m
    induction m with
    | zero => intro _; exact ⟨b0, rfl, h0⟩
    | succ m ih =>
      intro hm
      obtain ⟨b1, h1, hI⟩ := ih (Nat.le_of_succ_le hm)
      obtain ⟨b2, h2, hI2⟩ := hstep m b1 hm hI
      refine ⟨b2, ?_, hI2⟩
      rw [List.range_succ, List.foldlM_append, h1]
      simp [h2]
  exact key n le_rfl

theorem addForce_eq_fold (M : MathOps R) (st : PolynomialSpringsForceField R)
    (f1 f2 p1 p2 : List (Vec3 R)) :
    addForce M st f1 f2 p1 p2
      = (List.range st.resolved.m_firstObjectIndices.length).foldlM
          (fun acc i => addForceSpring M (if st.resolved.d_compressible then -1 else 0) p1 p2
            (st.resolved.groupOf i) acc i)
          (st.resolved, resize f1 p1.length 0, resize f2 p2.length 0) := by
  unfold PolynomialSpringsForceField.addForce PolynomialSpringsForceField.groupOf
    PolynomialSpringsForceField.resolved
  simp only []
  split_ifs <;> rfl

theorem sameFrame_refl (st : PolynomialSpringsForceField R) : SameFrame st st :=
  ⟨rfl, rfl, rfl, rfl, rfl, rfl, rfl, rfl, rfl, rfl, rfl, rfl⟩

theorem sameFrame_groupOf {st st' : PolynomialSpringsForceField R} (h : SameFrame st st')
    (i : Nat) : st'.groupOf i = st.groupOf i := by
  unfold PolynomialSpringsForceField.groupOf
  rw [h.degree, h.first]

theorem sameFrame_ready {st st' : PolynomialSpringsForceField R} {p1 p2 : List (Vec3 R)}
    (h : SameFrame st st') (hr : Ready st p1 p2) : Ready st' p1 p2 := by
  constructor
  · rw [h.first, h.second]; exact hr.second
  · rw [h.first]; exact hr.first_lt
  · rw [h.first, h.second]; exact hr.second_lt
  · rw [h.first, h.differential]; exact hr.differential
  · rw [h.first, h.springLength]; exact hr.springLength
  · rw [h.first, h.strainValue]; exact hr.strainValue
  · rw [h.first, h.direction]; exact hr.direction
  · rw [h.first, h.initial]; exact hr.initial
  · rw [h.first, h.flags]; exact hr.flags
  · rw [h.first, h.strainSign]; exact hr.strainSign
  · rw [h.first, h.stiffness, h.degree, h.table]
    intro i hi
    rw [sameFrame_groupOf h]
    exact hr.group i hi

theorem resize_length {α : Type} (v : List α) (n : Nat) (d : α) : (resize v n d).length = n := by
  simp only [resize, List.length_append, List.length_take, List.length_replicate]
  omega

theorem addForceSpring_frame (M : MathOps R) (cv : R) (p1 p2 f1 f2 : List (Vec3 R))
    (st : PolynomialSpringsForceField R) (g i : Nat)
    (r : PolynomialSpringsForceField R × List (Vec3 R) × List (Vec3 R))
    (h : addForceSpring M cv p1 p2 g (st, f1, f2) i = some r) :
    SameFrame st r.1 ∧ r.2.1.length = f1.length ∧ r.2.2.length = f2.length := by
  obtain ⟨a, b, x1, x2, fa, fb, flag, z0, F, F', Jold, ha, hb, hx1, hx2, hfa, hfb, hflag, hz0,
    hJ, hw, hl, hs, hg, hF, hF'⟩ := addForceSpring_inv M cv p1 p2 f1 f2 st g i r h
  rw [addForceSpring_eq M cv p1 p2 f1 f2 st g i a b x1 x2 fa fb flag z0 F F' Jold
    ha hb hx1 hx2 hfa hfb hflag hz0 hJ hw hl hs hg hF hF'] at h
  have e := Option.some.inj h
  subst e
  refine ⟨⟨rfl, rfl, rfl, rfl, rfl, ?_, ?_, ?_, ?_, ?_, ?_, ?_⟩, ?_, ?_⟩
  all_goals first
    | exact List.length_set _ _ _
    | (simp only []; split_ifs <;> first | rfl | exact List.length_set _ _ _)

theorem addForceSpring_ready (M : MathOps R) (p1 p2 f1 f2 : List (Vec3 R))
    (st : PolynomialSpringsForceField R) (i : Nat) (hr : Ready st p1 p2)
    (hi : i < st.m_firstObjectIndices.length)
    (hf1 : f1.length = p1.length) (hf2 : f2.length = p2.length) :
    ∃ a b x1 x2 fa fb flag z0 F F' Jold,
      st.m_firstObjectIndices[i]? = some a ∧ st.m_secondObjectIndices[i]? = some b
      ∧ p1[a]? = some x1 ∧ p2[b]? = some x2
      ∧ f1[a]? = some fa ∧ f2[b]? = some fb
      ∧ st.m_computeSpringsZeroLength[i]? = some flag
      ∧ st.m_initialSpringLength[i]? = some z0
      ∧ st.m_differential[i]? = some Jold
      ∧ i < st.m_weightedCoordinateDifference.length
      ∧ i < st.m_springLength.length
      ∧ i < st.m_strainValue.length
      ∧ i < st.m_strainSign.length
      ∧ st.PolynomialValue (st.groupOf i)
          (strainOf (norm M (x2 - x1)) (if flag = 1 then norm M (x2 - x1) else z0)) = some F
      ∧ st.PolynomialDerivativeValue (st.groupOf i)
          (strainOf (norm M (x2 - x1)) (if flag = 1 then norm M (x2 - x1) else z0)) = some F' := by
  obtain ⟨a, ha⟩ : ∃ a, st.m_firstObjectIndices[i]? = some a :=
    ⟨_, List.getElem?_eq_getElem hi⟩
  obtain ⟨b, hb⟩ : ∃ b, st.m_secondObjectIndices[i]? = some b :=
    ⟨_, List.getElem?_eq_getElem (lt_of_lt_of_le hi hr.second)⟩
  have ha1 := hr.first_lt i a ha
  have hb1 := hr.second_lt i b hi hb
  obtain ⟨x1, hx1⟩ : ∃ x, p1[a]? = some x := ⟨_, List.getElem?_eq_getElem ha1⟩
  obtain ⟨x2, hx2⟩ : ∃ x, p2[b]? = some x := ⟨_, List.getElem?_eq_getElem hb1⟩
  obtain ⟨fa, hfa⟩ : ∃ x, f1[a]? = some x :=
    ⟨_, List.getElem?_eq_getElem (hf1 ▸ ha1 : a < f1.length)⟩
  obtain ⟨fb, hfb⟩ : ∃ x, f2[b]? = some x :=
    ⟨_, List.getElem?_eq_getElem (hf2 ▸ hb1 : b < f2.length)⟩
  obtain ⟨flag, hflag⟩ : ∃ x, st.m_computeSpringsZeroLength[i]? = some x :=
    ⟨_, List.getElem?_eq_getElem (lt_of_lt_of_le hi hr.flags)⟩
  obtain ⟨z0, hz0⟩ : ∃ x, st.m_initialSpringLength[i]? = some x :=
    ⟨_, List.getElem?_eq_getElem (lt_of_lt_of_le hi hr.initial)⟩
  obtain ⟨Jold, hJ⟩ : ∃ x, st.m_differential[i]? = some x :=
    ⟨_, List.getElem?_eq_getElem (lt_of_lt_of_le hi hr.differential)⟩
  obtain ⟨F, hF⟩ := (hr.group i hi).value
    (strainOf (norm M (x2 - x1)) (if flag = 1 then norm M (x2 - x1) else z0))
  obtain ⟨F', hF'⟩ := (hr.group i hi).derivative
    (strainOf (norm M (x2 - x1)) (if flag = 1 then norm M (x2 - x1) else z0))
  exact ⟨a, b, x1, x2, fa, fb, flag, z0, F, F', Jold, ha, hb, hx1, hx2, hfa, hfb, hflag, hz0,
    hJ, lt_of_lt_of_le hi hr.direction, lt_of_lt_of_le hi hr.springLength,
    lt_of_lt_of_le hi hr.strainValue, lt_of_lt_of_le hi hr.strainSign, hF, hF'⟩

theorem sum_set_add (l : List (Vec3 R)) (a : Nat) (fa X : Vec3 R) (h : l[a]? = some fa) :
    (l.set a (fa + X)).sum = l.sum + X := by
  have ha := lt_length_of_getElem? _ _ _ h
  have e : l[a] = fa := by
    rw [List.getElem?_eq_getElem ha] at h
    exact Option.some.inj h
  rw [List.sum_set', dif_pos ha, e]
  abel

theorem resize_self {α : Type} (v : List α) (d : α) : resize v v.length d = v := by
  simp [resize]

theorem addForceSpring_increments (M : MathOps R) (cv : R) (p1 p2 : List (Vec3 R)) (g i : Nat)
    (acc r : PolynomialSpringsForceField R × List (Vec3 R) × List (Vec3 R))
    (h : addForceSpring M cv p1 p2 g acc i = some r) :
    ∃ a b fa fb X, acc.1.m_firstObjectIndices[i]? = some a
      ∧ acc.1.m_secondObjectIndices[i]? = some b
      ∧ acc.2.1[a]? = some fa ∧ acc.2.2[b]? = some fb
      ∧ r.2.1 = acc.2.1.set a (fa + X) ∧ r.2.2 = acc.2.2.set b (fb + -X) := by
  obtain ⟨st, f1, f2⟩ := acc
  obtain ⟨a, b, x1, x2, fa, fb, flag, z0, F, F', Jold, ha, hb, hx1, hx2, hfa, hfb, hflag, hz0,
    hJ, hw, hl, hs, hg, hF, hF'⟩ := addForceSpring_inv M cv p1 p2 f1 f2 st g i r h
  rw [addForceSpring_eq M cv p1 p2 f1 f2 st g i a b x1 x2 fa fb flag z0 F F' Jold
    ha hb hx1 hx2 hfa hfb hflag hz0 hJ hw hl hs hg hF hF'] at h
  have e := Option.some.inj h
  subst e
  refine ⟨a, b, fa, fb, _, ha, hb, hfa, hfb, rfl, ?_⟩
  simp only [neg_mul, neg_smul]

theorem addForceSpring_sum (M : MathOps R) (cv : R) (p1 p2 : List (Vec3 R)) (g i : Nat)
    (acc r : PolynomialSpringsForceField R × List (Vec3 R) × List (Vec3 R))
    (h : addForceSpring M cv p1 p2 g acc i = some r) :
    r.2.1.sum + r.2.2.sum = acc.2.1.sum + acc.2.2.sum := by
  obtain ⟨a, b, fa, fb, X, -, -, hfa, hfb, e1, e2⟩ :=
    addForceSpring_increments M cv p1 p2 g i acc r h
  rw [e1, e2, sum_set_add _ _ _ _ hfa, sum_set_add _ _ _ _ hfb]
  abel

theorem sameFrame_trans {st st1 st2 : PolynomialSpringsForceField R} (h : SameFrame st st1)
    (h2 : SameFrame st1 st2) : SameFrame st st2 :=
  ⟨h2.first.trans h.first, h2.second.trans h.second, h2.stiffness.trans h.stiffness,
    h2.degree.trans h.degree, h2.table.trans h.table, h2.differential.trans h.differential,
    h2.springLength.trans h.springLength, h2.strainValue.trans h.strainValue,
    h2.direction.trans h.direction, h2.initial.trans h.initial, h2.flags.trans h.flags,
    h2.strainSign.trans h.strainSign⟩

theorem addForce_defined (M : MathOps R) (st : PolynomialSpringsForceField R)
    (f1 f2 p1 p2 : List (Vec3 R)) (hr : Ready st.resolved p1 p2) :
    ∃ r, addForce M st f1 f2 p1 p2 = some r ∧ SameFrame st.resolved r.1
      ∧ r.2.1.length = p1.length ∧ r.2.2.length = p2.length
      ∧ r.2.1.sum + r.2.2.sum = (resize f1 p1.length 0).sum + (resize f2 p2.length 0).sum := by
  rw [addForce_eq_fold]
  exact foldlM_range_invariant
    (fun acc i => addForceSpring M (if st.resolved.d_compressible then -1 else 0) p1 p2
      (st.resolved.groupOf i) acc i)
    (fun _ acc => SameFrame st.resolved acc.1 ∧ acc.2.1.length = p1.length
      ∧ acc.2.2.length = p2.length
      ∧ acc.2.1.sum + acc.2.2.sum
        = (resize f1 p1.length 0).sum + (resize f2 p2.length 0).sum)
    st.resolved.m_firstObjectIndices.length
    (by
      rintro k ⟨st1, g1, g2⟩ hk ⟨hfr, hl1, hl2, hsum⟩
      have hr1 : Ready st1 p1 p2 := sameFrame_ready hfr hr
      have hk1 : k < st1.m_firstObjectIndices.length := by rw [hfr.first]; exact hk
      obtain ⟨a, b, x1, x2, fa, fb, flag, z0, F, F', Jold, ha, hb, hx1, hx2, hfa, hfb, hflag,
        hz0, hJ, hw, hl, hs, hg, hF, hF'⟩ := addForceSpring_ready M p1 p2 g1 g2 st1 k hr1 hk1
          hl1 hl2
      have e := addForceSpring_eq M (if st.resolved.d_compressible then -1 else 0) p1 p2 g1 g2
        st1 (st1.groupOf k) k a b x1 x2 fa fb flag z0 F F' Jold
        ha hb hx1 hx2 hfa hfb hflag hz0 hJ hw hl hs hg hF hF'
      rw [sameFrame_groupOf hfr] at e
      refine ⟨_, e, ?_⟩
      obtain ⟨hfr2, hl1', hl2'⟩ := addForceSpring_frame M _ p1 p2 g1 g2 st1 _ k _ e
      exact ⟨sameFrame_trans hfr hfr2, hl1'.trans hl1, hl2'.trans hl2,
        (addForceSpring_sum M _ p1 p2 _ k _ _ e).trans hsum⟩)
    (st.resolved, resize f1 p1.length 0, resize f2 p2.length 0)
    ⟨sameFrame_refl _, resize_length _ _ _, resize_length _ _ _, rfl⟩

/-- C6. Newton's third law for interaction `addForce`: every run of the loop
body adds some vector `X` to `f1[firstIndex]` and exactly `-X` to
`f2[secondIndex]`; and whenever all accesses of the call are inside their
vectors, the call returns and the sum of all entries of both force vectors
(one entry per point of `p1` and of `p2`) is the same after the call as before. -/
theorem addForce_total_force (M : MathOps R) (st : PolynomialSpringsForceField R)
    (f1 f2 p1 p2 : List (Vec3 R)) (hr : Ready st.resolved p1 p2) :
    (∀ (cv : R) (g i : Nat)
        (acc r : PolynomialSpringsForceField R × List (Vec3 R) × List (Vec3 R)),
        addForceSpring M cv p1 p2 g acc i = some r →
        ∃ a b fa fb X, acc.1.m_firstObjectIndices[i]? = some a
          ∧ acc.1.m_secondObjectIndices[i]? = some b
          ∧ acc.2.1[a]? = some fa ∧ acc.2.2[b]? = some fb
          ∧ r.2.1 = acc.2.1.set a (fa + X) ∧ r.2.2 = acc.2.2.set b (fb + -X))
    ∧ ∃ st' f1' f2', addForce M st f1 f2 p1 p2 = some (st', f1', f2')
        ∧ f1'.sum + f2'.sum = (resize f1 p1.length 0).sum + (resize f2 p2.length 0).sum
        ∧ (f1.length = p1.length → f2.length = p2.length →
            f1'.sum + f2'.sum = f1.sum + f2.sum) := by
  refine ⟨fun cv g i acc r h => addForceSpring_increments M cv p1 p2 g i acc r h, ?_⟩
  obtain ⟨⟨st', f1', f2'⟩, h, -, -, -, hsum⟩ := addForce_defined M st f1 f2 p1 p2 hr
  refine ⟨st', f1', f2', h, hsum, ?_⟩
  intro h1 h2
  have := hsum
  rw [← h1, ← h2, resize_self, resize_self] at this
  exact this

theorem oneSpring_ready (z : ℚ) (c : Bool) (x1 x2 : Vec3 ℚ) :
    Ready (oneSpring z c) [x1] [x2] := by
  constructor
  · simp [oneSpring, configured]
  · intro i a h
    cases i <;> simp_all [oneSpring, configured]
  · intro i b _ h
    cases i <;> simp_all [oneSpring, configured]
  · simp [oneSpring, configured]
  · simp [oneSpring, configured]
  · simp [oneSpring, configured]
  · simp [oneSpring, configured]
  · simp [oneSpring, configured]
  · simp [oneSpring, configured]
  · simp [oneSpring, configured]
  · intro i hi
    have hi0 : i = 0 := by simpa [oneSpring, configured] using hi
    subst hi0
    exact oneSpring_readable z c

theorem addForce_total_force_witness :
    ∃ st' f1' f2',
      addForce ratOps (oneSpring 1 false) [0] [0] [0] [![2, 0, 0]] = some (st', f1', f2')
      ∧ f1'.sum + f2'.sum = ([0] : List (Vec3 ℚ)).sum + ([0] : List (Vec3 ℚ)).sum := by
  obtain ⟨st', f1', f2', h, -, h3⟩ :=
    (addForce_total_force ratOps (oneSpring 1 false) [0] [0] [0] [![2, 0, 0]]
      (oneSpring_ready 1 false _ _)).2
  exact ⟨st', f1', f2', h, h3 rfl rfl⟩

theorem atCall_sameFrame (st : PolynomialSpringsForceField R) (c : ForceCall R) :
    SameFrame st (st.atCall c) :=
  ⟨rfl, rfl, rfl, rfl, rfl, rfl, rfl, rfl, rfl, rfl, rfl, rfl⟩

theorem oneSpring_recompute_ready (z : ℚ) (c : Bool) (f1 f2 : List (Vec3 ℚ)) (x1 x2 : Vec3 ℚ) :
    Ready ((oneSpring z c).atCall ⟨1, 1, true, f1, f2, [x1], [x2]⟩).resolved [x1] [x2] := by
  have e : ((oneSpring z c).atCall ⟨1, 1, true, f1, f2, [x1], [x2]⟩).resolved
      = (oneSpring z c).atCall ⟨1, 1, true, f1, f2, [x1], [x2]⟩ := by
    simp [PolynomialSpringsForceField.resolved, recomputeIndices, oneSpring, configured,
      PolynomialSpringsForceField.atCall, List.range_succ]
  rw [e]
  exact sameFrame_ready (atCall_sameFrame _ _) (oneSpring_ready z c x1 x2)

theorem oneSpring_two_calls :
    ∃ st', addForceCalls ratOps (oneSpring 1 false)
      [⟨1, 1, true, [0], [0], [0], [![2, 0, 0]]⟩, ⟨1, 1, false, [0], [0], [0], [![1, 0, 0]]⟩]
      = some st' := by
  obtain ⟨r1, h1, hfr1, -, -, -⟩ := addForce_defined ratOps
    ((oneSpring 1 false).atCall ⟨1, 1, true, [0], [0], [0], [![2, 0, 0]]⟩)
    [0] [0] [0] [![2, 0, 0]] (oneSpring_recompute_ready 1 false _ _ _ _)
  have hr0 : Ready (oneSpring 1 false) [0] [![1, 0, 0]] := oneSpring_ready 1 false _ _
  have e : ((oneSpring 1 false).atCall ⟨1, 1, true, [0], [0], [0], [![2, 0, 0]]⟩).resolved
      = (oneSpring 1 false).atCall ⟨1, 1, true, [0], [0], [0], [![2, 0, 0]]⟩ := by
    simp [PolynomialSpringsForceField.resolved, recomputeIndices, oneSpring, configured,
      PolynomialSpringsForceField.atCall, List.range_succ]
  rw [e] at hfr1
  have hfr2 : SameFrame (oneSpring 1 false)
      (r1.1.atCall ⟨1, 1, false, [0], [0], [0], [![1, 0, 0]]⟩) :=
    sameFrame_trans (sameFrame_trans (atCall_sameFrame _ _) hfr1) (atCall_sameFrame _ _)
  have hr2 : Ready (r1.1.atCall ⟨1, 1, false, [0], [0], [0], [![1, 0, 0]]⟩).resolved
      [0] [![1, 0, 0]] := sameFrame_ready hfr2 hr0
  obtain ⟨r2, h2, -⟩ := addForce_defined ratOps
    (r1.1.atCall ⟨1, 1, false, [0], [0], [0], [![1, 0, 0]]⟩)
    [0] [0] [0] [![1, 0, 0]] hr2
  refine ⟨r2.1, ?_⟩
  simp only [addForceCalls, Option.bind_eq_bind]
  rw [h1]
  simp only [Option.some_bind]
  rw [h2]
  rfl

theorem zeroLength_latch_once_witness :
    ∃ st', addForceCalls ratOps (oneSpring 1 false)
        [⟨1, 1, true, [0], [0], [0], [![2, 0, 0]]⟩, ⟨1, 1, false, [0], [0], [0], [![1, 0, 0]]⟩]
        = some st'
      ∧ st'.m_computeSpringsZeroLength[0]? = some 0
      ∧ st'.m_initialSpringLength[0]? = some 1 := by
  obtain ⟨st', h⟩ := oneSpring_two_calls
  exact ⟨st', h, zeroLength_latch_once ratOps _ (oneSpring 1 false) st' 0 1 rfl rfl h⟩

end WholeCall

section Capture

variable {R : Type} [LinearOrderedField R]

open PolynomialSpringsForceField

theorem bwdInit_capture (cfg : PolynomialSpringsForceField R)
    (hc : cfg.d_computeZeroLength = 1) :
    ∃ st0, bwdInit cfg = some st0
      ∧ (∀ (i : Nat) (v : Int), st0.m_computeSpringsZeroLength[i]? = some v → v = 1)
      ∧ st0.m_computeSpringsZeroLength.length = st0.m_firstObjectIndices.length := by
  have hc' : (recomputeIndices (if cfg.d_polynomialStiffness.isEmpty = true then
      { cfg with d_polynomialStiffness := [100] } else cfg)).d_computeZeroLength = 1 := by
    unfold PolynomialSpringsForceField.recomputeIndices
    simp only []
    split_ifs <;> exact hc
  unfold PolynomialSpringsForceField.bwdInit
  simp only [hc', if_true, Option.pure_def, Option.bind_eq_bind, Option.some_bind]
  refine ⟨_, rfl, ?_, ?_⟩
  · intro i v h
    split_ifs at h <;>
    · simp only [List.getElem?_map, Option.map_eq_some'] at h
      obtain ⟨_, _, hv⟩ := h
      exact hv.symm
  · split_ifs <;> simp [resize_length]

theorem strainOf_self (L : R) : strainOf L L = 0 := by
  simp [strainOf]

theorem resolved_flags (st : PolynomialSpringsForceField R) :
    st.resolved.m_computeSpringsZeroLength = st.m_computeSpringsZeroLength := by
  unfold PolynomialSpringsForceField.resolved
  split_ifs
  · exact (recomputeIndices_latch st).1
  · rfl

theorem addForce_captures (M : MathOps R) (st0 : PolynomialSpringsForceField R)
    (f1 f2 p1 p2 : List (Vec3 R))
    (hflags : ∀ (i : Nat) (v : Int), st0.m_computeSpringsZeroLength[i]? = some v → v = 1)
    (hr : Ready st0.resolved p1 p2) :
    ∃ r, addForce M st0 f1 f2 p1 p2 = some r ∧ SameFrame st0.resolved r.1
      ∧ ∀ j, j < st0.resolved.m_firstObjectIndices.length → ∀ a b x1 x2,
          st0.resolved.m_firstObjectIndices[j]? = some a →
          st0.resolved.m_secondObjectIndices[j]? = some b →
          p1[a]? = some x1 → p2[b]? = some x2 →
          r.1.m_initialSpringLength[j]? = some (norm M (x2 - x1))
          ∧ r.1.m_strainValue[j]? = some 0
          ∧ r.1.m_computeSpringsZeroLength[j]? = some 0 := by
  rw [addForce_eq_fold]
  obtain ⟨r, hfold, hfr, -, -, -, hcap⟩ := foldlM_range_invariant
    (fun acc i => addForceSpring M (if st0.resolved.d_compressible then -1 else 0) p1 p2
      (st0.resolved.groupOf i) acc i)
    (fun k acc => SameFrame st0.resolved acc.1 ∧ acc.2.1.length = p1.length
      ∧ acc.2.2.length = p2.length
      ∧ (∀ (j : Nat) (v : Int), k ≤ j → acc.1.m_computeSpringsZeroLength[j]? = some v → v = 1)
      ∧ ∀ j, j < k → ∀ a b x1 x2,
          st0.resolved.m_firstObjectIndices[j]? = some a →
          st0.resolved.m_secondObjectIndices[j]? = some b →
          p1[a]? = some x1 → p2[b]? = some x2 →
          acc.1.m_initialSpringLength[j]? = some (norm M (x2 - x1))
          ∧ acc.1.m_strainValue[j]? = some 0
          ∧ acc.1.m_computeSpringsZeroLength[j]? = some 0)
    st0.resolved.m_firstObjectIndices.length
    (by
      rintro k ⟨st1, g1, g2⟩ hk ⟨hfr, hl1, hl2, hones, hdone⟩
      have hr1 : Ready st1 p1 p2 := sameFrame_ready hfr hr
      have hk1 : k < st1.m_firstObjectIndices.length := by rw [hfr.first]; exact hk
      obtain ⟨a, b, x1, x2, fa, fb, flag, z0, F, F', Jold, ha, hb, hx1, hx2, hfa, hfb, hflag,
        hz0, hJ, hw, hl, hs, hg, hF, hF'⟩ := addForceSpring_ready M p1 p2 g1 g2 st1 k hr1 hk1
          hl1 hl2
      have hf1 : flag = 1 := hones k flag le_rfl hflag
      subst hf1
      have e := addForceSpring_eq M (if st0.resolved.d_compressible then -1 else 0) p1 p2 g1 g2
        st1 (st1.groupOf k) k a b x1 x2 fa fb 1 z0 F F' Jold
        ha hb hx1 hx2 hfa hfb hflag hz0 hJ hw hl hs hg hF hF'
      rw [sameFrame_groupOf hfr] at e
      refine ⟨_, e, ?_⟩
      obtain ⟨hfr2, hl1', hl2'⟩ := addForceSpring_frame M _ p1 p2 g1 g2 st1 _ k _ e
      refine ⟨sameFrame_trans hfr hfr2, hl1'.trans hl1, hl2'.trans hl2, ?_, ?_⟩
      · intro j v hkj hv
        have hne : k ≠ j := by omega
        simp only [eq_self_iff_true, if_true] at hv
        rw [List.getElem?_set_ne hne] at hv
        exact hones j v (by omega) hv
      · intro j hj a' b' x1' x2' ha' hb' hx1' hx2'
        by_cases hjk : j = k
        · subst hjk
          rw [← hfr.first, ha] at ha'
          rw [← hfr.second, hb] at hb'
          have ea := Option.some.inj ha'
          have eb := Option.some.inj hb'
          subst ea
          subst eb
          rw [hx1] at hx1'
          rw [hx2] at hx2'
          have e1 := Option.some.inj hx1'
          have e2 := Option.some.inj hx2'
          subst e1
          subst e2
          simp only [eq_self_iff_true, if_true]
          refine ⟨getElem?_set_self _ _ _ (lt_length_of_getElem? _ _ _ hz0), ?_,
            getElem?_set_self _ _ _ (lt_length_of_getElem? _ _ _ hflag)⟩
          rw [getElem?_set_self _ _ _ hs, strainOf_self]
        · have hlt : j < k := by omega
          have hne : k ≠ j := fun h => hjk h.symm
          obtain ⟨q1, q2, q3⟩ := hdone j hlt a' b' x1' x2' ha' hb' hx1' hx2'
          simp only [eq_self_iff_true, if_true]
          exact ⟨by rw [List.getElem?_set_ne hne]; exact q1,
            by rw [List.getElem?_set_ne hne]; exact q2,
            by rw [List.getElem?_set_ne hne]; exact q3⟩)
    (st0.resolved, resize f1 p1.length 0, resize f2 p2.length 0)
    ⟨sameFrame_refl _, resize_length _ _ _, resize_length _ _ _,
      fun j v _ hv => hflags j v (by rw [resolved_flags] at hv; exact hv),
      fun j hj => absurd hj (Nat.not_lt_zero j)⟩
  exact ⟨r, hfold, hfr, hcap⟩

/-- C9. Lazy zero-length capture. When the interaction field is initialised
with `computeZeroLength = 1`, `bwdInit` returns, and the first `addForce` call
(all its accesses being inside their vectors) returns and leaves, for every
spring `i` with endpoints `a`, `b`: the stored zero length equal to the current
length `|p2[b] - p1[a]|`, the capture flag cleared, and, for a spring of
non-zero length, `strain[i] = 0`. -/
theorem first_addForce_captures (M : MathOps R) (cfg : PolynomialSpringsForceField R)
    (hc : cfg.d_computeZeroLength = 1) :
    ∃ st0, bwdInit cfg = some st0
      ∧ ∀ f1 f2 p1 p2 : List (Vec3 R), Ready st0.resolved p1 p2 →
        ∃ st' f1' f2', addForce M st0 f1 f2 p1 p2 = some (st', f1', f2')
          ∧ ∀ (i a b : Nat) (x1 x2 : Vec3 R), st'.m_firstObjectIndices[i]? = some a →
              st'.m_secondObjectIndices[i]? = some b →
              p1[a]? = some x1 → p2[b]? = some x2 →
              st'.m_initialSpringLength[i]? = some (norm M (x2 - x1))
              ∧ st'.m_computeSpringsZeroLength[i]? = some 0
              ∧ (norm M (x2 - x1) ≠ 0 → st'.m_strainValue[i]? = some 0) := by
  obtain ⟨st0, h0, hflags, -⟩ := bwdInit_capture cfg hc
  refine ⟨st0, h0, ?_⟩
  intro f1 f2 p1 p2 hr
  obtain ⟨⟨st', f1', f2'⟩, h, hfr, hcap⟩ := addForce_captures M st0 f1 f2 p1 p2 hflags hr
  refine ⟨st', f1', f2', h, ?_⟩
  intro i a b x1 x2 ha hb hx1 hx2
  have hfirst : st'.m_firstObjectIndices = st0.resolved.m_firstObjectIndices := hfr.first
  have hsecond : st'.m_secondObjectIndices = st0.resolved.m_secondObjectIndices := hfr.second
  rw [hfirst] at ha
  rw [hsecond] at hb
  obtain ⟨q1, q2, q3⟩ := hcap i (lt_length_of_getElem? _ _ _ ha) a b x1 x2 ha hb hx1 hx2
  exact ⟨q1, q3, fun _ => q2⟩

theorem bwdInit_captureSpring :
    bwdInit (PolynomialSpringsForceField.configured [] [] [1] [1] 1 ([] : List ℚ) false false 1 1)
      = some captureSpring := by
  simp [bwdInit, captureSpring, configured, recomputeIndices, resize, fillPolynomialsMap,
    List.range_succ]

theorem captureSpring_ready (x1 x2 : Vec3 ℚ) : Ready captureSpring.resolved [x1] [x2] := by
  have e : captureSpring.resolved = captureSpring := rfl
  rw [e]
  constructor
  · simp [captureSpring, configured]
  · intro i a h
    cases i <;> simp_all [captureSpring, configured]
  · intro i b _ h
    cases i <;> simp_all [captureSpring, configured]
  · simp [captureSpring, configured]
  · simp [captureSpring, configured]
  · simp [captureSpring, configured]
  · simp [captureSpring, configured]
  · simp [captureSpring, configured]
  · simp [captureSpring, configured]
  · simp [captureSpring, configured]
  · intro i hi
    have hi0 : i = 0 := by simpa [captureSpring, configured] using hi
    subst hi0
    exact ⟨1, [0], rfl, rfl, by
      intro k hk
      interval_cases k
      exact ⟨0, rfl, by simp [captureSpring, configured]⟩⟩

theorem first_addForce_captures_witness :
    ∃ st0, bwdInit (PolynomialSpringsForceField.configured [] [] [1] [1] 1 ([] : List ℚ)
        false false 1 1) = some st0
      ∧ ∃ st' f1' f2', addForce ratOps st0 [0] [0] [0] [![2, 0, 0]] = some (st', f1', f2')
        ∧ st'.m_initialSpringLength[0]? = some (norm ratOps ((![2, 0, 0] : Vec3 ℚ) - 0))
        ∧ st'.m_computeSpringsZeroLength[0]? = some 0
        ∧ st'.m_strainValue[0]? = some 0 := by
  obtain ⟨st0, h0, hall⟩ := first_addForce_captures ratOps
    (PolynomialSpringsForceField.configured [] [] [1] [1] 1 ([] : List ℚ) false false 1 1) rfl
  have e0 : st0 = captureSpring := by
    rw [bwdInit_captureSpring] at h0
    exact (Option.some.inj h0).symm
  subst e0
  obtain ⟨st', f1', f2', h, hcap⟩ := hall [0] [0] [0] [![2, 0, 0]] (captureSpring_ready _ _)
  obtain ⟨r, hr, hfr, -⟩ := addForce_defined ratOps captureSpring [0] [0] [0] [![2, 0, 0]]
    (captureSpring_ready _ _)
  rw [h] at hr
  have er := Option.some.inj hr
  subst er
  have hfirst : st'.m_firstObjectIndices = [0] := hfr.first
  have hsecond : st'.m_secondObjectIndices = [0] := hfr.second
  obtain ⟨q1, q2, q3⟩ := hcap 0 0 0 0 ![2, 0, 0] (by rw [hfirst]; rfl) (by rw [hsecond]; rfl)
    rfl rfl
  exact ⟨captureSpring, h0, st', f1', f2', h, q1, q2,
    q3 (by rw [norm_two]; norm_num)⟩

end Capture

section InteractionJacobian

open PolynomialSpringsForceField

theorem mulVec3CLM_apply (J : Mat3 ℝ) (v : Vec3 ℝ) : mulVec3CLM J v = mulVec3 J v := rfl

theorem coordCLM_apply (k : Fin 3) (v : Vec3 ℝ) : coordCLM k v = v k := rfl

theorem hasFDerivAt_coord (x1 x2 : Vec3 ℝ) (k : Fin 3) :
    HasFDerivAt (fun q : Vec3 ℝ => q k - x1 k) (coordCLM k) x2 :=
  (hasFDerivAt_apply k x2).sub_const (x1 k)

theorem hasFDerivAt_dot (x1 x2 : Vec3 ℝ) :
    HasFDerivAt (fun q : Vec3 ℝ => dot (q - x1) (q - x1))
      ((2 * (x2 0 - x1 0)) • coordCLM 0 + (2 * (x2 1 - x1 1)) • coordCLM 1
        + (2 * (x2 2 - x1 2)) • coordCLM 2) x2 := by
  have h := hasFDerivAt_coord x1 x2
  have h2 := (((h 0).mul (h 0)).add ((h 1).mul (h 1))).add ((h 2).mul (h 2))
  refine (h2.congr_fderiv ?_)
  ext δ
  simp [coordCLM_apply]
  ring

theorem hasFDerivAt_length (x1 x2 : Vec3 ℝ) (hN : dot (x2 - x1) (x2 - x1) ≠ 0) :
    HasFDerivAt (fun q : Vec3 ℝ => Real.sqrt (dot (q - x1) (q - x1)))
      ((1 / (2 * Real.sqrt (dot (x2 - x1) (x2 - x1)))) •
        ((2 * (x2 0 - x1 0)) • coordCLM 0 + (2 * (x2 1 - x1 1)) • coordCLM 1
          + (2 * (x2 2 - x1 2)) • coordCLM 2)) x2 :=
  (hasFDerivAt_dot x1 x2).sqrt hN

/-- The force `fa + (F(strain) * sign) * direction` of a stretched spring, as a
function of the second endpoint `q`, has the Frechet derivative
`(F'/z - F/L) d dᵀ + (F/L) I` at `x2`. -/
theorem hasFDerivAt_stretched (x1 x2 fa : Vec3 ℝ) (F : ℝ → ℝ) (F' z0 cv : ℝ) (sgn : ℝ)
    (hz : 0 < z0) (hL : z0 < Real.sqrt (dot (x2 - x1) (x2 - x1)))
    (hD : HasDerivAt F F' (strainOf (Real.sqrt (dot (x2 - x1) (x2 - x1))) z0))
    (J : Mat3 ℝ)
    (hJ : ∀ p k, J p k
      = sgn * ((F' / z0 - F (strainOf (Real.sqrt (dot (x2 - x1) (x2 - x1))) z0)
            / Real.sqrt (dot (x2 - x1) (x2 - x1)))
          * vdiv (x2 - x1) (Real.sqrt (dot (x2 - x1) (x2 - x1))) p
          * vdiv (x2 - x1) (Real.sqrt (dot (x2 - x1) (x2 - x1))) k
        + if p = k then F (strainOf (Real.sqrt (dot (x2 - x1) (x2 - x1))) z0)
            / Real.sqrt (dot (x2 - x1) (x2 - x1)) else 0)) :
    HasFDerivAt
      (fun q : Vec3 ℝ => fa + (sgn * F (strainOf (Real.sqrt (dot (q - x1) (q - x1))) z0)
          * strainSignOf cv (Real.sqrt (dot (q - x1) (q - x1))) z0)
        • vdiv (q - x1) (Real.sqrt (dot (q - x1) (q - x1))))
      (mulVec3CLM J) x2 := by
  have hL0pos : 0 < Real.sqrt (dot (x2 - x1) (x2 - x1)) := lt_trans hz hL
  have hL0 : Real.sqrt (dot (x2 - x1) (x2 - x1)) ≠ 0 := ne_of_gt hL0pos
  have hN : dot (x2 - x1) (x2 - x1) ≠ 0 := by
    intro h0
    rw [h0, Real.sqrt_zero] at hL0
    exact hL0 rfl
  have hLd := hasFDerivAt_length x1 x2 hN
  have hev : ∀ᶠ q in nhds x2, z0 < Real.sqrt (dot (q - x1) (q - x1)) :=
    hLd.continuousAt.eventually (lt_mem_nhds hL)
  have hs0 : strainOf (Real.sqrt (dot (x2 - x1) (x2 - x1))) z0
      = (Real.sqrt (dot (x2 - x1) (x2 - x1)) - z0) * z0⁻¹ := by
    rw [strainOf, abs_of_pos (sub_pos.mpr hL), div_eq_mul_inv]
  have hS := (hLd.sub_const z0).mul_const z0⁻¹
  have hD' : HasDerivAt F F' ((Real.sqrt (dot (x2 - x1) (x2 - x1)) - z0) * z0⁻¹) := by
    rw [← hs0]; exact hD
  have hA := hD'.comp_hasFDerivAt x2 hS
  have hInv := (hasDerivAt_inv hL0).comp_hasFDerivAt x2 hLd
  have hmain : HasFDerivAt
      (fun q : Vec3 ℝ => fun p : Fin 3 => fa p
        + sgn * ((F ∘ fun q : Vec3 ℝ => (Real.sqrt (dot (q - x1) (q - x1)) - z0) * z0⁻¹) q
          * ((q p - x1 p) * (Inv.inv ∘ fun q : Vec3 ℝ => Real.sqrt (dot (q - x1) (q - x1))) q)))
      (mulVec3CLM J) x2 := by
    apply hasFDerivAt_pi''
    intro p
    have hQ := (hasFDerivAt_coord x1 x2 p).mul hInv
    have hC := ((hA.mul hQ).const_mul sgn).const_add (fa p)
    refine hC.congr_fderiv ?_
    ext δ
    simp only [ContinuousLinearMap.add_apply, ContinuousLinearMap.smul_apply,
      ContinuousLinearMap.coe_comp', Function.comp_apply, ContinuousLinearMap.proj_apply,
      mulVec3CLM_apply, mulVec3, hJ, coordCLM_apply, smul_eq_mul, vdiv, Pi.sub_apply, hs0]
    have hz0 : z0 ≠ 0 := ne_of_gt hz
    generalize F ((Real.sqrt (dot (x2 - x1) (x2 - x1)) - z0) * z0⁻¹) = F0
    generalize Real.sqrt (dot (x2 - x1) (x2 - x1)) = L at hL0
    have key : δ p = (if p = 0 then (1 : ℝ) else 0) * δ 0 + (if p = 1 then (1 : ℝ) else 0) * δ 1
        + (if p = 2 then (1 : ℝ) else 0) * δ 2 := by
      fin_cases p <;> simp
    have e : ∀ k : Fin 3, (if p = k then F0 / L else 0)
        = F0 / L * (if p = k then (1 : ℝ) else 0) := by
      intro k
      split_ifs <;> simp
    rw [e 0, e 1, e 2, key]
    generalize (if p = 0 then (1 : ℝ) else 0) = e0
    generalize (if p = 1 then (1 : ℝ) else 0) = e1
    generalize (if p = 2 then (1 : ℝ) else 0) = e2
    generalize x2 p - x1 p = up
    generalize x2 0 - x1 0 = u0
    generalize x2 1 - x1 1 = u1
    generalize x2 2 - x1 2 = u2
    generalize δ 0 = d0
    generalize δ 1 = d1
    generalize δ 2 = d2
    field_simp
    ring
  refine hmain.congr_of_eventuallyEq ?_
  filter_upwards [hev] with q hq
  funext p
  have hq0 : strainOf (Real.sqrt (dot (q - x1) (q - x1))) z0
      = (Real.sqrt (dot (q - x1) (q - x1)) - z0) * z0⁻¹ := by
    rw [strainOf, abs_of_pos (sub_pos.mpr hq), div_eq_mul_inv]
  have hsg : strainSignOf cv (Real.sqrt (dot (q - x1) (q - x1))) z0 = 1 := by
    rw [strainSignOf, if_pos (le_of_lt (sub_pos.mpr hq))]
  simp only [Pi.add_apply, Pi.smul_apply, smul_eq_mul, vdiv, Pi.sub_apply, hq0, hsg,
    Function.comp_apply, mul_one, div_eq_mul_inv]
  ring

theorem jacobianLoop_apply {R : Type} [LinearOrderedField R] (a b : R) (w : Vec3 R) (J : Mat3 R)
    (p k : Fin 3) :
    jacobianLoop a b w J p k = (a - b) * w p * w k + if p = k then b else 0 := by
  have e : List.finRange 3 = [0, 1, 2] := rfl
  fin_cases p <;> fin_cases k <;> simp [jacobianLoop, setEntry, e]

theorem interaction_step_at (cv : ℝ) (p1 p2 f1 f2 : List (Vec3 ℝ))
    (st : PolynomialSpringsForceField ℝ) (g i a b : Nat) (x1 fa fb : Vec3 ℝ)
    (flag : Int) (z0 : ℝ) (Jold : Mat3 ℝ)
    (ha : st.m_firstObjectIndices[i]? = some a) (hb : st.m_secondObjectIndices[i]? = some b)
    (hx1 : p1[a]? = some x1) (hb2 : b < p2.length)
    (hfa : f1[a]? = some fa) (hfb : f2[b]? = some fb)
    (hflag : st.m_computeSpringsZeroLength[i]? = some flag) (hne : flag ≠ 1)
    (hz0 : st.m_initialSpringLength[i]? = some z0)
    (hJ : st.m_differential[i]? = some Jold)
    (hw : i < st.m_weightedCoordinateDifference.length)
    (hl : i < st.m_springLength.length)
    (hs : i < st.m_strainValue.length)
    (hg : i < st.m_strainSign.length)
    (hG : GroupReadable st.d_polynomialStiffness st.d_polynomialDegree st.m_polynomialsMap g)
    (q : Vec3 ℝ) :
    ∃ st', addForceSpring realOps cv p1 (p2.set b q) g (st, f1, f2) i
        = some (st',
          f1.set a (fa + ((st.PolynomialValue g
              (strainOf (Real.sqrt (dot (q - x1) (q - x1))) z0)).getD 0
            * strainSignOf cv (Real.sqrt (dot (q - x1) (q - x1))) z0)
            • vdiv (q - x1) (Real.sqrt (dot (q - x1) (q - x1)))),
          f2.set b (fb + (-(st.PolynomialValue g
              (strainOf (Real.sqrt (dot (q - x1) (q - x1))) z0)).getD 0
            * strainSignOf cv (Real.sqrt (dot (q - x1) (q - x1))) z0)
            • vdiv (q - x1) (Real.sqrt (dot (q - x1) (q - x1)))))
      ∧ st'.m_differential[i]? = some (jacobianLoop
          ((st.PolynomialDerivativeValue g
              (strainOf (Real.sqrt (dot (q - x1) (q - x1))) z0)).getD 0 / z0)
          ((st.PolynomialValue g
              (strainOf (Real.sqrt (dot (q - x1) (q - x1))) z0)).getD 0
            / Real.sqrt (dot (q - x1) (q - x1)))
          (vdiv (q - x1) (Real.sqrt (dot (q - x1) (q - x1)))) Jold) := by
  obtain ⟨F, hF⟩ := hG.value (strainOf (Real.sqrt (dot (q - x1) (q - x1))) z0)
  obtain ⟨F', hF'⟩ := hG.derivative (strainOf (Real.sqrt (dot (q - x1) (q - x1))) z0)
  have hF2 : st.PolynomialValue g (strainOf (Real.sqrt (dot (q - x1) (q - x1))) z0) = some F := hF
  have hF2' : st.PolynomialDerivativeValue g
      (strainOf (Real.sqrt (dot (q - x1) (q - x1))) z0) = some F' := hF'
  have hx2 : (p2.set b q)[b]? = some q := getElem?_set_self _ _ _ hb2
  have h := addForceSpring_eq realOps cv p1 (p2.set b q) f1 f2 st g i a b x1 q fa fb flag z0
    F F' Jold ha hb hx1 hx2 hfa hfb hflag hz0 hJ hw hl hs hg
    (by rw [if_neg hne]; exact hF) (by rw [if_neg hne]; exact hF')
  rw [if_neg hne, if_neg hne] at h
  rw [hF2, hF2']
  exact ⟨_, h, getElem?_set_self _ _ _ (lt_length_of_getElem? _ _ _ hJ)⟩

theorem set_eq_self_of_getElem? {α : Type} (l : List α) (b : Nat) (x : α)
    (h : l[b]? = some x) : l.set b x = l := by
  apply List.ext_getElem?
  intro n
  rw [List.getElem?_set]
  split_ifs with h1 h2
  · rw [← h1, h]
  · rw [← h1]
    exact (List.getElem?_eq_none (not_lt.mp h2)).symm
  · rfl

theorem getD_set_self {α : Type} (l : List α) (a : Nat) (x d : α) (h : a < l.length) :
    (l.set a x).getD a d = x := by
  rw [List.getD_eq_getElem?_getD, getElem?_set_self l a x h]
  rfl

/-- Interaction spring stretched beyond a positive stored zero length, over the
reals, when `PolynomialDerivativeValue` returns the derivative of
`PolynomialValue` at the strain: the block `J` that the loop body caches is the
Frechet derivative of the entry `f1[a]` with respect to the position of
`p2[b]`, and the entry `f2[b]` has the derivative `-J`. -/
theorem interaction_derivative (cv : ℝ) (p1 p2 f1 f2 : List (Vec3 ℝ))
    (st : PolynomialSpringsForceField ℝ) (g i a b : Nat) (x1 x2 fa fb : Vec3 ℝ)
    (flag : Int) (z0 F' : ℝ)
    (ha : st.m_firstObjectIndices[i]? = some a) (hb : st.m_secondObjectIndices[i]? = some b)
    (hx1 : p1[a]? = some x1) (hx2 : p2[b]? = some x2)
    (hfa : f1[a]? = some fa) (hfb : f2[b]? = some fb)
    (hflag : st.m_computeSpringsZeroLength[i]? = some flag) (hne : flag ≠ 1)
    (hz0 : st.m_initialSpringLength[i]? = some z0)
    (hJ : i < st.m_differential.length)
    (hw : i < st.m_weightedCoordinateDifference.length)
    (hl : i < st.m_springLength.length)
    (hs : i < st.m_strainValue.length)
    (hg : i < st.m_strainSign.length)
    (hG : GroupReadable st.d_polynomialStiffness st.d_polynomialDegree st.m_polynomialsMap g)
    (hz : 0 < z0) (hL : z0 < norm realOps (x2 - x1))
    (hF' : st.PolynomialDerivativeValue g (strainOf (norm realOps (x2 - x1)) z0) = some F')
    (hD : HasDerivAt (fun s => (st.PolynomialValue g s).getD 0) F'
      (strainOf (norm realOps (x2 - x1)) z0)) :
    ∃ st' f1' f2' J,
      addForceSpring realOps cv p1 p2 g (st, f1, f2) i = some (st', f1', f2')
      ∧ st'.m_differential[i]? = some J
      ∧ HasFDerivAt (forceOnFirst realOps cv p1 p2 g st f1 f2 i a b) (mulVec3CLM J) x2
      ∧ HasFDerivAt (forceOnSecond realOps cv p1 p2 g st f1 f2 i b) (mulVec3CLM (-J)) x2 := by
  obtain ⟨Jold, hJold⟩ : ∃ J, st.m_differential[i]? = some J := ⟨_, List.getElem?_eq_getElem hJ⟩
  have hb2 := lt_length_of_getElem? _ _ _ hx2
  have ha1 := lt_length_of_getElem? _ _ _ hfa
  have hb1 := lt_length_of_getElem? _ _ _ hfb
  have hstep := interaction_step_at cv p1 p2 f1 f2 st g i a b x1 fa fb flag z0 Jold ha hb hx1 hb2
    hfa hfb hflag hne hz0 hJold hw hl hs hg hG
  obtain ⟨st', h0, hJ0⟩ := hstep x2
  rw [set_eq_self_of_getElem? p2 b x2 hx2] at h0
  have hF0 : st.PolynomialDerivativeValue g
      (strainOf (Real.sqrt (dot (x2 - x1) (x2 - x1))) z0) = some F' := hF'
  rw [hF0, Option.getD_some] at hJ0
  generalize hJdef : jacobianLoop (F' / z0) _ _ Jold = J at hJ0
  refine ⟨st', _, _, J, h0, hJ0, ?_, ?_⟩
  · have key := hasFDerivAt_stretched x1 x2 fa (fun s => (st.PolynomialValue g s).getD 0) F' z0
      cv 1 hz hL hD J (fun p k => by
        rw [← hJdef, jacobianLoop_apply, one_mul])
    refine key.congr_of_eventuallyEq (Filter.Eventually.of_forall fun q => ?_)
    obtain ⟨st1, h1, -⟩ := hstep q
    simp only [forceOnFirst, h1, Option.map_some', Option.getD_some, getD_set_self _ _ _ _ ha1,
      one_mul]
  · have key := hasFDerivAt_stretched x1 x2 fb (fun s => (st.PolynomialValue g s).getD 0) F' z0
      cv (-1) hz hL hD (-J) (fun p k => by
        rw [Pi.neg_apply, Pi.neg_apply, ← hJdef, jacobianLoop_apply, neg_one_mul])
    refine key.congr_of_eventuallyEq (Filter.Eventually.of_forall fun q => ?_)
    obtain ⟨st1, h1, -⟩ := hstep q
    simp only [forceOnSecond, h1, Option.map_some', Option.getD_some, getD_set_self _ _ _ _ hb1,
      neg_one_mul]

theorem mulVec3CLM_neg (J : Mat3 ℝ) : mulVec3CLM (-J) = -mulVec3CLM J := by
  ext v p
  simp only [mulVec3CLM_apply, mulVec3, Pi.neg_apply, ContinuousLinearMap.neg_apply]
  ring

theorem bwdInit_stretchedSpring :
    bwdInit (PolynomialSpringsForceField.configured [] [] [2, 0] [2] 0 [(1 : ℝ)] false false 1 1)
      = some stretchedSpring := by
  simp [bwdInit, stretchedSpring, configured, recomputeIndices, resize, initZeroLengthLoop, setAt,
    fillPolynomialsMap, List.range_succ]

theorem norm_real_two : norm realOps ((![2, 0, 0] : Vec3 ℝ) - 0) = 2 := by
  simp [norm, dot, realOps]

theorem stretchedSpring_readable :
    GroupReadable stretchedSpring.d_polynomialStiffness stretchedSpring.d_polynomialDegree
      stretchedSpring.m_polynomialsMap 0 :=
  ⟨2, [0, 1], rfl, rfl, by
    intro k hk
    interval_cases k
    · exact ⟨0, rfl, by simp [stretchedSpring, configured]⟩
    · exact ⟨1, rfl, by simp [stretchedSpring, configured]⟩⟩

theorem stretchedSpring_value (s : ℝ) : stretchedSpring.PolynomialValue 0 s = some (2 * s) := by
  simp [PolynomialSpringsForceField.PolynomialValue, polynomialValueLoop, stretchedSpring,
    configured, List.range_succ]

theorem stretchedSpring_derivative (s : ℝ) :
    stretchedSpring.PolynomialDerivativeValue 0 s = some 2 := by
  simp [PolynomialSpringsForceField.PolynomialDerivativeValue, polynomialDerivativeLoop,
    stretchedSpring, configured, List.range_succ]

theorem stretchedSpring_hasDerivAt (s : ℝ) :
    HasDerivAt (fun s => (stretchedSpring.PolynomialValue 0 s).getD 0) 2 s := by
  have h : (fun s => (stretchedSpring.PolynomialValue 0 s).getD 0) = fun s : ℝ => 2 * s := by
    funext t
    rw [stretchedSpring_value]
    rfl
  rw [h]
  simpa using (hasDerivAt_id s).const_mul (2 : ℝ)

/-- C3 (as amended). Interaction variant, over exact reals: for a spring `i`
with endpoints `a = firstIndex`, `b = secondIndex` that is stretched beyond a
positive stored zero length `z0` (capture flag not set), and whose
`PolynomialDerivativeValue` at the strain is the derivative of `PolynomialValue`
there, the loop body of `addForce` returns and caches a block `J` such that
the entry `f1[a]`, as a function of the position of `p2[b]`, is differentiable
with derivative `delta ↦ J * delta`, and the entry `f2[b]` is differentiable
with derivative `delta ↦ -(J * delta)`. -/
theorem addForceSpring_jacobian (cv : ℝ) (p1 p2 f1 f2 : List (Vec3 ℝ))
    (st : PolynomialSpringsForceField ℝ) (g i a b : Nat) (x1 x2 fa fb : Vec3 ℝ)
    (flag : Int) (z0 F' : ℝ)
    (ha : st.m_firstObjectIndices[i]? = some a) (hb : st.m_secondObjectIndices[i]? = some b)
    (hx1 : p1[a]? = some x1) (hx2 : p2[b]? = some x2)
    (hfa : f1[a]? = some fa) (hfb : f2[b]? = some fb)
    (hflag : st.m_computeSpringsZeroLength[i]? = some flag) (hne : flag ≠ 1)
    (hz0 : st.m_initialSpringLength[i]? = some z0)
    (hJ : i < st.m_differential.length)
    (hw : i < st.m_weightedCoordinateDifference.length)
    (hl : i < st.m_springLength.length)
    (hs : i < st.m_strainValue.length)
    (hg : i < st.m_strainSign.length)
    (hG : GroupReadable st.d_polynomialStiffness st.d_polynomialDegree st.m_polynomialsMap g)
    (hz : 0 < z0) (hL : z0 < norm realOps (x2 - x1))
    (hF' : st.PolynomialDerivativeValue g (strainOf (norm realOps (x2 - x1)) z0) = some F')
    (hD : HasDerivAt (fun s => (st.PolynomialValue g s).getD 0) F'
      (strainOf (norm realOps (x2 - x1)) z0)) :
    ∃ st' f1' f2' J,
      addForceSpring realOps cv p1 p2 g (st, f1, f2) i = some (st', f1', f2')
      ∧ st'.m_differential[i]? = some J
      ∧ HasFDerivAt (forceOnFirst realOps cv p1 p2 g st f1 f2 i a b) (mulVec3CLM J) x2
      ∧ HasFDerivAt (forceOnSecond realOps cv p1 p2 g st f1 f2 i b) (-mulVec3CLM J) x2
      ∧ ∀ δ : Vec3 ℝ, mulVec3CLM J δ = mulVec3 J δ ∧ (-mulVec3CLM J) δ = -mulVec3 J δ := by
  obtain ⟨st', f1', f2', J, h, hJ', hd1, hd2⟩ := interaction_derivative cv p1 p2 f1 f2 st g i a b
    x1 x2 fa fb flag z0 F' ha hb hx1 hx2 hfa hfb hflag hne hz0 hJ hw hl hs hg hG hz hL hF' hD
  rw [mulVec3CLM_neg] at hd2
  exact ⟨st', f1', f2', J, h, hJ', hd1, hd2, fun δ => ⟨rfl, rfl⟩⟩

theorem addForceSpring_jacobian_witness :
    ∃ st' f1' f2' J,
      addForceSpring realOps 0 [0] [![2, 0, 0]] 0 (stretchedSpring, [0], [0]) 0
        = some (st', f1', f2')
      ∧ st'.m_differential[0]? = some J
      ∧ HasFDerivAt (forceOnFirst realOps 0 [0] [![2, 0, 0]] 0 stretchedSpring [0] [0] 0 0 0)
          (mulVec3CLM J) ![2, 0, 0]
      ∧ HasFDerivAt (forceOnSecond realOps 0 [0] [![2, 0, 0]] 0 stretchedSpring [0] [0] 0 0)
          (-mulVec3CLM J) ![2, 0, 0]
      ∧ ∀ δ : Vec3 ℝ, mulVec3CLM J δ = mulVec3 J δ ∧ (-mulVec3CLM J) δ = -mulVec3 J δ :=
  addForceSpring_jacobian 0 [0] [![2, 0, 0]] [0] [0] stretchedSpring 0 0 0 0 0 ![2, 0, 0] 0 0
    0 1 2 rfl rfl rfl rfl rfl rfl rfl (by decide) rfl
    (by simp [stretchedSpring, configured]) (by simp [stretchedSpring, configured])
    (by simp [stretchedSpring, configured]) (by simp [stretchedSpring, configured])
    (by simp [stretchedSpring, configured]) stretchedSpring_readable one_pos
    (by rw [norm_real_two]; norm_num) (stretchedSpring_derivative _)
    (stretchedSpring_hasDerivAt _)

/-- C3 (counterexample). One spring between `p1[0] = 0` and `p2[0] = (2,0,0)`
with zero length `1` and the law `F(s) = 2 s` (for which
`PolynomialDerivativeValue` returns the derivative `2`): the cached block has
`J[0][0] = 2`, and the entry `f2[0]`, as a function of the position of `p2[0]`,
has the derivative `delta ↦ -(J * delta)` at `(2,0,0)`, so it does not have
the derivative `delta ↦ J * delta`. -/
theorem addForce_jacobian_counterexample :
    ∃ (st' : PolynomialSpringsForceField ℝ) (f1' f2' : List (Vec3 ℝ)) (J : Mat3 ℝ),
      addForceSpring realOps 0 [0] [![2, 0, 0]] 0 (stretchedSpring, [0], [0]) 0
        = some (st', f1', f2')
      ∧ st'.m_differential[0]? = some J
      ∧ J 0 0 = 2
      ∧ HasFDerivAt (forceOnSecond realOps 0 [0] [![2, 0, 0]] 0 stretchedSpring [0] [0] 0 0)
          (-mulVec3CLM J) ![2, 0, 0]
      ∧ ¬ HasFDerivAt (forceOnSecond realOps 0 [0] [![2, 0, 0]] 0 stretchedSpring [0] [0] 0 0)
          (mulVec3CLM J) ![2, 0, 0] := by
  obtain ⟨st', f1', f2', J, h, hJ', -, hd2⟩ := interaction_derivative 0 [0] [![2, 0, 0]] [0] [0]
    stretchedSpring 0 0 0 0 0 ![2, 0, 0] 0 0 0 1 2 rfl rfl rfl rfl rfl rfl rfl (by decide) rfl
    (by simp [stretchedSpring, configured]) (by simp [stretchedSpring, configured])
    (by simp [stretchedSpring, configured]) (by simp [stretchedSpring, configured])
    (by simp [stretchedSpring, configured]) stretchedSpring_readable one_pos
    (by rw [norm_real_two]; norm_num) (stretchedSpring_derivative _)
    (stretchedSpring_hasDerivAt _)
  rw [mulVec3CLM_neg] at hd2
  obtain ⟨st1, h1, hJ1⟩ := interaction_step_at 0 [0] [![2, 0, 0]] [0] [0] stretchedSpring 0 0 0 0
    0 0 0 0 1 0 rfl rfl rfl (by simp) rfl rfl rfl (by decide) rfl rfl
    (by simp [stretchedSpring, configured]) (by simp [stretchedSpring, configured])
    (by simp [stretchedSpring, configured]) (by simp [stretchedSpring, configured])
    stretchedSpring_readable ![2, 0, 0]
  have hset : ([![2, 0, 0]] : List (Vec3 ℝ)).set 0 ![2, 0, 0] = [![2, 0, 0]] := rfl
  rw [hset, h] at h1
  have hst : st' = st1 := congrArg Prod.fst (Option.some.inj h1)
  have hnorm : Real.sqrt (dot ((![2, 0, 0] : Vec3 ℝ) - 0) (![2, 0, 0] - 0)) = 2 := norm_real_two
  rw [← hst, hJ', hnorm, stretchedSpring_value, stretchedSpring_derivative] at hJ1
  have hJ00 : J 0 0 = 2 := by
    rw [Option.some.inj hJ1, jacobianLoop_apply]
    norm_num [vdiv]
  refine ⟨st', f1', f2', J, h, hJ', hJ00, hd2, ?_⟩
  intro hd
  have huniq := hd.unique hd2
  have h00 := congrFun (congrArg (fun L : Vec3 ℝ →L[ℝ] Vec3 ℝ => L ![1, 0, 0]) huniq) 0
  simp only [mulVec3CLM_apply, mulVec3, ContinuousLinearMap.neg_apply, Pi.neg_apply, hJ00] at h00
  norm_num at h00

end InteractionJacobian

section AnchoredStep

variable {R : Type} [LinearOrderedField R]

open PolynomialRestShapeSpringsForceField

theorem anchored_springVector_eq (st : PolynomialRestShapeSpringsForceField R)
    (p1 p0 : List (Vec3 R)) (i a e : Nat) (x1 x0 : Vec3 R)
    (ha : st.m_indices[i]? = some a)
    (he : (if st.useRestMState then st.m_ext_indices[i]? else some a) = some e)
    (hx1 : p1[a]? = some x1) (hx0 : p0[e]? = some x0) :
    springVector st p1 p0 i = some (a, x1 - x0) := by
  unfold springVector
  simp only [ha, Option.bind_eq_bind, Option.some_bind, Option.pure_def, hx1]
  by_cases hu : st.useRestMState = true
  · rw [if_pos hu] at he ⊢
    rw [he]
    simp only [Option.some_bind, hx0]
  · rw [if_neg hu] at he ⊢
    cases he
    simp only [Option.some_bind, hx0]

theorem anchored_storeSpring_eq (M : MathOps R) (st : PolynomialRestShapeSpringsForceField R)
    (i : Nat) (dx : Vec3 R) (z : R)
    (hz : zeroLengthOf st.d_zeroLength i = some z)
    (hn : i < st.m_coordinateSquaredNorm.length)
    (hs : i < st.m_strainValue.length)
    (hl : i < st.m_directionSpringLength.length)
    (hw : i < st.m_weightedCoordinateDifference.length) :
    storeSpring M st i dx
      = some { st with
          m_coordinateSquaredNorm := st.m_coordinateSquaredNorm.set i (dot dx dx)
          m_strainValue := st.m_strainValue.set i (norm M dx / z)
          m_directionSpringLength := st.m_directionSpringLength.set i
            (directionLength M st.d_smoothShift st.d_smoothScale dx)
          m_weightedCoordinateDifference := st.m_weightedCoordinateDifference.set i
            (vdiv dx (directionLength M st.d_smoothShift st.d_smoothScale dx)) } := by
  unfold storeSpring
  rw [setAt_eq_some _ _ _ hn, hz]
  simp only [Option.bind_eq_bind, Option.some_bind]
  rw [setAt_eq_some _ _ _ hs, setAt_eq_some _ _ _ hl, setAt_eq_some _ _ _ hw]
  rfl

theorem anchored_ComputeJacobian_eq (M : MathOps R) (st : PolynomialRestShapeSpringsForceField R)
    (g i : Nat) (strain F r F' z N : R) (Jold w : Vec3 R)
    (hs : st.m_strainValue[i]? = some strain)
    (hF : st.PolynomialValue g strain = some F)
    (hl : st.m_directionSpringLength[i]? = some r)
    (hF' : st.PolynomialDerivativeValue g strain = some F')
    (hz : zeroLengthOf st.d_zeroLength i = some z)
    (hN : st.m_coordinateSquaredNorm[i]? = some N)
    (hJ : st.m_differential[i]? = some Jold)
    (hw : st.m_weightedCoordinateDifference[i]? = some w) :
    ComputeJacobian M st g i
      = some { st with
          m_differential := st.m_differential.set i
            (jacobianLoop (F' / z) (F / r)
              (1 - st.d_smoothScale * M.exp (st.d_smoothShift - st.d_smoothScale * N)) w Jold) } := by
  have h1 := lt_length_of_getElem? _ _ _ hJ
  unfold ComputeJacobian
  simp only [hs, Option.bind_eq_bind, Option.some_bind, hF, hl, hF', hz, hN, hJ, hw,
    setAt_eq_some _ _ _ h1]
  rfl

theorem anchored_addForceSpring_eq (M : MathOps R) (p1 p0 f : List (Vec3 R))
    (st : PolynomialRestShapeSpringsForceField R) (g i a e : Nat) (x1 x0 fa : Vec3 R)
    (z F F' : R) (Jold : Vec3 R)
    (ha : st.m_indices[i]? = some a)
    (he : (if st.useRestMState then st.m_ext_indices[i]? else some a) = some e)
    (hx1 : p1[a]? = some x1) (hx0 : p0[e]? = some x0)
    (hfa : f[a]? = some fa)
    (hz : zeroLengthOf st.d_zeroLength i = some z)
    (hJ : st.m_differential[i]? = some Jold)
    (hn : i < st.m_coordinateSquaredNorm.length)
    (hs : i < st.m_strainValue.length)
    (hl : i < st.m_directionSpringLength.length)
    (hw : i < st.m_weightedCoordinateDifference.length)
    (hF : st.PolynomialValue g (norm M (x1 - x0) / z) = some F)
    (hF' : st.PolynomialDerivativeValue g (norm M (x1 - x0) / z) = some F') :
    addForceSpring M p1 p0 g (st, f) i
      = some
        ({ st with
            m_coordinateSquaredNorm := st.m_coordinateSquaredNorm.set i (dot (x1 - x0) (x1 - x0))
            m_strainValue := st.m_strainValue.set i (norm M (x1 - x0) / z)
            m_directionSpringLength := st.m_directionSpringLength.set i
              (directionLength M st.d_smoothShift st.d_smoothScale (x1 - x0))
            m_weightedCoordinateDifference := st.m_weightedCoordinateDifference.set i
              (vdiv (x1 - x0) (directionLength M st.d_smoothShift st.d_smoothScale (x1 - x0)))
            m_differential := st.m_differential.set i
              (jacobianLoop (F' / z)
                (F / directionLength M st.d_smoothShift st.d_smoothScale (x1 - x0))
                (1 - st.d_smoothScale
                  * M.exp (st.d_smoothShift - st.d_smoothScale * dot (x1 - x0) (x1 - x0)))
                (vdiv (x1 - x0) (directionLength M st.d_smoothShift st.d_smoothScale (x1 - x0)))
                Jold) },
          f.set a (fa - F • vdiv (x1 - x0)
            (directionLength M st.d_smoothShift st.d_smoothScale (x1 - x0)))) := by
  obtain ⟨st', hst, hst'⟩ : ∃ st', storeSpring M st i (x1 - x0) = some st' ∧ st' = _ :=
    ⟨_, anchored_storeSpring_eq M st i (x1 - x0) z hz hn hs hl hw, rfl⟩
  have e1 : st'.m_strainValue[i]? = some (norm M (x1 - x0) / z) := by
    rw [hst']; exact getElem?_set_self _ _ _ hs
  have e2 : st'.m_weightedCoordinateDifference[i]?
      = some (vdiv (x1 - x0) (directionLength M st.d_smoothShift st.d_smoothScale (x1 - x0))) := by
    rw [hst']; exact getElem?_set_self _ _ _ hw
  have e3 : st'.m_directionSpringLength[i]?
      = some (directionLength M st.d_smoothShift st.d_smoothScale (x1 - x0)) := by
    rw [hst']; exact getElem?_set_self _ _ _ hl
  have e4 : st'.m_coordinateSquaredNorm[i]? = some (dot (x1 - x0) (x1 - x0)) := by
    rw [hst']; exact getElem?_set_self _ _ _ hn
  have e5 : zeroLengthOf st'.d_zeroLength i = some z := by
    rw [hst']; exact hz
  have e6 : st'.m_differential[i]? = some Jold := by
    rw [hst']; exact hJ
  have eF : st'.PolynomialValue g (norm M (x1 - x0) / z) = some F := by
    rw [hst']; exact hF
  have eF' : st'.PolynomialDerivativeValue g (norm M (x1 - x0) / z) = some F' := by
    rw [hst']; exact hF'
  unfold addForceSpring
  simp only [Option.bind_eq_bind]
  rw [anchored_springVector_eq st p1 p0 i a e x1 x0 ha he hx1 hx0]
  simp only [Option.some_bind]
  rw [hst]
  simp only [Option.some_bind]
  rw [e1]
  simp only [Option.some_bind]
  rw [eF]
  simp only [Option.some_bind]
  rw [e2]
  simp only [Option.some_bind]
  rw [hfa]
  simp only [Option.some_bind]
  rw [setAt_eq_some _ _ _ (lt_length_of_getElem? _ _ _ hfa)]
  simp only [Option.some_bind]
  rw [anchored_ComputeJacobian_eq M st' g i _ F _ F' z _ Jold _ e1 eF e3 eF' e5 e4 e6 e2]
  subst hst'
  rfl

theorem zeroLengthOf_eq (zeroLength : List R) (i : Nat) (h : 0 < zeroLength.length) :
    zeroLengthOf zeroLength i
      = some (zeroLength.getD (if i < zeroLength.length then i else 0) 0) := by
  unfold zeroLengthOf
  split_ifs with hi
  · rw [List.getD_eq_getElem?_getD, List.getElem?_eq_getElem hi]
    rfl
  · rw [List.getD_eq_getElem?_getD, List.getElem?_eq_getElem h]
    rfl

theorem getElem?_set_other {α : Type} (v : List α) (a j : Nat) (x : α) (h : j ≠ a) :
    (v.set a x)[j]? = v[j]? := by
  rw [List.getElem?_set]
  rw [if_neg (fun e => h e.symm)]

theorem anchoredSpring_readable :
    GroupReadable anchoredSpring.d_polynomialStiffness anchoredSpring.d_polynomialDegree
      anchoredSpring.m_polynomialsMap 0 :=
  ⟨2, [0, 1], rfl, rfl, by
    intro k hk
    interval_cases k
    · exact ⟨0, rfl, by simp [anchoredSpring, PolynomialRestShapeSpringsForceField.configured]⟩
    · exact ⟨1, rfl, by simp [anchoredSpring, PolynomialRestShapeSpringsForceField.configured]⟩⟩

end AnchoredStep

section AnchoredJacobian

open PolynomialRestShapeSpringsForceField

theorem anchored_jacobianLoop_apply {R : Type} [LinearOrderedField R] (a b c : R)
    (w J : Vec3 R) (d : Fin 3) :
    jacobianLoop a b c w J d = (a - b) * c * w d * w d + b := by
  have e : List.finRange 3 = [0, 1, 2] := rfl
  fin_cases d <;> simp [jacobianLoop, e]

end AnchoredJacobian

section DerivativeFormula

variable {R : Type} [LinearOrderedField R]

theorem polynomialDerivativeLoop_eq_Ico (stiffness : List R) (degree : List Nat)
    (pmap : List (List Nat)) (g d : Nat) (row : List Nat) (s : R)
    (hd : degree[g]? = some d) (hrow : pmap[g]? = some row)
    (hslots : ∀ k, k < d → ∃ slot, row[k]? = some slot ∧ slot < stiffness.length) :
    polynomialDerivativeLoop stiffness degree pmap g s
      = some (∑ k in Finset.Ico 1 d, (k : R) * coeffAt stiffness row (k - 1) * s ^ (k - 1)) := by
  rw [polynomialDerivativeLoop_eq stiffness degree pmap g d row s hd hrow hslots,
    Finset.sum_Ico_eq_sum_range]
  congr 1
  apply Finset.sum_congr rfl
  intro k _
  rw [Nat.add_sub_cancel_left, Nat.add_comm]

/-- C18. `PolynomialDerivativeValue(g, s)` of the interaction field and of the
anchored field is the sum over `k = 1 .. degree[g]-1` of
`k * stiffness[slot(g,k-1)] * s^(k-1)`, where `slot(g,k)` is entry `k` of row
`g` of the table, whenever group `g` exists and its slots lie inside the
stiffness array; for a group of degree `1` the value is `0`. -/
theorem PolynomialDerivativeValue_eq_sum (sti : PolynomialSpringsForceField R)
    (sta : PolynomialRestShapeSpringsForceField R) (g d : Nat) (row : List Nat) (s : R)
    (hS : sta.d_polynomialStiffness = sti.d_polynomialStiffness)
    (hD : sta.d_polynomialDegree = sti.d_polynomialDegree)
    (hM : sta.m_polynomialsMap = sti.m_polynomialsMap)
    (hd : sti.d_polynomialDegree[g]? = some d) (hrow : sti.m_polynomialsMap[g]? = some row)
    (hslots : ∀ k, k < d →
      ∃ slot, row[k]? = some slot ∧ slot < sti.d_polynomialStiffness.length) :
    sti.PolynomialDerivativeValue g s
        = some (∑ k in Finset.Ico 1 d,
            (k : R) * coeffAt sti.d_polynomialStiffness row (k - 1) * s ^ (k - 1))
    ∧ sta.PolynomialDerivativeValue g s
        = some (∑ k in Finset.Ico 1 d,
            (k : R) * coeffAt sti.d_polynomialStiffness row (k - 1) * s ^ (k - 1))
    ∧ (d = 1 → sti.PolynomialDerivativeValue g s = some 0
        ∧ sta.PolynomialDerivativeValue g s = some 0) := by
  have h1 : sti.PolynomialDerivativeValue g s
      = some (∑ k in Finset.Ico 1 d,
          (k : R) * coeffAt sti.d_polynomialStiffness row (k - 1) * s ^ (k - 1)) :=
    polynomialDerivativeLoop_eq_Ico _ _ _ g d row s hd hrow hslots
  have h2 : sta.PolynomialDerivativeValue g s
      = some (∑ k in Finset.Ico 1 d,
          (k : R) * coeffAt sti.d_polynomialStiffness row (k - 1) * s ^ (k - 1)) := by
    unfold PolynomialRestShapeSpringsForceField.PolynomialDerivativeValue
    rw [hS, hD, hM]
    exact polynomialDerivativeLoop_eq_Ico _ _ _ g d row s hd hrow hslots
  refine ⟨h1, h2, ?_⟩
  intro h
  rw [h1, h2, h]
  simp

theorem PolynomialDerivativeValue_eq_sum_witness :
    cubicInteraction.PolynomialDerivativeValue 0 2 = some 14
    ∧ cubicAnchored.PolynomialDerivativeValue 0 2 = some 14 := by
  have h := PolynomialDerivativeValue_eq_sum cubicInteraction cubicAnchored 0 3 [0, 1, 2] 2
    rfl rfl rfl rfl rfl
    (by
      intro k hk
      interval_cases k <;> simp [cubicInteraction, PolynomialSpringsForceField.configured])
  have e : (∑ k in Finset.Ico (1 : Nat) 3,
      ((k : Nat) : ℚ) * coeffAt cubicInteraction.d_polynomialStiffness [0, 1, 2] (k - 1)
        * (2 : ℚ) ^ (k - 1)) = 14 := by
    rw [Finset.sum_Ico_eq_sum_range]
    simp [Finset.sum_range_succ, coeffAt, cubicInteraction,
      PolynomialSpringsForceField.configured]
    norm_num
  rw [e] at h
  exact ⟨h.1, h.2.1⟩

end DerivativeFormula

section Regularisation

open PolynomialRestShapeSpringsForceField

theorem dot_self_nonneg (v : Vec3 ℝ) : 0 ≤ dot v v := by
  simp only [dot]
  nlinarith [mul_self_nonneg (v 0), mul_self_nonneg (v 1), mul_self_nonneg (v 2)]

theorem regularised_pos (shift scale : ℝ) (dx : Vec3 ℝ) :
    0 < dot dx dx + Real.exp (shift - scale * dot dx dx) :=
  add_pos_of_nonneg_of_pos (dot_self_nonneg dx) (Real.exp_pos _)

/-- C15. Over the reals, for every spring of anchored `addForce` whose accesses
are in bounds, whatever the spring vector `dx = p1[a] - p0[e]` (also `dx = 0`)
and the shift and scale: the regularised squared length
`dx.dx + exp(shift - scale * dx.dx)` is strictly positive, the stored length
`r` is its square root and is strictly positive, the stored direction is
`dx / r`, and for `dx = 0` the stored direction is the zero vector. -/
theorem anchored_direction_regularised (p1 p0 f : List (Vec3 ℝ))
    (st : PolynomialRestShapeSpringsForceField ℝ) (g i a e : Nat) (x1 x0 fa : Vec3 ℝ)
    (ha : st.m_indices[i]? = some a)
    (he : (if st.useRestMState then st.m_ext_indices[i]? else some a) = some e)
    (hx1 : p1[a]? = some x1) (hx0 : p0[e]? = some x0)
    (hfa : f[a]? = some fa)
    (hz : 0 < st.d_zeroLength.length)
    (hJ : i < st.m_differential.length)
    (hn : i < st.m_coordinateSquaredNorm.length)
    (hs : i < st.m_strainValue.length)
    (hl : i < st.m_directionSpringLength.length)
    (hw : i < st.m_weightedCoordinateDifference.length)
    (hG : GroupReadable st.d_polynomialStiffness st.d_polynomialDegree st.m_polynomialsMap g) :
    ∃ st' f' r,
      addForceSpring realOps p1 p0 g (st, f) i = some (st', f')
      ∧ 0 < dot (x1 - x0) (x1 - x0)
          + Real.exp (st.d_smoothShift - st.d_smoothScale * dot (x1 - x0) (x1 - x0))
      ∧ r = Real.sqrt (dot (x1 - x0) (x1 - x0)
          + Real.exp (st.d_smoothShift - st.d_smoothScale * dot (x1 - x0) (x1 - x0)))
      ∧ 0 < r
      ∧ st'.m_directionSpringLength[i]? = some r
      ∧ st'.m_weightedCoordinateDifference[i]? = some (vdiv (x1 - x0) r)
      ∧ (x1 = x0 → st'.m_weightedCoordinateDifference[i]? = some 0) := by
  have hzl := zeroLengthOf_eq st.d_zeroLength i hz
  obtain ⟨F, hF⟩ := hG.value
    (norm realOps (x1 - x0)
      / st.d_zeroLength.getD (if i < st.d_zeroLength.length then i else 0) 0)
  obtain ⟨F', hF'⟩ := hG.derivative
    (norm realOps (x1 - x0)
      / st.d_zeroLength.getD (if i < st.d_zeroLength.length then i else 0) 0)
  obtain ⟨Jold, hJold⟩ : ∃ J, st.m_differential[i]? = some J := ⟨_, List.getElem?_eq_getElem hJ⟩
  have h := anchored_addForceSpring_eq realOps p1 p0 f st g i a e x1 x0 fa _ F F' Jold ha he
    hx1 hx0 hfa hzl hJold hn hs hl hw hF hF'
  have hpos := regularised_pos st.d_smoothShift st.d_smoothScale (x1 - x0)
  have hw' := getElem?_set_self st.m_weightedCoordinateDifference i
    (vdiv (x1 - x0) (directionLength realOps st.d_smoothShift st.d_smoothScale (x1 - x0))) hw
  refine ⟨_, _, _, h, hpos, rfl, Real.sqrt_pos.mpr hpos, ?_, hw', ?_⟩
  · exact getElem?_set_self _ _ _ hl
  · intro h0
    have hv : vdiv (x1 - x0)
        (directionLength realOps st.d_smoothShift st.d_smoothScale (x1 - x0)) = 0 := by
      funext k
      simp [vdiv, h0]
    rw [← hv]
    exact hw'

theorem anchored_direction_regularised_witness :
    ∃ st' f' r,
      addForceSpring realOps [0] [0] 0 (anchoredSpring, [0]) 0 = some (st', f')
      ∧ 0 < dot ((0 : Vec3 ℝ) - 0) (0 - 0)
          + Real.exp (anchoredSpring.d_smoothShift
              - anchoredSpring.d_smoothScale * dot ((0 : Vec3 ℝ) - 0) (0 - 0))
      ∧ r = Real.sqrt (dot ((0 : Vec3 ℝ) - 0) (0 - 0)
          + Real.exp (anchoredSpring.d_smoothShift
              - anchoredSpring.d_smoothScale * dot ((0 : Vec3 ℝ) - 0) (0 - 0)))
      ∧ 0 < r
      ∧ st'.m_directionSpringLength[0]? = some r
      ∧ st'.m_weightedCoordinateDifference[0]? = some (vdiv ((0 : Vec3 ℝ) - 0) r)
      ∧ ((0 : Vec3 ℝ) = 0 → st'.m_weightedCoordinateDifference[0]? = some 0) :=
  anchored_direction_regularised [0] [0] [0] anchoredSpring 0 0 0 0 0 0 0 rfl rfl rfl rfl rfl
    (by simp [anchoredSpring, PolynomialRestShapeSpringsForceField.configured])
    (by simp [anchoredSpring, PolynomialRestShapeSpringsForceField.configured])
    (by simp [anchoredSpring, PolynomialRestShapeSpringsForceField.configured])
    (by simp [anchoredSpring, PolynomialRestShapeSpringsForceField.configured])
    (by simp [anchoredSpring, PolynomialRestShapeSpringsForceField.configured])
    (by simp [anchoredSpring, PolynomialRestShapeSpringsForceField.configured])
    anchoredSpring_readable

end Regularisation

section IndexResolution

variable {R : Type}

theorem recomputeIndices_interaction (st : PolynomialSpringsForceField R) :
    (st.recomputeIndices.m_firstObjectIndices, st.recomputeIndices.m_secondObjectIndices)
      = if (if st.d_firstObjectPoints = [] then List.range st.mstate1Size
              else st.d_firstObjectPoints).length
            > (if st.d_secondObjectPoints = [] then List.range st.mstate2Size
              else st.d_secondObjectPoints).length
        then ([], [])
        else (if st.d_firstObjectPoints = [] then List.range st.mstate1Size
                else st.d_firstObjectPoints,
              if st.d_secondObjectPoints = [] then List.range st.mstate2Size
                else st.d_secondObjectPoints) := by
  unfold PolynomialSpringsForceField.recomputeIndices
  simp only [List.length_eq_zero]
  split_ifs <;> rfl

theorem recomputeIndices_anchored (st : PolynomialRestShapeSpringsForceField R)
    (p0 : List (Vec3 R)) (hp0 : st.useRestMState = true → st.restMState = some p0) :
    ∃ st', st.recomputeIndices = some st'
      ∧ (st'.m_indices, st'.m_ext_indices)
        = if (if st.points = [] then List.range st.mstateSize else st.points).length
            > (if st.external_points = [] then
                List.range (if st.useRestMState then p0.length else st.mstateSize)
              else st.external_points).length
          then ([], [])
          else (if st.points = [] then List.range st.mstateSize else st.points,
                if st.external_points = [] then
                  List.range (if st.useRestMState then p0.length else st.mstateSize)
                else st.external_points) := by
  unfold PolynomialRestShapeSpringsForceField.recomputeIndices
    PolynomialRestShapeSpringsForceField.getExtPosition
  by_cases hu : st.useRestMState = true
  · simp only [hu, hp0 hu, if_true, List.isEmpty_iff, Option.bind_eq_bind, Option.some_bind,
      Option.pure_def]
    split_ifs <;> simp_all
  · simp only [hu, if_false, List.isEmpty_iff, Option.bind_eq_bind, Option.some_bind,
      Option.pure_def, Bool.false_eq_true]
    split_ifs <;> simp_all

/-- C13 (as amended). Index resolution, both variants, when the first count
after default substitution does not exceed the second: each side's resolved
list is the explicit input list when that input is non-empty and the identity
list `[0, ..., n-1]` over that side's point count `n` when it is empty (for the
anchored reference side `n` is the size of the external rest state when one is
used, the owner's size otherwise); in particular with both inputs empty the
resolved lists are `[0..nA)` and `[0..nB)`. -/
theorem recomputeIndices_resolved (sti : PolynomialSpringsForceField R)
    (sta : PolynomialRestShapeSpringsForceField R) (p0 : List (Vec3 R))
    (hp0 : sta.useRestMState = true → sta.restMState = some p0)
    (hI : (if sti.d_firstObjectPoints = [] then List.range sti.mstate1Size
            else sti.d_firstObjectPoints).length
        ≤ (if sti.d_secondObjectPoints = [] then List.range sti.mstate2Size
            else sti.d_secondObjectPoints).length)
    (hA : (if sta.points = [] then List.range sta.mstateSize else sta.points).length
        ≤ (if sta.external_points = [] then
              List.range (if sta.useRestMState then p0.length else sta.mstateSize)
            else sta.external_points).length) :
    (sti.d_firstObjectPoints ≠ [] →
        sti.recomputeIndices.m_firstObjectIndices = sti.d_firstObjectPoints)
    ∧ (sti.d_firstObjectPoints = [] →
        sti.recomputeIndices.m_firstObjectIndices = List.range sti.mstate1Size)
    ∧ (sti.d_secondObjectPoints ≠ [] →
        sti.recomputeIndices.m_secondObjectIndices = sti.d_secondObjectPoints)
    ∧ (sti.d_secondObjectPoints = [] →
        sti.recomputeIndices.m_secondObjectIndices = List.range sti.mstate2Size)
    ∧ ∃ sta', sta.recomputeIndices = some sta'
      ∧ (sta.points ≠ [] → sta'.m_indices = sta.points)
      ∧ (sta.points = [] → sta'.m_indices = List.range sta.mstateSize)
      ∧ (sta.external_points ≠ [] → sta'.m_ext_indices = sta.external_points)
      ∧ (sta.external_points = [] → sta.useRestMState = true →
          sta'.m_ext_indices = List.range p0.length)
      ∧ (sta.external_points = [] → sta.useRestMState = false →
          sta'.m_ext_indices = List.range sta.mstateSize) := by
  have h1 := recomputeIndices_interaction sti
  rw [if_neg (not_lt.mpr hI)] at h1
  have h1a := congrArg Prod.fst h1
  have h1b := congrArg Prod.snd h1
  simp only at h1a h1b
  obtain ⟨sta', h2, h3⟩ := recomputeIndices_anchored sta p0 hp0
  rw [if_neg (not_lt.mpr hA)] at h3
  have h3a := congrArg Prod.fst h3
  have h3b := congrArg Prod.snd h3
  simp only at h3a h3b
  refine ⟨fun h => ?_, fun h => ?_, fun h => ?_, fun h => ?_, sta', h2, fun h => ?_,
    fun h => ?_, fun h => ?_, fun h hu => ?_, fun h hu => ?_⟩
  · rw [h1a, if_neg h]
  · rw [h1a, if_pos h]
  · rw [h1b, if_neg h]
  · rw [h1b, if_pos h]
  · rw [h3a, if_neg h]
  · rw [h3a, if_pos h]
  · rw [h3b, if_neg h]
  · rw [h3b, if_pos h, if_pos hu]
  · rw [h3b, if_pos h, hu]
    rfl

theorem recomputeIndices_resolved_witness :
    ((PolynomialSpringsForceField.configured [] [4, 5] ([] : List ℚ) [] 0 [] false false 2 9
        ).d_firstObjectPoints ≠ [] →
        (PolynomialSpringsForceField.configured [] [4, 5] ([] : List ℚ) [] 0 [] false false 2 9
          ).recomputeIndices.m_firstObjectIndices = [])
    ∧ ((PolynomialSpringsForceField.configured [] [4, 5] ([] : List ℚ) [] 0 [] false false 2 9
        ).d_firstObjectPoints = [] →
        (PolynomialSpringsForceField.configured [] [4, 5] ([] : List ℚ) [] 0 [] false false 2 9
          ).recomputeIndices.m_firstObjectIndices = List.range 2)
    ∧ ((PolynomialSpringsForceField.configured [] [4, 5] ([] : List ℚ) [] 0 [] false false 2 9
        ).d_secondObjectPoints ≠ [] →
        (PolynomialSpringsForceField.configured [] [4, 5] ([] : List ℚ) [] 0 [] false false 2 9
          ).recomputeIndices.m_secondObjectIndices = [4, 5])
    ∧ ((PolynomialSpringsForceField.configured [] [4, 5] ([] : List ℚ) [] 0 [] false false 2 9
        ).d_secondObjectPoints = [] →
        (PolynomialSpringsForceField.configured [] [4, 5] ([] : List ℚ) [] 0 [] false false 2 9
          ).recomputeIndices.m_secondObjectIndices = List.range 9)
    ∧ ∃ sta', cubicAnchored.recomputeIndices = some sta'
      ∧ (cubicAnchored.points ≠ [] → sta'.m_indices = cubicAnchored.points)
      ∧ (cubicAnchored.points = [] → sta'.m_indices = List.range cubicAnchored.mstateSize)
      ∧ (cubicAnchored.external_points ≠ [] →
          sta'.m_ext_indices = cubicAnchored.external_points)
      ∧ (cubicAnchored.external_points = [] → cubicAnchored.useRestMState = true →
          sta'.m_ext_indices = List.range ([] : List (Vec3 ℚ)).length)
      ∧ (cubicAnchored.external_points = [] → cubicAnchored.useRestMState = false →
          sta'.m_ext_indices = List.range cubicAnchored.mstateSize) :=
  recomputeIndices_resolved
    (PolynomialSpringsForceField.configured [] [4, 5] ([] : List ℚ) [] 0 [] false false 2 9)
    cubicAnchored [] (by simp [cubicAnchored, PolynomialRestShapeSpringsForceField.configured])
    (by simp [PolynomialSpringsForceField.configured])
    (by simp [cubicAnchored, PolynomialRestShapeSpringsForceField.configured])

/-- C13 (counterexample). Interaction field with the explicit inputs `[0, 1]`
and `[0]` (both non-empty): after `recomputeIndices` the first resolved list is
empty, not the explicit input `[0, 1]`, and the second is empty, not `[0]`. -/
theorem recomputeIndices_cleared_counterexample :
    (PolynomialSpringsForceField.configured [0, 1] [0] ([] : List ℚ) [] 0 [] false false 2 2
      ).d_firstObjectPoints = [0, 1]
    ∧ (PolynomialSpringsForceField.configured [0, 1] [0] ([] : List ℚ) [] 0 [] false false 2 2
      ).d_secondObjectPoints = [0]
    ∧ (PolynomialSpringsForceField.configured [0, 1] [0] ([] : List ℚ) [] 0 [] false false 2 2
      ).recomputeIndices.m_firstObjectIndices = []
    ∧ (PolynomialSpringsForceField.configured [0, 1] [0] ([] : List ℚ) [] 0 [] false false 2 2
      ).recomputeIndices.m_secondObjectIndices = []
    ∧ (PolynomialSpringsForceField.configured [0, 1] [0] ([] : List ℚ) [] 0 [] false false 2 2
      ).recomputeIndices.m_firstObjectIndices ≠ [0, 1] := by
  refine ⟨rfl, rfl, ?_, ?_, ?_⟩ <;>
    simp [PolynomialSpringsForceField.recomputeIndices, PolynomialSpringsForceField.configured]

/-- C14 (as amended). After `recomputeIndices` (either variant), for all
explicit inputs and point-set sizes, the first resolved list is not longer than
the second; whenever the first count obtained after default substitution
exceeds the second, both resolved lists are empty, and otherwise the resolved
lists have these two counts. -/
theorem recomputeIndices_lengths (sti : PolynomialSpringsForceField R)
    (sta : PolynomialRestShapeSpringsForceField R) (p0 : List (Vec3 R))
    (hp0 : sta.useRestMState = true → sta.restMState = some p0) :
    sti.recomputeIndices.m_firstObjectIndices.length
        ≤ sti.recomputeIndices.m_secondObjectIndices.length
    ∧ ((if sti.d_firstObjectPoints = [] then sti.mstate1Size
          else sti.d_firstObjectPoints.length)
        > (if sti.d_secondObjectPoints = [] then sti.mstate2Size
          else sti.d_secondObjectPoints.length) →
        sti.recomputeIndices.m_firstObjectIndices = []
        ∧ sti.recomputeIndices.m_secondObjectIndices = [])
    ∧ ((if sti.d_firstObjectPoints = [] then sti.mstate1Size
          else sti.d_firstObjectPoints.length)
        ≤ (if sti.d_secondObjectPoints = [] then sti.mstate2Size
          else sti.d_secondObjectPoints.length) →
        sti.recomputeIndices.m_firstObjectIndices.length
          = (if sti.d_firstObjectPoints = [] then sti.mstate1Size
              else sti.d_firstObjectPoints.length)
        ∧ sti.recomputeIndices.m_secondObjectIndices.length
          = (if sti.d_secondObjectPoints = [] then sti.mstate2Size
              else sti.d_secondObjectPoints.length))
    ∧ ∃ sta', sta.recomputeIndices = some sta'
      ∧ sta'.m_indices.length ≤ sta'.m_ext_indices.length
      ∧ ((if sta.points = [] then sta.mstateSize else sta.points.length)
          > (if sta.external_points = [] then
                (if sta.useRestMState then p0.length else sta.mstateSize)
              else sta.external_points.length) →
          sta'.m_indices = [] ∧ sta'.m_ext_indices = [])
      ∧ ((if sta.points = [] then sta.mstateSize else sta.points.length)
          ≤ (if sta.external_points = [] then
                (if sta.useRestMState then p0.length else sta.mstateSize)
              else sta.external_points.length) →
          sta'.m_indices.length = (if sta.points = [] then sta.mstateSize else sta.points.length)
          ∧ sta'.m_ext_indices.length
            = (if sta.external_points = [] then
                (if sta.useRestMState then p0.length else sta.mstateSize)
              else sta.external_points.length)) := by
  have e1 : (if sti.d_firstObjectPoints = [] then List.range sti.mstate1Size
      else sti.d_firstObjectPoints).length
      = (if sti.d_firstObjectPoints = [] then sti.mstate1Size
          else sti.d_firstObjectPoints.length) := by
    split_ifs <;> simp
  have e2 : (if sti.d_secondObjectPoints = [] then List.range sti.mstate2Size
      else sti.d_secondObjectPoints).length
      = (if sti.d_secondObjectPoints = [] then sti.mstate2Size
          else sti.d_secondObjectPoints.length) := by
    split_ifs <;> simp
  have e3 : (if sta.points = [] then List.range sta.mstateSize else sta.points).length
      = (if sta.points = [] then sta.mstateSize else sta.points.length) := by
    split_ifs <;> simp
  have e4 : (if sta.external_points = [] then
        List.range (if sta.useRestMState then p0.length else sta.mstateSize)
      else sta.external_points).length
      = (if sta.external_points = [] then
          (if sta.useRestMState then p0.length else sta.mstateSize)
        else sta.external_points.length) := by
    split_ifs <;> simp
  have h1 := recomputeIndices_interaction sti
  obtain ⟨sta', h2, h3⟩ := recomputeIndices_anchored sta p0 hp0
  rw [e1, e2] at h1
  rw [e3, e4] at h3
  have h1a := congrArg Prod.fst h1
  have h1b := congrArg Prod.snd h1
  have h3a := congrArg Prod.fst h3
  have h3b := congrArg Prod.snd h3
  simp only at h1a h1b h3a h3b
  refine ⟨?_, fun h => ?_, fun h => ?_, sta', h2, ?_, fun h => ?_, fun h => ?_⟩
  · by_cases h : (if sti.d_firstObjectPoints = [] then sti.mstate1Size
        else sti.d_firstObjectPoints.length)
      > (if sti.d_secondObjectPoints = [] then sti.mstate2Size
        else sti.d_secondObjectPoints.length)
    · rw [h1a, h1b, if_pos h]
    · rw [h1a, h1b, if_neg h]
      exact le_of_eq_of_le e1 ((not_lt.mp h).trans_eq e2.symm)
  · rw [h1a, h1b, if_pos h]
    exact ⟨rfl, rfl⟩
  · rw [h1a, h1b, if_neg (not_lt.mpr h)]
    exact ⟨e1, e2⟩
  · by_cases h : (if sta.points = [] then sta.mstateSize else sta.points.length)
      > (if sta.external_points = [] then
            (if sta.useRestMState then p0.length else sta.mstateSize)
          else sta.external_points.length)
    · rw [h3a, h3b, if_pos h]
    · rw [h3a, h3b, if_neg h]
      exact le_of_eq_of_le e3 ((not_lt.mp h).trans_eq e4.symm)
  · rw [h3a, h3b, if_pos h]
    exact ⟨rfl, rfl⟩
  · rw [h3a, h3b, if_neg (not_lt.mpr h)]
    exact ⟨e3, e4⟩

theorem recomputeIndices_lengths_witness :
    (PolynomialSpringsForceField.configured [] [] ([] : List ℚ) [] 0 [] false false 1 2
      ).recomputeIndices.m_firstObjectIndices.length
        ≤ (PolynomialSpringsForceField.configured [] [] ([] : List ℚ) [] 0 [] false false 1 2
          ).recomputeIndices.m_secondObjectIndices.length
    ∧ ∃ sta', cubicAnchored.recomputeIndices = some sta'
      ∧ sta'.m_indices.length ≤ sta'.m_ext_indices.length := by
  obtain ⟨h1, -, -, sta', h2, h3, -⟩ := recomputeIndices_lengths
    (PolynomialSpringsForceField.configured [] [] ([] : List ℚ) [] 0 [] false false 1 2)
    cubicAnchored [] (by simp [cubicAnchored, PolynomialRestShapeSpringsForceField.configured])
  exact ⟨h1, sta', h2, h3⟩

/-- C14 (counterexample). Interaction field with both explicit inputs empty and
point-set sizes `1` and `2`: after `recomputeIndices` the resolved lists are
`[0]` and `[0, 1]`; the counts differ, the lists have different lengths and
neither is empty. -/
theorem recomputeIndices_unequal_counterexample :
    (PolynomialSpringsForceField.configured [] [] ([] : List ℚ) [] 0 [] false false 1 2
      ).recomputeIndices.m_firstObjectIndices = [0]
    ∧ (PolynomialSpringsForceField.configured [] [] ([] : List ℚ) [] 0 [] false false 1 2
      ).recomputeIndices.m_secondObjectIndices = [0, 1]
    ∧ (PolynomialSpringsForceField.configured [] [] ([] : List ℚ) [] 0 [] false false 1 2
      ).recomputeIndices.m_firstObjectIndices.length
      ≠ (PolynomialSpringsForceField.configured [] [] ([] : List ℚ) [] 0 [] false false 1 2
        ).recomputeIndices.m_secondObjectIndices.length := by
  refine ⟨?_, ?_, ?_⟩ <;>
    simp [PolynomialSpringsForceField.recomputeIndices, PolynomialSpringsForceField.configured,
      List.range_succ]

end IndexResolution

section Assembly

variable {R : Type} [LinearOrderedField R]

theorem store_add_some (store : MatrixStore R) (address i j : Nat) (v : R) :
    ∃ s', store.add (some address) i j v = some s'
      ∧ (∀ r c, s' address r c = store address r c + if r = i ∧ c = j then v else 0)
      ∧ ∀ a, a ≠ address → s' a = store a := by
  refine ⟨_, rfl, ?_, ?_⟩
  · intro r c
    simp only [Function.update_same, BaseMatrix.add]
    split_ifs <;> simp
  · intro a ha
    exact Function.update_noteq ha _ _

theorem foldlM_store_adds {β : Type} (address : Nat)
    (f : MatrixStore R → β → Option (MatrixStore R)) (g : β → Nat → Nat → R) (l : List β)
    (hf : ∀ x ∈ l, ∀ s, ∃ s', f s x = some s'
      ∧ (∀ r c, s' address r c = s address r c + g x r c)
      ∧ ∀ a, a ≠ address → s' a = s a) :
    ∀ s, ∃ s', l.foldlM f s = some s'
      ∧ (∀ r c, s' address r c = s address r c + (l.map (fun x => g x r c)).sum)
      ∧ ∀ a, a ≠ address → s' a = s a := by
  induction l with
  | nil =>
    intro s
    exact ⟨s, rfl, fun r c => by simp, fun _ _ => rfl⟩
  | cons x l ih =>
    intro s
    obtain ⟨s1, h1, h2, h3⟩ := hf x (List.mem_cons_self x l) s
    obtain ⟨s2, k1, k2, k3⟩ := ih (fun y hy => hf y (List.mem_cons_of_mem x hy)) s1
    refine ⟨s2, ?_, ?_, ?_⟩
    · rw [List.foldlM_cons, h1]
      exact k1
    · intro r c
      rw [k2, h2, List.map_cons, List.sum_cons, add_assoc]
    · intro a ha
      rw [k3 a ha, h3 a ha]

theorem list_sum_range (f : Nat → R) (n : Nat) :
    ((List.range n).map f).sum = ∑ i in Finset.range n, f i := by
  induction n with
  | zero => simp
  | succ n ih => rw [List.range_succ, List.map_append, List.sum_append, ih,
      Finset.sum_range_succ]; simp

theorem sum_finRange_three (f : Fin 3 → R) :
    ((List.finRange 3).map f).sum = ∑ i : Fin 3, f i := by
  have e : List.finRange 3 = [0, 1, 2] := rfl
  rw [e, Fin.sum_univ_three]
  simp [add_assoc]

end Assembly

section InteractionAssembly

variable {R : Type} [LinearOrderedField R]

open PolynomialSpringsForceField

theorem addKToMatrixEntry_adds (mref : MatrixRef) (address a b : Nat) (i j : Fin 3) (v : R)
    (hm : mref.matrix = some address) (s : MatrixStore R) :
    ∃ s', addKToMatrixEntry mref a b i j v s = some s'
      ∧ (∀ r c, s' address r c = s address r c
          + ((if r = mref.offset + 3 * a + i ∧ c = mref.offset + 3 * a + j then -v else 0)
            + (if r = mref.offset + 3 * a + i ∧ c = mref.offset + 3 * b + j then v else 0)
            + (if r = mref.offset + 3 * b + i ∧ c = mref.offset + 3 * a + j then v else 0)
            + (if r = mref.offset + 3 * b + i ∧ c = mref.offset + 3 * b + j then -v else 0)))
      ∧ ∀ x, x ≠ address → s' x = s x := by
  obtain ⟨s1, h1, e1, o1⟩ := store_add_some s address (mref.offset + 3 * a + i)
    (mref.offset + 3 * a + j) (-v)
  obtain ⟨s2, h2, e2, o2⟩ := store_add_some s1 address (mref.offset + 3 * a + i)
    (mref.offset + 3 * b + j) v
  obtain ⟨s3, h3, e3, o3⟩ := store_add_some s2 address (mref.offset + 3 * b + i)
    (mref.offset + 3 * a + j) v
  obtain ⟨s4, h4, e4, o4⟩ := store_add_some s3 address (mref.offset + 3 * b + i)
    (mref.offset + 3 * b + j) (-v)
  refine ⟨s4, ?_, ?_, ?_⟩
  · unfold addKToMatrixEntry
    rw [hm, h1]
    simp only [Option.bind_eq_bind, Option.some_bind]
    rw [h2]
    simp only [Option.some_bind]
    rw [h3]
    simp only [Option.some_bind]
    exact h4
  · intro r c
    rw [e4, e3, e2, e1]
    ring
  · intro x hx
    rw [o4 x hx, o3 x hx, o2 x hx, o1 x hx]

theorem addKToMatrixSpring_adds (st : PolynomialSpringsForceField R) (kFact : R)
    (mref : MatrixRef) (address index a b : Nat) (J : Mat3 R)
    (hm : mref.matrix = some address)
    (ha : st.m_firstObjectIndices[index]? = some a)
    (hb : st.m_secondObjectIndices[index]? = some b)
    (hJ : st.m_differential[index]? = some J) (s : MatrixStore R) :
    ∃ s', addKToMatrixSpring st kFact (addKToMatrixEntry mref) s index = some s'
      ∧ (∀ r c, s' address r c = s address r c + springBlocks kFact mref.offset a b J r c)
      ∧ ∀ x, x ≠ address → s' x = s x := by
  have inner : ∀ i : Fin 3, ∀ s : MatrixStore R, ∃ s',
      (List.finRange 3).foldlM
        (fun store j => addKToMatrixEntry mref a b i j (J i j * kFact) store) s = some s'
      ∧ (∀ r c, s' address r c = s address r c
          + ((List.finRange 3).map (fun j : Fin 3 =>
            ((if r = mref.offset + 3 * a + i ∧ c = mref.offset + 3 * a + j
                then -(J i j * kFact) else 0)
            + (if r = mref.offset + 3 * a + i ∧ c = mref.offset + 3 * b + j
                then J i j * kFact else 0)
            + (if r = mref.offset + 3 * b + i ∧ c = mref.offset + 3 * a + j
                then J i j * kFact else 0)
            + (if r = mref.offset + 3 * b + i ∧ c = mref.offset + 3 * b + j
                then -(J i j * kFact) else 0)))).sum)
      ∧ ∀ x, x ≠ address → s' x = s x := by
    intro i
    exact foldlM_store_adds address _ _ _
      (fun j _ s => addKToMatrixEntry_adds mref address a b i j (J i j * kFact) hm s)
  obtain ⟨s', h1, h2, h3⟩ := foldlM_store_adds address
    (fun store i => (List.finRange 3).foldlM
      (fun store j => addKToMatrixEntry mref a b i j (J i j * kFact) store) store)
    _ (List.finRange 3) (fun i _ s => inner i s) s
  refine ⟨s', ?_, ?_, h3⟩
  · unfold addKToMatrixSpring
    simp only [ha, hb, hJ, Option.bind_eq_bind, Option.some_bind]
    exact h1
  · intro r c
    rw [h2, sum_finRange_three, springBlocks]
    congr 1
    apply Finset.sum_congr rfl
    intro i _
    rw [sum_finRange_three]
    apply Finset.sum_congr rfl
    intro j _
    rw [mul_comm (J i j) kFact]

end InteractionAssembly

section BlockEntries

variable {R : Type} [LinearOrderedField R]

theorem block_sum (offset x y x' y' : Nat) (i' j' : Fin 3) (v : Fin 3 → Fin 3 → R) :
    (∑ i : Fin 3, ∑ j : Fin 3,
      if offset + 3 * x' + i' = offset + 3 * x + i ∧ offset + 3 * y' + j' = offset + 3 * y + j
      then v i j else 0)
      = if x' = x ∧ y' = y then v i' j' else 0 := by
  have hi' := i'.isLt
  have hj' := j'.isLt
  by_cases h : x' = x ∧ y' = y
  · rw [if_pos h]
    obtain ⟨hx, hy⟩ := h
    subst hx
    subst hy
    rw [Finset.sum_eq_single i', Finset.sum_eq_single j']
    · rw [if_pos ⟨rfl, rfl⟩]
    · intro j _ hj
      rw [if_neg]
      rintro ⟨-, h2⟩
      apply hj
      apply Fin.ext
      omega
    · intro h
      exact absurd (Finset.mem_univ _) h
    · intro i _ hi
      apply Finset.sum_eq_zero
      intro j _
      rw [if_neg]
      rintro ⟨h1, -⟩
      apply hi
      apply Fin.ext
      omega
    · intro h
      exact absurd (Finset.mem_univ _) h
  · rw [if_neg h]
    apply Finset.sum_eq_zero
    intro i _
    apply Finset.sum_eq_zero
    intro j _
    rw [if_neg]
    rintro ⟨h1, h2⟩
    have hi := i.isLt
    have hj := j.isLt
    apply h
    constructor <;> omega

theorem springBlocks_block (kFact : R) (offset a b a' b' : Nat) (J : Mat3 R) (i' j' : Fin 3) :
    springBlocks kFact offset a b J (offset + 3 * a' + i') (offset + 3 * b' + j')
      = (if a' = a ∧ b' = a then -(kFact * J i' j') else 0)
        + (if a' = a ∧ b' = b then kFact * J i' j' else 0)
        + (if a' = b ∧ b' = a then kFact * J i' j' else 0)
        + (if a' = b ∧ b' = b then -(kFact * J i' j') else 0) := by
  unfold springBlocks
  simp only [Finset.sum_add_distrib]
  rw [block_sum offset a a a' b' i' j' (fun i j => -(kFact * J i j)),
    block_sum offset a b a' b' i' j' (fun i j => kFact * J i j),
    block_sum offset b a a' b' i' j' (fun i j => kFact * J i j),
    block_sum offset b b a' b' i' j' (fun i j => -(kFact * J i j))]

end BlockEntries

section InteractionAssemblyCall

variable {R : Type} [LinearOrderedField R]

open PolynomialSpringsForceField

theorem getElem?_eq_some_getD {α : Type} (l : List α) (i : Nat) (d : α) (h : i < l.length) :
    l[i]? = some (l.getD i d) := by
  rw [List.getD_eq_getElem?_getD, List.getElem?_eq_getElem h]
  rfl

theorem addKToMatrix_same_adds (st : PolynomialSpringsForceField R) (kFact : R)
    (mref11 mref22 : MatrixRef) (mref12 mref21 : InteractionMatrixRef) (address : Nat)
    (hm : mref11.matrix = some address)
    (h2 : st.m_firstObjectIndices.length ≤ st.m_secondObjectIndices.length)
    (hJ : st.m_firstObjectIndices.length ≤ st.m_differential.length) (s : MatrixStore R) :
    ∃ s', st.addKToMatrix kFact true mref11 mref22 mref12 mref21 s = some s'
      ∧ (∀ r c, s' address r c = s address r c
          + ∑ index in Finset.range st.m_firstObjectIndices.length,
              springBlocks kFact mref11.offset (st.m_firstObjectIndices.getD index 0)
                (st.m_secondObjectIndices.getD index 0) (st.m_differential.getD index 0) r c)
      ∧ ∀ x, x ≠ address → s' x = s x := by
  unfold PolynomialSpringsForceField.addKToMatrix
  rw [if_pos rfl, hm]
  simp only [Option.isNone_some, Bool.false_eq_true, if_false, ← list_sum_range]
  apply foldlM_store_adds address
  intro index hindex s
  have hlt := List.mem_range.mp hindex
  exact addKToMatrixSpring_adds st kFact mref11 address index _ _ _ hm
    (getElem?_eq_some_getD _ _ 0 hlt) (getElem?_eq_some_getD _ _ 0 (lt_of_lt_of_le hlt h2))
    (getElem?_eq_some_getD _ _ 0 (lt_of_lt_of_le hlt hJ)) s

/-- C19. Interaction `addKToMatrix` in the branch `mstate1 == mstate2` with a
non-null matrix, all accesses in bounds and every row and column number
`offset + 3 * index + 2` of a spring endpoint below `2^32`, so that the
`unsigned int` expressions of the source do not wrap and have the values used
here: the call returns, and every entry of the matrix is increased by the sum
over the springs of their blocks, a spring with endpoints `a`, `b` and cached
block `J` adding `-kFact * J[i][j]` at the entry `(i, j)` of the blocks `(a,a)`
and `(b,b)` and `kFact * J[i][j]` at the blocks `(a,b)` and `(b,a)`, the blocks
starting at `offset + 3a` and `offset + 3b`; other matrices are not written.
For one spring with `a != b` and a zero matrix the result has
`block(a,b) = kFact * J = block(b,a)` and `block(a,a) = -kFact * J = block(b,b)`. -/
theorem addKToMatrix_four_blocks (st : PolynomialSpringsForceField R) (kFact : R)
    (mref11 mref22 : MatrixRef) (mref12 mref21 : InteractionMatrixRef) (address : Nat)
    (store : MatrixStore R)
    (hm : mref11.matrix = some address)
    (h2 : st.m_firstObjectIndices.length ≤ st.m_secondObjectIndices.length)
    (hJ : st.m_firstObjectIndices.length ≤ st.m_differential.length)
    (h32 : ∀ index, index < st.m_firstObjectIndices.length →
      mref11.offset + 3 * st.m_firstObjectIndices.getD index 0 + 2 < 2 ^ 32
      ∧ mref11.offset + 3 * st.m_secondObjectIndices.getD index 0 + 2 < 2 ^ 32) :
    ∃ store', st.addKToMatrix kFact true mref11 mref22 mref12 mref21 store = some store'
      ∧ (∀ r c, store' address r c = store address r c
          + ∑ index in Finset.range st.m_firstObjectIndices.length,
              springBlocks kFact mref11.offset (st.m_firstObjectIndices.getD index 0)
                (st.m_secondObjectIndices.getD index 0) (st.m_differential.getD index 0) r c)
      ∧ (∀ x, x ≠ address → store' x = store x)
      ∧ (∀ (a b : Nat) (J : Mat3 R), st.m_firstObjectIndices = [a] →
          st.m_secondObjectIndices[0]? = some b → st.m_differential[0]? = some J → a ≠ b →
          (∀ r c, store address r c = 0) → ∀ i j : Fin 3,
            store' address (mref11.offset + 3 * a + i) (mref11.offset + 3 * b + j)
              = kFact * J i j
            ∧ store' address (mref11.offset + 3 * a + i) (mref11.offset + 3 * a + j)
              = -(kFact * J i j)
            ∧ store' address (mref11.offset + 3 * b + i) (mref11.offset + 3 * b + j)
              = -(kFact * J i j)
            ∧ store' address (mref11.offset + 3 * b + i) (mref11.offset + 3 * a + j)
              = kFact * J i j)
      ∧ ∀ (index : Nat) (i : Fin 3), index < st.m_firstObjectIndices.length →
          (mref11.offset + 3 * st.m_firstObjectIndices.getD index 0 + i) % 2 ^ 32
            = mref11.offset + 3 * st.m_firstObjectIndices.getD index 0 + i
          ∧ (mref11.offset + 3 * st.m_secondObjectIndices.getD index 0 + i) % 2 ^ 32
            = mref11.offset + 3 * st.m_secondObjectIndices.getD index 0 + i := by
  obtain ⟨store', h, he, ho⟩ := addKToMatrix_same_adds st kFact mref11 mref22 mref12 mref21
    address hm h2 hJ store
  refine ⟨store', h, he, ho, ?_, ?_⟩
  · intro a b J ha hb hJ0 hab hzero i j
    have hba : b ≠ a := fun e => hab e.symm
    have hb' : st.m_secondObjectIndices.getD 0 0 = b := by
      rw [List.getD_eq_getElem?_getD, hb]
      rfl
    have hJ' : st.m_differential.getD 0 0 = J := by
      rw [List.getD_eq_getElem?_getD, hJ0]
      rfl
    have hsum : ∀ r c, store' address r c = springBlocks kFact mref11.offset a b J r c := by
      intro r c
      rw [he, hzero, ha]
      simp only [List.length_singleton, Finset.sum_range_one, zero_add, hb', hJ']
      rfl
    refine ⟨?_, ?_, ?_, ?_⟩
    · rw [hsum, springBlocks_block]
      simp [hab, hba]
    · rw [hsum, springBlocks_block]
      simp [hab, hba]
    · rw [hsum, springBlocks_block]
      simp [hab, hba]
    · rw [hsum, springBlocks_block]
      simp [hab, hba]
  · intro index i hindex
    obtain ⟨h1, h2'⟩ := h32 index hindex
    have hi := i.isLt
    exact ⟨Nat.mod_eq_of_lt (by omega), Nat.mod_eq_of_lt (by omega)⟩

theorem addKToMatrix_four_blocks_witness :
    ∃ store', pairSpring.addKToMatrix 2 true ⟨some 0, 0⟩ ⟨some 0, 0⟩ ⟨some 0, 0, 0⟩
        ⟨some 0, 0, 0⟩ (fun _ _ _ => 0) = some store'
      ∧ store' 0 0 3 = 2 ∧ store' 0 0 0 = -2 ∧ store' 0 3 3 = -2 ∧ store' 0 3 0 = 2 := by
  obtain ⟨store', h, -, -, hb, -⟩ := addKToMatrix_four_blocks pairSpring 2 ⟨some 0, 0⟩
    ⟨some 0, 0⟩ ⟨some 0, 0, 0⟩ ⟨some 0, 0, 0⟩ 0 (fun _ _ _ => 0) rfl
    (by simp [pairSpring, PolynomialSpringsForceField.configured])
    (by simp [pairSpring, PolynomialSpringsForceField.configured])
    (by
      intro index hindex
      have h0 : index = 0 := by
        simpa [pairSpring, PolynomialSpringsForceField.configured] using hindex
      subst h0
      simp [pairSpring, PolynomialSpringsForceField.configured])
  have hb0 := hb 0 1 (fun _ _ => 1) rfl rfl rfl (by decide) (fun _ _ => rfl) 0 0
  simp only [Fin.val_zero, mul_zero, add_zero, mul_one, zero_add] at hb0
  exact ⟨store', h, hb0.1, hb0.2.1, hb0.2.2.1, hb0.2.2.2⟩

end InteractionAssemblyCall

section AnchoredAssembly

variable {R : Type} [LinearOrderedField R]

open PolynomialRestShapeSpringsForceField

theorem anchored_addKToMatrixSpring_adds (st : PolynomialRestShapeSpringsForceField R)
    (kFact : R) (mref : MatrixRef) (address index a : Nat) (J : Vec3 R)
    (hm : mref.matrix = some address)
    (ha : st.m_indices[index]? = some a)
    (hJ : st.m_differential[index]? = some J) (s : MatrixStore R) :
    ∃ s', addKToMatrixSpring st kFact mref s index = some s'
      ∧ (∀ r c, s' address r c = s address r c + springDiagonal kFact mref.offset a J r c)
      ∧ ∀ x, x ≠ address → s' x = s x := by
  obtain ⟨s', h1, h2, h3⟩ := foldlM_store_adds address
    (fun store (i : Fin 3) => MatrixStore.add store mref.matrix (mref.offset + 3 * a + i)
      (mref.offset + 3 * a + i) (-kFact * J i))
    (fun (d : Fin 3) r c =>
      if r = mref.offset + 3 * a + d ∧ c = mref.offset + 3 * a + d then -kFact * J d else 0)
    (List.finRange 3)
    (fun i _ s => by
      rw [hm]
      exact store_add_some s address _ _ _) s
  refine ⟨s', ?_, ?_, h3⟩
  · unfold addKToMatrixSpring
    simp only [ha, hJ, Option.bind_eq_bind, Option.some_bind]
    exact h1
  · intro r c
    rw [h2, sum_finRange_three, springDiagonal]
    congr 1
    apply Finset.sum_congr rfl
    intro d _
    rw [neg_mul]

theorem springDiagonal_entry (kFact : R) (offset a a' : Nat) (J : Vec3 R) (d' : Fin 3) :
    springDiagonal kFact offset a J (offset + 3 * a' + d') (offset + 3 * a' + d')
      = if a' = a then -(kFact * J d') else 0 := by
  have hd' := d'.isLt
  unfold springDiagonal
  by_cases h : a' = a
  · subst h
    rw [if_pos rfl, Finset.sum_eq_single d']
    · rw [if_pos ⟨rfl, rfl⟩]
    · intro d _ hd
      rw [if_neg]
      rintro ⟨h1, -⟩
      apply hd
      apply Fin.ext
      omega
    · intro h
      exact absurd (Finset.mem_univ _) h
  · rw [if_neg h]
    apply Finset.sum_eq_zero
    intro d _
    rw [if_neg]
    rintro ⟨h1, -⟩
    have hd := d.isLt
    apply h
    omega

/-- C20. Anchored `addKToMatrix` with a non-null matrix, all accesses in
bounds and every row number `offset + 3 * index + 2` of a spring node below
`2^32`, so that the `unsigned int` expressions of the source do not wrap and
have the values used here: the call returns, and every entry of the matrix is
increased by the sum over the springs of what the spring adds, a spring with
node `a` and cached diagonal `J` adding `-kFact * J[d]` at the entry
`(offset + 3a + d, offset + 3a + d)` for every axis `d` and nothing elsewhere;
so a node of exactly one spring gets exactly that increment, an entry that is
not such a diagonal entry of the block `(a,a)` of a spring node is unchanged,
and no other matrix is written. -/
theorem anchored_addKToMatrix_diagonal (st : PolynomialRestShapeSpringsForceField R)
    (kFact : R) (mref : MatrixRef) (address : Nat) (store : MatrixStore R)
    (hm : mref.matrix = some address)
    (hJ : st.m_indices.length ≤ st.m_differential.length)
    (h32 : ∀ index, index < st.m_indices.length →
      mref.offset + 3 * st.m_indices.getD index 0 + 2 < 2 ^ 32) :
    ∃ store', st.addKToMatrix kFact mref store = some store'
      ∧ (∀ r c, store' address r c = store address r c
          + ∑ index in Finset.range st.m_indices.length,
              ∑ d : Fin 3,
                if r = mref.offset + 3 * st.m_indices.getD index 0 + d
                    ∧ c = mref.offset + 3 * st.m_indices.getD index 0 + d
                then -(kFact * (st.m_differential.getD index 0) d) else 0)
      ∧ (∀ (index a : Nat) (J : Vec3 R) (d : Fin 3), st.m_indices[index]? = some a →
          st.m_differential[index]? = some J →
          (∀ other a', other ≠ index → st.m_indices[other]? = some a' → a' ≠ a) →
          store' address (mref.offset + 3 * a + d) (mref.offset + 3 * a + d)
            = store address (mref.offset + 3 * a + d) (mref.offset + 3 * a + d)
              + -(kFact * J d))
      ∧ (∀ r c, (∀ (index a : Nat) (d : Fin 3), st.m_indices[index]? = some a →
            ¬ (r = mref.offset + 3 * a + d ∧ c = mref.offset + 3 * a + d)) →
          store' address r c = store address r c)
      ∧ (∀ x, x ≠ address → store' x = store x)
      ∧ ∀ (index a : Nat) (d : Fin 3), st.m_indices[index]? = some a →
          (mref.offset + 3 * a + d) % 2 ^ 32 = mref.offset + 3 * a + d := by
  obtain ⟨store', h, he, ho⟩ := foldlM_store_adds address (addKToMatrixSpring st kFact mref)
    (fun index r c => springDiagonal kFact mref.offset (st.m_indices.getD index 0)
      (st.m_differential.getD index 0) r c)
    (List.range st.m_indices.length)
    (fun index hindex s =>
      anchored_addKToMatrixSpring_adds st kFact mref address index _ _ hm
        (getElem?_eq_some_getD _ _ 0 (List.mem_range.mp hindex))
        (getElem?_eq_some_getD _ _ 0 (lt_of_lt_of_le (List.mem_range.mp hindex) hJ)) s)
    store
  simp only [list_sum_range] at he
  refine ⟨store', h, he, ?_, ?_, ho, ?_⟩
  · intro index a J d ha hJ0 huniq
    have hlt := lt_length_of_getElem? _ _ _ ha
    have ha' : st.m_indices.getD index 0 = a := by
      rw [List.getD_eq_getElem?_getD, ha]
      rfl
    have hJ' : st.m_differential.getD index 0 = J := by
      rw [List.getD_eq_getElem?_getD, hJ0]
      rfl
    rw [he, Finset.sum_eq_single index]
    · rw [ha', hJ', springDiagonal_entry, if_pos rfl]
    · intro other _ hne
      rw [springDiagonal_entry, if_neg]
      intro e
      by_cases hother : other < st.m_indices.length
      · exact huniq other _ hne (getElem?_eq_some_getD _ _ 0 hother) e.symm
      · exact absurd (Finset.mem_range.mp ‹other ∈ Finset.range st.m_indices.length›) hother
    · intro hnot
      exact absurd (Finset.mem_range.mpr hlt) hnot
  · intro r c hrc
    rw [he, Finset.sum_eq_zero, add_zero]
    intro index hindex
    apply Finset.sum_eq_zero
    intro d _
    rw [if_neg]
    exact hrc index _ d (getElem?_eq_some_getD _ _ 0 (Finset.mem_range.mp hindex))
  · intro index a d ha
    have hlt := lt_length_of_getElem? _ _ _ ha
    have ha' : st.m_indices.getD index 0 = a := by
      rw [List.getD_eq_getElem?_getD, ha]
      rfl
    have hb := h32 index hlt
    rw [ha'] at hb
    have hd := d.isLt
    exact Nat.mod_eq_of_lt (by omega)

theorem anchored_addKToMatrix_diagonal_witness :
    ∃ store', diagonalSpring.addKToMatrix 2 ⟨some 0, 0⟩ (fun _ _ _ => 0) = some store'
      ∧ store' 0 3 3 = -2 ∧ store' 0 4 4 = -4 ∧ store' 0 5 5 = -6 ∧ store' 0 3 4 = 0 := by
  obtain ⟨store', h, -, hd, hf, -, -⟩ := anchored_addKToMatrix_diagonal diagonalSpring 2
    ⟨some 0, 0⟩ 0 (fun _ _ _ => 0) rfl
    (by simp [diagonalSpring, PolynomialRestShapeSpringsForceField.configured])
    (by
      intro index hindex
      have h0 : index = 0 := by
        simpa [diagonalSpring, PolynomialRestShapeSpringsForceField.configured] using hindex
      subst h0
      simp [diagonalSpring, PolynomialRestShapeSpringsForceField.configured])
  have huniq : ∀ other a', other ≠ 0 → diagonalSpring.m_indices[other]? = some a' → a' ≠ 1 := by
    intro other a' hne ha
    have hlt := lt_length_of_getElem? _ _ _ ha
    simp [diagonalSpring, PolynomialRestShapeSpringsForceField.configured] at hlt
    exact absurd hlt hne
  have h0 := hd 0 1 ![1, 2, 3] 0 rfl rfl huniq
  have h1 := hd 0 1 ![1, 2, 3] 1 rfl rfl huniq
  have h2 := hd 0 1 ![1, 2, 3] 2 rfl rfl huniq
  have h3 := hf 3 4 (by
    intro index a d ha
    have hlt := lt_length_of_getElem? _ _ _ ha
    rintro ⟨e1, e2⟩
    omega)
  norm_num at h0 h1 h2
  exact ⟨store', h, h0, h1, h2, h3⟩

end AnchoredAssembly

section InteractionTrace

variable {R : Type} [LinearOrderedField R]

open PolynomialSpringsForceField

theorem agreeAt_refl (st : PolynomialSpringsForceField R) (j : Nat) : AgreeAt st st j :=
  ⟨rfl, rfl, rfl, rfl, rfl, rfl, rfl⟩

theorem agreeAt_trans {st st1 st2 : PolynomialSpringsForceField R} {j : Nat}
    (h : AgreeAt st st1 j) (h2 : AgreeAt st1 st2 j) : AgreeAt st st2 j :=
  ⟨h2.differential.trans h.differential, h2.springLength.trans h.springLength,
    h2.strainValue.trans h.strainValue, h2.direction.trans h.direction,
    h2.initial.trans h.initial, h2.flags.trans h.flags, h2.strainSign.trans h.strainSign⟩

theorem addForceSpring_agreeAt (M : MathOps R) (cv : R) (p1 p2 f1 f2 : List (Vec3 R))
    (st : PolynomialSpringsForceField R) (g i j : Nat) (hij : i ≠ j)
    (r : PolynomialSpringsForceField R × List (Vec3 R) × List (Vec3 R))
    (h : addForceSpring M cv p1 p2 g (st, f1, f2) i = some r) : AgreeAt st r.1 j := by
  obtain ⟨a, b, x1, x2, fa, fb, flag, z0, F, F', Jold, ha, hb, hx1, hx2, hfa, hfb, hflag, hz0,
    hJ, hw, hl, hs, hg, hF, hF'⟩ := addForceSpring_inv M cv p1 p2 f1 f2 st g i r h
  rw [addForceSpring_eq M cv p1 p2 f1 f2 st g i a b x1 x2 fa fb flag z0 F F' Jold
    ha hb hx1 hx2 hfa hfb hflag hz0 hJ hw hl hs hg hF hF'] at h
  have e := Option.some.inj h
  subst e
  constructor
  all_goals first
    | exact List.getElem?_set_ne hij
    | (simp only []; split_ifs <;> first | rfl | exact List.getElem?_set_ne hij)

theorem addForce_trace (M : MathOps R) (st : PolynomialSpringsForceField R)
    (f1 f2 p1 p2 : List (Vec3 R)) (hr : Ready st.resolved p1 p2) :
    ∃ r, addForce M st f1 f2 p1 p2 = some r ∧ SameFrame st.resolved r.1
      ∧ r.2.1.length = p1.length ∧ r.2.2.length = p2.length
      ∧ ∀ j, j < st.resolved.m_firstObjectIndices.length →
        ∃ acc rj, SameFrame st.resolved acc.1
          ∧ acc.2.1.length = p1.length ∧ acc.2.2.length = p2.length
          ∧ AgreeAt st.resolved acc.1 j
          ∧ addForceSpring M (if st.resolved.d_compressible then -1 else 0) p1 p2
              (st.resolved.groupOf j) acc j = some rj
          ∧ AgreeAt rj.1 r.1 j := by
  rw [addForce_eq_fold]
  obtain ⟨r, hfold, hfr, hl1, hl2, -, htrace⟩ := foldlM_range_invariant
    (fun acc i => addForceSpring M (if st.resolved.d_compressible then -1 else 0) p1 p2
      (st.resolved.groupOf i) acc i)
    (fun k acc => SameFrame st.resolved acc.1 ∧ acc.2.1.length = p1.length
      ∧ acc.2.2.length = p2.length
      ∧ (∀ j, k ≤ j → AgreeAt st.resolved acc.1 j)
      ∧ ∀ j, j < k →
        ∃ accj rj, SameFrame st.resolved accj.1
          ∧ accj.2.1.length = p1.length ∧ accj.2.2.length = p2.length
          ∧ AgreeAt st.resolved accj.1 j
          ∧ addForceSpring M (if st.resolved.d_compressible then -1 else 0) p1 p2
              (st.resolved.groupOf j) accj j = some rj
          ∧ AgreeAt rj.1 acc.1 j)
    st.resolved.m_firstObjectIndices.length
    (by
      rintro k ⟨st1, g1, g2⟩ hk ⟨hfr, hl1, hl2, hrest, hdone⟩
      have hr1 : Ready st1 p1 p2 := sameFrame_ready hfr hr
      have hk1 : k < st1.m_firstObjectIndices.length := by rw [hfr.first]; exact hk
      obtain ⟨a, b, x1, x2, fa, fb, flag, z0, F, F', Jold, ha, hb, hx1, hx2, hfa, hfb, hflag,
        hz0, hJ, hw, hl, hs, hg, hF, hF'⟩ := addForceSpring_ready M p1 p2 g1 g2 st1 k hr1 hk1
          hl1 hl2
      have e := addForceSpring_eq M (if st.resolved.d_compressible then -1 else 0) p1 p2 g1 g2
        st1 (st1.groupOf k) k a b x1 x2 fa fb flag z0 F F' Jold
        ha hb hx1 hx2 hfa hfb hflag hz0 hJ hw hl hs hg hF hF'
      rw [sameFrame_groupOf hfr] at e
      refine ⟨_, e, ?_⟩
      obtain ⟨hfr2, hl1', hl2'⟩ := addForceSpring_frame M _ p1 p2 g1 g2 st1 _ k _ e
      refine ⟨sameFrame_trans hfr hfr2, hl1'.trans hl1, hl2'.trans hl2, ?_, ?_⟩
      · intro j hj
        exact agreeAt_trans (hrest j (by omega))
          (addForceSpring_agreeAt M _ p1 p2 g1 g2 st1 _ k j (by omega) _ e)
      · intro j hj
        by_cases hjk : j = k
        · subst hjk
          exact ⟨(st1, g1, g2), _, hfr, hl1, hl2, hrest j le_rfl, e, agreeAt_refl _ _⟩
        · obtain ⟨accj, rj, q1, q2, q3, q4, q5, q6⟩ := hdone j (by omega)
          exact ⟨accj, rj, q1, q2, q3, q4, q5, agreeAt_trans q6
            (addForceSpring_agreeAt M _ p1 p2 g1 g2 st1 _ k j (fun h => hjk h.symm) _ e)⟩)
    (st.resolved, resize f1 p1.length 0, resize f2 p2.length 0)
    ⟨sameFrame_refl _, resize_length _ _ _, resize_length _ _ _,
      fun j _ => agreeAt_refl _ _, fun j hj => absurd hj (Nat.not_lt_zero j)⟩
  exact ⟨r, hfold, hfr, hl1, hl2, htrace⟩

/-- Whole call of interaction `addForce`, all accesses in bounds: the call
returns, and for every spring `j` the entries of the working arrays of the
returned state are those written by the run of the loop body for `j`, which
was executed with the polynomial group `groupOf j` on an accumulator `acc`
that had the entries of `j` of the state before the call. -/
theorem addForce_springs (M : MathOps R) (st : PolynomialSpringsForceField R)
    (f1 f2 p1 p2 : List (Vec3 R)) (hr : Ready st.resolved p1 p2) :
    ∃ r, addForce M st f1 f2 p1 p2 = some r ∧ SameFrame st.resolved r.1
      ∧ r.2.1.length = p1.length ∧ r.2.2.length = p2.length
      ∧ ∀ j, j < st.resolved.m_firstObjectIndices.length →
        ∃ (a b : Nat) (x1 x2 fa fb : Vec3 R) (flag : Int) (z0 F F' : R) (Jold : Mat3 R)
          (acc rj : PolynomialSpringsForceField R × List (Vec3 R) × List (Vec3 R)),
          st.resolved.m_firstObjectIndices[j]? = some a
          ∧ st.resolved.m_secondObjectIndices[j]? = some b
          ∧ p1[a]? = some x1 ∧ p2[b]? = some x2
          ∧ st.resolved.m_computeSpringsZeroLength[j]? = some flag
          ∧ st.resolved.m_initialSpringLength[j]? = some z0
          ∧ st.resolved.PolynomialValue (st.resolved.groupOf j)
              (strainOf (norm M (x2 - x1)) (if flag = 1 then norm M (x2 - x1) else z0)) = some F
          ∧ st.resolved.PolynomialDerivativeValue (st.resolved.groupOf j)
              (strainOf (norm M (x2 - x1)) (if flag = 1 then norm M (x2 - x1) else z0)) = some F'
          ∧ r.1.m_springLength[j]? = some (norm M (x2 - x1))
          ∧ r.1.m_initialSpringLength[j]? = some (if flag = 1 then norm M (x2 - x1) else z0)
          ∧ r.1.m_strainValue[j]? = some
              (strainOf (norm M (x2 - x1)) (if flag = 1 then norm M (x2 - x1) else z0))
          ∧ r.1.m_strainSign[j]? = some
              (strainSignOf (if st.resolved.d_compressible then -1 else 0) (norm M (x2 - x1))
                (if flag = 1 then norm M (x2 - x1) else z0))
          ∧ r.1.m_weightedCoordinateDifference[j]?
              = some (vdiv (x2 - x1) (norm M (x2 - x1)))
          ∧ r.1.m_differential[j]? = some
              (jacobianLoop (F' / (if flag = 1 then norm M (x2 - x1) else z0))
                (F / norm M (x2 - x1)) (vdiv (x2 - x1) (norm M (x2 - x1))) Jold)
          ∧ addForceSpring M (if st.resolved.d_compressible then -1 else 0) p1 p2
              (st.resolved.groupOf j) acc j = some rj
          ∧ acc.2.1[a]? = some fa ∧ acc.2.2[b]? = some fb
          ∧ rj.2.1 = acc.2.1.set a (fa + (F * strainSignOf
              (if st.resolved.d_compressible then -1 else 0) (norm M (x2 - x1))
              (if flag = 1 then norm M (x2 - x1) else z0)) • vdiv (x2 - x1) (norm M (x2 - x1)))
          ∧ rj.2.2 = acc.2.2.set b (fb + (-F * strainSignOf
              (if st.resolved.d_compressible then -1 else 0) (norm M (x2 - x1))
              (if flag = 1 then norm M (x2 - x1) else z0)) • vdiv (x2 - x1) (norm M (x2 - x1))) := by
  obtain ⟨r, h, hfr, hl1, hl2, htrace⟩ := addForce_trace M st f1 f2 p1 p2 hr
  refine ⟨r, h, hfr, hl1, hl2, ?_⟩
  intro j hj
  obtain ⟨⟨st1, g1, g2⟩, rj, hfr1, hg1, hg2, hag, hstep, hag2⟩ := htrace j hj
  have hr1 : Ready st1 p1 p2 := sameFrame_ready hfr1 hr
  have hj1 : j < st1.m_firstObjectIndices.length := by rw [hfr1.first]; exact hj
  obtain ⟨a, b, x1, x2, fa, fb, flag, z0, F, F', Jold, ha, hb, hx1, hx2, hfa, hfb, hflag,
    hz0, hJ, hw, hl, hs, hg, hF, hF'⟩ := addForceSpring_ready M p1 p2 g1 g2 st1 j hr1 hj1
      hg1 hg2
  have e := addForceSpring_eq M (if st.resolved.d_compressible then -1 else 0) p1 p2 g1 g2
    st1 (st1.groupOf j) j a b x1 x2 fa fb flag z0 F F' Jold
    ha hb hx1 hx2 hfa hfb hflag hz0 hJ hw hl hs hg hF hF'
  rw [sameFrame_groupOf hfr1] at e hF hF'
  rw [hstep] at e
  have erj := Option.some.inj e
  rw [PolynomialValue_congr st.resolved st1 _ _ hfr1.stiffness hfr1.degree hfr1.table] at hF
  rw [PolynomialDerivativeValue_congr st.resolved st1 _ _ hfr1.stiffness hfr1.degree
    hfr1.table] at hF'
  refine ⟨a, b, x1, x2, fa, fb, flag, z0, F, F', Jold, (st1, g1, g2), rj, ?_, ?_, hx1, hx2, ?_,
    ?_, hF, hF', ?_, ?_, ?_, ?_, ?_, ?_, hstep, hfa, hfb, ?_, ?_⟩
  · rw [← hfr1.first]; exact ha
  · rw [← hfr1.second]; exact hb
  · rw [← hag.flags]; exact hflag
  · rw [← hag.initial]; exact hz0
  · rw [hag2.springLength, erj]
    exact getElem?_set_self _ _ _ hl
  · rw [hag2.initial, erj]
    exact capturedLength_getElem? st1 j _ flag z0 hz0
  · rw [hag2.strainValue, erj]
    exact getElem?_set_self _ _ _ hs
  · rw [hag2.strainSign, erj]
    exact getElem?_set_self _ _ _ hg
  · rw [hag2.direction, erj]
    exact getElem?_set_self _ _ _ hw
  · rw [hag2.differential, erj]
    exact getElem?_set_self _ _ _ (lt_length_of_getElem? _ _ _ hJ)
  · rw [erj]
  · rw [erj]

end InteractionTrace

section AnchoredTrace

variable {R : Type} [LinearOrderedField R]

open PolynomialRestShapeSpringsForceField

theorem anchored_sameFrame_refl (st : PolynomialRestShapeSpringsForceField R) :
    SameFrame st st :=
  ⟨rfl, rfl, rfl, rfl, rfl, rfl, rfl, rfl, rfl, rfl, rfl, rfl, rfl, rfl⟩

theorem anchored_sameFrame_trans {st st1 st2 : PolynomialRestShapeSpringsForceField R}
    (h : SameFrame st st1) (h2 : SameFrame st1 st2) : SameFrame st st2 :=
  ⟨h2.indices.trans h.indices, h2.ext_indices.trans h.ext_indices, h2.useRest.trans h.useRest,
    h2.stiffness.trans h.stiffness, h2.degree.trans h.degree, h2.table.trans h.table,
    h2.zeroLength.trans h.zeroLength, h2.shift.trans h.shift, h2.scale.trans h.scale,
    h2.differential.trans h.differential, h2.strainValue.trans h.strainValue,
    h2.directionLength.trans h.directionLength, h2.direction.trans h.direction,
    h2.squaredNorm.trans h.squaredNorm⟩

theorem anchored_sameFrame_groupOf {st st' : PolynomialRestShapeSpringsForceField R}
    (h : SameFrame st st') (i : Nat) : st'.groupOf i = st.groupOf i := by
  unfold PolynomialRestShapeSpringsForceField.groupOf
  rw [h.degree, h.indices]

theorem anchored_sameFrame_ready {st st' : PolynomialRestShapeSpringsForceField R}
    {p1 p0 : List (Vec3 R)} (h : SameFrame st st') (hr : Ready st p1 p0) : Ready st' p1 p0 := by
  constructor
  · rw [h.indices]; exact hr.node_lt
  · rw [h.indices, h.useRest, h.ext_indices]; exact hr.reference
  · rw [h.zeroLength]; exact hr.zeroLength
  · rw [h.indices, h.differential]; exact hr.differential
  · rw [h.indices, h.strainValue]; exact hr.strainValue
  · rw [h.indices, h.directionLength]; exact hr.directionLength
  · rw [h.indices, h.direction]; exact hr.direction
  · rw [h.indices, h.squaredNorm]; exact hr.squaredNorm
  · rw [h.indices, h.stiffness, h.degree, h.table]
    intro i hi
    rw [anchored_sameFrame_groupOf h]
    exact hr.group i hi

theorem anchored_agreeAt_refl (st : PolynomialRestShapeSpringsForceField R) (j : Nat) :
    AgreeAt st st j :=
  ⟨rfl, rfl, rfl, rfl, rfl⟩

theorem anchored_agreeAt_trans {st st1 st2 : PolynomialRestShapeSpringsForceField R} {j : Nat}
    (h : AgreeAt st st1 j) (h2 : AgreeAt st1 st2 j) : AgreeAt st st2 j :=
  ⟨h2.differential.trans h.differential, h2.strainValue.trans h.strainValue,
    h2.directionLength.trans h.directionLength, h2.direction.trans h.direction,
    h2.squaredNorm.trans h.squaredNorm⟩

theorem anchored_PolynomialValue_congr (st st' : PolynomialRestShapeSpringsForceField R)
    (g : Nat) (x : R) (h : SameFrame st st') :
    st'.PolynomialValue g x = st.PolynomialValue g x := by
  unfold PolynomialRestShapeSpringsForceField.PolynomialValue
  rw [h.stiffness, h.degree, h.table]

theorem anchored_PolynomialDerivativeValue_congr
    (st st' : PolynomialRestShapeSpringsForceField R) (g : Nat) (x : R) (h : SameFrame st st') :
    st'.PolynomialDerivativeValue g x = st.PolynomialDerivativeValue g x := by
  unfold PolynomialRestShapeSpringsForceField.PolynomialDerivativeValue
  rw [h.stiffness, h.degree, h.table]

theorem anchored_addForce_eq_fold (M : MathOps R) (st st1 : PolynomialRestShapeSpringsForceField R)
    (f p1 p0 : List (Vec3 R)) (hp0 : st.getExtPosition = some p0)
    (hres : (if st.d_recomputeIndices then st.recomputeIndices else some st) = some st1) :
    addForce M st f p1
      = (List.range st1.m_indices.length).foldlM
          (fun acc i => addForceSpring M p1 p0 (st1.groupOf i) acc i)
          (st1, resize f p1.length 0) := by
  unfold PolynomialRestShapeSpringsForceField.addForce
    PolynomialRestShapeSpringsForceField.groupOf
  by_cases hc : st.d_recomputeIndices = true
  · rw [if_pos hc] at hres
    simp only [hp0, Option.bind_eq_bind, Option.some_bind, Option.pure_def, if_pos hc, hres]
    split_ifs <;> rfl
  · rw [if_neg hc] at hres
    cases hres
    simp only [hp0, Option.bind_eq_bind, Option.some_bind, Option.pure_def, if_neg hc]
    split_ifs <;> rfl

theorem anchored_springVector_inv (st : PolynomialRestShapeSpringsForceField R)
    (p1 p0 : List (Vec3 R)) (i : Nat) (v : Nat × Vec3 R) (h : springVector st p1 p0 i = some v) :
    ∃ a e x1 x0, st.m_indices[i]? = some a
      ∧ (if st.useRestMState then st.m_ext_indices[i]? else some a) = some e
      ∧ p1[a]? = some x1 ∧ p0[e]? = some x0 ∧ v = (a, x1 - x0) := by
  unfold springVector at h
  by_cases hu : st.useRestMState = true
  · simp only [hu, if_true, Option.bind_eq_bind, Option.bind_eq_some, Option.pure_def,
      Option.some.injEq] at h
    obtain ⟨a, ha, e, he, x1, hx1, x0, hx0, hv⟩ := h
    exact ⟨a, e, x1, x0, ha, by rw [if_pos hu]; exact he, hx1, hx0, hv.symm⟩
  · simp only [hu, if_false, Option.bind_eq_bind, Option.bind_eq_some, Option.pure_def,
      Option.some.injEq, Bool.false_eq_true] at h
    obtain ⟨a, ha, e, he, x1, hx1, x0, hx0, hv⟩ := h
    exact ⟨a, e, x1, x0, ha, by rw [if_neg hu, he], hx1, hx0, hv.symm⟩

theorem anchored_storeSpring_inv (M : MathOps R) (st st' : PolynomialRestShapeSpringsForceField R)
    (i : Nat) (dx : Vec3 R) (h : storeSpring M st i dx = some st') :
    ∃ z, zeroLengthOf st.d_zeroLength i = some z
      ∧ i < st.m_coordinateSquaredNorm.length
      ∧ i < st.m_strainValue.length
      ∧ i < st.m_directionSpringLength.length
      ∧ i < st.m_weightedCoordinateDifference.length := by
  simp only [storeSpring, Option.bind_eq_bind, Option.bind_eq_some, Option.pure_def,
    Option.some.injEq] at h
  obtain ⟨sn, hsn, z, hz, sv, hsv, dl, hdl, wcd, hwcd, -⟩ := h
  exact ⟨z, hz, (setAt_inv _ _ _ _ hsn).1, (setAt_inv _ _ _ _ hsv).1, (setAt_inv _ _ _ _ hdl).1,
    (setAt_inv _ _ _ _ hwcd).1⟩

theorem anchored_ComputeJacobian_inv (M : MathOps R)
    (st st' : PolynomialRestShapeSpringsForceField R) (g i : Nat)
    (h : ComputeJacobian M st g i = some st') :
    ∃ strain F' Jold, st.m_strainValue[i]? = some strain
      ∧ st.PolynomialDerivativeValue g strain = some F'
      ∧ st.m_differential[i]? = some Jold := by
  simp only [ComputeJacobian, Option.bind_eq_bind, Option.bind_eq_some, Option.pure_def,
    Option.some.injEq] at h
  obtain ⟨strain, hs, F, -, L, -, F', hF', z, -, N, -, Jold, hJ, -⟩ := h
  exact ⟨strain, F', Jold, hs, hF', hJ⟩

theorem anchored_addForceSpring_inv (M : MathOps R) (p1 p0 f : List (Vec3 R))
    (st : PolynomialRestShapeSpringsForceField R) (g i : Nat)
    (r : PolynomialRestShapeSpringsForceField R × List (Vec3 R))
    (h : addForceSpring M p1 p0 g (st, f) i = some r) :
    ∃ a e x1 x0 fa z F F' Jold,
      st.m_indices[i]? = some a
      ∧ (if st.useRestMState then st.m_ext_indices[i]? else some a) = some e
      ∧ p1[a]? = some x1 ∧ p0[e]? = some x0
      ∧ f[a]? = some fa
      ∧ zeroLengthOf st.d_zeroLength i = some z
      ∧ st.m_differential[i]? = some Jold
      ∧ i < st.m_coordinateSquaredNorm.length
      ∧ i < st.m_strainValue.length
      ∧ i < st.m_directionSpringLength.length
      ∧ i < st.m_weightedCoordinateDifference.length
      ∧ st.PolynomialValue g (norm M (x1 - x0) / z) = some F
      ∧ st.PolynomialDerivativeValue g (norm M (x1 - x0) / z) = some F' := by
  simp only [addForceSpring, Option.bind_eq_bind, Option.bind_eq_some, Option.pure_def,
    Option.some.injEq] at h
  obtain ⟨v, hv, st1, hst1, strain, hstrain, F, hF, dir, hdir, fa, hfa, f1, hf1, st2, hst2, -⟩ := h
  obtain ⟨a, e, x1, x0, ha, he, hx1, hx0, rfl⟩ := anchored_springVector_inv st p1 p0 i v hv
  obtain ⟨z, hz, hn, hs, hl, hw⟩ := anchored_storeSpring_inv M st st1 i _ hst1
  have e1 := anchored_storeSpring_eq M st i (x1 - x0) z hz hn hs hl hw
  rw [e1] at hst1
  have e2 := Option.some.inj hst1
  obtain ⟨strain', F', Jold, hs', hF', hJ⟩ := anchored_ComputeJacobian_inv M st1 st2 g i hst2
  rw [hstrain] at hs'
  have hs'' := Option.some.inj hs'
  subst hs''
  subst e2
  have hstr : strain = norm M (x1 - x0) / z := by
    have := getElem?_set_self st.m_strainValue i (norm M (x1 - x0) / z) hs
    exact Option.some.inj (hstrain.symm.trans this)
  subst hstr
  exact ⟨a, e, x1, x0, fa, z, F, F', Jold, ha, he, hx1, hx0, hfa, hz, hJ, hn, hs, hl, hw, hF, hF'⟩

theorem anchored_addForceSpring_frame (M : MathOps R) (p1 p0 f : List (Vec3 R))
    (st : PolynomialRestShapeSpringsForceField R) (g i : Nat)
    (r : PolynomialRestShapeSpringsForceField R × List (Vec3 R))
    (h : addForceSpring M p1 p0 g (st, f) i = some r) :
    SameFrame st r.1 ∧ r.2.length = f.length ∧ ∀ j, i ≠ j → AgreeAt st r.1 j := by
  obtain ⟨a, e, x1, x0, fa, z, F, F', Jold, ha, he, hx1, hx0, hfa, hz, hJ, hn, hs, hl, hw, hF,
    hF'⟩ := anchored_addForceSpring_inv M p1 p0 f st g i r h
  rw [anchored_addForceSpring_eq M p1 p0 f st g i a e x1 x0 fa z F F' Jold ha he hx1 hx0 hfa hz
    hJ hn hs hl hw hF hF'] at h
  have e := Option.some.inj h
  subst e
  refine ⟨⟨rfl, rfl, rfl, rfl, rfl, rfl, rfl, rfl, rfl, ?_, ?_, ?_, ?_, ?_⟩, ?_, ?_⟩
  · exact List.length_set _ _ _
  · exact List.length_set _ _ _
  · exact List.length_set _ _ _
  · exact List.length_set _ _ _
  · exact List.length_set _ _ _
  · exact List.length_set _ _ _
  · intro j hij
    exact ⟨List.getElem?_set_ne hij, List.getElem?_set_ne hij, List.getElem?_set_ne hij,
      List.getElem?_set_ne hij, List.getElem?_set_ne hij⟩

theorem anchored_addForceSpring_ready (M : MathOps R) (p1 p0 f : List (Vec3 R))
    (st : PolynomialRestShapeSpringsForceField R) (i : Nat) (hr : Ready st p1 p0)
    (hi : i < st.m_indices.length) (hf : f.length = p1.length) :
    ∃ a e x1 x0 fa z F F' Jold,
      st.m_indices[i]? = some a
      ∧ (if st.useRestMState then st.m_ext_indices[i]? else some a) = some e
      ∧ p1[a]? = some x1 ∧ p0[e]? = some x0
      ∧ f[a]? = some fa
      ∧ zeroLengthOf st.d_zeroLength i = some z
      ∧ z = st.d_zeroLength.getD (if i < st.d_zeroLength.length then i else 0) 0
      ∧ st.m_differential[i]? = some Jold
      ∧ i < st.m_coordinateSquaredNorm.length
      ∧ i < st.m_strainValue.length
      ∧ i < st.m_directionSpringLength.length
      ∧ i < st.m_weightedCoordinateDifference.length
      ∧ st.PolynomialValue (st.groupOf i) (norm M (x1 - x0) / z) = some F
      ∧ st.PolynomialDerivativeValue (st.groupOf i) (norm M (x1 - x0) / z) = some F' := by
  obtain ⟨a, ha⟩ : ∃ a, st.m_indices[i]? = some a := ⟨_, List.getElem?_eq_getElem hi⟩
  obtain ⟨e, he, he1⟩ := hr.reference i a ha
  have ha1 := hr.node_lt i a ha
  obtain ⟨x1, hx1⟩ : ∃ x, p1[a]? = some x := ⟨_, List.getElem?_eq_getElem ha1⟩
  obtain ⟨x0, hx0⟩ : ∃ x, p0[e]? = some x := ⟨_, List.getElem?_eq_getElem he1⟩
  obtain ⟨fa, hfa⟩ : ∃ x, f[a]? = some x :=
    ⟨_, List.getElem?_eq_getElem (hf ▸ ha1 : a < f.length)⟩
  obtain ⟨Jold, hJ⟩ : ∃ x, st.m_differential[i]? = some x :=
    ⟨_, List.getElem?_eq_getElem (lt_of_lt_of_le hi hr.differential)⟩
  have hz := zeroLengthOf_eq st.d_zeroLength i hr.zeroLength
  obtain ⟨F, hF⟩ := (hr.group i hi).value
    (norm M (x1 - x0) / st.d_zeroLength.getD (if i < st.d_zeroLength.length then i else 0) 0)
  obtain ⟨F', hF'⟩ := (hr.group i hi).derivative
    (norm M (x1 - x0) / st.d_zeroLength.getD (if i < st.d_zeroLength.length then i else 0) 0)
  exact ⟨a, e, x1, x0, fa, _, F, F', Jold, ha, he, hx1, hx0, hfa, hz, rfl, hJ,
    lt_of_lt_of_le hi hr.squaredNorm, lt_of_lt_of_le hi hr.strainValue,
    lt_of_lt_of_le hi hr.directionLength, lt_of_lt_of_le hi hr.direction, hF, hF'⟩

theorem anchored_addForce_trace (M : MathOps R) (st st1 : PolynomialRestShapeSpringsForceField R)
    (f p1 p0 : List (Vec3 R)) (hp0 : st.getExtPosition = some p0)
    (hres : (if st.d_recomputeIndices then st.recomputeIndices else some st) = some st1)
    (hr : Ready st1 p1 p0) :
    ∃ r, addForce M st f p1 = some r ∧ SameFrame st1 r.1 ∧ r.2.length = p1.length
      ∧ ∀ j, j < st1.m_indices.length →
        ∃ acc rj, SameFrame st1 acc.1 ∧ acc.2.length = p1.length
          ∧ AgreeAt st1 acc.1 j
          ∧ addForceSpring M p1 p0 (st1.groupOf j) acc j = some rj
          ∧ AgreeAt rj.1 r.1 j := by
  rw [anchored_addForce_eq_fold M st st1 f p1 p0 hp0 hres]
  obtain ⟨r, hfold, hfr, hl1, -, htrace⟩ := foldlM_range_invariant
    (fun acc i => addForceSpring M p1 p0 (st1.groupOf i) acc i)
    (fun k acc => SameFrame st1 acc.1 ∧ acc.2.length = p1.length
      ∧ (∀ j, k ≤ j → AgreeAt st1 acc.1 j)
      ∧ ∀ j, j < k →
        ∃ accj rj, SameFrame st1 accj.1 ∧ accj.2.length = p1.length
          ∧ AgreeAt st1 accj.1 j
          ∧ addForceSpring M p1 p0 (st1.groupOf j) accj j = some rj
          ∧ AgreeAt rj.1 acc.1 j)
    st1.m_indices.length
    (by
      rintro k ⟨st2, g1⟩ hk ⟨hfr, hl1, hrest, hdone⟩
      have hr1 : Ready st2 p1 p0 := anchored_sameFrame_ready hfr hr
      have hk1 : k < st2.m_indices.length := by rw [hfr.indices]; exact hk
      obtain ⟨a, e, x1, x0, fa, z, F, F', Jold, ha, he, hx1, hx0, hfa, hz, -, hJ, hn, hs, hl,
        hw, hF, hF'⟩ := anchored_addForceSpring_ready M p1 p0 g1 st2 k hr1 hk1 hl1
      have e := anchored_addForceSpring_eq M p1 p0 g1 st2 (st2.groupOf k) k a e x1 x0 fa z F F'
        Jold ha he hx1 hx0 hfa hz hJ hn hs hl hw hF hF'
      rw [anchored_sameFrame_groupOf hfr] at e
      refine ⟨_, e, ?_⟩
      obtain ⟨hfr2, hl1', hag⟩ := anchored_addForceSpring_frame M p1 p0 g1 st2 _ k _ e
      refine ⟨anchored_sameFrame_trans hfr hfr2, hl1'.trans hl1, ?_, ?_⟩
      · intro j hj
        exact anchored_agreeAt_trans (hrest j (by omega)) (hag j (by omega))
      · intro j hj
        by_cases hjk : j = k
        · subst hjk
          exact ⟨(st2, g1), _, hfr, hl1, hrest j le_rfl, e, anchored_agreeAt_refl _ _⟩
        · obtain ⟨accj, rj, q1, q2, q3, q4, q5⟩ := hdone j (by omega)
          exact ⟨accj, rj, q1, q2, q3, q4,
            anchored_agreeAt_trans q5 (hag j (fun h => hjk h.symm))⟩)
    (st1, resize f p1.length 0)
    ⟨anchored_sameFrame_refl _, resize_length _ _ _,
      fun j _ => anchored_agreeAt_refl _ _, fun j hj => absurd hj (Nat.not_lt_zero j)⟩
  exact ⟨r, hfold, hfr, hl1, htrace⟩

/-- Whole call of anchored `addForce`, all accesses in bounds: the call
returns, and for every spring `j` the entries of the working arrays of the
returned state are those written by the run of the loop body for `j`, which
was executed with the polynomial group `groupOf j`. -/
theorem anchored_addForce_springs (M : MathOps R)
    (st st1 : PolynomialRestShapeSpringsForceField R)
    (f p1 p0 : List (Vec3 R)) (hp0 : st.getExtPosition = some p0)
    (hres : (if st.d_recomputeIndices then st.recomputeIndices else some st) = some st1)
    (hr : Ready st1 p1 p0) :
    ∃ r, addForce M st f p1 = some r ∧ SameFrame st1 r.1 ∧ r.2.length = p1.length
      ∧ ∀ j, j < st1.m_indices.length →
        ∃ (a e : Nat) (x1 x0 fa : Vec3 R) (z F F' : R) (Jold : Vec3 R)
          (acc rj : PolynomialRestShapeSpringsForceField R × List (Vec3 R)),
          st1.m_indices[j]? = some a
          ∧ (if st1.useRestMState then st1.m_ext_indices[j]? else some a) = some e
          ∧ p1[a]? = some x1 ∧ p0[e]? = some x0
          ∧ z = st1.d_zeroLength.getD (if j < st1.d_zeroLength.length then j else 0) 0
          ∧ st1.PolynomialValue (st1.groupOf j) (norm M (x1 - x0) / z) = some F
          ∧ st1.PolynomialDerivativeValue (st1.groupOf j) (norm M (x1 - x0) / z) = some F'
          ∧ r.1.m_coordinateSquaredNorm[j]? = some (dot (x1 - x0) (x1 - x0))
          ∧ r.1.m_strainValue[j]? = some (norm M (x1 - x0) / z)
          ∧ r.1.m_directionSpringLength[j]?
              = some (directionLength M st1.d_smoothShift st1.d_smoothScale (x1 - x0))
          ∧ r.1.m_weightedCoordinateDifference[j]?
              = some (vdiv (x1 - x0)
                  (directionLength M st1.d_smoothShift st1.d_smoothScale (x1 - x0)))
          ∧ r.1.m_differential[j]? = some
              (jacobianLoop (F' / z)
                (F / directionLength M st1.d_smoothShift st1.d_smoothScale (x1 - x0))
                (1 - st1.d_smoothScale
                  * M.exp (st1.d_smoothShift - st1.d_smoothScale * dot (x1 - x0) (x1 - x0)))
                (vdiv (x1 - x0)
                  (directionLength M st1.d_smoothShift st1.d_smoothScale (x1 - x0)))
                Jold)
          ∧ addForceSpring M p1 p0 (st1.groupOf j) acc j = some rj
          ∧ acc.2[a]? = some fa
          ∧ rj.2 = acc.2.set a (fa - F • vdiv (x1 - x0)
              (directionLength M st1.d_smoothShift st1.d_smoothScale (x1 - x0))) := by
  obtain ⟨r, h, hfr, hl1, htrace⟩ := anchored_addForce_trace M st st1 f p1 p0 hp0 hres hr
  refine ⟨r, h, hfr, hl1, ?_⟩
  intro j hj
  obtain ⟨⟨st2, g1⟩, rj, hfr1, hg1, hag, hstep, hag2⟩ := htrace j hj
  have hr1 : Ready st2 p1 p0 := anchored_sameFrame_ready hfr1 hr
  have hj1 : j < st2.m_indices.length := by rw [hfr1.indices]; exact hj
  obtain ⟨a, e, x1, x0, fa, z, F, F', Jold, ha, he, hx1, hx0, hfa, hz, hzdef, hJ, hn, hs, hl,
    hw, hF, hF'⟩ := anchored_addForceSpring_ready M p1 p0 g1 st2 j hr1 hj1 hg1
  have e1 := anchored_addForceSpring_eq M p1 p0 g1 st2 (st2.groupOf j) j a e x1 x0 fa z F F'
    Jold ha he hx1 hx0 hfa hz hJ hn hs hl hw hF hF'
  rw [anchored_sameFrame_groupOf hfr1] at e1 hF hF'
  rw [hstep] at e1
  have erj := Option.some.inj e1
  rw [anchored_PolynomialValue_congr st1 st2 _ _ hfr1] at hF
  rw [anchored_PolynomialDerivativeValue_congr st1 st2 _ _ hfr1] at hF'
  rw [hfr1.shift, hfr1.scale] at erj
  rw [hfr1.zeroLength] at hzdef
  refine ⟨a, e, x1, x0, fa, z, F, F', Jold, (st2, g1), rj, ?_, ?_, hx1, hx0, hzdef, hF, hF',
    ?_, ?_, ?_, ?_, ?_, hstep, hfa, ?_⟩
  · rw [← hfr1.indices]; exact ha
  · rw [← hfr1.useRest, ← hfr1.ext_indices]; exact he
  · rw [hag2.squaredNorm, erj]
    exact getElem?_set_self _ _ _ hn
  · rw [hag2.strainValue, erj]
    exact getElem?_set_self _ _ _ hs
  · rw [hag2.directionLength, erj]
    exact getElem?_set_self _ _ _ hl
  · rw [hag2.direction, erj]
    exact getElem?_set_self _ _ _ hw
  · rw [hag2.differential, erj]
    exact getElem?_set_self _ _ _ (lt_length_of_getElem? _ _ _ hJ)
  · rw [erj]

end AnchoredTrace

section Selection

variable {R : Type} [LinearOrderedField R]

theorem addForce_evaluatedWith (M : MathOps R) (st : PolynomialSpringsForceField R)
    (f1 f2 p1 p2 : List (Vec3 R)) (hr : PolynomialSpringsForceField.Ready st.resolved p1 p2) :
    ∃ r, st.addForce M f1 f2 p1 p2 = some r
      ∧ PolynomialSpringsForceField.SameFrame st.resolved r.1
      ∧ ∀ i, i < st.resolved.m_firstObjectIndices.length →
        PolynomialSpringsForceField.EvaluatedWith M
          (if st.resolved.d_compressible then -1 else 0) p1 p2 r.1 i (st.resolved.groupOf i) := by
  obtain ⟨r, h, hfr, -, -, hs⟩ := addForce_springs M st f1 f2 p1 p2 hr
  refine ⟨r, h, hfr, ?_⟩
  intro i hi
  obtain ⟨a, b, x1, x2, fa, fb, flag, z0, F, F', Jold, acc, rj, ha, hb, hx1, hx2, hflag, hz0,
    hF, hF', e1, e2, e3, e4, e5, e6, hstep, hfa, hfb, hr1, hr2⟩ := hs i hi
  refine ⟨_, _, _, _, F, F', _, _, e3, e4, e2, e1, e5, ?_, ?_, e6, ?_, acc, rj, a, b, fa, fb,
    hstep, ?_, ?_, hfa, hfb, hr1, hr2⟩
  · rw [PolynomialValue_congr st.resolved r.1 _ _ hfr.stiffness hfr.degree hfr.table]
    exact hF
  · rw [PolynomialDerivativeValue_congr st.resolved r.1 _ _ hfr.stiffness hfr.degree hfr.table]
    exact hF'
  · intro p q
    rw [jacobianLoop_apply]
  · rw [hfr.first]; exact ha
  · rw [hfr.second]; exact hb

theorem anchored_addForce_evaluatedWith (M : MathOps R)
    (st st1 : PolynomialRestShapeSpringsForceField R)
    (f p1 p0 : List (Vec3 R)) (hp0 : st.getExtPosition = some p0)
    (hres : (if st.d_recomputeIndices then st.recomputeIndices else some st) = some st1)
    (hr : PolynomialRestShapeSpringsForceField.Ready st1 p1 p0) :
    ∃ r, st.addForce M f p1 = some r
      ∧ PolynomialRestShapeSpringsForceField.SameFrame st1 r.1
      ∧ ∀ i, i < st1.m_indices.length →
        PolynomialRestShapeSpringsForceField.EvaluatedWith M p1 p0 r.1 i (st1.groupOf i) := by
  obtain ⟨r, h, hfr, -, hs⟩ := anchored_addForce_springs M st st1 f p1 p0 hp0 hres hr
  refine ⟨r, h, hfr, ?_⟩
  intro i hi
  obtain ⟨a, e, x1, x0, fa, z, F, F', Jold, acc, rj, ha, he, hx1, hx0, hz, hF, hF', e1, e2, e3,
    e4, e5, hstep, hfa, hr1⟩ := hs i hi
  refine ⟨_, z, _, _, F, F', _, _, e2, ?_, e3, e1, e4, ?_, ?_, e5, ?_, acc, rj, a, fa, hstep, ?_,
    hfa, hr1⟩
  · rw [hfr.zeroLength]; exact hz
  · rw [anchored_PolynomialValue_congr st1 r.1 _ _ hfr]
    exact hF
  · rw [anchored_PolynomialDerivativeValue_congr st1 r.1 _ _ hfr]
    exact hF'
  · intro k
    rw [anchored_jacobianLoop_apply, hfr.shift, hfr.scale]
  · rw [hfr.indices]; exact ha

end Selection

section JacobianFormulas

variable {R : Type} [LinearOrderedField R]

/-- C17. Interaction variant: whenever all accesses of an `addForce` call are
inside their vectors, the call returns, and in the returned state, for every
spring `i` with endpoints `a`, `b`, `dx = p2[b] - p1[a]`, `length = |dx|`,
zero length `z` and strain as stored for the spring,
`F = PolynomialValue(group, strain)` and
`F' = PolynomialDerivativeValue(group, strain)` for the group of the spring:
the cached block is
`J[p][q] = (F'/z - F/length) * (dx[p]/length) * (dx[q]/length) + (F/length if p = q else 0)`
for all axes `p`, `q`. -/
theorem addForce_jacobian_formula (M : MathOps R) (st : PolynomialSpringsForceField R)
    (f1 f2 p1 p2 : List (Vec3 R)) (hr : PolynomialSpringsForceField.Ready st.resolved p1 p2) :
    ∃ st' f1' f2', st.addForce M f1 f2 p1 p2 = some (st', f1', f2')
      ∧ ∀ i, i < st.resolved.m_firstObjectIndices.length →
        ∃ (a b : Nat) (x1 x2 : Vec3 R) (z strain F F' : R) (J : Mat3 R),
          st'.m_firstObjectIndices[i]? = some a ∧ st'.m_secondObjectIndices[i]? = some b
          ∧ p1[a]? = some x1 ∧ p2[b]? = some x2
          ∧ st'.m_initialSpringLength[i]? = some z
          ∧ st'.m_strainValue[i]? = some strain
          ∧ strain = |norm M (x2 - x1) - z| / z
          ∧ st'.PolynomialValue (st'.groupOf i) strain = some F
          ∧ st'.PolynomialDerivativeValue (st'.groupOf i) strain = some F'
          ∧ st'.m_differential[i]? = some J
          ∧ ∀ p q : Fin 3, J p q
              = (F' / z - F / norm M (x2 - x1))
                  * ((x2 - x1) p / norm M (x2 - x1)) * ((x2 - x1) q / norm M (x2 - x1))
                + if p = q then F / norm M (x2 - x1) else 0 := by
  obtain ⟨⟨st', f1', f2'⟩, h, hfr, -, -, hs⟩ := addForce_springs M st f1 f2 p1 p2 hr
  refine ⟨st', f1', f2', h, ?_⟩
  intro i hi
  obtain ⟨a, b, x1, x2, fa, fb, flag, z0, F, F', Jold, acc, rj, ha, hb, hx1, hx2, hflag, hz0,
    hF, hF', e1, e2, e3, e4, e5, e6, -⟩ := hs i hi
  refine ⟨a, b, x1, x2, _, _, F, F', _, ?_, ?_, hx1, hx2, e2, e3, rfl, ?_, ?_, e6, ?_⟩
  · rw [hfr.first]; exact ha
  · rw [hfr.second]; exact hb
  · rw [sameFrame_groupOf hfr,
      PolynomialValue_congr st.resolved st' _ _ hfr.stiffness hfr.degree hfr.table]
    exact hF
  · rw [sameFrame_groupOf hfr,
      PolynomialDerivativeValue_congr st.resolved st' _ _ hfr.stiffness hfr.degree hfr.table]
    exact hF'
  · intro p q
    rw [jacobianLoop_apply]
    rfl

theorem addForce_jacobian_formula_witness :
    ∃ st' f1' f2', (oneSpring 1 false).addForce ratOps [0] [0] [0] [![2, 0, 0]]
        = some (st', f1', f2')
      ∧ ∀ i, i < (oneSpring 1 false).resolved.m_firstObjectIndices.length →
        ∃ (a b : Nat) (x1 x2 : Vec3 ℚ) (z strain F F' : ℚ) (J : Mat3 ℚ),
          st'.m_firstObjectIndices[i]? = some a ∧ st'.m_secondObjectIndices[i]? = some b
          ∧ ([0] : List (Vec3 ℚ))[a]? = some x1 ∧ ([![2, 0, 0]] : List (Vec3 ℚ))[b]? = some x2
          ∧ st'.m_initialSpringLength[i]? = some z
          ∧ st'.m_strainValue[i]? = some strain
          ∧ strain = |norm ratOps (x2 - x1) - z| / z
          ∧ st'.PolynomialValue (st'.groupOf i) strain = some F
          ∧ st'.PolynomialDerivativeValue (st'.groupOf i) strain = some F'
          ∧ st'.m_differential[i]? = some J
          ∧ ∀ p q : Fin 3, J p q
              = (F' / z - F / norm ratOps (x2 - x1))
                  * ((x2 - x1) p / norm ratOps (x2 - x1))
                  * ((x2 - x1) q / norm ratOps (x2 - x1))
                + if p = q then F / norm ratOps (x2 - x1) else 0 :=
  addForce_jacobian_formula ratOps (oneSpring 1 false) [0] [0] [0] [![2, 0, 0]]
    (oneSpring_ready 1 false _ _)

theorem anchoredSpring_ready (x1 x0 : Vec3 ℝ) :
    PolynomialRestShapeSpringsForceField.Ready anchoredSpring [x1] [x0] := by
  constructor
  · intro i a h
    cases i <;> simp_all [anchoredSpring, PolynomialRestShapeSpringsForceField.configured]
  · intro i a h
    cases i <;> simp_all [anchoredSpring, PolynomialRestShapeSpringsForceField.configured]
  · simp [anchoredSpring, PolynomialRestShapeSpringsForceField.configured]
  · simp [anchoredSpring, PolynomialRestShapeSpringsForceField.configured]
  · simp [anchoredSpring, PolynomialRestShapeSpringsForceField.configured]
  · simp [anchoredSpring, PolynomialRestShapeSpringsForceField.configured]
  · simp [anchoredSpring, PolynomialRestShapeSpringsForceField.configured]
  · simp [anchoredSpring, PolynomialRestShapeSpringsForceField.configured]
  · intro i hi
    have hi0 : i = 0 := by
      simpa [anchoredSpring, PolynomialRestShapeSpringsForceField.configured] using hi
    subst hi0
    exact anchoredSpring_readable

/-- C16. Anchored variant: whenever all accesses of an `addForce` call are
inside their vectors, the call returns, and in the returned state, for every
spring `i` with node `a`, reference index `e`, `dx = p1[a] - p0[e]`, zero
length `z` (`zeroLength[i]` when it exists, `zeroLength[0]` otherwise), strain
and direction as stored for the spring, `F = PolynomialValue(group, strain)`
and `F' = PolynomialDerivativeValue(group, strain)` for the group of the
spring, `Fv = F / sqrt(dx.dx + exp(shift - scale * dx.dx))`, `F'v = F' / z` and
`corr = 1 - scale * exp(shift - scale * dx.dx)`: the cached entry is
`J[d] = (F'v - Fv) * corr * direction[d]^2 + Fv` for every axis `d`. -/
theorem anchored_addForce_jacobian_formula (M : MathOps R)
    (st st1 : PolynomialRestShapeSpringsForceField R)
    (f p1 p0 : List (Vec3 R)) (hp0 : st.getExtPosition = some p0)
    (hres : (if st.d_recomputeIndices then st.recomputeIndices else some st) = some st1)
    (hr : PolynomialRestShapeSpringsForceField.Ready st1 p1 p0) :
    ∃ st' f', st.addForce M f p1 = some (st', f')
      ∧ ∀ i, i < st1.m_indices.length →
        ∃ (a e : Nat) (x1 x0 : Vec3 R) (z strain F F' : R) (direction J : Vec3 R),
          st'.m_indices[i]? = some a
          ∧ (if st'.useRestMState then st'.m_ext_indices[i]? else some a) = some e
          ∧ p1[a]? = some x1 ∧ p0[e]? = some x0
          ∧ z = st'.d_zeroLength.getD (if i < st'.d_zeroLength.length then i else 0) 0
          ∧ st'.m_strainValue[i]? = some strain
          ∧ strain = norm M (x1 - x0) / z
          ∧ st'.m_weightedCoordinateDifference[i]? = some direction
          ∧ direction = vdiv (x1 - x0) (M.sqrt (dot (x1 - x0) (x1 - x0)
              + M.exp (st'.d_smoothShift - st'.d_smoothScale * dot (x1 - x0) (x1 - x0))))
          ∧ st'.PolynomialValue (st'.groupOf i) strain = some F
          ∧ st'.PolynomialDerivativeValue (st'.groupOf i) strain = some F'
          ∧ st'.m_differential[i]? = some J
          ∧ ∀ d : Fin 3, J d
              = (F' / z - F / M.sqrt (dot (x1 - x0) (x1 - x0)
                    + M.exp (st'.d_smoothShift - st'.d_smoothScale * dot (x1 - x0) (x1 - x0))))
                  * (1 - st'.d_smoothScale
                    * M.exp (st'.d_smoothShift - st'.d_smoothScale * dot (x1 - x0) (x1 - x0)))
                  * direction d ^ 2
                + F / M.sqrt (dot (x1 - x0) (x1 - x0)
                    + M.exp (st'.d_smoothShift
                      - st'.d_smoothScale * dot (x1 - x0) (x1 - x0))) := by
  obtain ⟨⟨st', f'⟩, h, hfr, -, hs⟩ := anchored_addForce_springs M st st1 f p1 p0 hp0 hres hr
  refine ⟨st', f', h, ?_⟩
  intro i hi
  obtain ⟨a, e, x1, x0, fa, z, F, F', Jold, acc, rj, ha, he, hx1, hx0, hz, hF, hF', e1, e2, e3,
    e4, e5, -⟩ := hs i hi
  have hsh : st'.d_smoothShift = st1.d_smoothShift := hfr.shift
  have hsc : st'.d_smoothScale = st1.d_smoothScale := hfr.scale
  simp only [hsh, hsc]
  refine ⟨a, e, x1, x0, z, _, F, F', _, _, ?_, ?_, hx1, hx0, ?_, e2, rfl, e4, rfl, ?_, ?_, e5, ?_⟩
  · rw [hfr.indices]; exact ha
  · rw [hfr.useRest, hfr.ext_indices]; exact he
  · rw [hfr.zeroLength]; exact hz
  · rw [anchored_sameFrame_groupOf hfr, anchored_PolynomialValue_congr st1 st' _ _ hfr]
    exact hF
  · rw [anchored_sameFrame_groupOf hfr, anchored_PolynomialDerivativeValue_congr st1 st' _ _ hfr]
    exact hF'
  · intro d
    rw [anchored_jacobianLoop_apply, pow_two, mul_assoc _ (vdiv _ _ d) (vdiv _ _ d)]
    rfl

theorem anchored_addForce_jacobian_formula_witness :
    ∃ st' f', anchoredSpring.addForce realOps [0] [![1, 0, 0]] = some (st', f')
      ∧ ∃ (strain F F' : ℝ) (J : Vec3 ℝ),
          st'.m_strainValue[0]? = some strain
          ∧ st'.PolynomialValue (st'.groupOf 0) strain = some F
          ∧ st'.PolynomialDerivativeValue (st'.groupOf 0) strain = some F'
          ∧ st'.m_differential[0]? = some J := by
  obtain ⟨st', f', h, hs⟩ := anchored_addForce_jacobian_formula realOps anchoredSpring
    anchoredSpring [0] [![1, 0, 0]] [0] rfl rfl (anchoredSpring_ready _ _)
  obtain ⟨a, e, x1, x0, z, strain, F, F', d, J, -, -, -, -, -, h1, -, -, -, h2, h3, h4, -⟩ :=
    hs 0 (by simp [anchoredSpring, PolynomialRestShapeSpringsForceField.configured])
  exact ⟨st', f', h, strain, F, F', J, h1, h2, h3, h4⟩

end JacobianFormulas

section GroupSelection

variable {R : Type} [LinearOrderedField R]

/-- C11. Polynomial-selection rule of both `addForce` methods. Each call is
the run of the loop body for the springs `0, 1, ...` in order, the body of
spring `i` being given group `0` when the number of polynomial groups (the
length of the degree vector) differs from the number of springs and group `i`
when the two are equal. Whenever all accesses of the call are inside their
vectors the call returns, and in the returned state every spring has been
evaluated with that group: its force increment and its cached Jacobian are
computed from `PolynomialValue` and `PolynomialDerivativeValue` of group `0`
in the first case and of group `i` in the second. -/
theorem addForce_group_selection (M : MathOps R) (sti : PolynomialSpringsForceField R)
    (f1 f2 p1 p2 : List (Vec3 R)) (sta sta1 : PolynomialRestShapeSpringsForceField R)
    (f pa p0 : List (Vec3 R))
    (hri : PolynomialSpringsForceField.Ready sti.resolved p1 p2)
    (hp0 : sta.getExtPosition = some p0)
    (hres : (if sta.d_recomputeIndices then sta.recomputeIndices else some sta) = some sta1)
    (hra : PolynomialRestShapeSpringsForceField.Ready sta1 pa p0) :
    (sti.addForce M f1 f2 p1 p2
      = (List.range sti.resolved.m_firstObjectIndices.length).foldlM
          (fun acc i => PolynomialSpringsForceField.addForceSpring M
            (if sti.resolved.d_compressible then -1 else 0) p1 p2
            (if sti.resolved.d_polynomialDegree.length ≠ sti.resolved.m_firstObjectIndices.length
              then 0 else i) acc i)
          (sti.resolved, resize f1 p1.length 0, resize f2 p2.length 0))
    ∧ (∃ st' f1' f2', sti.addForce M f1 f2 p1 p2 = some (st', f1', f2')
        ∧ ∀ i, i < sti.resolved.m_firstObjectIndices.length →
          (sti.resolved.d_polynomialDegree.length ≠ sti.resolved.m_firstObjectIndices.length →
            PolynomialSpringsForceField.EvaluatedWith M
              (if sti.resolved.d_compressible then -1 else 0) p1 p2 st' i 0)
          ∧ (sti.resolved.d_polynomialDegree.length = sti.resolved.m_firstObjectIndices.length →
            PolynomialSpringsForceField.EvaluatedWith M
              (if sti.resolved.d_compressible then -1 else 0) p1 p2 st' i i))
    ∧ (sta.addForce M f pa
      = (List.range sta1.m_indices.length).foldlM
          (fun acc i => PolynomialRestShapeSpringsForceField.addForceSpring M pa p0
            (if sta1.d_polynomialDegree.length ≠ sta1.m_indices.length then 0 else i) acc i)
          (sta1, resize f pa.length 0))
    ∧ (∃ st' f', sta.addForce M f pa = some (st', f')
        ∧ ∀ i, i < sta1.m_indices.length →
          (sta1.d_polynomialDegree.length ≠ sta1.m_indices.length →
            PolynomialRestShapeSpringsForceField.EvaluatedWith M pa p0 st' i 0)
          ∧ (sta1.d_polynomialDegree.length = sta1.m_indices.length →
            PolynomialRestShapeSpringsForceField.EvaluatedWith M pa p0 st' i i)) := by
  refine ⟨addForce_eq_fold M sti f1 f2 p1 p2, ?_,
    anchored_addForce_eq_fold M sta sta1 f pa p0 hp0 hres, ?_⟩
  · obtain ⟨⟨st', f1', f2'⟩, h, -, hs⟩ := addForce_evaluatedWith M sti f1 f2 p1 p2 hri
    refine ⟨st', f1', f2', h, fun i hi => ⟨fun hne => ?_, fun heq => ?_⟩⟩
    · have := hs i hi
      rwa [PolynomialSpringsForceField.groupOf, if_pos hne] at this
    · have := hs i hi
      rwa [PolynomialSpringsForceField.groupOf, if_neg (not_not.mpr heq)] at this
  · obtain ⟨⟨st', f'⟩, h, -, hs⟩ := anchored_addForce_evaluatedWith M sta sta1 f pa p0 hp0 hres
      hra
    refine ⟨st', f', h, fun i hi => ⟨fun hne => ?_, fun heq => ?_⟩⟩
    · have := hs i hi
      rwa [PolynomialRestShapeSpringsForceField.groupOf, if_pos hne] at this
    · have := hs i hi
      rwa [PolynomialRestShapeSpringsForceField.groupOf, if_neg (not_not.mpr heq)] at this

theorem stretchedSpring_ready (x1 x2 : Vec3 ℝ) :
    PolynomialSpringsForceField.Ready stretchedSpring [x1] [x2] := by
  constructor
  · simp [stretchedSpring, PolynomialSpringsForceField.configured]
  · intro i a h
    cases i <;> simp_all [stretchedSpring, PolynomialSpringsForceField.configured]
  · intro i b _ h
    cases i <;> simp_all [stretchedSpring, PolynomialSpringsForceField.configured]
  · simp [stretchedSpring, PolynomialSpringsForceField.configured]
  · simp [stretchedSpring, PolynomialSpringsForceField.configured]
  · simp [stretchedSpring, PolynomialSpringsForceField.configured]
  · simp [stretchedSpring, PolynomialSpringsForceField.configured]
  · simp [stretchedSpring, PolynomialSpringsForceField.configured]
  · simp [stretchedSpring, PolynomialSpringsForceField.configured]
  · simp [stretchedSpring, PolynomialSpringsForceField.configured]
  · intro i hi
    have hi0 : i = 0 := by
      simpa [stretchedSpring, PolynomialSpringsForceField.configured] using hi
    subst hi0
    exact stretchedSpring_readable

theorem groupedInteraction_ready (stiffness : List ℝ) (degree : List Nat)
    (table : List (List Nat)) (x1 y1 x2 y2 : Vec3 ℝ)
    (hG : ∀ i : Nat, i < 2 → GroupReadable stiffness degree table
      (if degree.length ≠ 2 then 0 else i)) :
    PolynomialSpringsForceField.Ready (groupedInteraction stiffness degree table).resolved
      [x1, y1] [x2, y2] := by
  show PolynomialSpringsForceField.Ready (groupedInteraction stiffness degree table)
    [x1, y1] [x2, y2]
  constructor
  · simp [groupedInteraction, PolynomialSpringsForceField.configured]
  · intro i a h
    have hlt := lt_length_of_getElem? _ _ _ h
    simp only [groupedInteraction, PolynomialSpringsForceField.configured, List.length_cons,
      List.length_nil] at hlt
    interval_cases i <;>
      simp_all [groupedInteraction, PolynomialSpringsForceField.configured] <;> omega
  · intro i b hi h
    simp only [groupedInteraction, PolynomialSpringsForceField.configured, List.length_cons,
      List.length_nil] at hi
    interval_cases i <;>
      simp_all [groupedInteraction, PolynomialSpringsForceField.configured] <;> omega
  · simp [groupedInteraction, PolynomialSpringsForceField.configured]
  · simp [groupedInteraction, PolynomialSpringsForceField.configured]
  · simp [groupedInteraction, PolynomialSpringsForceField.configured]
  · simp [groupedInteraction, PolynomialSpringsForceField.configured]
  · simp [groupedInteraction, PolynomialSpringsForceField.configured]
  · simp [groupedInteraction, PolynomialSpringsForceField.configured]
  · simp [groupedInteraction, PolynomialSpringsForceField.configured]
  · intro i hi
    exact hG i hi

theorem groupedAnchored_ready (stiffness : List ℝ) (degree : List Nat)
    (table : List (List Nat)) (x1 y1 x0 y0 : Vec3 ℝ)
    (hG : ∀ i : Nat, i < 2 → GroupReadable stiffness degree table
      (if degree.length ≠ 2 then 0 else i)) :
    PolynomialRestShapeSpringsForceField.Ready (groupedAnchored stiffness degree table)
      [x1, y1] [x0, y0] := by
  constructor
  · intro i a h
    have hlt := lt_length_of_getElem? _ _ _ h
    simp only [groupedAnchored, PolynomialRestShapeSpringsForceField.configured,
      List.length_cons, List.length_nil] at hlt
    interval_cases i <;>
      simp_all [groupedAnchored, PolynomialRestShapeSpringsForceField.configured] <;> omega
  · intro i a h
    have hlt := lt_length_of_getElem? _ _ _ h
    simp only [groupedAnchored, PolynomialRestShapeSpringsForceField.configured,
      List.length_cons, List.length_nil] at hlt
    interval_cases i <;>
      simp_all [groupedAnchored, PolynomialRestShapeSpringsForceField.configured] <;> omega
  · simp [groupedAnchored, PolynomialRestShapeSpringsForceField.configured]
  · simp [groupedAnchored, PolynomialRestShapeSpringsForceField.configured]
  · simp [groupedAnchored, PolynomialRestShapeSpringsForceField.configured]
  · simp [groupedAnchored, PolynomialRestShapeSpringsForceField.configured]
  · simp [groupedAnchored, PolynomialRestShapeSpringsForceField.configured]
  · simp [groupedAnchored, PolynomialRestShapeSpringsForceField.configured]
  · intro i hi
    exact hG i hi

theorem twoLaws_readable (i : Nat) (hi : i < 2) :
    GroupReadable ([1, 2] : List ℝ) [1, 1] [[0], [1]]
      (if ([1, 1] : List Nat).length ≠ 2 then 0 else i) := by
  interval_cases i
  · exact ⟨1, [0], rfl, rfl, by
      intro k hk
      interval_cases k
      exact ⟨0, rfl, by simp⟩⟩
  · exact ⟨1, [1], rfl, rfl, by
      intro k hk
      interval_cases k
      exact ⟨1, rfl, by simp⟩⟩

theorem oneLaw_readable (i : Nat) (_hi : i < 2) :
    GroupReadable ([1] : List ℝ) [1] [[0]]
      (if ([1] : List Nat).length ≠ 2 then 0 else i) :=
  ⟨1, [0], rfl, rfl, by
    intro k hk
    interval_cases k
    exact ⟨0, rfl, by simp⟩⟩

theorem addForce_group_selection_witness :
    ((groupedInteraction [1, 2] [1, 1] [[0], [1]]).PolynomialValue 0 1 = some 1
      ∧ (groupedInteraction [1, 2] [1, 1] [[0], [1]]).PolynomialValue 1 1 = some 2
      ∧ (groupedAnchored [1, 2] [1, 1] [[0], [1]]).PolynomialValue 0 1 = some 1
      ∧ (groupedAnchored [1, 2] [1, 1] [[0], [1]]).PolynomialValue 1 1 = some 2)
    ∧ (∃ st' f1' f2', (groupedInteraction [1, 2] [1, 1] [[0], [1]]).addForce realOps
          [0, 0] [0, 0] [0, 0] [![2, 0, 0], ![0, 3, 0]] = some (st', f1', f2')
        ∧ PolynomialSpringsForceField.EvaluatedWith realOps 0 [0, 0]
            [![2, 0, 0], ![0, 3, 0]] st' 0 0
        ∧ PolynomialSpringsForceField.EvaluatedWith realOps 0 [0, 0]
            [![2, 0, 0], ![0, 3, 0]] st' 1 1)
    ∧ (∃ st' f1' f2', (groupedInteraction [1] [1] [[0]]).addForce realOps
          [0, 0] [0, 0] [0, 0] [![2, 0, 0], ![0, 3, 0]] = some (st', f1', f2')
        ∧ PolynomialSpringsForceField.EvaluatedWith realOps 0 [0, 0]
            [![2, 0, 0], ![0, 3, 0]] st' 0 0
        ∧ PolynomialSpringsForceField.EvaluatedWith realOps 0 [0, 0]
            [![2, 0, 0], ![0, 3, 0]] st' 1 0)
    ∧ (∃ st' f', (groupedAnchored [1, 2] [1, 1] [[0], [1]]).addForce realOps [0, 0]
          [![1, 0, 0], ![0, 2, 0]] = some (st', f')
        ∧ PolynomialRestShapeSpringsForceField.EvaluatedWith realOps
            [![1, 0, 0], ![0, 2, 0]] [0, 0] st' 0 0
        ∧ PolynomialRestShapeSpringsForceField.EvaluatedWith realOps
            [![1, 0, 0], ![0, 2, 0]] [0, 0] st' 1 1)
    ∧ ∃ st' f', (groupedAnchored [1] [1] [[0]]).addForce realOps [0, 0]
          [![1, 0, 0], ![0, 2, 0]] = some (st', f')
        ∧ PolynomialRestShapeSpringsForceField.EvaluatedWith realOps
            [![1, 0, 0], ![0, 2, 0]] [0, 0] st' 0 0
        ∧ PolynomialRestShapeSpringsForceField.EvaluatedWith realOps
            [![1, 0, 0], ![0, 2, 0]] [0, 0] st' 1 0 := by
  obtain ⟨-, ⟨st2, f1a, f2a, h2, hs2⟩, -, ⟨sa2, fa2, ha2, hsa2⟩⟩ := addForce_group_selection
    realOps (groupedInteraction [1, 2] [1, 1] [[0], [1]]) [0, 0] [0, 0] [0, 0]
    [![2, 0, 0], ![0, 3, 0]] (groupedAnchored [1, 2] [1, 1] [[0], [1]])
    (groupedAnchored [1, 2] [1, 1] [[0], [1]]) [0, 0] [![1, 0, 0], ![0, 2, 0]] [0, 0]
    (groupedInteraction_ready _ _ _ _ _ _ _ twoLaws_readable) rfl rfl
    (groupedAnchored_ready _ _ _ _ _ _ _ twoLaws_readable)
  obtain ⟨-, ⟨st1, f1b, f2b, h1, hs1⟩, -, ⟨sa1, fa1, ha1, hsa1⟩⟩ := addForce_group_selection
    realOps (groupedInteraction [1] [1] [[0]]) [0, 0] [0, 0] [0, 0]
    [![2, 0, 0], ![0, 3, 0]] (groupedAnchored [1] [1] [[0]])
    (groupedAnchored [1] [1] [[0]]) [0, 0] [![1, 0, 0], ![0, 2, 0]] [0, 0]
    (groupedInteraction_ready _ _ _ _ _ _ _ oneLaw_readable) rfl rfl
    (groupedAnchored_ready _ _ _ _ _ _ _ oneLaw_readable)
  have n0 : (0 : Nat) < 2 := by decide
  have n1 : (1 : Nat) < 2 := by decide
  refine ⟨⟨?_, ?_, ?_, ?_⟩, ⟨st2, f1a, f2a, h2, (hs2 0 n0).2 rfl, (hs2 1 n1).2 rfl⟩,
    ⟨st1, f1b, f2b, h1, (hs1 0 n0).1 (by decide), (hs1 1 n1).1 (by decide)⟩,
    ⟨sa2, fa2, ha2, (hsa2 0 n0).2 rfl, (hsa2 1 n1).2 rfl⟩,
    sa1, fa1, ha1, (hsa1 0 n0).1 (by decide), (hsa1 1 n1).1 (by decide)⟩
  · simp [PolynomialSpringsForceField.PolynomialValue, polynomialValueLoop, groupedInteraction,
      PolynomialSpringsForceField.configured, List.range_succ]
  · simp [PolynomialSpringsForceField.PolynomialValue, polynomialValueLoop, groupedInteraction,
      PolynomialSpringsForceField.configured, List.range_succ]
  · simp [PolynomialRestShapeSpringsForceField.PolynomialValue, polynomialValueLoop,
      groupedAnchored, PolynomialRestShapeSpringsForceField.configured, List.range_succ]
  · simp [PolynomialRestShapeSpringsForceField.PolynomialValue, polynomialValueLoop,
      groupedAnchored, PolynomialRestShapeSpringsForceField.configured, List.range_succ]

end GroupSelection

section SharedLaw

variable {R : Type} [LinearOrderedField R]

/-- C12 (as amended). Shared versus per-spring law in both `addForce` methods:
whenever all accesses of the call are inside their vectors the call returns
and, in the returned state, every spring has been evaluated with group `0` if
the number of polynomial groups is smaller than the number of springs and
also if it is greater; spring `i` has been evaluated with group `i`, by its
own polynomial, exactly when the two numbers are equal. -/
theorem addForce_shared_law (M : MathOps R) (sti : PolynomialSpringsForceField R)
    (f1 f2 p1 p2 : List (Vec3 R)) (sta sta1 : PolynomialRestShapeSpringsForceField R)
    (f pa p0 : List (Vec3 R))
    (hri : PolynomialSpringsForceField.Ready sti.resolved p1 p2)
    (hp0 : sta.getExtPosition = some p0)
    (hres : (if sta.d_recomputeIndices then sta.recomputeIndices else some sta) = some sta1)
    (hra : PolynomialRestShapeSpringsForceField.Ready sta1 pa p0) :
    (∃ st' f1' f2', sti.addForce M f1 f2 p1 p2 = some (st', f1', f2')
        ∧ ∀ i, i < sti.resolved.m_firstObjectIndices.length →
          (sti.resolved.d_polynomialDegree.length < sti.resolved.m_firstObjectIndices.length →
            PolynomialSpringsForceField.EvaluatedWith M
              (if sti.resolved.d_compressible then -1 else 0) p1 p2 st' i 0)
          ∧ (sti.resolved.d_polynomialDegree.length > sti.resolved.m_firstObjectIndices.length →
            PolynomialSpringsForceField.EvaluatedWith M
              (if sti.resolved.d_compressible then -1 else 0) p1 p2 st' i 0)
          ∧ (sti.resolved.d_polynomialDegree.length = sti.resolved.m_firstObjectIndices.length →
            PolynomialSpringsForceField.EvaluatedWith M
              (if sti.resolved.d_compressible then -1 else 0) p1 p2 st' i i))
    ∧ (∃ st' f', sta.addForce M f pa = some (st', f')
        ∧ ∀ i, i < sta1.m_indices.length →
          (sta1.d_polynomialDegree.length < sta1.m_indices.length →
            PolynomialRestShapeSpringsForceField.EvaluatedWith M pa p0 st' i 0)
          ∧ (sta1.d_polynomialDegree.length > sta1.m_indices.length →
            PolynomialRestShapeSpringsForceField.EvaluatedWith M pa p0 st' i 0)
          ∧ (sta1.d_polynomialDegree.length = sta1.m_indices.length →
            PolynomialRestShapeSpringsForceField.EvaluatedWith M pa p0 st' i i)) := by
  constructor
  · obtain ⟨⟨st', f1', f2'⟩, h, -, hs⟩ := addForce_evaluatedWith M sti f1 f2 p1 p2 hri
    refine ⟨st', f1', f2', h, fun i hi => ⟨fun hlt => ?_, fun hgt => ?_, fun heq => ?_⟩⟩
    · have := hs i hi
      rwa [PolynomialSpringsForceField.groupOf, if_pos (ne_of_lt hlt)] at this
    · have := hs i hi
      rwa [PolynomialSpringsForceField.groupOf, if_pos (ne_of_gt hgt)] at this
    · have := hs i hi
      rwa [PolynomialSpringsForceField.groupOf, if_neg (not_not.mpr heq)] at this
  · obtain ⟨⟨st', f'⟩, h, -, hs⟩ := anchored_addForce_evaluatedWith M sta sta1 f pa p0 hp0 hres
      hra
    refine ⟨st', f', h, fun i hi => ⟨fun hlt => ?_, fun hgt => ?_, fun heq => ?_⟩⟩
    · have := hs i hi
      rwa [PolynomialRestShapeSpringsForceField.groupOf, if_pos (ne_of_lt hlt)] at this
    · have := hs i hi
      rwa [PolynomialRestShapeSpringsForceField.groupOf, if_pos (ne_of_gt hgt)] at this
    · have := hs i hi
      rwa [PolynomialRestShapeSpringsForceField.groupOf, if_neg (not_not.mpr heq)] at this

theorem threeGroups_ready (x1 y1 x2 y2 : Vec3 ℚ) :
    PolynomialSpringsForceField.Ready threeGroups [x1, y1] [x2, y2] := by
  constructor
  · simp [threeGroups, PolynomialSpringsForceField.configured]
  · intro i a h
    have hlt := lt_length_of_getElem? _ _ _ h
    simp only [threeGroups, PolynomialSpringsForceField.configured, List.length_cons,
      List.length_nil] at hlt
    interval_cases i <;> simp_all [threeGroups, PolynomialSpringsForceField.configured] <;>
      omega
  · intro i b hi h
    simp only [threeGroups, PolynomialSpringsForceField.configured, List.length_cons,
      List.length_nil] at hi
    interval_cases i <;> simp_all [threeGroups, PolynomialSpringsForceField.configured] <;>
      omega
  · simp [threeGroups, PolynomialSpringsForceField.configured]
  · simp [threeGroups, PolynomialSpringsForceField.configured]
  · simp [threeGroups, PolynomialSpringsForceField.configured]
  · simp [threeGroups, PolynomialSpringsForceField.configured]
  · simp [threeGroups, PolynomialSpringsForceField.configured]
  · simp [threeGroups, PolynomialSpringsForceField.configured]
  · simp [threeGroups, PolynomialSpringsForceField.configured]
  · intro i hi
    have hg : threeGroups.groupOf i = 0 := by
      simp [PolynomialSpringsForceField.groupOf, threeGroups,
        PolynomialSpringsForceField.configured]
    rw [hg]
    exact ⟨1, [0], rfl, rfl, by
      intro k hk
      interval_cases k
      exact ⟨0, rfl, by simp [threeGroups, PolynomialSpringsForceField.configured]⟩⟩

theorem addForce_shared_law_witness :
    (∃ st' f1' f2', threeGroups.addForce ratOps [0, 0] [0, 0] [0, 0] [![2, 0, 0], ![2, 0, 0]]
        = some (st', f1', f2')
      ∧ PolynomialSpringsForceField.EvaluatedWith ratOps 0 [0, 0] [![2, 0, 0], ![2, 0, 0]]
          st' 1 0)
    ∧ ∃ st' f', diagonalSpring.addForce ratOps [0, 0] [0, 0] = some (st', f')
      ∧ PolynomialRestShapeSpringsForceField.EvaluatedWith ratOps [0, 0] [0, 0] st' 0 0 := by
  have hra : PolynomialRestShapeSpringsForceField.Ready diagonalSpring [0, 0] [0, 0] := by
    constructor
    · intro i a h
      have hlt := lt_length_of_getElem? _ _ _ h
      simp only [diagonalSpring, PolynomialRestShapeSpringsForceField.configured,
        List.length_cons, List.length_nil] at hlt
      interval_cases i
      simp_all [diagonalSpring, PolynomialRestShapeSpringsForceField.configured]
    · intro i a h
      have hlt := lt_length_of_getElem? _ _ _ h
      simp only [diagonalSpring, PolynomialRestShapeSpringsForceField.configured,
        List.length_cons, List.length_nil] at hlt
      interval_cases i
      simp_all [diagonalSpring, PolynomialRestShapeSpringsForceField.configured]
    · simp [diagonalSpring, PolynomialRestShapeSpringsForceField.configured]
    · simp [diagonalSpring, PolynomialRestShapeSpringsForceField.configured]
    · simp [diagonalSpring, PolynomialRestShapeSpringsForceField.configured]
    · simp [diagonalSpring, PolynomialRestShapeSpringsForceField.configured]
    · simp [diagonalSpring, PolynomialRestShapeSpringsForceField.configured]
    · simp [diagonalSpring, PolynomialRestShapeSpringsForceField.configured]
    · intro i hi
      have hi0 : i = 0 := by
        simpa [diagonalSpring, PolynomialRestShapeSpringsForceField.configured] using hi
      subst hi0
      exact ⟨1, [0], rfl, rfl, by
        intro k hk
        interval_cases k
        exact ⟨0, rfl, by simp [diagonalSpring, PolynomialRestShapeSpringsForceField.configured]⟩⟩
  obtain ⟨⟨st', f1', f2', h, hs⟩, ⟨sta', f', h', hs'⟩⟩ := addForce_shared_law ratOps
    threeGroups [0, 0] [0, 0] [0, 0] [![2, 0, 0], ![2, 0, 0]] diagonalSpring diagonalSpring
    [0, 0] [0, 0] [0, 0] (threeGroups_ready _ _ _ _) rfl rfl hra
  refine ⟨⟨st', f1', f2', h, ?_⟩, sta', f', h', ?_⟩
  · have h0 := (hs 1 (by simp [threeGroups, PolynomialSpringsForceField.resolved,
      PolynomialSpringsForceField.configured])).2.1 (by
        simp [threeGroups, PolynomialSpringsForceField.resolved,
          PolynomialSpringsForceField.configured])
    exact h0
  · exact (hs' 0 (by simp [diagonalSpring, PolynomialRestShapeSpringsForceField.configured])).2.2
      rfl

end SharedLaw

section SharedLawExample

open PolynomialSpringsForceField

theorem threeGroups_value (s : ℚ) :
    threeGroups.PolynomialValue 0 s = some s ∧ threeGroups.PolynomialValue 1 s = some (2 * s) := by
  constructor <;>
    simp [PolynomialSpringsForceField.PolynomialValue, polynomialValueLoop, threeGroups,
      PolynomialSpringsForceField.configured, List.range_succ]

/-- C12 (counterexample). Two springs (points `0`-`0` and `1`-`1`) and three
polynomial groups `F(s) = s`, `2 s`, `3 s`; `p1 = [0, 0]`,
`p2 = [(2,0,0), (2,0,0)]`, zero lengths `1`. The number of groups is greater
than the number of springs, and after `addForce` spring `1` has strain `1` and
length `2`, and its cached block has `J[1][1] = 1/2`, which is
`PolynomialValue(0, 1) / 2` and not `PolynomialValue(1, 1) / 2 = 1`: spring `1`
has been evaluated with group `0`, not with its own group `1`. -/
theorem addForce_more_groups_counterexample :
    ∃ (st' : PolynomialSpringsForceField ℚ) (f1' f2' : List (Vec3 ℚ)) (J : Mat3 ℚ),
      threeGroups.addForce ratOps [0, 0] [0, 0] [0, 0] [![2, 0, 0], ![2, 0, 0]]
        = some (st', f1', f2')
      ∧ st'.d_polynomialDegree.length = 3 ∧ st'.m_firstObjectIndices.length = 2
      ∧ st'.m_strainValue[1]? = some 1 ∧ st'.m_springLength[1]? = some 2
      ∧ st'.PolynomialValue 0 1 = some 1 ∧ st'.PolynomialValue 1 1 = some 2
      ∧ st'.m_differential[1]? = some J ∧ J 1 1 = 1 / 2
      ∧ PolynomialSpringsForceField.EvaluatedWith ratOps 0 [0, 0] [![2, 0, 0], ![2, 0, 0]]
          st' 1 0
      ∧ ¬ PolynomialSpringsForceField.EvaluatedWith ratOps 0 [0, 0] [![2, 0, 0], ![2, 0, 0]]
          st' 1 1 := by
  obtain ⟨⟨st', f1', f2'⟩, h, hfr, -, -, hs⟩ := addForce_springs ratOps threeGroups [0, 0] [0, 0]
    [0, 0] [![2, 0, 0], ![2, 0, 0]] (threeGroups_ready _ _ _ _)
  obtain ⟨r2, h2, -, hev⟩ := addForce_evaluatedWith ratOps threeGroups [0, 0] [0, 0]
    [0, 0] [![2, 0, 0], ![2, 0, 0]] (threeGroups_ready _ _ _ _)
  rw [h] at h2
  have er := Option.some.inj h2
  subst er
  have hlen : (1 : Nat) < threeGroups.resolved.m_firstObjectIndices.length := by
    simp [threeGroups, PolynomialSpringsForceField.resolved,
      PolynomialSpringsForceField.configured]
  obtain ⟨a, b, x1, x2, fa, fb, flag, z0, F, F', Jold, acc, rj, ha, hb, hx1, hx2, hflag, hz0,
    hF, hF', e1, e2, e3, e4, e5, e6, -⟩ := hs 1 hlen
  have ha' : a = 1 := (Option.some.inj ha).symm
  have hb' : b = 1 := (Option.some.inj hb).symm
  subst ha'
  subst hb'
  have hx1' : x1 = 0 := (Option.some.inj hx1).symm
  have hx2' : x2 = ![2, 0, 0] := (Option.some.inj hx2).symm
  have hflag' : flag = 0 := (Option.some.inj hflag).symm
  have hz0' : z0 = 1 := (Option.some.inj hz0).symm
  subst hx1'
  subst hx2'
  subst hflag'
  subst hz0'
  have hg : threeGroups.resolved.groupOf 1 = 0 := by
    simp [PolynomialSpringsForceField.groupOf, threeGroups,
      PolynomialSpringsForceField.resolved, PolynomialSpringsForceField.configured]
  have hstrain : strainOf (norm ratOps ((![2, 0, 0] : Vec3 ℚ) - 0))
      (if (0 : Int) = 1 then norm ratOps ((![2, 0, 0] : Vec3 ℚ) - 0) else 1) = 1 := by
    rw [norm_two]
    norm_num [strainOf]
  have hz1 : (if (0 : Int) = 1 then norm ratOps ((![2, 0, 0] : Vec3 ℚ) - 0) else 1) = 1 := by
    norm_num
  rw [hstrain] at hF hF' e3
  rw [hz1, norm_two] at e6
  rw [norm_two] at e1
  rw [hg] at hF
  have hF1 : F = 1 := by
    have := (threeGroups_value 1).1
    exact (Option.some.inj (hF.symm.trans this))
  subst hF1
  have hv0 : st'.PolynomialValue 0 1 = some 1 := by
    rw [PolynomialValue_congr threeGroups.resolved st' _ _ hfr.stiffness hfr.degree hfr.table]
    exact (threeGroups_value 1).1
  have hv1 : st'.PolynomialValue 1 1 = some 2 := by
    rw [PolynomialValue_congr threeGroups.resolved st' _ _ hfr.stiffness hfr.degree hfr.table]
    have hthis : threeGroups.resolved.PolynomialValue 1 1 = some (2 * 1) :=
      (threeGroups_value 1).2
    rw [hthis]
    norm_num
  have hJ11 : jacobianLoop (F' / 1) (1 / 2) (vdiv ((![2, 0, 0] : Vec3 ℚ) - 0) 2) Jold 1 1
      = 1 / 2 := by
    rw [jacobianLoop_apply]
    simp [vdiv]
  have hev0 := hev 1 hlen
  rw [hg] at hev0
  refine ⟨st', f1', f2', _, h, ?_, ?_, e3, e1, hv0, hv1, e6, hJ11, hev0, ?_⟩
  · rw [hfr.degree]
    rfl
  · rw [hfr.first]
    rfl
  · rintro ⟨s, sign, z, L, G, G', d, J, hs1, -, -, hL, hd, hG, -, hJ, hform, -⟩
    rw [e3] at hs1
    have es := Option.some.inj hs1
    subst es
    rw [hv1] at hG
    have eG := Option.some.inj hG
    subst eG
    rw [e1] at hL
    have eL := Option.some.inj hL
    subst eL
    rw [e5] at hd
    have ed := Option.some.inj hd
    subst ed
    rw [e6] at hJ
    have eJ := Option.some.inj hJ
    have h11 := hform 1 1
    rw [← eJ, hJ11] at h11
    rw [norm_two] at h11
    simp [vdiv] at h11

end SharedLawExample

section ThreeGroups

open PolynomialSpringsForceField

theorem bwdInit_threeGroups :
    bwdInit (PolynomialSpringsForceField.configured [0, 1] [0, 1] [1, 2, 3] [1, 1, 1] 0
      [(1 : ℚ)] false false 2 2) = some threeGroups := by
  simp [bwdInit, threeGroups, configured, recomputeIndices, resize, initZeroLengthLoop, setAt,
    fillPolynomialsMap, List.range_succ]

end ThreeGroups

section ZeroStrain

variable {R : Type} [LinearOrderedField R]

theorem polynomialValueLoop_zero {stiffness : List R} {degree : List Nat}
    {pmap : List (List Nat)} {g : Nat} (h : GroupReadable stiffness degree pmap g) :
    polynomialValueLoop stiffness degree pmap g 0 = some 0 := by
  obtain ⟨d, row, hd, hrow, hslots⟩ := h
  rw [polynomialValueLoop_eq stiffness degree pmap g d row 0 hd hrow hslots]
  congr 1
  apply Finset.sum_eq_zero
  intro k _
  simp

theorem addForceSpring_zero_force (M : MathOps R) (cv : R) (p1 p2 f1 f2 : List (Vec3 R))
    (st : PolynomialSpringsForceField R) (g i : Nat)
    (hG : GroupReadable st.d_polynomialStiffness st.d_polynomialDegree st.m_polynomialsMap g)
    (r : PolynomialSpringsForceField R × List (Vec3 R) × List (Vec3 R))
    (h : PolynomialSpringsForceField.addForceSpring M cv p1 p2 g (st, f1, f2) i = some r)
    (h0 : r.1.m_strainValue[i]? = some 0) : r.2.1 = f1 ∧ r.2.2 = f2 := by
  obtain ⟨a, b, x1, x2, fa, fb, flag, z0, F, F', Jold, ha, hb, hx1, hx2, hfa, hfb, hflag, hz0,
    hJ, hw, hl, hs, hg, hF, hF'⟩ :=
    addForceSpring_inv M cv p1 p2 f1 f2 st g i r h
  rw [addForceSpring_eq M cv p1 p2 f1 f2 st g i a b x1 x2 fa fb flag
    z0 F F' Jold ha hb hx1 hx2 hfa hfb hflag hz0 hJ hw hl hs hg hF hF'] at h
  cases h
  simp only [getElem?_set_self _ _ _ hs, Option.some.injEq] at h0
  rw [h0] at hF
  have hF0 : F = 0 := by
    have h1 : st.PolynomialValue g 0 = some 0 := polynomialValueLoop_zero hG
    rw [h1] at hF
    exact (Option.some.inj hF).symm
  subst hF0
  constructor
  · simp only [zero_mul, zero_smul, add_zero]
    exact set_eq_self_of_getElem? f1 a fa hfa
  · simp only [neg_zero, zero_mul, zero_smul, add_zero]
    exact set_eq_self_of_getElem? f2 b fb hfb

theorem anchored_addForceSpring_zero_force (M : MathOps R) (p1 p0 f : List (Vec3 R))
    (st : PolynomialRestShapeSpringsForceField R) (g i : Nat)
    (hG : GroupReadable st.d_polynomialStiffness st.d_polynomialDegree st.m_polynomialsMap g)
    (r : PolynomialRestShapeSpringsForceField R × List (Vec3 R))
    (h : PolynomialRestShapeSpringsForceField.addForceSpring M p1 p0 g (st, f) i = some r)
    (h0 : r.1.m_strainValue[i]? = some 0) : r.2 = f := by
  obtain ⟨a, e, x1, x0, fa, z, F, F', Jold, ha, he, hx1, hx0, hfa, hz, hJ, hn, hs, hl, hw,
    hF, hF'⟩ :=
    anchored_addForceSpring_inv M p1 p0 f st g i r h
  rw [anchored_addForceSpring_eq M p1 p0 f st g i a e x1 x0
    fa z F F' Jold ha he hx1 hx0 hfa hz hJ hn hs hl hw hF hF'] at h
  cases h
  simp only [getElem?_set_self _ _ _ hs, Option.some.injEq] at h0
  rw [h0] at hF
  have hF0 : F = 0 := by
    have h1 : st.PolynomialValue g 0 = some 0 := polynomialValueLoop_zero hG
    rw [h1] at hF
    exact (Option.some.inj hF).symm
  subst hF0
  simp only [zero_smul, sub_zero]
  exact set_eq_self_of_getElem? f a fa hfa

/-- C26. In both fields `PolynomialValue(g, 0)` returns `0` for every group `g`
that can be read, and an iteration of the loop of `addForce` that stores the
strain `0` for its spring leaves the force vectors as they were: the force
increment of that spring is zero. -/
theorem PolynomialValue_zero_strain (sti : PolynomialSpringsForceField R)
    (sta : PolynomialRestShapeSpringsForceField R) (g : Nat)
    (hi : GroupReadable sti.d_polynomialStiffness sti.d_polynomialDegree sti.m_polynomialsMap g)
    (ha : GroupReadable sta.d_polynomialStiffness sta.d_polynomialDegree sta.m_polynomialsMap g) :
    sti.PolynomialValue g 0 = some 0
    ∧ sta.PolynomialValue g 0 = some 0
    ∧ (∀ (M : MathOps R) (cv : R) (p1 p2 f1 f2 : List (Vec3 R)) (i : Nat)
        (r : PolynomialSpringsForceField R × List (Vec3 R) × List (Vec3 R)),
        PolynomialSpringsForceField.addForceSpring M cv p1 p2 g (sti, f1, f2) i = some r →
        r.1.m_strainValue[i]? = some 0 → r.2.1 = f1 ∧ r.2.2 = f2)
    ∧ (∀ (M : MathOps R) (p1 p0 f : List (Vec3 R)) (i : Nat)
        (r : PolynomialRestShapeSpringsForceField R × List (Vec3 R)),
        PolynomialRestShapeSpringsForceField.addForceSpring M p1 p0 g (sta, f) i = some r →
        r.1.m_strainValue[i]? = some 0 → r.2 = f) :=
  ⟨polynomialValueLoop_zero hi, polynomialValueLoop_zero ha,
    fun M cv p1 p2 f1 f2 i r h h0 => addForceSpring_zero_force M cv p1 p2 f1 f2 sti g i hi r h h0,
    fun M p1 p0 f i r h h0 => anchored_addForceSpring_zero_force M p1 p0 f sta g i ha r h h0⟩

theorem PolynomialValue_zero_strain_witness :
    GroupReadable stretchedSpring.d_polynomialStiffness stretchedSpring.d_polynomialDegree
      stretchedSpring.m_polynomialsMap 0
    ∧ GroupReadable anchoredSpring.d_polynomialStiffness anchoredSpring.d_polynomialDegree
      anchoredSpring.m_polynomialsMap 0
    ∧ stretchedSpring.PolynomialValue 0 0 = some 0
    ∧ anchoredSpring.PolynomialValue 0 0 = some 0 :=
  ⟨stretchedSpring_readable, anchoredSpring_readable,
    (PolynomialValue_zero_strain stretchedSpring anchoredSpring 0 stretchedSpring_readable
      anchoredSpring_readable).1,
    (PolynomialValue_zero_strain stretchedSpring anchoredSpring 0 stretchedSpring_readable
      anchoredSpring_readable).2.1⟩

end ZeroStrain

section SlotLists

variable {R : Type} [LinearOrderedField R]

theorem fillPolynomialsMap_length (degree : List Nat) :
    ∀ inputIndex, (fillPolynomialsMap degree inputIndex).length = degree.length := by
  induction degree with
  | nil => intro _; rfl
  | cons d ds ih => intro k; simp [fillPolynomialsMap, ih]

theorem fillPolynomialsMap_row (degree : List Nat) :
    ∀ (inputIndex g d : Nat), degree[g]? = some d →
      (fillPolynomialsMap degree inputIndex)[g]?
        = some ((List.range d).map (fun k => inputIndex + groupOffset degree g + k)) := by
  induction degree with
  | nil => intro _ g d h; simp at h
  | cons d0 ds ih =>
    intro k g d h
    cases g with
    | zero =>
      simp only [List.getElem?_cons_zero, Option.some.injEq] at h
      subst h
      simp [fillPolynomialsMap, groupOffset]
    | succ g =>
      simp only [List.getElem?_cons_succ] at h
      simp only [fillPolynomialsMap, List.getElem?_cons_succ, ih (k + d0) g d h, groupOffset,
        List.take_succ_cons, List.sum_cons, Option.some.injEq]
      apply List.map_congr_left
      intro j _
      omega

theorem fillPolynomialsMap_join (degree : List Nat) :
    ∀ inputIndex, (fillPolynomialsMap degree inputIndex).flatten
      = (List.range degree.sum).map (fun k => inputIndex + k) := by
  induction degree with
  | nil => intro _; simp [fillPolynomialsMap]
  | cons d ds ih =>
    intro k
    simp only [fillPolynomialsMap, List.flatten_cons, ih, List.sum_cons]
    rw [List.range_add, List.map_append, List.map_map]
    congr 1
    apply List.map_congr_left
    intro j _
    simp only [Function.comp]
    omega

theorem fillPolynomialsMap_join_zero (degree : List Nat) :
    (fillPolynomialsMap degree 0).flatten = List.range degree.sum := by
  rw [fillPolynomialsMap_join]
  simp

end SlotLists

section InteractionInit

variable {R : Type} [LinearOrderedField R]

open PolynomialSpringsForceField

theorem initZeroLengthLoop_defined (zeroLength : List R) (n : Nat) (initial : List R)
    (flags : List Int) (hi : initial.length = n) (hf : flags.length = n)
    (hz : ∀ index, index < n →
      ∃ z, (if zeroLength.length > 1 then zeroLength[index]? else zeroLength[0]?) = some z) :
    ∃ r, initZeroLengthLoop zeroLength n initial flags = some r := by
  obtain ⟨r, hr, _⟩ := foldlM_range_invariant
    (fun (acc : List R × List Int) index => do
      let flags ← setAt acc.2 index 0
      let z ← if zeroLength.length > 1 then zeroLength[index]? else zeroLength[0]?
      let initial ← setAt acc.1 index z
      pure (initial, flags))
    (fun _ acc => acc.1.length = n ∧ acc.2.length = n) n
    (by
      intro k b hk hb
      obtain ⟨z, hzk⟩ := hz k hk
      refine ⟨(b.1.set k z, b.2.set k 0), ?_, by simp [hb.1], by simp [hb.2]⟩
      simp only [Option.bind_eq_bind, setAt_eq_some b.2 k 0 (hb.2 ▸ hk), Option.some_bind,
        Option.pure_def]
      split_ifs at hzk ⊢ <;> simp [hzk, setAt_eq_some b.1 k z (hb.1 ▸ hk)])
    (initial, flags) ⟨hi, hf⟩
  exact ⟨r, hr⟩

theorem recomputeIndices_stiffness_default (cfg : PolynomialSpringsForceField R) :
    (recomputeIndices (if cfg.d_polynomialStiffness.isEmpty = true then
      { cfg with d_polynomialStiffness := [100] } else cfg)).m_firstObjectIndices
      = cfg.recomputeIndices.m_firstObjectIndices := by
  unfold PolynomialSpringsForceField.recomputeIndices
  simp only []
  split_ifs <;> rfl

theorem recomputeIndices_computeZeroLength (cfg : PolynomialSpringsForceField R) :
    (recomputeIndices (if cfg.d_polynomialStiffness.isEmpty = true then
      { cfg with d_polynomialStiffness := [100] } else cfg)).d_computeZeroLength
      = cfg.d_computeZeroLength := by
  unfold PolynomialSpringsForceField.recomputeIndices
  simp only []
  split_ifs <;> rfl

theorem recomputeIndices_polynomial (cfg : PolynomialSpringsForceField R) :
    (recomputeIndices (if cfg.d_polynomialStiffness.isEmpty = true then
      { cfg with d_polynomialStiffness := [100] } else cfg)).d_polynomialStiffness
      = (if cfg.d_polynomialStiffness.isEmpty then [100] else cfg.d_polynomialStiffness)
    ∧ (recomputeIndices (if cfg.d_polynomialStiffness.isEmpty = true then
      { cfg with d_polynomialStiffness := [100] } else cfg)).d_polynomialDegree
      = cfg.d_polynomialDegree := by
  unfold PolynomialSpringsForceField.recomputeIndices
  simp only []
  split_ifs <;> exact ⟨rfl, rfl⟩

theorem bwdInit_inv (cfg st' : PolynomialSpringsForceField R) (h : bwdInit cfg = some st') :
    st'.d_polynomialStiffness
        = (if cfg.d_polynomialStiffness.isEmpty then [100] else cfg.d_polynomialStiffness)
    ∧ st'.d_polynomialDegree
        = (if cfg.d_polynomialDegree.isEmpty then [1] else cfg.d_polynomialDegree)
    ∧ st'.m_polynomialsMap = fillPolynomialsMap st'.d_polynomialDegree 0 := by
  obtain ⟨hs, hd⟩ := recomputeIndices_polynomial cfg
  have hcz := recomputeIndices_computeZeroLength cfg
  unfold PolynomialSpringsForceField.bwdInit at h
  simp only [] at h
  generalize recomputeIndices (if cfg.d_polynomialStiffness.isEmpty = true then
      { cfg with d_polynomialStiffness := [100] } else cfg) = st1 at h hs hd hcz
  by_cases hc : st1.d_computeZeroLength = 1
  · simp only [hc, if_true, Option.pure_def, Option.bind_eq_bind, Option.some_bind,
      Option.some.injEq] at h
    subst h
    refine ⟨?_, ?_, ?_⟩
    · split_ifs <;> simp_all
    · split_ifs <;> simp_all
    · rfl
  · simp only [hc, if_false, Option.pure_def, Option.bind_eq_bind, Option.bind_eq_some,
      Option.some.injEq] at h
    obtain ⟨r, _, a, ha, h⟩ := h
    subst ha
    subst h
    refine ⟨?_, ?_, ?_⟩
    · split_ifs <;> simp_all
    · split_ifs <;> simp_all
    · rfl

theorem bwdInit_defined (cfg : PolynomialSpringsForceField R) (hz : cfg.ZeroLengthReadable) :
    ∃ st', bwdInit cfg = some st' := by
  by_cases hc : cfg.d_computeZeroLength = 1
  · obtain ⟨st0, h, _⟩ := bwdInit_capture cfg hc
    exact ⟨st0, h⟩
  · have hz' := hz.resolve_left hc
    have hc' : ¬ (recomputeIndices (if cfg.d_polynomialStiffness.isEmpty = true then
        { cfg with d_polynomialStiffness := [100] } else cfg)).d_computeZeroLength = 1 := by
      unfold PolynomialSpringsForceField.recomputeIndices
      simp only []
      split_ifs <;> exact hc
    have hzl : (if cfg.d_polynomialStiffness.isEmpty = true then
        { cfg with d_polynomialStiffness := [100] } else cfg).d_zeroLength = cfg.d_zeroLength := by
      split_ifs <;> rfl
    rw [← recomputeIndices_stiffness_default] at hz'
    obtain ⟨r, hr⟩ := initZeroLengthLoop_defined cfg.d_zeroLength _
      (resize (recomputeIndices (if cfg.d_polynomialStiffness.isEmpty = true then
        { cfg with d_polynomialStiffness := [100] } else cfg)).m_initialSpringLength
        (recomputeIndices (if cfg.d_polynomialStiffness.isEmpty = true then
        { cfg with d_polynomialStiffness := [100] } else cfg)).m_firstObjectIndices.length 0)
      (resize (recomputeIndices (if cfg.d_polynomialStiffness.isEmpty = true then
        { cfg with d_polynomialStiffness := [100] } else cfg)).m_computeSpringsZeroLength
        (recomputeIndices (if cfg.d_polynomialStiffness.isEmpty = true then
        { cfg with d_polynomialStiffness := [100] } else cfg)).m_firstObjectIndices.length 0)
      (resize_length _ _ _) (resize_length _ _ _) hz'
    unfold PolynomialSpringsForceField.bwdInit
    simp only [hc', if_false, Option.pure_def, Option.bind_eq_bind, resize_length, hr,
      Option.some_bind]
    exact ⟨_, rfl⟩

end InteractionInit

section Table

variable {R : Type} [LinearOrderedField R]

theorem anchored_recomputeIndices_data (st st' : PolynomialRestShapeSpringsForceField R)
    (h : st.recomputeIndices = some st') :
    st'.d_polynomialStiffness = st.d_polynomialStiffness
    ∧ st'.d_polynomialDegree = st.d_polynomialDegree
    ∧ st'.d_zeroLength = st.d_zeroLength := by
  unfold PolynomialRestShapeSpringsForceField.recomputeIndices at h
  by_cases he : st.external_points.isEmpty = true
  · by_cases hu : st.useRestMState = true
    · simp only [he, hu, if_true, Option.bind_eq_bind, Option.pure_def, Option.bind_eq_some,
        Option.some_bind] at h
      obtain ⟨p0, _, h⟩ := h
      split_ifs at h <;>
      · cases h
        exact ⟨rfl, rfl, rfl⟩
    · simp only [he, hu, if_true, if_false, Option.bind_eq_bind, Option.pure_def,
        Option.some_bind, Bool.false_eq_true] at h
      split_ifs at h <;>
      · cases h
        exact ⟨rfl, rfl, rfl⟩
  · simp only [he, if_false, Option.bind_eq_bind, Option.pure_def, Option.some_bind,
      Bool.false_eq_true] at h
    split_ifs at h <;>
    · cases h
      exact ⟨rfl, rfl, rfl⟩

theorem anchored_bwdInit_eq (cfg : PolynomialRestShapeSpringsForceField R) :
    ∃ st', cfg.bwdInit = some st'
      ∧ st'.d_polynomialStiffness
          = (if cfg.d_polynomialStiffness.isEmpty then [100] else cfg.d_polynomialStiffness)
      ∧ st'.d_polynomialDegree
          = (if cfg.d_polynomialDegree.isEmpty then [1] else cfg.d_polynomialDegree)
      ∧ st'.m_polynomialsMap = fillPolynomialsMap st'.d_polynomialDegree 0
      ∧ st'.d_zeroLength = (if cfg.d_zeroLength.isEmpty then [1] else cfg.d_zeroLength) := by
  unfold PolynomialRestShapeSpringsForceField.bwdInit
  simp only []
  generalize hst0 : (if cfg.d_polynomialStiffness.isEmpty = true then
      { cfg with d_polynomialStiffness := [100] } else cfg) = st0
  have h0 : st0.d_polynomialStiffness
        = (if cfg.d_polynomialStiffness.isEmpty then [100] else cfg.d_polynomialStiffness)
      ∧ st0.d_polynomialDegree = cfg.d_polynomialDegree
      ∧ st0.d_zeroLength = cfg.d_zeroLength := by
    subst hst0
    split_ifs <;> exact ⟨rfl, rfl, rfl⟩
  generalize hst1 : (if st0.d_zeroLength.isEmpty = true then
      { st0 with d_zeroLength := [1] } else st0) = st1
  have h1 : st1.d_polynomialStiffness = st0.d_polynomialStiffness
      ∧ st1.d_polynomialDegree = st0.d_polynomialDegree
      ∧ st1.d_zeroLength = (if st0.d_zeroLength.isEmpty then [1] else st0.d_zeroLength) := by
    subst hst1
    split_ifs <;> exact ⟨rfl, rfl, rfl⟩
  obtain ⟨st2, hst2, _⟩ := recomputeIndices_anchored
    { st1 with useRestMState := st1.restMState.isSome } (st1.restMState.getD [])
    (by
      intro hu
      cases hr : st1.restMState with
      | none => simp [hr] at hu
      | some x => rfl)
  obtain ⟨e1, e2, e3⟩ := anchored_recomputeIndices_data _ _ hst2
  simp only [hst2, Option.pure_def, Option.bind_eq_bind, Option.some_bind]
  refine ⟨_, rfl, ?_, ?_, rfl, ?_⟩
  · have : ∀ s : PolynomialRestShapeSpringsForceField R,
        (if s.d_polynomialDegree.isEmpty = true then { s with d_polynomialDegree := [1] }
          else s).d_polynomialStiffness = s.d_polynomialStiffness := by
      intro s; split_ifs <;> rfl
    show (if st2.d_polynomialDegree.isEmpty = true then { st2 with d_polynomialDegree := [1] }
      else st2).d_polynomialStiffness = _
    rw [this, e1, h1.1, h0.1]
  · have : ∀ s : PolynomialRestShapeSpringsForceField R,
        (if s.d_polynomialDegree.isEmpty = true then { s with d_polynomialDegree := [1] }
          else s).d_polynomialDegree
          = if s.d_polynomialDegree.isEmpty then [1] else s.d_polynomialDegree := by
      intro s; split_ifs <;> rfl
    show (if st2.d_polynomialDegree.isEmpty = true then { st2 with d_polynomialDegree := [1] }
      else st2).d_polynomialDegree = _
    rw [this, e2, h1.2.1, h0.2.1]
  · have : ∀ s : PolynomialRestShapeSpringsForceField R,
        (if s.d_polynomialDegree.isEmpty = true then { s with d_polynomialDegree := [1] }
          else s).d_zeroLength = s.d_zeroLength := by
      intro s; split_ifs <;> rfl
    show (if st2.d_polynomialDegree.isEmpty = true then { st2 with d_polynomialDegree := [1] }
      else st2).d_zeroLength = _
    rw [this, e3, h1.2.2, h0.2.2]

theorem fillPolynomialsMap_slotTable (degree : List Nat) :
    SlotTable degree (fillPolynomialsMap degree 0) := by
  refine ⟨fillPolynomialsMap_length degree 0, ?_, fillPolynomialsMap_join_zero degree⟩
  intro g d hd
  refine ⟨_, fillPolynomialsMap_row degree 0 g d hd, by simp, ?_⟩
  intro k hk
  simp [hk]

theorem default_value (stiffness : List R) (degree : List Nat) (pmap : List (List Nat))
    (hs : stiffness = [100]) (hd : degree = [1]) (hp : pmap = fillPolynomialsMap degree 0)
    (s : R) : pmap = [[0]] ∧ polynomialValueLoop stiffness degree pmap 0 s = some (100 * s) := by
  subst hs hd hp
  refine ⟨by simp [fillPolynomialsMap, List.range_succ], ?_⟩
  simp [polynomialValueLoop, fillPolynomialsMap, List.range_succ]

/-- C29. For every degree vector, `bwdInit` of either field returns with a
table that has one row per group of the degree vector it leaves (the given one,
or `[1]` when none was given), row `g` of length `degree[g]` with entry `k`
equal to `offset(g) + k`, where `offset(g)` is the sum of `degree[h]` over
`h < g`; the rows together list `0, 1, ..., (sum of the degrees) - 1`. -/
theorem bwdInit_table (cfgi : PolynomialSpringsForceField R)
    (cfga : PolynomialRestShapeSpringsForceField R) (hz : cfgi.ZeroLengthReadable) :
    ∃ sti sta, cfgi.bwdInit = some sti ∧ cfga.bwdInit = some sta
      ∧ sti.d_polynomialDegree
          = (if cfgi.d_polynomialDegree.isEmpty then [1] else cfgi.d_polynomialDegree)
      ∧ sta.d_polynomialDegree
          = (if cfga.d_polynomialDegree.isEmpty then [1] else cfga.d_polynomialDegree)
      ∧ SlotTable sti.d_polynomialDegree sti.m_polynomialsMap
      ∧ SlotTable sta.d_polynomialDegree sta.m_polynomialsMap := by
  obtain ⟨sti, hi⟩ := bwdInit_defined cfgi hz
  obtain ⟨_, hdi, hti⟩ := bwdInit_inv cfgi sti hi
  obtain ⟨sta, ha, _, hda, hta, _⟩ := anchored_bwdInit_eq cfga
  refine ⟨sti, sta, hi, ha, hdi, hda, ?_, ?_⟩
  · rw [hti]
    exact fillPolynomialsMap_slotTable _
  · rw [hta]
    exact fillPolynomialsMap_slotTable _

theorem bwdInit_table_witness :
    (PolynomialSpringsForceField.configured [] [] [1, 2, 3, 4] [1, 3] 1 ([] : List ℚ) false false
        1 1).ZeroLengthReadable
    ∧ ∃ sti sta,
      (PolynomialSpringsForceField.configured [] [] [1, 2, 3, 4] [1, 3] 1 ([] : List ℚ) false
        false 1 1).bwdInit = some sti
      ∧ (PolynomialRestShapeSpringsForceField.configured [] [1, 2, 3, 4] [1, 3] [] false
        ([1] : List ℚ) 0 0 1 [0] none).bwdInit = some sta
      ∧ sti.d_polynomialDegree = (if [1, 3].isEmpty then [1] else [1, 3])
      ∧ sta.d_polynomialDegree = (if [1, 3].isEmpty then [1] else [1, 3])
      ∧ SlotTable sti.d_polynomialDegree sti.m_polynomialsMap
      ∧ SlotTable sta.d_polynomialDegree sta.m_polynomialsMap :=
  ⟨Or.inl rfl, bwdInit_table _ _ (Or.inl rfl)⟩

/-- C25. When the stiffness array and the degree vector are both given empty,
`bwdInit` of either field returns with stiffness `[100]`, degree `[1]` and the
table `[[0]]`, and then `PolynomialValue(0, s)` returns `100 * s` for every
`s`. -/
theorem bwdInit_defaults (cfgi : PolynomialSpringsForceField R)
    (cfga : PolynomialRestShapeSpringsForceField R) (hz : cfgi.ZeroLengthReadable)
    (hsi : cfgi.d_polynomialStiffness = []) (hdi : cfgi.d_polynomialDegree = [])
    (hsa : cfga.d_polynomialStiffness = []) (hda : cfga.d_polynomialDegree = []) :
    ∃ sti sta, cfgi.bwdInit = some sti ∧ cfga.bwdInit = some sta
      ∧ sti.d_polynomialStiffness = [100] ∧ sti.d_polynomialDegree = [1]
      ∧ sti.m_polynomialsMap = [[0]]
      ∧ (∀ s, sti.PolynomialValue 0 s = some (100 * s))
      ∧ sta.d_polynomialStiffness = [100] ∧ sta.d_polynomialDegree = [1]
      ∧ sta.m_polynomialsMap = [[0]]
      ∧ (∀ s, sta.PolynomialValue 0 s = some (100 * s)) := by
  obtain ⟨sti, hi⟩ := bwdInit_defined cfgi hz
  obtain ⟨hs1, hd1, ht1⟩ := bwdInit_inv cfgi sti hi
  obtain ⟨sta, ha, hs2, hd2, ht2, _⟩ := anchored_bwdInit_eq cfga
  rw [hsi] at hs1
  rw [hdi] at hd1
  rw [hsa] at hs2
  rw [hda] at hd2
  simp only [List.isEmpty_nil, if_true] at hs1 hd1 hs2 hd2
  exact ⟨sti, sta, hi, ha, hs1, hd1, (default_value _ _ _ hs1 hd1 ht1 0).1,
    fun s => (default_value _ _ _ hs1 hd1 ht1 s).2, hs2, hd2,
    (default_value _ _ _ hs2 hd2 ht2 0).1, fun s => (default_value _ _ _ hs2 hd2 ht2 s).2⟩

theorem bwdInit_defaults_witness :
    (PolynomialSpringsForceField.configured [0] [0] [] [] 0 ([2] : List ℚ) false false
        1 1).ZeroLengthReadable
    ∧ ∃ sti sta,
      (PolynomialSpringsForceField.configured [0] [0] [] [] 0 ([2] : List ℚ) false false
        1 1).bwdInit = some sti
      ∧ (PolynomialRestShapeSpringsForceField.configured [0] [] [] [] false ([] : List ℚ) 0 0 1
        [0] none).bwdInit = some sta
      ∧ sti.d_polynomialStiffness = [100] ∧ sti.d_polynomialDegree = [1]
      ∧ sti.m_polynomialsMap = [[0]]
      ∧ (∀ s, sti.PolynomialValue 0 s = some (100 * s))
      ∧ sta.d_polynomialStiffness = [100] ∧ sta.d_polynomialDegree = [1]
      ∧ sta.m_polynomialsMap = [[0]]
      ∧ (∀ s, sta.PolynomialValue 0 s = some (100 * s)) :=
  have hz : (PolynomialSpringsForceField.configured [0] [0] [] [] 0 ([2] : List ℚ) false false
      1 1).ZeroLengthReadable :=
    Or.inr (fun index _ => ⟨2, by
      simp [PolynomialSpringsForceField.configured]⟩)
  ⟨hz, bwdInit_defaults _ _ hz rfl rfl rfl rfl⟩

/-- C30. With no stiffness and the degree vector `[2]`, `bwdInit` of either
field returns with stiffness `[100]` of length `1`, degrees of sum `2` and the
table `[[0, 1]]`: slot `1` lies past the end of the stiffness array, and
`PolynomialValue(0, s)` reads `stiffness[1]`, which the array does not have. -/
theorem bwdInit_slot_past_end :
    ∃ sti sta,
      (PolynomialSpringsForceField.configured [] [] [] [2] 1 ([] : List ℚ) false false
        1 1).bwdInit = some sti
      ∧ (PolynomialRestShapeSpringsForceField.configured [] [] [2] [] false ([] : List ℚ) 0 0 1
        [0] none).bwdInit = some sta
      ∧ sti.d_polynomialStiffness.length = 1 ∧ sti.d_polynomialDegree.sum = 2
      ∧ sti.m_polynomialsMap = [[0, 1]] ∧ (∀ s, sti.PolynomialValue 0 s = none)
      ∧ sta.d_polynomialStiffness.length = 1 ∧ sta.d_polynomialDegree.sum = 2
      ∧ sta.m_polynomialsMap = [[0, 1]] ∧ (∀ s, sta.PolynomialValue 0 s = none) := by
  obtain ⟨sti, hi⟩ := bwdInit_defined (PolynomialSpringsForceField.configured [] [] [] [2] 1
    ([] : List ℚ) false false 1 1) (Or.inl rfl)
  obtain ⟨hs1, hd1, ht1⟩ := bwdInit_inv _ sti hi
  obtain ⟨sta, ha, hs2, hd2, ht2, _⟩ := anchored_bwdInit_eq
    (PolynomialRestShapeSpringsForceField.configured [] [] [2] [] false ([] : List ℚ) 0 0 1
      [0] none)
  have e1 : sti.d_polynomialStiffness = [100] := by
    simpa [PolynomialSpringsForceField.configured] using hs1
  have e2 : sti.d_polynomialDegree = [2] := by
    simpa [PolynomialSpringsForceField.configured] using hd1
  have e3 : sta.d_polynomialStiffness = [100] := by
    simpa [PolynomialRestShapeSpringsForceField.configured] using hs2
  have e4 : sta.d_polynomialDegree = [2] := by
    simpa [PolynomialRestShapeSpringsForceField.configured] using hd2
  rw [e2] at ht1
  rw [e4] at ht2
  have e5 : fillPolynomialsMap [2] 0 = [[0, 1]] := by simp [fillPolynomialsMap, List.range_succ]
  rw [e5] at ht1 ht2
  refine ⟨sti, sta, hi, ha, by simp [e1], by simp [e2], ht1, ?_, by simp [e3], by simp [e4],
    ht2, ?_⟩
  · intro s
    simp [PolynomialSpringsForceField.PolynomialValue, polynomialValueLoop, e1, e2, ht1,
      List.range_succ]
  · intro s
    simp [PolynomialRestShapeSpringsForceField.PolynomialValue, polynomialValueLoop, e3, e4, ht2,
      List.range_succ]

end Table

section InteractionDForce

variable {R : Type} [LinearOrderedField R]

open PolynomialSpringsForceField

theorem addDForceSpring_eq (st : PolynomialSpringsForceField R) (kFactor : R)
    (dx1 dx2 df1 df2 : List (Vec3 R)) (index a b : Nat) (J : Mat3 R) (x1 x2 d1 d2 : Vec3 R)
    (ha : st.m_firstObjectIndices[index]? = some a)
    (hb : st.m_secondObjectIndices[index]? = some b)
    (hJ : st.m_differential[index]? = some J)
    (hx1 : dx1[a]? = some x1) (hx2 : dx2[b]? = some x2)
    (hd1 : df1[a]? = some d1) (hd2 : df2[b]? = some d2) :
    addDForceSpring st kFactor dx1 dx2 (df1, df2) index
      = some (df1.set a (d1 + kFactor • mulVec3 J (x2 - x1)),
          df2.set b (d2 - kFactor • mulVec3 J (x2 - x1))) := by
  simp only [addDForceSpring, ha, hb, hJ, hx1, hx2, hd1, hd2, Option.bind_eq_bind,
    Option.some_bind, Option.pure_def,
    setAt_eq_some df1 a _ (lt_length_of_getElem? _ _ _ hd1),
    setAt_eq_some df2 b _ (lt_length_of_getElem? _ _ _ hd2)]

/-- C23. `addDForce` of the interaction field runs its loop body for
`index = 0 .. size-1`; the body for a spring with endpoints `a`, `b` and cached
block `J` returns with `df1[a]` increased by `kFactor * J * (dx2[b] - dx1[a])`
and `df2[b]` decreased by the same vector, every other entry kept. The signs are
those of the force accumulation of `addForce`, which increases `f1[a]` by
`F * sign * direction` and decreases `f2[b]` by it. -/
theorem addDForceSpring_accumulates (st : PolynomialSpringsForceField R) (kFactor : R)
    (dx1 dx2 df1 df2 : List (Vec3 R)) (index a b : Nat) (J : Mat3 R) (x1 x2 d1 d2 : Vec3 R)
    (ha : st.m_firstObjectIndices[index]? = some a)
    (hb : st.m_secondObjectIndices[index]? = some b)
    (hJ : st.m_differential[index]? = some J)
    (hx1 : dx1[a]? = some x1) (hx2 : dx2[b]? = some x2)
    (hd1 : df1[a]? = some d1) (hd2 : df2[b]? = some d2) :
    st.addDForce kFactor df1 df2 dx1 dx2
        = (List.range st.m_firstObjectIndices.length).foldlM
            (addDForceSpring st kFactor dx1 dx2) (df1, df2)
    ∧ (∃ df1' df2', addDForceSpring st kFactor dx1 dx2 (df1, df2) index = some (df1', df2')
        ∧ df1'[a]? = some (d1 + kFactor • mulVec3 J (x2 - x1))
        ∧ df2'[b]? = some (d2 - kFactor • mulVec3 J (x2 - x1))
        ∧ (∀ j, j ≠ a → df1'[j]? = df1[j]?)
        ∧ (∀ j, j ≠ b → df2'[j]? = df2[j]?))
    ∧ (∀ (f1 f2 : List (Vec3 R)) (fa fb direction : Vec3 R) (F sign : R),
        f1[a]? = some fa → f2[b]? = some fb →
        ∃ f1' f2', accumulateForce f1 f2 a b F sign direction = some (f1', f2')
          ∧ f1'[a]? = some (fa + (F * sign) • direction)
          ∧ f2'[b]? = some (fb - (F * sign) • direction)) := by
  refine ⟨rfl, ⟨_, _, addDForceSpring_eq st kFactor dx1 dx2 df1 df2 index a b J x1 x2 d1 d2
    ha hb hJ hx1 hx2 hd1 hd2, ?_, ?_, ?_, ?_⟩, ?_⟩
  · exact getElem?_set_self _ _ _ (lt_length_of_getElem? _ _ _ hd1)
  · exact getElem?_set_self _ _ _ (lt_length_of_getElem? _ _ _ hd2)
  · intro j hj
    exact getElem?_set_other _ _ _ _ hj
  · intro j hj
    exact getElem?_set_other _ _ _ _ hj
  · intro f1 f2 fa fb direction F sign hfa hfb
    refine ⟨_, _, accumulateForce_eq f1 f2 a b F sign direction fa fb hfa hfb, ?_, ?_⟩
    · exact getElem?_set_self _ _ _ (lt_length_of_getElem? _ _ _ hfa)
    · rw [getElem?_set_self _ _ _ (lt_length_of_getElem? _ _ _ hfb), neg_mul, neg_smul,
        sub_eq_add_neg]

theorem addDForceSpring_accumulates_witness :
    pairSpring.addDForce 2 [0, 0] [0, 0] [0, 0] [0, ![1, 0, 0]]
        = (List.range pairSpring.m_firstObjectIndices.length).foldlM
            (addDForceSpring pairSpring 2 [0, 0] [0, ![1, 0, 0]]) ([0, 0], [0, 0])
    ∧ (∃ df1' df2',
        addDForceSpring pairSpring 2 [0, 0] [0, ![1, 0, 0]] ([0, 0], [0, 0]) 0
          = some (df1', df2')
        ∧ df1'[0]? = some (0 + (2 : ℚ) • mulVec3 (fun _ _ => 1) (![1, 0, 0] - 0))
        ∧ df2'[1]? = some (0 - (2 : ℚ) • mulVec3 (fun _ _ => 1) (![1, 0, 0] - 0))
        ∧ (∀ j, j ≠ 0 → df1'[j]? = ([0, 0] : List (Vec3 ℚ))[j]?)
        ∧ (∀ j, j ≠ 1 → df2'[j]? = ([0, 0] : List (Vec3 ℚ))[j]?))
    ∧ (∀ (f1 f2 : List (Vec3 ℚ)) (fa fb direction : Vec3 ℚ) (F sign : ℚ),
        f1[0]? = some fa → f2[1]? = some fb →
        ∃ f1' f2', accumulateForce f1 f2 0 1 F sign direction = some (f1', f2')
          ∧ f1'[0]? = some (fa + (F * sign) • direction)
          ∧ f2'[1]? = some (fb - (F * sign) • direction)) :=
  addDForceSpring_accumulates pairSpring 2 [0, 0] [0, ![1, 0, 0]] [0, 0] [0, 0] 0 0 1
    (fun _ _ => 1) 0 ![1, 0, 0] 0 0 rfl rfl rfl rfl rfl rfl rfl

end InteractionDForce

section AnchoredDForce

variable {R : Type} [LinearOrderedField R]

open PolynomialRestShapeSpringsForceField

theorem addDForceLoop_apply (kFactor : R) (J x d : Vec3 R) (c : Fin 3) :
    addDForceLoop kFactor J x d c = d c + J c * x c * kFactor := by
  unfold PolynomialRestShapeSpringsForceField.addDForceLoop
  have e : List.finRange 3 = [0, 1, 2] := rfl
  rw [e]
  fin_cases c <;> simp [Function.update]

theorem anchored_addDForceSpring_eq (st : PolynomialRestShapeSpringsForceField R) (kFactor : R)
    (dx df : List (Vec3 R)) (index a : Nat) (J x d : Vec3 R)
    (ha : st.m_indices[index]? = some a) (hJ : st.m_differential[index]? = some J)
    (hx : dx[a]? = some x) (hd : df[a]? = some d) :
    addDForceSpring st kFactor dx df index
      = some (df.set a (fun c => d c + J c * x c * kFactor)) := by
  simp only [addDForceSpring, ha, hJ, hx, hd, Option.bind_eq_bind, Option.some_bind,
    setAt_eq_some df a _ (lt_length_of_getElem? _ _ _ hd)]
  congr 2
  funext c
  exact addDForceLoop_apply kFactor J x d c

/-- C24. For the anchored field whose one spring sits at node `1` with cached
diagonal `(1, 2, 3)`, `addDForce` with `kFactor = 1`, `dx[1] = (1, 1, 1)` and
`df = 0` returns `df[1] = (1, 2, 3)`: every component is increased by
`kFactor * J[c] * dx[1][c]`, not decreased. Node `0` is not touched. -/
theorem anchored_addDForce_increases :
    diagonalSpring.addDForce 1 [0, 0] [0, ![1, 1, 1]] = some [0, ![1, 2, 3]]
    ∧ diagonalSpring.m_indices = [1] ∧ diagonalSpring.m_differential = [![1, 2, 3]] := by
  refine ⟨?_, rfl, rfl⟩
  · have h := anchored_addDForceSpring_eq diagonalSpring 1 [0, ![1, 1, 1]] [0, 0] 0 1
      ![1, 2, 3] ![1, 1, 1] 0 rfl rfl rfl rfl
    have e : diagonalSpring.addDForce 1 [0, 0] [0, ![1, 1, 1]]
        = addDForceSpring diagonalSpring 1 [0, ![1, 1, 1]] [0, 0] 0 := by
      have e1 : List.range diagonalSpring.m_indices.length = [0] := rfl
      rw [PolynomialRestShapeSpringsForceField.addDForce, e1]
      simp only [List.foldlM_cons, List.foldlM_nil, Option.bind_eq_bind]
      cases addDForceSpring diagonalSpring 1 [0, ![1, 1, 1]] [0, 0] 0 <;> rfl
    rw [e, h]
    simp only [List.set_cons_succ, List.set_cons_zero, Option.some.injEq, List.cons.injEq,
      true_and, and_true]
    funext c
    fin_cases c <;> simp

end AnchoredDForce

section EmptySet

variable {R : Type} [LinearOrderedField R]

theorem resize_getElem? {α : Type} (v : List α) (n : Nat) (d : α) (j : Nat) (x : α)
    (hj : j < n) (h : v[j]? = some x) : (resize v n d)[j]? = some x := by
  have hl := lt_length_of_getElem? v j x h
  unfold resize
  rw [List.getElem?_append_left (by simp [hj, hl]), List.getElem?_take_of_lt hj, h]

/-- C28. When the resolved spring set is empty, every entry point returns and
changes nothing. Interaction field: `addForce` returns the force vectors resized
to the position vectors (every entry they had below that size is kept, and
vectors already of that size are returned as they are), and on the field it
leaves `addDForce` returns `df1`, `df2` and `addKToMatrix`, `addSubKToMatrix`
return the matrices as they were. Anchored field, the reference positions
being readable: the same for `addForce`, `addDForce`, `addKToMatrix` and
`addSubKToMatrix`. -/
theorem empty_spring_set_inert (M : MathOps R) (sti : PolynomialSpringsForceField R)
    (sta sta1 : PolynomialRestShapeSpringsForceField R) (p0 : List (Vec3 R))
    (hi : sti.resolved.m_firstObjectIndices = [])
    (hp0 : sta.getExtPosition = some p0)
    (hres : (if sta.d_recomputeIndices then sta.recomputeIndices else some sta) = some sta1)
    (ha : sta1.m_indices = []) :
    (∀ f1 f2 p1 p2 : List (Vec3 R),
      sti.addForce M f1 f2 p1 p2
          = some (sti.resolved, resize f1 p1.length 0, resize f2 p2.length 0)
      ∧ (∀ j x, j < p1.length → f1[j]? = some x → (resize f1 p1.length 0)[j]? = some x)
      ∧ (∀ j x, j < p2.length → f2[j]? = some x → (resize f2 p2.length 0)[j]? = some x)
      ∧ (f1.length = p1.length → resize f1 p1.length 0 = f1)
      ∧ (f2.length = p2.length → resize f2 p2.length 0 = f2))
    ∧ (∀ (kFactor : R) (df1 df2 dx1 dx2 : List (Vec3 R)),
        sti.resolved.addDForce kFactor df1 df2 dx1 dx2 = some (df1, df2))
    ∧ (∀ (kFact : R) (sameState : Bool) (mref11 mref22 : MatrixRef)
        (mref12 mref21 : InteractionMatrixRef) (store : MatrixStore R),
        sti.resolved.addKToMatrix kFact sameState mref11 mref22 mref12 mref21 store = some store
        ∧ ∀ addSubIndex, sti.resolved.addSubKToMatrix kFact sameState mref11 mref22 mref12 mref21
            addSubIndex store = some store)
    ∧ (∀ f p1 : List (Vec3 R),
        sta.addForce M f p1 = some (sta1, resize f p1.length 0)
        ∧ (∀ j x, j < p1.length → f[j]? = some x → (resize f p1.length 0)[j]? = some x)
        ∧ (f.length = p1.length → resize f p1.length 0 = f))
    ∧ (∀ (kFactor : R) (df dx : List (Vec3 R)), sta1.addDForce kFactor df dx = some df)
    ∧ (∀ (kFact : R) (mref : MatrixRef) (store : MatrixStore R),
        sta1.addKToMatrix kFact mref store = some store
        ∧ ∀ addSubIndex, sta1.addSubKToMatrix kFact mref addSubIndex store = some store) := by
  refine ⟨?_, ?_, ?_, ?_, ?_, ?_⟩
  · intro f1 f2 p1 p2
    refine ⟨?_, fun j x hj h => resize_getElem? f1 _ 0 j x hj h,
      fun j x hj h => resize_getElem? f2 _ 0 j x hj h, ?_, ?_⟩
    · rw [addForce_eq_fold, hi]
      rfl
    · intro h
      rw [← h]
      exact resize_self f1 0
    · intro h
      rw [← h]
      exact resize_self f2 0
  · intro kFactor df1 df2 dx1 dx2
    unfold PolynomialSpringsForceField.addDForce
    rw [hi]
    rfl
  · intro kFact sameState mref11 mref22 mref12 mref21 store
    constructor
    · unfold PolynomialSpringsForceField.addKToMatrix
      rw [hi]
      split_ifs <;> rfl
    · intro addSubIndex
      unfold PolynomialSpringsForceField.addSubKToMatrix
      rw [hi]
      split_ifs <;> rfl
  · intro f p1
    refine ⟨?_, fun j x hj h => resize_getElem? f _ 0 j x hj h, ?_⟩
    · rw [anchored_addForce_eq_fold M sta sta1 f p1 p0 hp0 hres, ha]
      rfl
    · intro h
      rw [← h]
      exact resize_self f 0
  · intro kFactor df dx
    unfold PolynomialRestShapeSpringsForceField.addDForce
    rw [ha]
    rfl
  · intro kFact mref store
    constructor
    · unfold PolynomialRestShapeSpringsForceField.addKToMatrix
      rw [ha]
      rfl
    · intro addSubIndex
      unfold PolynomialRestShapeSpringsForceField.addSubKToMatrix
      rw [ha]
      rfl

theorem empty_spring_set_inert_witness :
    mismatchedInteraction.resolved.m_firstObjectIndices = []
    ∧ mismatchedAnchored.getExtPosition = some [0, 0]
    ∧ (if mismatchedAnchored.d_recomputeIndices then mismatchedAnchored.recomputeIndices
        else some mismatchedAnchored) = some mismatchedAnchored
    ∧ mismatchedAnchored.m_indices = []
    ∧ mismatchedInteraction.addForce ratOps [![1, 2, 3], 0] [0] [0, 0] [0]
        = some (mismatchedInteraction.resolved, resize [![1, 2, 3], 0] 2 0, resize [0] 1 0)
    ∧ mismatchedInteraction.resolved.addDForce 1 [![1, 2, 3]] [0] [0] [0]
        = some ([![1, 2, 3]], [0])
    ∧ mismatchedAnchored.addForce ratOps [![1, 2, 3], 0] [0, 0]
        = some (mismatchedAnchored, resize [![1, 2, 3], 0] 2 0)
    ∧ mismatchedAnchored.addKToMatrix 1 ⟨none, 0⟩ (fun _ _ _ => 0) = some (fun _ _ _ => 0) :=
  have hi : mismatchedInteraction.resolved.m_firstObjectIndices = [] := by
    simp [mismatchedInteraction, PolynomialSpringsForceField.resolved,
      PolynomialSpringsForceField.recomputeIndices, PolynomialSpringsForceField.configured]
  have hp0 : mismatchedAnchored.getExtPosition = some [0, 0] := rfl
  have hres : (if mismatchedAnchored.d_recomputeIndices then mismatchedAnchored.recomputeIndices
      else some mismatchedAnchored) = some mismatchedAnchored := by
    simp [mismatchedAnchored, PolynomialRestShapeSpringsForceField.recomputeIndices,
      PolynomialRestShapeSpringsForceField.configured]
  have ha : mismatchedAnchored.m_indices = [] := rfl
  ⟨hi, hp0, hres, ha,
    ((empty_spring_set_inert ratOps mismatchedInteraction mismatchedAnchored mismatchedAnchored
      [0, 0] hi hp0 hres ha).1 [![1, 2, 3], 0] [0] [0, 0] [0]).1,
    (empty_spring_set_inert ratOps mismatchedInteraction mismatchedAnchored mismatchedAnchored
      [0, 0] hi hp0 hres ha).2.1 1 [![1, 2, 3]] [0] [0] [0],
    ((empty_spring_set_inert ratOps mismatchedInteraction mismatchedAnchored mismatchedAnchored
      [0, 0] hi hp0 hres ha).2.2.2.1 [![1, 2, 3], 0] [0, 0]).1,
    ((empty_spring_set_inert ratOps mismatchedInteraction mismatchedAnchored mismatchedAnchored
      [0, 0] hi hp0 hres ha).2.2.2.2.2 1 ⟨none, 0⟩ (fun _ _ _ => 0)).1⟩

end EmptySet

section Filter

variable {R : Type} [LinearOrderedField R]

theorem contains_eq_decide (L : List Nat) (a : Nat) : contains L a = decide (a ∈ L) := by
  induction L with
  | nil => simp [contains]
  | cons x xs ih =>
    unfold contains
    by_cases h : a = x
    · simp [h]
    · simp [h, ih]

theorem foldlM_range_getElem? {α σ : Type} (f : σ → α → Option σ) (l : List α) :
    ∀ s, (List.range l.length).foldlM (fun s i => (l[i]?).bind (f s)) s = l.foldlM f s := by
  induction l with
  | nil => intro s; rfl
  | cons x xs ih =>
    intro s
    rw [List.length_cons, List.range_succ_eq_map, List.foldlM_cons, List.foldlM_cons]
    simp only [List.foldlM_map, List.getElem?_cons_zero, Option.some_bind,
      List.getElem?_cons_succ, Nat.succ_eq_add_one, Option.bind_eq_bind]
    cases f s x with
    | none => rfl
    | some s1 => exact ih s1

theorem foldlM_skip_filter {α σ : Type} (f : σ → α → Option σ) (p : α → Bool) (l : List α) :
    ∀ s, l.foldlM (fun s x => if !p x then pure s else f s x) s = (l.filter p).foldlM f s := by
  induction l with
  | nil => intro s; rfl
  | cons x xs ih =>
    intro s
    rw [List.foldlM_cons]
    cases hp : p x with
    | false =>
      rw [List.filter_cons_of_neg (by simp [hp])]
      simp only [Bool.not_false, if_true, Option.pure_def, Option.bind_eq_bind, Option.some_bind]
      exact ih s
    | true =>
      rw [List.filter_cons_of_pos (by simp [hp]), List.foldlM_cons]
      simp only [Bool.not_true, Bool.false_eq_true, if_false]
      cases f s x with
      | none => rfl
      | some s1 => exact ih s1

theorem zip_map_pair {α β : Type} (l : List (α × β)) :
    (l.map (fun t => t.1)).zip (l.map (fun t => t.2)) = l := by
  induction l with
  | nil => rfl
  | cons x xs ih => simp [ih]

theorem getElem?_zip_bind {α β : Type} (l₁ : List α) (l₂ : List β) (i : Nat) :
    (l₁.zip l₂)[i]? = (l₁[i]?).bind (fun a => (l₂[i]?).map (fun b => (a, b))) := by
  cases h1 : l₁[i]? <;> cases h2 : l₂[i]? <;>
    simp [List.getElem?_zip_eq_some, h1, h2, Option.eq_none_iff_forall_not_mem]

theorem addKToMatrixSpring_zip (st : PolynomialSpringsForceField R) (kFact : R)
    (entry : Nat → Nat → Fin 3 → Fin 3 → R → MatrixStore R → Option (MatrixStore R))
    (store : MatrixStore R) (index : Nat) :
    st.addKToMatrixSpring kFact entry store index
      = ((st.m_firstObjectIndices.zip
            (st.m_secondObjectIndices.zip st.m_differential))[index]?).bind
          (fun t => (List.finRange 3).foldlM
            (fun store i => (List.finRange 3).foldlM
              (fun store j => entry t.1 t.2.1 i j (t.2.2 i j * kFact) store) store) store) := by
  unfold PolynomialSpringsForceField.addKToMatrixSpring
  rw [getElem?_zip_bind, getElem?_zip_bind]
  cases st.m_firstObjectIndices[index]? <;> cases st.m_secondObjectIndices[index]? <;>
    cases st.m_differential[index]? <;> rfl

theorem addSubKToMatrixSpring_zip (st : PolynomialSpringsForceField R) (kFact : R)
    (entry : Nat → Nat → Fin 3 → Fin 3 → R → MatrixStore R → Option (MatrixStore R))
    (addSubIndex : List Nat) (store : MatrixStore R) (index : Nat) :
    st.addSubKToMatrixSpring kFact entry addSubIndex store index
      = ((st.m_firstObjectIndices.zip
            (st.m_secondObjectIndices.zip st.m_differential))[index]?).bind
          (fun t => if !decide (t.1 ∈ addSubIndex) then pure store
            else (List.finRange 3).foldlM
              (fun store i => (List.finRange 3).foldlM
                (fun store j => entry t.1 t.2.1 i j (t.2.2 i j * kFact) store) store) store) := by
  unfold PolynomialSpringsForceField.addSubKToMatrixSpring
  rw [getElem?_zip_bind, getElem?_zip_bind]
  cases st.m_firstObjectIndices[index]? <;> cases st.m_secondObjectIndices[index]? <;>
    cases st.m_differential[index]? <;> simp [contains_eq_decide]

theorem restrictTo_zip (st : PolynomialSpringsForceField R) (L : List Nat) :
    (st.restrictTo L).m_firstObjectIndices.zip
        ((st.restrictTo L).m_secondObjectIndices.zip (st.restrictTo L).m_differential)
      = (st.m_firstObjectIndices.zip (st.m_secondObjectIndices.zip st.m_differential)).filter
          (fun t => decide (t.1 ∈ L)) := by
  unfold PolynomialSpringsForceField.restrictTo
  simp only []
  generalize (st.m_firstObjectIndices.zip (st.m_secondObjectIndices.zip st.m_differential)).filter
    (fun t => decide (t.1 ∈ L)) = T
  induction T with
  | nil => rfl
  | cons x xs ih => simp [ih]

theorem restrictTo_length (st : PolynomialSpringsForceField R) (L : List Nat) :
    (st.restrictTo L).m_firstObjectIndices.length
      = ((st.restrictTo L).m_firstObjectIndices.zip
          ((st.restrictTo L).m_secondObjectIndices.zip (st.restrictTo L).m_differential)).length
    ∧ (st.restrictTo L).m_secondObjectIndices.length = (st.restrictTo L).m_firstObjectIndices.length
    ∧ (st.restrictTo L).m_differential.length = (st.restrictTo L).m_firstObjectIndices.length := by
  rw [restrictTo_zip]
  simp [PolynomialSpringsForceField.restrictTo]

theorem addSubKToMatrix_fold (st : PolynomialSpringsForceField R) (kFact : R)
    (entry : Nat → Nat → Fin 3 → Fin 3 → R → MatrixStore R → Option (MatrixStore R))
    (L : List Nat) (store : MatrixStore R)
    (h2 : st.m_firstObjectIndices.length ≤ st.m_secondObjectIndices.length)
    (hJ : st.m_firstObjectIndices.length ≤ st.m_differential.length) :
    (List.range st.m_firstObjectIndices.length).foldlM
        (st.addSubKToMatrixSpring kFact entry L) store
      = (List.range (st.restrictTo L).m_firstObjectIndices.length).foldlM
        ((st.restrictTo L).addKToMatrixSpring kFact entry) store := by
  have hlen : st.m_firstObjectIndices.length
      = (st.m_firstObjectIndices.zip (st.m_secondObjectIndices.zip st.m_differential)).length := by
    simp only [List.length_zip]
    omega
  have e1 : st.addSubKToMatrixSpring kFact entry L = fun s i =>
      ((st.m_firstObjectIndices.zip (st.m_secondObjectIndices.zip st.m_differential))[i]?).bind
        ((fun s (t : Nat × Nat × Mat3 R) => if !decide (t.1 ∈ L) then pure s
            else (List.finRange 3).foldlM
              (fun store i => (List.finRange 3).foldlM
                (fun store j => entry t.1 t.2.1 i j (t.2.2 i j * kFact) store) store) s) s) := by
    funext s i
    exact addSubKToMatrixSpring_zip st kFact entry L s i
  have e2 : (st.restrictTo L).addKToMatrixSpring kFact entry = fun s i =>
      (((st.restrictTo L).m_firstObjectIndices.zip
        ((st.restrictTo L).m_secondObjectIndices.zip (st.restrictTo L).m_differential))[i]?).bind
        ((fun s (t : Nat × Nat × Mat3 R) => (List.finRange 3).foldlM
              (fun store i => (List.finRange 3).foldlM
                (fun store j => entry t.1 t.2.1 i j (t.2.2 i j * kFact) store) store) s) s) := by
    funext s i
    exact addKToMatrixSpring_zip (st.restrictTo L) kFact entry s i
  rw [e1, e2, hlen, (restrictTo_length st L).1, foldlM_range_getElem?, foldlM_range_getElem?,
    restrictTo_zip]
  exact foldlM_skip_filter _ (fun t : Nat × Nat × Mat3 R => decide (t.1 ∈ L)) _ store

theorem anchored_addKToMatrixSpring_zip (st : PolynomialRestShapeSpringsForceField R) (kFact : R)
    (mref : MatrixRef) (store : MatrixStore R) (index : Nat) :
    st.addKToMatrixSpring kFact mref store index
      = ((st.m_indices.zip st.m_differential)[index]?).bind
          (fun t => (List.finRange 3).foldlM
            (fun store i => store.add mref.matrix (mref.offset + 3 * t.1 + i)
              (mref.offset + 3 * t.1 + i) (-kFact * t.2 i)) store) := by
  unfold PolynomialRestShapeSpringsForceField.addKToMatrixSpring
  rw [getElem?_zip_bind]
  cases st.m_indices[index]? <;> cases st.m_differential[index]? <;> rfl

theorem anchored_addSubKToMatrixSpring_zip (st : PolynomialRestShapeSpringsForceField R)
    (kFact : R) (mref : MatrixRef) (addSubIndex : List Nat) (store : MatrixStore R)
    (index : Nat) :
    st.addSubKToMatrixSpring kFact mref addSubIndex store index
      = ((st.m_indices.zip st.m_differential)[index]?).bind
          (fun t => if !decide (t.1 ∈ addSubIndex) then pure store
            else (List.finRange 3).foldlM
              (fun store i => store.add mref.matrix (mref.offset + 3 * t.1 + i)
                (mref.offset + 3 * t.1 + i) (-kFact * t.2 i)) store) := by
  unfold PolynomialRestShapeSpringsForceField.addSubKToMatrixSpring
  rw [getElem?_zip_bind]
  cases st.m_indices[index]? <;> cases st.m_differential[index]? <;>
    simp [contains_eq_decide]

theorem anchored_restrictTo_zip (st : PolynomialRestShapeSpringsForceField R) (L : List Nat) :
    (st.restrictTo L).m_indices.zip (st.restrictTo L).m_differential
      = (st.m_indices.zip st.m_differential).filter (fun t => decide (t.1 ∈ L)) :=
  zip_map_pair _

theorem anchored_restrictTo_length (st : PolynomialRestShapeSpringsForceField R)
    (L : List Nat) :
    (st.restrictTo L).m_indices.length
      = ((st.restrictTo L).m_indices.zip (st.restrictTo L).m_differential).length
    ∧ (st.restrictTo L).m_differential.length = (st.restrictTo L).m_indices.length := by
  rw [anchored_restrictTo_zip]
  simp [PolynomialRestShapeSpringsForceField.restrictTo]

theorem anchored_addSubKToMatrix_fold (st : PolynomialRestShapeSpringsForceField R) (kFact : R)
    (mref : MatrixRef) (L : List Nat) (store : MatrixStore R)
    (hJ : st.m_indices.length ≤ st.m_differential.length) :
    st.addSubKToMatrix kFact mref L store = (st.restrictTo L).addKToMatrix kFact mref store := by
  have hlen : st.m_indices.length = (st.m_indices.zip st.m_differential).length := by
    simp only [List.length_zip]
    omega
  have e1 : st.addSubKToMatrixSpring kFact mref L = fun s i =>
      ((st.m_indices.zip st.m_differential)[i]?).bind
        ((fun s (t : Nat × Vec3 R) => if !decide (t.1 ∈ L) then pure s
            else (List.finRange 3).foldlM
              (fun store i => store.add mref.matrix (mref.offset + 3 * t.1 + i)
                (mref.offset + 3 * t.1 + i) (-kFact * t.2 i)) s) s) := by
    funext s i
    exact anchored_addSubKToMatrixSpring_zip st kFact mref L s i
  have e2 : (st.restrictTo L).addKToMatrixSpring kFact mref = fun s i =>
      (((st.restrictTo L).m_indices.zip (st.restrictTo L).m_differential)[i]?).bind
        ((fun s (t : Nat × Vec3 R) => (List.finRange 3).foldlM
              (fun store i => store.add mref.matrix (mref.offset + 3 * t.1 + i)
                (mref.offset + 3 * t.1 + i) (-kFact * t.2 i)) s) s) := by
    funext s i
    exact anchored_addKToMatrixSpring_zip (st.restrictTo L) kFact mref s i
  unfold PolynomialRestShapeSpringsForceField.addSubKToMatrix
    PolynomialRestShapeSpringsForceField.addKToMatrix
  rw [e1, e2, hlen, (anchored_restrictTo_length st L).1, foldlM_range_getElem?,
    foldlM_range_getElem?, anchored_restrictTo_zip]
  exact foldlM_skip_filter _ (fun t : Nat × Vec3 R => decide (t.1 ∈ L)) _ store

theorem addSubKToMatrix_eq (st : PolynomialSpringsForceField R) (kFact : R) (sameState : Bool)
    (mref11 mref22 : MatrixRef) (mref12 mref21 : InteractionMatrixRef) (L : List Nat)
    (store : MatrixStore R)
    (h2 : st.m_firstObjectIndices.length ≤ st.m_secondObjectIndices.length)
    (hJ : st.m_firstObjectIndices.length ≤ st.m_differential.length) :
    st.addSubKToMatrix kFact sameState mref11 mref22 mref12 mref21 L store
      = (st.restrictTo L).addKToMatrix kFact sameState mref11 mref22 mref12 mref21 store := by
  unfold PolynomialSpringsForceField.addSubKToMatrix PolynomialSpringsForceField.addKToMatrix
  rw [addSubKToMatrix_fold st kFact _ L store h2 hJ, addSubKToMatrix_fold st kFact _ L store h2 hJ]

theorem foldlM_total {α σ : Type} (f : σ → α → Option σ) (l : List α)
    (h : ∀ x ∈ l, ∀ s, ∃ s', f s x = some s') : ∀ s, ∃ s', l.foldlM f s = some s' := by
  induction l with
  | nil => intro s; exact ⟨s, rfl⟩
  | cons x xs ih =>
    intro s
    obtain ⟨s1, h1⟩ := h x (List.mem_cons_self x xs) s
    rw [List.foldlM_cons, h1]
    exact ih (fun y hy => h y (List.mem_cons_of_mem x hy)) s1

theorem addKToMatrixCrossEntry_total (mref11 mref22 : MatrixRef)
    (mref12 mref21 : InteractionMatrixRef) (a b : Nat) (i j : Fin 3) (v : R)
    (h11 : mref11.matrix.isSome) (h22 : mref22.matrix.isSome) (h12 : mref12.matrix.isSome)
    (h21 : mref21.matrix.isSome) (s : MatrixStore R) :
    ∃ s', PolynomialSpringsForceField.addKToMatrixCrossEntry mref11 mref22 mref12 mref21 a b i j
      v s = some s' := by
  obtain ⟨a11, e11⟩ := Option.isSome_iff_exists.mp h11
  obtain ⟨a22, e22⟩ := Option.isSome_iff_exists.mp h22
  obtain ⟨a12, e12⟩ := Option.isSome_iff_exists.mp h12
  obtain ⟨a21, e21⟩ := Option.isSome_iff_exists.mp h21
  unfold PolynomialSpringsForceField.addKToMatrixCrossEntry
  rw [e11, e22, e12, e21]
  obtain ⟨s1, h1, _⟩ := store_add_some s a11 (mref11.offset + 3 * a + i)
    (mref11.offset + 3 * a + j) (-v)
  obtain ⟨s2, h2, _⟩ := store_add_some s1 a12 (mref12.offRow + 3 * a + i)
    (mref12.offCol + 3 * b + j) v
  obtain ⟨s3, h3, _⟩ := store_add_some s2 a21 (mref21.offRow + 3 * b + i)
    (mref21.offCol + 3 * a + j) v
  obtain ⟨s4, h4, _⟩ := store_add_some s3 a22 (mref22.offset + 3 * b + i)
    (mref22.offset + 3 * b + j) (-v)
  refine ⟨s4, ?_⟩
  simp only [Option.bind_eq_bind, h1, Option.some_bind, h2, h3, h4]

theorem addKToMatrixSpring_total (st : PolynomialSpringsForceField R) (kFact : R)
    (entry : Nat → Nat → Fin 3 → Fin 3 → R → MatrixStore R → Option (MatrixStore R))
    (hentry : ∀ a b i j v s, ∃ s', entry a b i j v s = some s') (index : Nat)
    (h1 : index < st.m_firstObjectIndices.length)
    (h2 : index < st.m_secondObjectIndices.length)
    (hJ : index < st.m_differential.length) (s : MatrixStore R) :
    ∃ s', st.addKToMatrixSpring kFact entry s index = some s' := by
  unfold PolynomialSpringsForceField.addKToMatrixSpring
  simp only [getElem?_eq_some_getD _ _ 0 h1, getElem?_eq_some_getD _ _ 0 h2,
    getElem?_eq_some_getD _ _ 0 hJ, Option.bind_eq_bind, Option.some_bind]
  exact foldlM_total _ _ (fun i _ s => foldlM_total _ _ (fun j _ s => hentry _ _ _ _ _ s) s) s

theorem addKToMatrix_total (st : PolynomialSpringsForceField R) (kFact : R) (sameState : Bool)
    (mref11 mref22 : MatrixRef) (mref12 mref21 : InteractionMatrixRef)
    (h11 : mref11.matrix.isSome) (h22 : mref22.matrix.isSome) (h12 : mref12.matrix.isSome)
    (h21 : mref21.matrix.isSome)
    (h2 : st.m_firstObjectIndices.length ≤ st.m_secondObjectIndices.length)
    (hJ : st.m_firstObjectIndices.length ≤ st.m_differential.length) (s : MatrixStore R) :
    ∃ s', st.addKToMatrix kFact sameState mref11 mref22 mref12 mref21 s = some s' := by
  obtain ⟨a11, e11⟩ := Option.isSome_iff_exists.mp h11
  unfold PolynomialSpringsForceField.addKToMatrix
  split_ifs with hs hn hn
  · exact ⟨s, rfl⟩
  · apply foldlM_total
    intro index hindex s
    have hlt := List.mem_range.mp hindex
    exact addKToMatrixSpring_total st kFact _
      (fun a b i j v s => by
        obtain ⟨s', h, _⟩ := addKToMatrixEntry_adds mref11 a11 a b i j v e11 s
        exact ⟨s', h⟩)
      index hlt (lt_of_lt_of_le hlt h2) (lt_of_lt_of_le hlt hJ) s
  · exact ⟨s, rfl⟩
  · apply foldlM_total
    intro index hindex s
    have hlt := List.mem_range.mp hindex
    exact addKToMatrixSpring_total st kFact _
      (fun a b i j v s => addKToMatrixCrossEntry_total mref11 mref22 mref12 mref21 a b i j v
        h11 h22 h12 h21 s)
      index hlt (lt_of_lt_of_le hlt h2) (lt_of_lt_of_le hlt hJ) s

theorem anchored_addKToMatrix_total (st : PolynomialRestShapeSpringsForceField R) (kFact : R)
    (mref : MatrixRef) (hm : mref.matrix.isSome)
    (hJ : st.m_indices.length ≤ st.m_differential.length) (s : MatrixStore R) :
    ∃ s', st.addKToMatrix kFact mref s = some s' := by
  obtain ⟨address, e⟩ := Option.isSome_iff_exists.mp hm
  unfold PolynomialRestShapeSpringsForceField.addKToMatrix
  apply foldlM_total
  intro index hindex s
  have hlt := List.mem_range.mp hindex
  obtain ⟨s', h, _⟩ := anchored_addKToMatrixSpring_adds st kFact mref address index _ _ e
    (getElem?_eq_some_getD _ _ 0 hlt) (getElem?_eq_some_getD _ _ 0 (lt_of_lt_of_le hlt hJ)) s
  exact ⟨s', h⟩

theorem restrictTo_congr (st : PolynomialSpringsForceField R) (L L' : List Nat)
    (h : ∀ x, x ∈ L' ↔ x ∈ L) : st.restrictTo L' = st.restrictTo L := by
  have e : (fun t : Nat × Nat × Mat3 R => decide (t.1 ∈ L'))
      = (fun t : Nat × Nat × Mat3 R => decide (t.1 ∈ L)) := by
    funext t
    simp [h]
  unfold PolynomialSpringsForceField.restrictTo
  rw [e]

theorem anchored_restrictTo_congr (st : PolynomialRestShapeSpringsForceField R)
    (L L' : List Nat) (h : ∀ x, x ∈ L' ↔ x ∈ L) : st.restrictTo L' = st.restrictTo L := by
  have e : (fun t : Nat × Vec3 R => decide (t.1 ∈ L'))
      = (fun t : Nat × Vec3 R => decide (t.1 ∈ L)) := by
    funext t
    simp [h]
  unfold PolynomialRestShapeSpringsForceField.restrictTo
  rw [e]

/-- C21. For every list `L`, all reads of the per-spring arrays being in
bounds, `addSubKToMatrix` of either field gives what `addKToMatrix` gives on the
field whose spring set is restricted to the springs whose first endpoint (node)
occurs in `L`; with non-null matrices both return a matrix. The result depends
on `L` only through the indices that occur in it, so an index listed several
times counts once. -/
theorem addSubKToMatrix_restricts (sti : PolynomialSpringsForceField R)
    (sta : PolynomialRestShapeSpringsForceField R) (kFact : R) (sameState : Bool)
    (mref11 mref22 mref : MatrixRef) (mref12 mref21 : InteractionMatrixRef) (L : List Nat)
    (store : MatrixStore R)
    (h2 : sti.m_firstObjectIndices.length ≤ sti.m_secondObjectIndices.length)
    (hJ : sti.m_firstObjectIndices.length ≤ sti.m_differential.length)
    (hJa : sta.m_indices.length ≤ sta.m_differential.length) :
    sti.addSubKToMatrix kFact sameState mref11 mref22 mref12 mref21 L store
      = (sti.restrictTo L).addKToMatrix kFact sameState mref11 mref22 mref12 mref21 store
    ∧ sta.addSubKToMatrix kFact mref L store = (sta.restrictTo L).addKToMatrix kFact mref store
    ∧ (mref11.matrix.isSome → mref22.matrix.isSome → mref12.matrix.isSome →
        mref21.matrix.isSome → mref.matrix.isSome →
        ∃ si sa, sti.addSubKToMatrix kFact sameState mref11 mref22 mref12 mref21 L store = some si
          ∧ sta.addSubKToMatrix kFact mref L store = some sa)
    ∧ (∀ L', (∀ x, x ∈ L' ↔ x ∈ L) →
        sti.addSubKToMatrix kFact sameState mref11 mref22 mref12 mref21 L' store
          = sti.addSubKToMatrix kFact sameState mref11 mref22 mref12 mref21 L store
        ∧ sta.addSubKToMatrix kFact mref L' store = sta.addSubKToMatrix kFact mref L store) := by
  have ei := fun L => addSubKToMatrix_eq sti kFact sameState mref11 mref22 mref12 mref21 L
    store h2 hJ
  have ea := fun L => anchored_addSubKToMatrix_fold sta kFact mref L store hJa
  refine ⟨ei L, ea L, ?_, ?_⟩
  · intro h11 h22 h12 h21 hm
    obtain ⟨si, hsi⟩ := addKToMatrix_total (sti.restrictTo L) kFact sameState mref11 mref22
      mref12 mref21 h11 h22 h12 h21 (le_of_eq (restrictTo_length sti L).2.1.symm)
      (le_of_eq (restrictTo_length sti L).2.2.symm) store
    obtain ⟨sa, hsa⟩ := anchored_addKToMatrix_total (sta.restrictTo L) kFact mref hm
      (le_of_eq (anchored_restrictTo_length sta L).2.symm) store
    exact ⟨si, sa, (ei L).trans hsi, (ea L).trans hsa⟩
  · intro L' hL
    rw [ei L', ei L, ea L', ea L, restrictTo_congr sti L L' hL,
      anchored_restrictTo_congr sta L L' hL]
    exact ⟨rfl, rfl⟩

theorem addSubKToMatrix_restricts_witness :
    pairSpring.m_firstObjectIndices.length ≤ pairSpring.m_secondObjectIndices.length
    ∧ pairSpring.m_firstObjectIndices.length ≤ pairSpring.m_differential.length
    ∧ diagonalSpring.m_indices.length ≤ diagonalSpring.m_differential.length
    ∧ pairSpring.addSubKToMatrix 2 true ⟨some 0, 0⟩ ⟨some 0, 0⟩ ⟨some 0, 0, 0⟩ ⟨some 0, 0, 0⟩
        [0, 0] (fun _ _ _ => 0)
      = (pairSpring.restrictTo [0, 0]).addKToMatrix 2 true ⟨some 0, 0⟩ ⟨some 0, 0⟩
          ⟨some 0, 0, 0⟩ ⟨some 0, 0, 0⟩ (fun _ _ _ => 0)
    ∧ diagonalSpring.addSubKToMatrix 2 ⟨some 0, 0⟩ [0, 0] (fun _ _ _ => 0)
      = (diagonalSpring.restrictTo [0, 0]).addKToMatrix 2 ⟨some 0, 0⟩ (fun _ _ _ => 0) :=
  ⟨le_refl 1, le_refl 1, le_refl 1,
    (addSubKToMatrix_restricts pairSpring diagonalSpring 2 true ⟨some 0, 0⟩ ⟨some 0, 0⟩
      ⟨some 0, 0⟩ ⟨some 0, 0, 0⟩ ⟨some 0, 0, 0⟩ [0, 0] (fun _ _ _ => 0)
      (le_refl 1) (le_refl 1) (le_refl 1)).1,
    (addSubKToMatrix_restricts pairSpring diagonalSpring 2 true ⟨some 0, 0⟩ ⟨some 0, 0⟩
      ⟨some 0, 0⟩ ⟨some 0, 0, 0⟩ ⟨some 0, 0, 0⟩ [0, 0] (fun _ _ _ => 0)
      (le_refl 1) (le_refl 1) (le_refl 1)).2.1⟩

end Filter

section NullReference

/-- C22. Null matrix references that are not guarded. The anchored
`addKToMatrix` and `addSubKToMatrix` have no test of the reference: with a null
matrix and one spring (selected by the list) they call `add` through the null
pointer, which is undefined. The two-state branch of the interaction
`addKToMatrix` and `addSubKToMatrix` returns early only when all four references
are null: with the cross reference of (state 1, state 2) null and the other
three set, the call reaches `add` through the null pointer. The guarded cases
return the matrices unchanged: the same-state branch with a null reference, and
the two-state branch with all four null. -/
theorem addKToMatrix_null_reference (store : MatrixStore ℚ) :
    diagonalSpring.addKToMatrix 2 ⟨none, 0⟩ store = none
    ∧ diagonalSpring.addSubKToMatrix 2 ⟨none, 0⟩ [1] store = none
    ∧ pairSpring.addKToMatrix 2 false ⟨some 0, 0⟩ ⟨some 0, 0⟩ ⟨none, 0, 0⟩ ⟨some 0, 0, 0⟩ store
        = none
    ∧ pairSpring.addSubKToMatrix 2 false ⟨some 0, 0⟩ ⟨some 0, 0⟩ ⟨none, 0, 0⟩ ⟨some 0, 0, 0⟩ [0]
        store = none
    ∧ pairSpring.addKToMatrix 2 true ⟨none, 0⟩ ⟨none, 0⟩ ⟨none, 0, 0⟩ ⟨none, 0, 0⟩ store
        = some store
    ∧ pairSpring.addSubKToMatrix 2 true ⟨none, 0⟩ ⟨none, 0⟩ ⟨none, 0, 0⟩ ⟨none, 0, 0⟩ [0] store
        = some store
    ∧ pairSpring.addKToMatrix 2 false ⟨none, 0⟩ ⟨none, 0⟩ ⟨none, 0, 0⟩ ⟨none, 0, 0⟩ store
        = some store
    ∧ pairSpring.addSubKToMatrix 2 false ⟨none, 0⟩ ⟨none, 0⟩ ⟨none, 0, 0⟩ ⟨none, 0, 0⟩ [0] store
        = some store := by
  have e3 : List.finRange 3 = [0, 1, 2] := rfl
  have e1 : List.range 1 = [0] := rfl
  refine ⟨?_, ?_, ?_, ?_, rfl, rfl, rfl, rfl⟩
  · simp [PolynomialRestShapeSpringsForceField.addKToMatrix,
      PolynomialRestShapeSpringsForceField.addKToMatrixSpring, diagonalSpring,
      PolynomialRestShapeSpringsForceField.configured, MatrixStore.add, e3, e1]
  · simp [PolynomialRestShapeSpringsForceField.addSubKToMatrix,
      PolynomialRestShapeSpringsForceField.addSubKToMatrixSpring, diagonalSpring,
      PolynomialRestShapeSpringsForceField.configured, MatrixStore.add, e3, e1, contains]
  · simp [PolynomialSpringsForceField.addKToMatrix, PolynomialSpringsForceField.addKToMatrixSpring,
      PolynomialSpringsForceField.addKToMatrixCrossEntry, pairSpring,
      PolynomialSpringsForceField.configured, MatrixStore.add, e3, e1]
  · simp [PolynomialSpringsForceField.addSubKToMatrix,
      PolynomialSpringsForceField.addSubKToMatrixSpring,
      PolynomialSpringsForceField.addKToMatrixCrossEntry, pairSpring,
      PolynomialSpringsForceField.configured, MatrixStore.add, e3, e1, contains]

end NullReference

section ZeroStrainJacobian

variable {R : Type} [LinearOrderedField R]

theorem addForceSpring_zero_strain (M : MathOps R) (cv : R) (p1 p2 f1 f2 : List (Vec3 R))
    (st : PolynomialSpringsForceField R) (g i a b : Nat) (x1 x2 fa fb : Vec3 R)
    (flag : Int) (z0 : R)
    (ha : st.m_firstObjectIndices[i]? = some a) (hb : st.m_secondObjectIndices[i]? = some b)
    (hx1 : p1[a]? = some x1) (hx2 : p2[b]? = some x2)
    (hfa : f1[a]? = some fa) (hfb : f2[b]? = some fb)
    (hflag : st.m_computeSpringsZeroLength[i]? = some flag)
    (hz0 : st.m_initialSpringLength[i]? = some z0)
    (hJ : i < st.m_differential.length)
    (hw : i < st.m_weightedCoordinateDifference.length)
    (hl : i < st.m_springLength.length)
    (hs : i < st.m_strainValue.length)
    (hg : i < st.m_strainSign.length)
    (hG : GroupReadable st.d_polynomialStiffness st.d_polynomialDegree st.m_polynomialsMap g)
    (h0 : PolynomialSpringsForceField.strainOf (norm M (x2 - x1))
      (if flag = 1 then norm M (x2 - x1) else z0) = 0) :
    ∃ st' f1' f2' F' J,
      PolynomialSpringsForceField.addForceSpring M cv p1 p2 g (st, f1, f2) i
        = some (st', f1', f2')
      ∧ st'.m_strainValue[i]? = some 0
      ∧ st.PolynomialValue g 0 = some 0
      ∧ st.PolynomialDerivativeValue g 0 = some F'
      ∧ st'.m_differential[i]? = some J
      ∧ ∀ p q, J p q = F' / (if flag = 1 then norm M (x2 - x1) else z0)
          * vdiv (x2 - x1) (norm M (x2 - x1)) p * vdiv (x2 - x1) (norm M (x2 - x1)) q := by
  obtain ⟨F', hF'⟩ := hG.derivative (0 : R)
  have hF : st.PolynomialValue g 0 = some 0 := polynomialValueLoop_zero hG
  obtain ⟨Jold, hJold⟩ : ∃ J, st.m_differential[i]? = some J := ⟨_, List.getElem?_eq_getElem hJ⟩
  have h := addForceSpring_eq M cv p1 p2 f1 f2 st g i a b x1 x2 fa fb flag z0 0 F' Jold
    ha hb hx1 hx2 hfa hfb hflag hz0 hJold hw hl hs hg (by rw [h0]; exact hF)
    (by rw [h0]; exact hF')
  refine ⟨_, _, _, F', _, h, ?_, hF, hF', getElem?_set_self _ _ _ hJ, ?_⟩
  · rw [getElem?_set_self _ _ _ hs, h0]
  · intro p q
    rw [jacobianLoop_apply]
    simp

theorem dot_self_eq_zero {v : Vec3 R} (h : dot v v = 0) : v = 0 := by
  unfold dot at h
  have h0 := mul_self_nonneg (v 0)
  have h1 := mul_self_nonneg (v 1)
  have h2 := mul_self_nonneg (v 2)
  have e0 : v 0 * v 0 = 0 := by linarith
  have e1 : v 1 * v 1 = 0 := by linarith
  have e2 : v 2 * v 2 = 0 := by linarith
  funext k
  fin_cases k
  · exact mul_self_eq_zero.mp e0
  · exact mul_self_eq_zero.mp e1
  · exact mul_self_eq_zero.mp e2

theorem dot_nonneg_self (v : Vec3 R) : 0 ≤ dot v v := by
  unfold dot
  have h0 := mul_self_nonneg (v 0)
  have h1 := mul_self_nonneg (v 1)
  have h2 := mul_self_nonneg (v 2)
  linarith

theorem anchored_addForceSpring_zero_strain (M : MathOps R)
    (hsqrt : ∀ x : R, 0 ≤ x → M.sqrt x = 0 → x = 0) (p1 p0 f : List (Vec3 R))
    (st : PolynomialRestShapeSpringsForceField R) (g i a e : Nat) (x1 x0 fa : Vec3 R) (z : R)
    (ha : st.m_indices[i]? = some a)
    (he : (if st.useRestMState then st.m_ext_indices[i]? else some a) = some e)
    (hx1 : p1[a]? = some x1) (hx0 : p0[e]? = some x0)
    (hfa : f[a]? = some fa)
    (hz : PolynomialRestShapeSpringsForceField.zeroLengthOf st.d_zeroLength i = some z)
    (hJ : i < st.m_differential.length)
    (hn : i < st.m_coordinateSquaredNorm.length)
    (hs : i < st.m_strainValue.length)
    (hl : i < st.m_directionSpringLength.length)
    (hw : i < st.m_weightedCoordinateDifference.length)
    (hG : GroupReadable st.d_polynomialStiffness st.d_polynomialDegree st.m_polynomialsMap g)
    (hz0 : z ≠ 0) (h0 : norm M (x1 - x0) / z = 0) :
    ∃ st' f',
      PolynomialRestShapeSpringsForceField.addForceSpring M p1 p0 g (st, f) i = some (st', f')
      ∧ st'.m_strainValue[i]? = some 0
      ∧ st.PolynomialValue g 0 = some 0
      ∧ st'.m_differential[i]? = some (fun _ => 0) := by
  obtain ⟨F', hF'⟩ := hG.derivative (0 : R)
  have hF : st.PolynomialValue g 0 = some 0 := polynomialValueLoop_zero hG
  obtain ⟨Jold, hJold⟩ : ∃ J, st.m_differential[i]? = some J := ⟨_, List.getElem?_eq_getElem hJ⟩
  have h := anchored_addForceSpring_eq M p1 p0 f st g i a e x1 x0 fa z 0 F' Jold
    ha he hx1 hx0 hfa hz hJold hn hs hl hw (by rw [h0]; exact hF) (by rw [h0]; exact hF')
  have hnorm : norm M (x1 - x0) = 0 := by
    rcases div_eq_zero_iff.mp h0 with h | h
    · exact h
    · exact absurd h hz0
  have hdx : x1 - x0 = 0 := dot_self_eq_zero (hsqrt _ (dot_nonneg_self _) hnorm)
  refine ⟨_, _, h, ?_, hF, ?_⟩
  · rw [getElem?_set_self _ _ _ hs, h0]
  · rw [getElem?_set_self _ _ _ hJ]
    congr 1
    funext d
    rw [anchored_jacobianLoop_apply, hdx]
    simp [vdiv]

/-- C27 (as amended). In the loop body of `addForce` for a spring whose strain
is `0`, all reads in bounds and the group readable: `F = PolynomialValue(g, 0)`
is `0`, so `Fv = 0`. Interaction field: the cached block is
`J[p][q] = F'v * direction[p] * direction[q]` with
`F'v = PolynomialDerivativeValue(g, 0) / zeroLength`. Anchored field (square
root vanishing only at `0`, zero length not `0`): the spring vector is zero, so
the direction is zero and every entry of the cached diagonal is `Fv = 0`. -/
theorem zero_strain_jacobian (M : MathOps R)
    (hsqrt : ∀ x : R, 0 ≤ x → M.sqrt x = 0 → x = 0) (cv : R)
    (p1 p2 f1 f2 q1 q0 f : List (Vec3 R))
    (sti : PolynomialSpringsForceField R) (sta : PolynomialRestShapeSpringsForceField R)
    (g i a b n e : Nat) (x1 x2 fa fb y1 y0 fn : Vec3 R) (flag : Int) (z0 z : R)
    (ha : sti.m_firstObjectIndices[i]? = some a) (hb : sti.m_secondObjectIndices[i]? = some b)
    (hx1 : p1[a]? = some x1) (hx2 : p2[b]? = some x2)
    (hfa : f1[a]? = some fa) (hfb : f2[b]? = some fb)
    (hflag : sti.m_computeSpringsZeroLength[i]? = some flag)
    (hz0 : sti.m_initialSpringLength[i]? = some z0)
    (hJ : i < sti.m_differential.length)
    (hw : i < sti.m_weightedCoordinateDifference.length)
    (hl : i < sti.m_springLength.length)
    (hs : i < sti.m_strainValue.length)
    (hg : i < sti.m_strainSign.length)
    (hG : GroupReadable sti.d_polynomialStiffness sti.d_polynomialDegree sti.m_polynomialsMap g)
    (h0 : PolynomialSpringsForceField.strainOf (norm M (x2 - x1))
      (if flag = 1 then norm M (x2 - x1) else z0) = 0)
    (hn : sta.m_indices[i]? = some n)
    (he : (if sta.useRestMState then sta.m_ext_indices[i]? else some n) = some e)
    (hy1 : q1[n]? = some y1) (hy0 : q0[e]? = some y0)
    (hfn : f[n]? = some fn)
    (hz : PolynomialRestShapeSpringsForceField.zeroLengthOf sta.d_zeroLength i = some z)
    (hJa : i < sta.m_differential.length)
    (hna : i < sta.m_coordinateSquaredNorm.length)
    (hsa : i < sta.m_strainValue.length)
    (hla : i < sta.m_directionSpringLength.length)
    (hwa : i < sta.m_weightedCoordinateDifference.length)
    (hGa : GroupReadable sta.d_polynomialStiffness sta.d_polynomialDegree sta.m_polynomialsMap g)
    (hzne : z ≠ 0) (h0a : norm M (y1 - y0) / z = 0) :
    (∃ st' f1' f2' F' J,
      PolynomialSpringsForceField.addForceSpring M cv p1 p2 g (sti, f1, f2) i
        = some (st', f1', f2')
      ∧ st'.m_strainValue[i]? = some 0
      ∧ sti.PolynomialValue g 0 = some 0
      ∧ sti.PolynomialDerivativeValue g 0 = some F'
      ∧ st'.m_differential[i]? = some J
      ∧ ∀ p q, J p q = F' / (if flag = 1 then norm M (x2 - x1) else z0)
          * vdiv (x2 - x1) (norm M (x2 - x1)) p * vdiv (x2 - x1) (norm M (x2 - x1)) q)
    ∧ (∃ st' f',
      PolynomialRestShapeSpringsForceField.addForceSpring M q1 q0 g (sta, f) i = some (st', f')
      ∧ st'.m_strainValue[i]? = some 0
      ∧ sta.PolynomialValue g 0 = some 0
      ∧ st'.m_differential[i]? = some (fun _ => 0)) :=
  ⟨addForceSpring_zero_strain M cv p1 p2 f1 f2 sti g i a b x1 x2 fa fb flag z0 ha hb hx1 hx2
      hfa hfb hflag hz0 hJ hw hl hs hg hG h0,
    anchored_addForceSpring_zero_strain M hsqrt q1 q0 f sta g i n e y1 y0 fn z hn he hy1 hy0
      hfn hz hJa hna hsa hla hwa hGa hzne h0a⟩

theorem norm_real_one : norm realOps ((![1, 0, 0] : Vec3 ℝ) - 0) = 1 := by
  simp [norm, dot, realOps]

theorem norm_real_unit : norm realOps ((![3 / 5, 4 / 5, 0] : Vec3 ℝ) - 0) = 1 := by
  have h : dot ((![3 / 5, 4 / 5, 0] : Vec3 ℝ) - 0) (![3 / 5, 4 / 5, 0] - 0) = 1 := by
    simp [dot]
    norm_num
  simp only [norm, realOps, h, Real.sqrt_one]

theorem real_sqrt_zero (x : ℝ) (hx : 0 ≤ x) (h : realOps.sqrt x = 0) : x = 0 :=
  le_antisymm (Real.sqrt_eq_zero'.mp h) hx

theorem zero_strain_jacobian_witness :
    (∃ st' f1' f2' F' J,
      PolynomialSpringsForceField.addForceSpring realOps 0 [0] [![1, 0, 0]] 0
        (stretchedSpring, [0], [0]) 0 = some (st', f1', f2')
      ∧ st'.m_strainValue[0]? = some 0
      ∧ stretchedSpring.PolynomialValue 0 0 = some 0
      ∧ stretchedSpring.PolynomialDerivativeValue 0 0 = some F'
      ∧ st'.m_differential[0]? = some J
      ∧ ∀ p q, J p q = F' / (if (0 : Int) = 1 then norm realOps ((![1, 0, 0] : Vec3 ℝ) - 0)
            else 1)
          * vdiv ((![1, 0, 0] : Vec3 ℝ) - 0) (norm realOps ((![1, 0, 0] : Vec3 ℝ) - 0)) p
          * vdiv ((![1, 0, 0] : Vec3 ℝ) - 0) (norm realOps ((![1, 0, 0] : Vec3 ℝ) - 0)) q)
    ∧ (∃ st' f',
      PolynomialRestShapeSpringsForceField.addForceSpring realOps [0] [0] 0
        (anchoredSpring, [0]) 0 = some (st', f')
      ∧ st'.m_strainValue[0]? = some 0
      ∧ anchoredSpring.PolynomialValue 0 0 = some 0
      ∧ st'.m_differential[0]? = some (fun _ => 0)) :=
  zero_strain_jacobian realOps real_sqrt_zero 0 [0] [![1, 0, 0]] [0] [0] [0] [0] [0]
    stretchedSpring anchoredSpring 0 0 0 0 0 0 0 ![1, 0, 0] 0 0 0 0 0 0 1 1
    rfl rfl rfl rfl rfl rfl rfl rfl
    (by simp [stretchedSpring, PolynomialSpringsForceField.configured])
    (by simp [stretchedSpring, PolynomialSpringsForceField.configured])
    (by simp [stretchedSpring, PolynomialSpringsForceField.configured])
    (by simp [stretchedSpring, PolynomialSpringsForceField.configured])
    (by simp [stretchedSpring, PolynomialSpringsForceField.configured])
    stretchedSpring_readable
    (by rw [norm_real_one]; simp [PolynomialSpringsForceField.strainOf])
    rfl rfl rfl rfl rfl
    (by simp [anchoredSpring, PolynomialRestShapeSpringsForceField.configured,
      PolynomialRestShapeSpringsForceField.zeroLengthOf])
    (by simp [anchoredSpring, PolynomialRestShapeSpringsForceField.configured])
    (by simp [anchoredSpring, PolynomialRestShapeSpringsForceField.configured])
    (by simp [anchoredSpring, PolynomialRestShapeSpringsForceField.configured])
    (by simp [anchoredSpring, PolynomialRestShapeSpringsForceField.configured])
    (by simp [anchoredSpring, PolynomialRestShapeSpringsForceField.configured])
    anchoredSpring_readable one_ne_zero (by simp [norm, dot, realOps])

/-- C27 (counterexample). One interaction spring between `p1[0] = 0` and
`p2[0] = (3/5, 4/5, 0)` with zero length `1` and the law of degree `2` with
coefficients `2, 0`: the length is `1`, the strain `0` and the force value `0`,
and `PolynomialDerivativeValue(0, 0)` returns `2`; the cached block has the
diagonal entry `J[0][0] = 18/25`, which is not `Fv = 0`, and the off-diagonal
entry `J[0][1] = 24/25`, which is not `0`. -/
theorem zero_strain_jacobian_counterexample :
    ∃ st' f1' f2' J,
      PolynomialSpringsForceField.addForceSpring realOps 0 [0] [![3 / 5, 4 / 5, 0]] 0
        (stretchedSpring, [0], [0]) 0 = some (st', f1', f2')
      ∧ st'.m_strainValue[0]? = some 0
      ∧ stretchedSpring.PolynomialValue 0 0 = some 0
      ∧ stretchedSpring.PolynomialDerivativeValue 0 0 = some 2
      ∧ st'.m_differential[0]? = some J
      ∧ J 0 0 = 18 / 25 ∧ J 0 1 = 24 / 25 := by
  obtain ⟨st', f1', f2', F', J, h, hs, hF, hF', hJ, hJe⟩ :=
    addForceSpring_zero_strain realOps 0 [0] [![3 / 5, 4 / 5, 0]] [0] [0] stretchedSpring
      0 0 0 0 0 ![3 / 5, 4 / 5, 0] 0 0 0 1 rfl rfl rfl rfl rfl rfl rfl rfl
      (by simp [stretchedSpring, PolynomialSpringsForceField.configured])
      (by simp [stretchedSpring, PolynomialSpringsForceField.configured])
      (by simp [stretchedSpring, PolynomialSpringsForceField.configured])
      (by simp [stretchedSpring, PolynomialSpringsForceField.configured])
      (by simp [stretchedSpring, PolynomialSpringsForceField.configured])
      stretchedSpring_readable
      (by rw [norm_real_unit]; simp [PolynomialSpringsForceField.strainOf])
  rw [stretchedSpring_derivative] at hF'
  have e : F' = 2 := (Option.some.inj hF').symm
  subst e
  refine ⟨st', f1', f2', J, h, hs, hF, stretchedSpring_derivative 0, hJ, ?_, ?_⟩
  · rw [hJe, norm_real_unit]
    simp [vdiv]
    norm_num
  · rw [hJe, norm_real_unit]
    simp [vdiv]
    norm_num

end ZeroStrainJacobian

section EmptyZeroLength

/-- C31. With the zero-length array empty: `bwdInit` of the interaction field
with one spring and `computeZeroLength = 0` evaluates `zeroLength[0]` on the
empty array, which is undefined; no default is substituted. `bwdInit` of the
anchored field replaces the empty array by `[1]`, and every spring then reads
the zero length `1`. -/
theorem bwdInit_empty_zeroLength :
    (PolynomialSpringsForceField.configured [0] [0] [1] [1] 0 ([] : List ℚ) false false
        1 1).bwdInit = none
    ∧ ∃ sta, (PolynomialRestShapeSpringsForceField.configured [0] [1] [1] [] false
        ([] : List ℚ) 0 0 1 [0] none).bwdInit = some sta
      ∧ sta.d_zeroLength = [1]
      ∧ ∀ i, PolynomialRestShapeSpringsForceField.zeroLengthOf sta.d_zeroLength i = some 1 := by
  constructor
  · simp [PolynomialSpringsForceField.bwdInit, PolynomialSpringsForceField.configured,
      PolynomialSpringsForceField.recomputeIndices, resize,
      PolynomialSpringsForceField.initZeroLengthLoop, setAt, List.range_succ]
  · obtain ⟨sta, h, -, -, -, hz⟩ := anchored_bwdInit_eq
      (PolynomialRestShapeSpringsForceField.configured [0] [1] [1] [] false
        ([] : List ℚ) 0 0 1 [0] none)
    have hz1 : sta.d_zeroLength = [1] := by
      simpa [PolynomialRestShapeSpringsForceField.configured] using hz
    refine ⟨sta, h, hz1, ?_⟩
    intro i
    rw [hz1]
    unfold PolynomialRestShapeSpringsForceField.zeroLengthOf
    split_ifs with hi
    · have : i = 0 := by simpa using hi
      subst this
      rfl
    · rfl

end EmptyZeroLength

section Symmetry

variable {R : Type} [LinearOrderedField R]

open PolynomialSpringsForceField

theorem jacobianLoop_symm (a b : R) (w : Vec3 R) (J : Mat3 R) (p q : Fin 3) :
    jacobianLoop a b w J p q = jacobianLoop a b w J q p := by
  rw [jacobianLoop_apply, jacobianLoop_apply]
  by_cases h : p = q
  · subst h
    rfl
  · rw [if_neg h, if_neg (fun e => h e.symm)]
    ring

theorem springBlocks_symm (kFact : R) (offset a b : Nat) (J : Mat3 R)
    (hJ : ∀ p q, J p q = J q p) (r c : Nat) :
    springBlocks kFact offset a b J r c = springBlocks kFact offset a b J c r := by
  unfold springBlocks
  rw [Finset.sum_comm]
  apply Finset.sum_congr rfl
  intro j _
  apply Finset.sum_congr rfl
  intro i _
  rw [hJ i j]
  simp only [and_comm]
  ring

/-- C36. Interaction field. The block that `ComputeJacobian` stores for a
spring (all its reads in bounds) is symmetric: `J[p][q] = J[q][p]`. And when
every cached block is symmetric, what `addKToMatrix` in the branch
`mstate1 == mstate2` (non-null matrix, accesses in bounds) adds to the matrix is
symmetric: the increment of the entry `(r, c)` is the increment of `(c, r)`,
for every spring set and every `kFact`. -/
theorem addKToMatrix_symmetric (st : PolynomialSpringsForceField R) (g i : Nat)
    (strain L z F F' : R) (Jold : Mat3 R) (w : Vec3 R) (kFact : R)
    (mref11 mref22 : MatrixRef) (mref12 mref21 : InteractionMatrixRef) (address : Nat)
    (store : MatrixStore R)
    (hs : st.m_strainValue[i]? = some strain)
    (hF : st.PolynomialValue g strain = some F)
    (hl : st.m_springLength[i]? = some L)
    (hF' : st.PolynomialDerivativeValue g strain = some F')
    (hz : st.m_initialSpringLength[i]? = some z)
    (hJ : st.m_differential[i]? = some Jold)
    (hw : st.m_weightedCoordinateDifference[i]? = some w)
    (hm : mref11.matrix = some address)
    (h2 : st.m_firstObjectIndices.length ≤ st.m_secondObjectIndices.length)
    (hn : st.m_firstObjectIndices.length ≤ st.m_differential.length)
    (hsym : ∀ index J, index < st.m_firstObjectIndices.length →
      st.m_differential[index]? = some J → ∀ p q, J p q = J q p) :
    (∃ st' J, ComputeJacobian st g i = some st' ∧ st'.m_differential[i]? = some J
      ∧ ∀ p q, J p q = J q p)
    ∧ ∃ store', st.addKToMatrix kFact true mref11 mref22 mref12 mref21 store = some store'
      ∧ ∀ r c, store' address r c - store address r c
          = store' address c r - store address c r := by
  constructor
  · refine ⟨_, _, ComputeJacobian_eq st g i strain L z F F' Jold w hs hF hl hF' hz hJ hw,
      getElem?_set_self _ _ _ (lt_length_of_getElem? _ _ _ hJ), ?_⟩
    intro p q
    exact jacobianLoop_symm _ _ _ _ p q
  · obtain ⟨store', h, he, -⟩ := addKToMatrix_same_adds st kFact mref11 mref22 mref12 mref21
      address hm h2 hn store
    refine ⟨store', h, ?_⟩
    intro r c
    rw [he, he, add_sub_cancel_left, add_sub_cancel_left]
    apply Finset.sum_congr rfl
    intro index hindex
    have hlt := Finset.mem_range.mp hindex
    exact springBlocks_symm kFact _ _ _ _
      (hsym index _ hlt (getElem?_eq_some_getD _ _ 0 (lt_of_lt_of_le hlt hn))) r c

theorem addKToMatrix_symmetric_witness :
    (∃ st' J, ComputeJacobian pairSpring 0 0 = some st' ∧ st'.m_differential[0]? = some J
      ∧ ∀ p q, J p q = J q p)
    ∧ ∃ store', pairSpring.addKToMatrix 2 true ⟨some 0, 0⟩ ⟨some 0, 0⟩ ⟨some 0, 0, 0⟩
        ⟨some 0, 0, 0⟩ (fun _ _ _ => 0) = some store'
      ∧ ∀ r c, store' 0 r c - (fun _ _ _ => (0 : ℚ)) 0 r c
          = store' 0 c r - (fun _ _ _ => (0 : ℚ)) 0 c r :=
  addKToMatrix_symmetric pairSpring 0 0 0 0 1 0 0 (fun _ _ => 1) 0 2 ⟨some 0, 0⟩ ⟨some 0, 0⟩
    ⟨some 0, 0, 0⟩ ⟨some 0, 0, 0⟩ 0 (fun _ _ _ => 0) rfl
    (by simp [PolynomialSpringsForceField.PolynomialValue, polynomialValueLoop, pairSpring,
      configured, List.range_succ])
    rfl
    (by simp [PolynomialSpringsForceField.PolynomialDerivativeValue, polynomialDerivativeLoop,
      pairSpring, configured, List.range_succ])
    rfl rfl rfl rfl (le_refl 1) (le_refl 1)
    (by
      intro index J hlt hJ p q
      have h0 : index = 0 := by
        simpa [pairSpring, configured] using hlt
      subst h0
      have e : J = fun _ _ => 1 := (Option.some.inj hJ).symm
      rw [e])

end Symmetry

section Endpoints

variable {R : Type} [LinearOrderedField R]

open PolynomialRestShapeSpringsForceField

theorem bwdInit_shiftedAnchor :
    bwdInit (PolynomialRestShapeSpringsForceField.configured [0] [1] [1] [1] false [1] 0 0 2
      [0, ![5, 0, 0]] none) = some shiftedAnchor := by
  simp [bwdInit, shiftedAnchor, PolynomialRestShapeSpringsForceField.configured,
    recomputeIndices, resize, fillPolynomialsMap, List.range_succ]

theorem shiftedAnchor_ready (p1 p0 : List (Vec3 ℚ)) (h1 : 0 < p1.length) (h0 : 0 < p0.length) :
    Ready shiftedAnchor p1 p0 := by
  constructor
  · intro i a h
    cases i <;> simp_all [shiftedAnchor, PolynomialRestShapeSpringsForceField.configured]
  · intro i a h
    cases i <;> simp_all [shiftedAnchor, PolynomialRestShapeSpringsForceField.configured]
  · simp [shiftedAnchor, PolynomialRestShapeSpringsForceField.configured]
  · simp [shiftedAnchor, PolynomialRestShapeSpringsForceField.configured]
  · simp [shiftedAnchor, PolynomialRestShapeSpringsForceField.configured]
  · simp [shiftedAnchor, PolynomialRestShapeSpringsForceField.configured]
  · simp [shiftedAnchor, PolynomialRestShapeSpringsForceField.configured]
  · simp [shiftedAnchor, PolynomialRestShapeSpringsForceField.configured]
  · intro i hi
    have : i = 0 := by
      simpa [shiftedAnchor, PolynomialRestShapeSpringsForceField.configured] using hi
    subst this
    exact ⟨1, [0], rfl, rfl, by
      intro k hk
      interval_cases k
      exact ⟨0, rfl, by simp [shiftedAnchor, PolynomialRestShapeSpringsForceField.configured]⟩⟩

/-- C33 (as amended). Anchored `addForce`, every access in bounds: the call
returns, and for every spring `j` of the resolved set the spring vector is
`dx = p1[a] - p0[e]` with `a = m_indices[j]`, where `e = m_ext_indices[j]` when
an external rest state is used and `e = a` when the rest positions of the own
state are the reference; the squared length and the direction stored for the
spring are those of this `dx`. -/
theorem anchored_addForce_endpoints (M : MathOps R)
    (st st1 : PolynomialRestShapeSpringsForceField R) (f p1 p0 : List (Vec3 R))
    (hp0 : st.getExtPosition = some p0)
    (hres : (if st.d_recomputeIndices then st.recomputeIndices else some st) = some st1)
    (hr : Ready st1 p1 p0) :
    ∃ st' f', addForce M st f p1 = some (st', f')
      ∧ ∀ j, j < st1.m_indices.length →
        ∃ (a e : Nat) (x1 x0 : Vec3 R),
          st1.m_indices[j]? = some a
          ∧ (st1.useRestMState = true → st1.m_ext_indices[j]? = some e)
          ∧ (st1.useRestMState = false → e = a)
          ∧ p1[a]? = some x1 ∧ p0[e]? = some x0
          ∧ st'.m_coordinateSquaredNorm[j]? = some (dot (x1 - x0) (x1 - x0))
          ∧ st'.m_weightedCoordinateDifference[j]?
              = some (vdiv (x1 - x0)
                  (directionLength M st1.d_smoothShift st1.d_smoothScale (x1 - x0))) := by
  obtain ⟨r, h, -, -, hs⟩ := anchored_addForce_springs M st st1 f p1 p0 hp0 hres hr
  refine ⟨r.1, r.2, h, ?_⟩
  intro j hj
  obtain ⟨a, e, x1, x0, fa, z, F, F', Jold, acc, rj, ha, he, hx1, hx0, -, -, -, hN, -, -, hw,
    -⟩ := hs j hj
  refine ⟨a, e, x1, x0, ha, ?_, ?_, hx1, hx0, hN, hw⟩
  · intro hu
    rw [if_pos hu] at he
    exact he
  · intro hu
    rw [if_neg (by simp [hu])] at he
    exact (Option.some.inj he).symm

theorem anchored_addForce_endpoints_witness :
    ∃ st' f', anchoredSpring.addForce realOps [0] [![1, 0, 0]] = some (st', f')
      ∧ ∀ j, j < anchoredSpring.m_indices.length →
        ∃ (a e : Nat) (x1 x0 : Vec3 ℝ),
          anchoredSpring.m_indices[j]? = some a
          ∧ (anchoredSpring.useRestMState = true → anchoredSpring.m_ext_indices[j]? = some e)
          ∧ (anchoredSpring.useRestMState = false → e = a)
          ∧ ([![1, 0, 0]] : List (Vec3 ℝ))[a]? = some x1 ∧ ([0] : List (Vec3 ℝ))[e]? = some x0
          ∧ st'.m_coordinateSquaredNorm[j]? = some (dot (x1 - x0) (x1 - x0))
          ∧ st'.m_weightedCoordinateDifference[j]?
              = some (vdiv (x1 - x0)
                  (directionLength realOps anchoredSpring.d_smoothShift
                    anchoredSpring.d_smoothScale (x1 - x0))) :=
  anchored_addForce_endpoints realOps anchoredSpring anchoredSpring [0] [![1, 0, 0]] [0] rfl rfl
    (anchoredSpring_ready _ _)

/-- C33 (counterexample). No external rest state, `points = [0]`,
`external_points = [1]`, rest positions `(0,0,0)` and `(5,0,0)`, current
position of point `0` at `(1,0,0)`: the resolved pair is `(0, 1)`, but the
squared length stored for the spring is `1`, that of
`p[0] - rest[0] = (1,0,0)`, and not `16`, that of `p[0] - rest[1] = (-4,0,0)`. -/
theorem anchored_addForce_reference_counterexample :
    shiftedAnchor.useRestMState = false
    ∧ shiftedAnchor.m_indices = [0] ∧ shiftedAnchor.m_ext_indices = [1]
    ∧ shiftedAnchor.getExtPosition = some [0, ![5, 0, 0]]
    ∧ (∃ st' f', shiftedAnchor.addForce ratOps [0, 0] [![1, 0, 0], 0] = some (st', f')
        ∧ st'.m_coordinateSquaredNorm[0]? = some 1)
    ∧ dot ((![1, 0, 0] : Vec3 ℚ) - ![5, 0, 0]) (![1, 0, 0] - ![5, 0, 0]) = 16 := by
  refine ⟨rfl, rfl, rfl, rfl, ?_, ?_⟩
  · obtain ⟨r, h, -, -, hs⟩ := anchored_addForce_springs ratOps shiftedAnchor shiftedAnchor
      [0, 0] [![1, 0, 0], 0] [0, ![5, 0, 0]] rfl rfl
      (shiftedAnchor_ready _ _ (by simp) (by simp))
    obtain ⟨a, e, x1, x0, fa, z, F, F', Jold, acc, rj, ha, he, hx1, hx0, -, -, -, hN, -⟩ :=
      hs 0 (by simp [shiftedAnchor, PolynomialRestShapeSpringsForceField.configured])
    have ea : a = 0 := by
      simpa [shiftedAnchor, PolynomialRestShapeSpringsForceField.configured] using ha.symm
    subst ea
    have ee : e = 0 := by
      simpa [shiftedAnchor, PolynomialRestShapeSpringsForceField.configured] using he.symm
    subst ee
    have e1 : x1 = ![1, 0, 0] := by simpa using hx1.symm
    have e0 : x0 = 0 := by simpa using hx0.symm
    subst e1 e0
    refine ⟨r.1, r.2, h, ?_⟩
    rw [hN]
    simp [dot]
  · simp [dot]
    norm_num

end Endpoints

section StrainSign

variable {R : Type} [LinearOrderedField R]

open PolynomialSpringsForceField

theorem resolved_compressible (st : PolynomialSpringsForceField R) (c : Bool) :
    ({ st with d_compressible := c } : PolynomialSpringsForceField R).resolved
      = { st.resolved with d_compressible := c } := by
  unfold PolynomialSpringsForceField.resolved PolynomialSpringsForceField.recomputeIndices
  simp only []
  split_ifs <;> rfl

theorem ready_compressible {st : PolynomialSpringsForceField R} {p1 p2 : List (Vec3 R)}
    (hr : Ready st p1 p2) (c : Bool) :
    Ready ({ st with d_compressible := c } : PolynomialSpringsForceField R) p1 p2 :=
  ⟨hr.second, hr.first_lt, hr.second_lt, hr.differential, hr.springLength, hr.strainValue,
    hr.direction, hr.initial, hr.flags, hr.strainSign, hr.group⟩

theorem jacobianLoop_old (a b : R) (w : Vec3 R) (J1 J2 : Mat3 R) :
    jacobianLoop a b w J1 = jacobianLoop a b w J2 := by
  funext p q
  rw [jacobianLoop_apply, jacobianLoop_apply]

/-- C37. Two calls of interaction `addForce` on fields that differ only in
the `compressible` flag, with the same positions and every access in bounds:
both return, and for every spring the cached block is the same in the two
results, whatever the force vectors passed in. -/
theorem addForce_jacobian_ignores_sign (M : MathOps R) (st : PolynomialSpringsForceField R)
    (c2 : Bool) (f1 f2 g1 g2 p1 p2 : List (Vec3 R)) (hr : Ready st.resolved p1 p2) :
    ∃ r r2, st.addForce M f1 f2 p1 p2 = some r
      ∧ ({ st with d_compressible := c2 } : PolynomialSpringsForceField R).addForce M g1 g2 p1 p2
          = some r2
      ∧ ∀ j, j < st.resolved.m_firstObjectIndices.length →
          ∃ J, r.1.m_differential[j]? = some J ∧ r2.1.m_differential[j]? = some J := by
  have hr2 : Ready ({ st with d_compressible := c2 } : PolynomialSpringsForceField R).resolved
      p1 p2 := by
    rw [resolved_compressible]
    exact ready_compressible hr c2
  obtain ⟨r, h, -, -, -, hs⟩ := addForce_springs M st f1 f2 p1 p2 hr
  obtain ⟨r2, h2, -, -, -, hs2⟩ := addForce_springs M _ g1 g2 p1 p2 hr2
  refine ⟨r, r2, h, h2, ?_⟩
  intro j hj
  obtain ⟨a, b, x1, x2, fa, fb, flag, z0, F, F', Jold, acc, rj, ha, hb, hx1, hx2, hflag, hz0,
    hF, hF', -, -, -, -, -, hJ, -⟩ := hs j hj
  have hj2 : j < ({ st with d_compressible := c2 } :
      PolynomialSpringsForceField R).resolved.m_firstObjectIndices.length := by
    rw [resolved_compressible]
    exact hj
  obtain ⟨a', b', x1', x2', fa', fb', flag', z0', G, G', Jold', acc', rj', ha', hb', hx1', hx2',
    hflag', hz0', hG, hG', -, -, -, -, -, hJ', -⟩ := hs2 j hj2
  rw [resolved_compressible] at ha' hb' hflag' hz0' hG hG'
  have ea : a' = a := Option.some.inj (ha'.symm.trans ha)
  have eb : b' = b := Option.some.inj (hb'.symm.trans hb)
  subst ea eb
  have e1 : x1' = x1 := Option.some.inj (hx1'.symm.trans hx1)
  have e2 : x2' = x2 := Option.some.inj (hx2'.symm.trans hx2)
  subst e1 e2
  have ef : flag' = flag := Option.some.inj (hflag'.symm.trans hflag)
  have ez : z0' = z0 := Option.some.inj (hz0'.symm.trans hz0)
  subst ef ez
  have eF : G = F := Option.some.inj (hG.symm.trans hF)
  have eF' : G' = F' := Option.some.inj (hG'.symm.trans hF')
  subst eF eF'
  refine ⟨_, hJ, ?_⟩
  rw [hJ', jacobianLoop_old _ _ _ Jold' Jold]

theorem addForce_jacobian_ignores_sign_witness :
    ∃ r r2, (oneSpring 2 false).addForce ratOps [0] [0] [0] [![1, 0, 0]] = some r
      ∧ ({ oneSpring 2 false with d_compressible := true } :
          PolynomialSpringsForceField ℚ).addForce ratOps [0] [0] [0] [![1, 0, 0]] = some r2
      ∧ ∀ j, j < (oneSpring 2 false).resolved.m_firstObjectIndices.length →
          ∃ J, r.1.m_differential[j]? = some J ∧ r2.1.m_differential[j]? = some J :=
  addForce_jacobian_ignores_sign ratOps (oneSpring 2 false) true [0] [0] [0] [0] [0]
    [![1, 0, 0]] (oneSpring_ready 2 false _ _)

end StrainSign

section SameStateForce

variable {R : Type} [LinearOrderedField R]

open PolynomialSpringsForceField

theorem accumulateForceSameState_eq (f : List (Vec3 R)) (a b : Nat) (F sign : R)
    (dir fa fb : Vec3 R) (hfa : f[a]? = some fa)
    (hfb : (f.set a (fa + (F * sign) • dir))[b]? = some fb) :
    accumulateForceSameState f a b F sign dir
      = some ((f.set a (fa + (F * sign) • dir)).set b (fb + (-F * sign) • dir)) := by
  have h1 := lt_length_of_getElem? _ _ _ hfa
  have h2 := lt_length_of_getElem? _ _ _ hfb
  unfold accumulateForceSameState
  simp only [hfa, Option.bind_eq_bind, Option.some_bind, setAt_eq_some _ _ _ h1, hfb,
    setAt_eq_some _ _ _ h2]

theorem addForceSameStateSpring_eq (M : MathOps R) (cv : R) (p f : List (Vec3 R))
    (st : PolynomialSpringsForceField R) (g i a b : Nat) (x1 x2 fa fb : Vec3 R)
    (flag : Int) (z0 F F' : R) (Jold : Mat3 R)
    (ha : st.m_firstObjectIndices[i]? = some a) (hb : st.m_secondObjectIndices[i]? = some b)
    (hx1 : p[a]? = some x1) (hx2 : p[b]? = some x2)
    (hfa : f[a]? = some fa)
    (hfb : (f.set a (fa + (F * strainSignOf cv (norm M (x2 - x1))
        (if flag = 1 then norm M (x2 - x1) else z0)) • vdiv (x2 - x1) (norm M (x2 - x1))))[b]?
      = some fb)
    (hflag : st.m_computeSpringsZeroLength[i]? = some flag)
    (hz0 : st.m_initialSpringLength[i]? = some z0)
    (hJ : st.m_differential[i]? = some Jold)
    (hw : i < st.m_weightedCoordinateDifference.length)
    (hl : i < st.m_springLength.length)
    (hs : i < st.m_strainValue.length)
    (hg : i < st.m_strainSign.length)
    (hF : st.PolynomialValue g
      (strainOf (norm M (x2 - x1)) (if flag = 1 then norm M (x2 - x1) else z0)) = some F)
    (hF' : st.PolynomialDerivativeValue g
      (strainOf (norm M (x2 - x1)) (if flag = 1 then norm M (x2 - x1) else z0)) = some F') :
    addForceSameStateSpring M cv p g (st, f) i
      = some
        ({ st with
            m_springLength := st.m_springLength.set i (norm M (x2 - x1))
            m_initialSpringLength :=
              if flag = 1 then st.m_initialSpringLength.set i (norm M (x2 - x1))
              else st.m_initialSpringLength
            m_computeSpringsZeroLength :=
              if flag = 1 then st.m_computeSpringsZeroLength.set i 0
              else st.m_computeSpringsZeroLength
            m_weightedCoordinateDifference :=
              st.m_weightedCoordinateDifference.set i (vdiv (x2 - x1) (norm M (x2 - x1)))
            m_strainValue := st.m_strainValue.set i
              (strainOf (norm M (x2 - x1)) (if flag = 1 then norm M (x2 - x1) else z0))
            m_strainSign := st.m_strainSign.set i
              (strainSignOf cv (norm M (x2 - x1)) (if flag = 1 then norm M (x2 - x1) else z0))
            m_differential := st.m_differential.set i
              (jacobianLoop (F' / (if flag = 1 then norm M (x2 - x1) else z0))
                (F / norm M (x2 - x1)) (vdiv (x2 - x1) (norm M (x2 - x1))) Jold) },
          (f.set a (fa + (F * strainSignOf cv (norm M (x2 - x1))
              (if flag = 1 then norm M (x2 - x1) else z0))
                • vdiv (x2 - x1) (norm M (x2 - x1)))).set b
            (fb + (-F * strainSignOf cv (norm M (x2 - x1))
              (if flag = 1 then norm M (x2 - x1) else z0))
                • vdiv (x2 - x1) (norm M (x2 - x1)))) := by
  obtain ⟨st', hst, hst'⟩ : ∃ st', storeSpring M cv st i (x2 - x1) = some st' ∧ st' = _ :=
    ⟨_, storeSpring_eq M cv st i (x2 - x1) flag z0 hflag hz0 hw hl hs hg, rfl⟩
  have e1 : st'.m_strainValue[i]? = some
      (strainOf (norm M (x2 - x1)) (if flag = 1 then norm M (x2 - x1) else z0)) := by
    rw [hst']; exact getElem?_set_self _ _ _ hs
  have e2 : st'.m_strainSign[i]? = some
      (strainSignOf cv (norm M (x2 - x1)) (if flag = 1 then norm M (x2 - x1) else z0)) := by
    rw [hst']; exact getElem?_set_self _ _ _ hg
  have e3 : st'.m_weightedCoordinateDifference[i]?
      = some (vdiv (x2 - x1) (norm M (x2 - x1))) := by
    rw [hst']; exact getElem?_set_self _ _ _ hw
  have e4 : st'.m_springLength[i]? = some (norm M (x2 - x1)) := by
    rw [hst']; exact getElem?_set_self _ _ _ hl
  have e5 : st'.m_initialSpringLength[i]?
      = some (if flag = 1 then norm M (x2 - x1) else z0) := by
    rw [hst']; exact capturedLength_getElem? st i _ flag z0 hz0
  have e6 : st'.m_differential[i]? = some Jold := by
    rw [hst']; exact hJ
  have eF : st'.PolynomialValue g
      (strainOf (norm M (x2 - x1)) (if flag = 1 then norm M (x2 - x1) else z0)) = some F := by
    rw [hst']; exact hF
  have eF' : st'.PolynomialDerivativeValue g
      (strainOf (norm M (x2 - x1)) (if flag = 1 then norm M (x2 - x1) else z0)) = some F' := by
    rw [hst']; exact hF'
  unfold addForceSameStateSpring
  simp only [Option.bind_eq_bind]
  rw [springVector_eq st p p i a b x1 x2 ha hb hx1 hx2]
  simp only [Option.some_bind]
  rw [hst]
  simp only [Option.some_bind]
  rw [e1]
  simp only [Option.some_bind]
  rw [eF]
  simp only [Option.some_bind]
  rw [e2, e3]
  simp only [Option.some_bind]
  rw [accumulateForceSameState_eq f a b F _ _ fa fb hfa hfb]
  simp only [Option.some_bind]
  rw [ComputeJacobian_eq st' g i _ _ _ F F' Jold _ e1 eF e4 eF' e5 e6 e3]
  subst hst'
  rfl

theorem addForceSameState_eq_fold (M : MathOps R) (st : PolynomialSpringsForceField R)
    (f p : List (Vec3 R)) :
    addForceSameState M st f p
      = (List.range st.resolved.m_firstObjectIndices.length).foldlM
          (fun acc i => addForceSameStateSpring M (if st.resolved.d_compressible then -1 else 0)
            p (st.resolved.groupOf i) acc i)
          (st.resolved, resize (resize f p.length 0) p.length 0) := by
  unfold PolynomialSpringsForceField.addForceSameState PolynomialSpringsForceField.groupOf
    PolynomialSpringsForceField.resolved
  simp only []
  split_ifs <;> rfl

theorem addForceSameState_untouched (M : MathOps R) (st : PolynomialSpringsForceField R)
    (f p : List (Vec3 R)) (hr : Ready st.resolved p p) :
    ∃ r, addForceSameState M st f p = some r ∧ SameFrame st.resolved r.1
      ∧ r.2.length = p.length
      ∧ ∀ j : Nat, (∀ i a : Nat, st.resolved.m_firstObjectIndices[i]? = some a → a ≠ j) →
          (∀ i b : Nat, i < st.resolved.m_firstObjectIndices.length →
            st.resolved.m_secondObjectIndices[i]? = some b → b ≠ j) →
          r.2[j]? = (resize (resize f p.length 0) p.length 0)[j]? := by
  rw [addForceSameState_eq_fold]
  exact foldlM_range_invariant
    (fun acc i => addForceSameStateSpring M (if st.resolved.d_compressible then -1 else 0)
      p (st.resolved.groupOf i) acc i)
    (fun _ (acc : PolynomialSpringsForceField R × List (Vec3 R)) =>
      SameFrame st.resolved acc.1 ∧ acc.2.length = p.length
      ∧ ∀ j : Nat, (∀ i a : Nat, st.resolved.m_firstObjectIndices[i]? = some a → a ≠ j) →
          (∀ i b : Nat, i < st.resolved.m_firstObjectIndices.length →
            st.resolved.m_secondObjectIndices[i]? = some b → b ≠ j) →
          acc.2[j]? = (resize (resize f p.length 0) p.length 0)[j]?)
    st.resolved.m_firstObjectIndices.length
    (by
      rintro k ⟨st1, g1⟩ hk ⟨hfr, hl1, hun⟩
      have hr1 : Ready st1 p p := sameFrame_ready hfr hr
      have hk1 : k < st1.m_firstObjectIndices.length := by rw [hfr.first]; exact hk
      obtain ⟨a, b, x1, x2, fa, fb0, flag, z0, F, F', Jold, ha, hb, hx1, hx2, hfa, hfb0, hflag,
        hz0, hJ, hw, hl, hs, hg, hF, hF'⟩ := addForceSpring_ready M p p g1 g1 st1 k hr1 hk1
          hl1 hl1
      have hb1 := lt_length_of_getElem? _ _ _ hfb0
      obtain ⟨fb, hfb⟩ : ∃ y, (g1.set a (fa + (F * strainSignOf
          (if st.resolved.d_compressible then -1 else 0) (norm M (x2 - x1))
          (if flag = 1 then norm M (x2 - x1) else z0)) • vdiv (x2 - x1) (norm M (x2 - x1))))[b]?
          = some y :=
        ⟨_, List.getElem?_eq_getElem (by rw [List.length_set]; exact hb1)⟩
      have e2 := addForceSpring_eq M (if st.resolved.d_compressible then -1 else 0) p p g1 g1
        st1 (st1.groupOf k) k a b x1 x2 fa fb0 flag z0 F F' Jold
        ha hb hx1 hx2 hfa hfb0 hflag hz0 hJ hw hl hs hg hF hF'
      have e := addForceSameStateSpring_eq M (if st.resolved.d_compressible then -1 else 0) p g1
        st1 (st1.groupOf k) k a b x1 x2 fa fb flag z0 F F' Jold
        ha hb hx1 hx2 hfa hfb hflag hz0 hJ hw hl hs hg hF hF'
      rw [sameFrame_groupOf hfr] at e
      refine ⟨_, e, ?_⟩
      obtain ⟨hfr2, -, -⟩ := addForceSpring_frame M _ p p g1 g1 st1 _ k _ e2
      refine ⟨sameFrame_trans hfr hfr2, ?_, ?_⟩
      · simp only [List.length_set]
        exact hl1
      · intro j hj1 hj2
        rw [hfr.first] at ha
        rw [hfr.second] at hb
        simp only []
        rw [getElem?_set_other _ _ _ _ (fun e => hj2 k b hk hb e.symm),
          getElem?_set_other _ _ _ _ (fun e => hj1 k a ha e.symm)]
        exact hun j hj1 hj2)
    (st.resolved, resize (resize f p.length 0) p.length 0)
    ⟨sameFrame_refl _, resize_length _ _ _, fun _ _ _ => rfl⟩

end SameStateForce

section ForceFrame

variable {R : Type} [LinearOrderedField R]

theorem recomputeIndices_form (st : PolynomialSpringsForceField R) :
    ∃ l1 l2, st.recomputeIndices
      = { st with m_firstObjectIndices := l1, m_secondObjectIndices := l2 } := by
  unfold PolynomialSpringsForceField.recomputeIndices
  simp only []
  split_ifs <;> exact ⟨_, _, rfl⟩

theorem resolved_form (st : PolynomialSpringsForceField R) :
    ∃ l1 l2, st.resolved
      = { st with m_firstObjectIndices := l1, m_secondObjectIndices := l2 } := by
  unfold PolynomialSpringsForceField.resolved
  split_ifs
  · exact recomputeIndices_form st
  · exact ⟨_, _, rfl⟩

theorem anchored_recomputeIndices_form (st st' : PolynomialRestShapeSpringsForceField R)
    (h : st.recomputeIndices = some st') :
    ∃ l1 l2, st' = { st with m_indices := l1, m_ext_indices := l2 } := by
  refine ⟨st'.m_indices, st'.m_ext_indices, ?_⟩
  unfold PolynomialRestShapeSpringsForceField.recomputeIndices at h
  by_cases he : st.external_points.isEmpty = true
  · by_cases hu : st.useRestMState = true
    · rw [if_pos he, if_pos hu] at h
      simp only [Option.bind_eq_bind, Option.pure_def, Option.bind_eq_some,
        Option.some_bind] at h
      obtain ⟨p0, _, h⟩ := h
      split_ifs at h <;>
      · cases h
        rfl
    · rw [if_pos he, if_neg hu] at h
      simp only [Option.bind_eq_bind, Option.pure_def, Option.some_bind] at h
      split_ifs at h <;>
      · cases h
        rfl
  · rw [if_neg he] at h
    simp only [Option.bind_eq_bind, Option.pure_def, Option.some_bind] at h
    split_ifs at h <;>
    · cases h
      rfl

theorem anchored_resolved_form (st st1 : PolynomialRestShapeSpringsForceField R)
    (hres : (if st.d_recomputeIndices then st.recomputeIndices else some st) = some st1) :
    ∃ l1 l2, st1 = { st with m_indices := l1, m_ext_indices := l2 } := by
  split_ifs at hres
  · exact anchored_recomputeIndices_form st st1 hres
  · cases hres
    exact ⟨_, _, rfl⟩

theorem addForce_untouched (M : MathOps R) (st : PolynomialSpringsForceField R)
    (f1 f2 p1 p2 : List (Vec3 R))
    (r : PolynomialSpringsForceField R × List (Vec3 R) × List (Vec3 R))
    (h : st.addForce M f1 f2 p1 p2 = some r) :
    (∀ j : Nat, (∀ i a : Nat, st.resolved.m_firstObjectIndices[i]? = some a → a ≠ j) →
      r.2.1[j]? = (resize f1 p1.length 0)[j]?)
    ∧ (∀ j : Nat, (∀ i b : Nat, i < st.resolved.m_firstObjectIndices.length →
        st.resolved.m_secondObjectIndices[i]? = some b → b ≠ j) →
      r.2.2[j]? = (resize f2 p2.length 0)[j]?) := by
  rw [addForce_eq_fold] at h
  have key := foldlM_preserves
    (fun acc i => PolynomialSpringsForceField.addForceSpring M
      (if st.resolved.d_compressible then -1 else 0) p1 p2 (st.resolved.groupOf i) acc i)
    (fun (acc : PolynomialSpringsForceField R × List (Vec3 R) × List (Vec3 R)) =>
      PolynomialSpringsForceField.SameFrame st.resolved acc.1
      ∧ (∀ j : Nat, (∀ i a : Nat, st.resolved.m_firstObjectIndices[i]? = some a → a ≠ j) →
          acc.2.1[j]? = (resize f1 p1.length 0)[j]?)
      ∧ (∀ j : Nat, (∀ i b : Nat, i < st.resolved.m_firstObjectIndices.length →
          st.resolved.m_secondObjectIndices[i]? = some b → b ≠ j) →
          acc.2.2[j]? = (resize f2 p2.length 0)[j]?))
    (by
      intro acc i acc' hP hstep
      obtain ⟨hfr, h1, h2⟩ := hP
      obtain ⟨s, g1, g2⟩ := acc
      obtain ⟨hfr', -, -⟩ := addForceSpring_frame M _ p1 p2 g1 g2 s _ i acc' hstep
      obtain ⟨a, b, fa, fb, X, ha, hb, -, -, e1, e2⟩ :=
        addForceSpring_increments M _ p1 p2 _ i (s, g1, g2) acc' hstep
      simp only [] at ha hb e1 e2
      rw [hfr.first] at ha
      rw [hfr.second] at hb
      refine ⟨sameFrame_trans hfr hfr', ?_, ?_⟩
      · intro j hj
        rw [e1, getElem?_set_other _ _ _ _ (fun e => hj i a ha e.symm)]
        exact h1 j hj
      · intro j hj
        rw [e2, getElem?_set_other _ _ _ _
          (fun e => hj i b (lt_length_of_getElem? _ _ _ ha) hb e.symm)]
        exact h2 j hj)
    _ _ r ⟨sameFrame_refl _, fun _ _ => rfl, fun _ _ => rfl⟩ h
  exact ⟨key.2.1, key.2.2⟩

theorem anchored_addForce_untouched (M : MathOps R)
    (st st1 : PolynomialRestShapeSpringsForceField R) (f p1 p0 : List (Vec3 R))
    (hp0 : st.getExtPosition = some p0)
    (hres : (if st.d_recomputeIndices then st.recomputeIndices else some st) = some st1)
    (r : PolynomialRestShapeSpringsForceField R × List (Vec3 R))
    (h : st.addForce M f p1 = some r) :
    ∀ j : Nat, (∀ i a : Nat, st1.m_indices[i]? = some a → a ≠ j) →
      r.2[j]? = (resize f p1.length 0)[j]? := by
  rw [anchored_addForce_eq_fold M st st1 f p1 p0 hp0 hres] at h
  have key := foldlM_preserves
    (fun acc i => PolynomialRestShapeSpringsForceField.addForceSpring M p1 p0
      (st1.groupOf i) acc i)
    (fun (acc : PolynomialRestShapeSpringsForceField R × List (Vec3 R)) =>
      PolynomialRestShapeSpringsForceField.SameFrame st1 acc.1
      ∧ (∀ j : Nat, (∀ i a : Nat, st1.m_indices[i]? = some a → a ≠ j) →
          acc.2[j]? = (resize f p1.length 0)[j]?))
    (by
      intro acc i acc' hP hstep
      obtain ⟨hfr, h1⟩ := hP
      obtain ⟨s, g⟩ := acc
      obtain ⟨hfr', -, -⟩ := anchored_addForceSpring_frame M p1 p0 g s _ i acc' hstep
      obtain ⟨a, e, x1, x0, fa, z, F, F', Jold, ha, he, hx1, hx0, hfa, hz, hJ, hn, hs, hl, hw,
        hF, hF'⟩ := anchored_addForceSpring_inv M p1 p0 g s _ i acc' hstep
      have hstep' : PolynomialRestShapeSpringsForceField.addForceSpring M p1 p0
          (st1.groupOf i) (s, g) i = some acc' := hstep
      rw [anchored_addForceSpring_eq M p1 p0 g s _ i a e x1 x0 fa z F F' Jold ha he hx1 hx0
        hfa hz hJ hn hs hl hw hF hF'] at hstep'
      cases hstep'
      rw [hfr.indices] at ha
      refine ⟨anchored_sameFrame_trans hfr hfr', ?_⟩
      intro j hj
      simp only []
      rw [getElem?_set_other _ _ _ _ (fun e => hj i a ha e.symm)]
      exact h1 j hj)
    _ _ r ⟨anchored_sameFrame_refl _, fun _ _ => rfl⟩ h
  exact key.2

/-- C39 (as amended). `addForce` with force vectors as long as the position
vectors, every access in bounds: the call returns. The interaction call
between two distinct states leaves the entry `f1[j]` as it was when `j` is not
the first index of a spring and `f2[j]` as it was when `j` is not the second
index of a spring. The interaction call within one state, where `f1` and `f2`
are one vector `f`, leaves `f[j]` as it was when `j` is neither the first nor
the second index of a spring. The anchored call leaves `f[j]` as it was when
`j` is not in the resolved list of nodes. The stiffness array, the degree
vector and the table of the field are the same after each call. The positions
are arguments that the call only reads. -/
theorem addForce_frame (M : MathOps R) (sti sts : PolynomialSpringsForceField R)
    (sta sta1 : PolynomialRestShapeSpringsForceField R)
    (f1 f2 p1 p2 g p f q1 q0 : List (Vec3 R))
    (hri : PolynomialSpringsForceField.Ready sti.resolved p1 p2)
    (hf1 : f1.length = p1.length) (hf2 : f2.length = p2.length)
    (hrs : PolynomialSpringsForceField.Ready sts.resolved p p)
    (hg : g.length = p.length)
    (hq0 : sta.getExtPosition = some q0)
    (hres : (if sta.d_recomputeIndices then sta.recomputeIndices else some sta) = some sta1)
    (hra : PolynomialRestShapeSpringsForceField.Ready sta1 q1 q0)
    (hf : f.length = q1.length) :
    (∃ r : PolynomialSpringsForceField R × List (Vec3 R) × List (Vec3 R),
      sti.addForce M f1 f2 p1 p2 = some r
      ∧ (∀ j : Nat, (∀ i a : Nat, sti.resolved.m_firstObjectIndices[i]? = some a → a ≠ j) →
          r.2.1[j]? = f1[j]?)
      ∧ (∀ j : Nat, (∀ i b : Nat, i < sti.resolved.m_firstObjectIndices.length →
          sti.resolved.m_secondObjectIndices[i]? = some b → b ≠ j) → r.2.2[j]? = f2[j]?)
      ∧ r.1.d_polynomialStiffness = sti.d_polynomialStiffness
      ∧ r.1.d_polynomialDegree = sti.d_polynomialDegree
      ∧ r.1.m_polynomialsMap = sti.m_polynomialsMap)
    ∧ (∃ r : PolynomialSpringsForceField R × List (Vec3 R),
      sts.addForceSameState M g p = some r
      ∧ (∀ j : Nat, (∀ i a : Nat, sts.resolved.m_firstObjectIndices[i]? = some a → a ≠ j) →
          (∀ i b : Nat, i < sts.resolved.m_firstObjectIndices.length →
            sts.resolved.m_secondObjectIndices[i]? = some b → b ≠ j) → r.2[j]? = g[j]?)
      ∧ r.1.d_polynomialStiffness = sts.d_polynomialStiffness
      ∧ r.1.d_polynomialDegree = sts.d_polynomialDegree
      ∧ r.1.m_polynomialsMap = sts.m_polynomialsMap)
    ∧ (∃ r : PolynomialRestShapeSpringsForceField R × List (Vec3 R),
      sta.addForce M f q1 = some r
      ∧ (∀ j : Nat, (∀ i a : Nat, sta1.m_indices[i]? = some a → a ≠ j) → r.2[j]? = f[j]?)
      ∧ r.1.d_polynomialStiffness = sta.d_polynomialStiffness
      ∧ r.1.d_polynomialDegree = sta.d_polynomialDegree
      ∧ r.1.m_polynomialsMap = sta.m_polynomialsMap) := by
  refine ⟨?_, ?_, ?_⟩
  · obtain ⟨r, h, hfr, -⟩ := addForce_defined M sti f1 f2 p1 p2 hri
    obtain ⟨h1, h2⟩ := addForce_untouched M sti f1 f2 p1 p2 r h
    obtain ⟨l1, l2, hl⟩ := resolved_form sti
    rw [← hf1, resize_self] at h1
    rw [← hf2, resize_self] at h2
    refine ⟨r, h, h1, h2, ?_, ?_, ?_⟩
    · rw [hfr.stiffness, hl]
    · rw [hfr.degree, hl]
    · rw [hfr.table, hl]
  · obtain ⟨r, h, hfr, -, hun⟩ := addForceSameState_untouched M sts g p hrs
    obtain ⟨l1, l2, hl⟩ := resolved_form sts
    rw [← hg, resize_self, resize_self] at hun
    refine ⟨r, h, hun, ?_, ?_, ?_⟩
    · rw [hfr.stiffness, hl]
    · rw [hfr.degree, hl]
    · rw [hfr.table, hl]
  · obtain ⟨r, h, hfr, -⟩ := anchored_addForce_trace M sta sta1 f q1 q0 hq0 hres hra
    have h1 := anchored_addForce_untouched M sta sta1 f q1 q0 hq0 hres r h
    obtain ⟨l1, l2, hl⟩ := anchored_resolved_form sta sta1 hres
    rw [← hf, resize_self] at h1
    refine ⟨r, h, h1, ?_, ?_, ?_⟩
    · rw [hfr.stiffness, hl]
    · rw [hfr.degree, hl]
    · rw [hfr.table, hl]

theorem pairSpring_ready (x1 y1 x2 y2 : Vec3 ℚ) :
    PolynomialSpringsForceField.Ready pairSpring.resolved [x1, y1] [x2, y2] := by
  show PolynomialSpringsForceField.Ready pairSpring [x1, y1] [x2, y2]
  constructor
  · simp [pairSpring, PolynomialSpringsForceField.configured]
  · intro i a h
    cases i <;> simp_all [pairSpring, PolynomialSpringsForceField.configured] <;> omega
  · intro i b _ h
    cases i <;> simp_all [pairSpring, PolynomialSpringsForceField.configured] <;> omega
  · simp [pairSpring, PolynomialSpringsForceField.configured]
  · simp [pairSpring, PolynomialSpringsForceField.configured]
  · simp [pairSpring, PolynomialSpringsForceField.configured]
  · simp [pairSpring, PolynomialSpringsForceField.configured]
  · simp [pairSpring, PolynomialSpringsForceField.configured]
  · simp [pairSpring, PolynomialSpringsForceField.configured]
  · simp [pairSpring, PolynomialSpringsForceField.configured]
  · intro i hi
    have hi0 : i = 0 := by
      simpa [pairSpring, PolynomialSpringsForceField.configured] using hi
    subst hi0
    exact ⟨1, [0], rfl, rfl, by
      intro k hk
      interval_cases k
      exact ⟨0, rfl, by simp [pairSpring, PolynomialSpringsForceField.configured]⟩⟩

theorem diagonalSpring_ready (x1 y1 x0 y0 : Vec3 ℚ) :
    PolynomialRestShapeSpringsForceField.Ready diagonalSpring [x1, y1] [x0, y0] := by
  constructor
  · intro i a h
    cases i <;> simp_all [diagonalSpring, PolynomialRestShapeSpringsForceField.configured] <;>
      omega
  · intro i a h
    cases i <;> simp_all [diagonalSpring, PolynomialRestShapeSpringsForceField.configured] <;>
      omega
  · simp [diagonalSpring, PolynomialRestShapeSpringsForceField.configured]
  · simp [diagonalSpring, PolynomialRestShapeSpringsForceField.configured]
  · simp [diagonalSpring, PolynomialRestShapeSpringsForceField.configured]
  · simp [diagonalSpring, PolynomialRestShapeSpringsForceField.configured]
  · simp [diagonalSpring, PolynomialRestShapeSpringsForceField.configured]
  · simp [diagonalSpring, PolynomialRestShapeSpringsForceField.configured]
  · intro i hi
    have hi0 : i = 0 := by
      simpa [diagonalSpring, PolynomialRestShapeSpringsForceField.configured] using hi
    subst hi0
    exact ⟨1, [0], rfl, rfl, by
      intro k hk
      interval_cases k
      exact ⟨0, rfl, by simp [diagonalSpring, PolynomialRestShapeSpringsForceField.configured]⟩⟩

theorem bridgeSpring_ready (x1 y1 x2 y2 : Vec3 ℚ) :
    PolynomialSpringsForceField.Ready bridgeSpring.resolved [x1, y1] [x2, y2] := by
  show PolynomialSpringsForceField.Ready bridgeSpring [x1, y1] [x2, y2]
  constructor
  · simp [bridgeSpring, PolynomialSpringsForceField.configured]
  · intro i a h
    cases i <;> simp_all [bridgeSpring, PolynomialSpringsForceField.configured] <;> omega
  · intro i b _ h
    cases i <;> simp_all [bridgeSpring, PolynomialSpringsForceField.configured] <;> omega
  · simp [bridgeSpring, PolynomialSpringsForceField.configured]
  · simp [bridgeSpring, PolynomialSpringsForceField.configured]
  · simp [bridgeSpring, PolynomialSpringsForceField.configured]
  · simp [bridgeSpring, PolynomialSpringsForceField.configured]
  · simp [bridgeSpring, PolynomialSpringsForceField.configured]
  · simp [bridgeSpring, PolynomialSpringsForceField.configured]
  · simp [bridgeSpring, PolynomialSpringsForceField.configured]
  · intro i hi
    have hi0 : i = 0 := by
      simpa [bridgeSpring, PolynomialSpringsForceField.configured] using hi
    subst hi0
    exact ⟨1, [0], rfl, rfl, by
      intro k hk
      interval_cases k
      exact ⟨0, rfl, by simp [bridgeSpring, PolynomialSpringsForceField.configured]⟩⟩

theorem chainSpring_ready (x y w : Vec3 ℚ) :
    PolynomialSpringsForceField.Ready chainSpring.resolved [x, y, w] [x, y, w] := by
  show PolynomialSpringsForceField.Ready chainSpring [x, y, w] [x, y, w]
  constructor
  · simp [chainSpring, PolynomialSpringsForceField.configured]
  · intro i a h
    cases i <;> simp_all [chainSpring, PolynomialSpringsForceField.configured] <;> omega
  · intro i b _ h
    cases i <;> simp_all [chainSpring, PolynomialSpringsForceField.configured] <;> omega
  · simp [chainSpring, PolynomialSpringsForceField.configured]
  · simp [chainSpring, PolynomialSpringsForceField.configured]
  · simp [chainSpring, PolynomialSpringsForceField.configured]
  · simp [chainSpring, PolynomialSpringsForceField.configured]
  · simp [chainSpring, PolynomialSpringsForceField.configured]
  · simp [chainSpring, PolynomialSpringsForceField.configured]
  · simp [chainSpring, PolynomialSpringsForceField.configured]
  · intro i hi
    have hi0 : i = 0 := by
      simpa [chainSpring, PolynomialSpringsForceField.configured] using hi
    subst hi0
    exact ⟨1, [0], rfl, rfl, by
      intro k hk
      interval_cases k
      exact ⟨0, rfl, by simp [chainSpring, PolynomialSpringsForceField.configured]⟩⟩

theorem addForce_frame_witness :
    (∃ r : PolynomialSpringsForceField ℚ × List (Vec3 ℚ) × List (Vec3 ℚ),
      bridgeSpring.addForce ratOps [![1, 1, 1], ![2, 2, 2]] [![3, 3, 3], ![4, 4, 4]]
        [0, 0] [0, ![2, 0, 0]] = some r
      ∧ (∀ j : Nat, (∀ i a : Nat, bridgeSpring.resolved.m_firstObjectIndices[i]? = some a →
          a ≠ j) → r.2.1[j]? = [![1, 1, 1], ![2, 2, 2]][j]?)
      ∧ (∀ j : Nat, (∀ i b : Nat, i < bridgeSpring.resolved.m_firstObjectIndices.length →
          bridgeSpring.resolved.m_secondObjectIndices[i]? = some b → b ≠ j) →
          r.2.2[j]? = [![3, 3, 3], ![4, 4, 4]][j]?)
      ∧ r.1.d_polynomialStiffness = bridgeSpring.d_polynomialStiffness
      ∧ r.1.d_polynomialDegree = bridgeSpring.d_polynomialDegree
      ∧ r.1.m_polynomialsMap = bridgeSpring.m_polynomialsMap)
    ∧ (∃ r : PolynomialSpringsForceField ℚ × List (Vec3 ℚ),
      chainSpring.addForceSameState ratOps [![1, 1, 1], ![2, 2, 2], ![5, 5, 5]]
        [0, ![2, 0, 0], 0] = some r
      ∧ (∀ j : Nat, (∀ i a : Nat, chainSpring.resolved.m_firstObjectIndices[i]? = some a →
          a ≠ j) →
          (∀ i b : Nat, i < chainSpring.resolved.m_firstObjectIndices.length →
            chainSpring.resolved.m_secondObjectIndices[i]? = some b → b ≠ j) →
          r.2[j]? = [![1, 1, 1], ![2, 2, 2], ![5, 5, 5]][j]?)
      ∧ r.1.d_polynomialStiffness = chainSpring.d_polynomialStiffness
      ∧ r.1.d_polynomialDegree = chainSpring.d_polynomialDegree
      ∧ r.1.m_polynomialsMap = chainSpring.m_polynomialsMap)
    ∧ (∃ r : PolynomialRestShapeSpringsForceField ℚ × List (Vec3 ℚ),
      diagonalSpring.addForce ratOps [![1, 1, 1], ![2, 2, 2]] [0, ![2, 0, 0]] = some r
      ∧ (∀ j : Nat, (∀ i a : Nat, diagonalSpring.m_indices[i]? = some a → a ≠ j) →
          r.2[j]? = [![1, 1, 1], ![2, 2, 2]][j]?)
      ∧ r.1.d_polynomialStiffness = diagonalSpring.d_polynomialStiffness
      ∧ r.1.d_polynomialDegree = diagonalSpring.d_polynomialDegree
      ∧ r.1.m_polynomialsMap = diagonalSpring.m_polynomialsMap) :=
  addForce_frame ratOps bridgeSpring chainSpring diagonalSpring diagonalSpring
    [![1, 1, 1], ![2, 2, 2]] [![3, 3, 3], ![4, 4, 4]] [0, 0] [0, ![2, 0, 0]]
    [![1, 1, 1], ![2, 2, 2], ![5, 5, 5]] [0, ![2, 0, 0], 0]
    [![1, 1, 1], ![2, 2, 2]] [0, ![2, 0, 0]] [0, 0]
    (bridgeSpring_ready _ _ _ _) rfl rfl (chainSpring_ready _ _ _) rfl rfl rfl
    (diagonalSpring_ready _ _ _ _) rfl

theorem pairSpring_sameState_step :
    pairSpring.addForceSameState ratOps [![1, 1, 1], ![2, 2, 2]] [0, ![2, 0, 0]]
      = PolynomialSpringsForceField.addForceSameStateSpring ratOps 0 [0, ![2, 0, 0]] 0
          (pairSpring, [![1, 1, 1], ![2, 2, 2]]) 0 := by
  simp [PolynomialSpringsForceField.addForceSameState, pairSpring,
    PolynomialSpringsForceField.configured, resize, List.range_succ]

/-- C39 (counterexample). One spring between the points `0` and `1` of one
state (`mstate1 == mstate2`), law `F(s) = s`, zero length `1`; the positions are
`(0,0,0)` and `(2,0,0)` and `f1`, `f2` are the one vector
`f = [(1,1,1), (2,2,2)]`. Index `1` is not the first index of any spring, yet
`addForce` changes the entry `f1[1] = f[1]` from `(2,2,2)` to `(1,2,2)`. -/
theorem addForce_same_state_counterexample :
    ∃ r : PolynomialSpringsForceField ℚ × List (Vec3 ℚ),
      pairSpring.addForceSameState ratOps [![1, 1, 1], ![2, 2, 2]] [0, ![2, 0, 0]] = some r
      ∧ (∀ i a : Nat, pairSpring.resolved.m_firstObjectIndices[i]? = some a → a ≠ 1)
      ∧ r.2[1]? = some ![1, 2, 2]
      ∧ r.2[1]? ≠ ([![1, 1, 1], ![2, 2, 2]] : List (Vec3 ℚ))[1]? := by
  have hs : PolynomialSpringsForceField.strainOf (norm ratOps ((![2, 0, 0] : Vec3 ℚ) - 0))
      (if (0 : Int) = 1 then norm ratOps ((![2, 0, 0] : Vec3 ℚ) - 0) else 1) = 1 := by
    rw [norm_two]
    norm_num [PolynomialSpringsForceField.strainOf]
  have hF : pairSpring.PolynomialValue 0
      (PolynomialSpringsForceField.strainOf (norm ratOps ((![2, 0, 0] : Vec3 ℚ) - 0))
        (if (0 : Int) = 1 then norm ratOps ((![2, 0, 0] : Vec3 ℚ) - 0) else 1)) = some 1 := by
    rw [hs]
    simp [PolynomialSpringsForceField.PolynomialValue, polynomialValueLoop, pairSpring,
      PolynomialSpringsForceField.configured, List.range_succ]
  obtain ⟨F', hF'⟩ := ((pairSpring_ready 0 0 0 0).group 0 (by
    simp [pairSpring, PolynomialSpringsForceField.resolved,
      PolynomialSpringsForceField.configured])).derivative
    (PolynomialSpringsForceField.strainOf (norm ratOps ((![2, 0, 0] : Vec3 ℚ) - 0))
      (if (0 : Int) = 1 then norm ratOps ((![2, 0, 0] : Vec3 ℚ) - 0) else 1))
  have h := addForceSameStateSpring_eq ratOps 0 [0, ![2, 0, 0]] [![1, 1, 1], ![2, 2, 2]]
    pairSpring 0 0 0 1 0 ![2, 0, 0] ![1, 1, 1] ![2, 2, 2] 0 1 1 F' (fun _ _ => 1)
    rfl rfl rfl rfl rfl rfl rfl rfl rfl
    (by simp [pairSpring, PolynomialSpringsForceField.configured])
    (by simp [pairSpring, PolynomialSpringsForceField.configured])
    (by simp [pairSpring, PolynomialSpringsForceField.configured])
    (by simp [pairSpring, PolynomialSpringsForceField.configured]) hF hF'
  rw [← pairSpring_sameState_step] at h
  have hv : ((![2, 2, 2] : Vec3 ℚ) + (-1 * PolynomialSpringsForceField.strainSignOf (0 : ℚ)
      (norm ratOps ((![2, 0, 0] : Vec3 ℚ) - 0))
      (if (0 : Int) = 1 then norm ratOps ((![2, 0, 0] : Vec3 ℚ) - 0) else 1))
        • vdiv ((![2, 0, 0] : Vec3 ℚ) - 0) (norm ratOps ((![2, 0, 0] : Vec3 ℚ) - 0)))
      = ![1, 2, 2] := by
    rw [norm_two]
    funext k
    fin_cases k <;> norm_num [vdiv, PolynomialSpringsForceField.strainSignOf]
  refine ⟨_, h, ?_, ?_, ?_⟩
  · intro i a hia
    have hlt := lt_length_of_getElem? _ _ _ hia
    have hi0 : i = 0 := by
      simpa [pairSpring, PolynomialSpringsForceField.resolved,
        PolynomialSpringsForceField.configured] using hlt
    subst hi0
    have : a = 0 := (Option.some.inj hia).symm
    omega
  · show (([![1, 1, 1], ![2, 2, 2]] : List (Vec3 ℚ)).set 0 _ |>.set 1 _)[1]? = _
    rw [getElem?_set_self _ _ _ (by simp), hv]
  · show (([![1, 1, 1], ![2, 2, 2]] : List (Vec3 ℚ)).set 0 _ |>.set 1 _)[1]? ≠ _
    rw [getElem?_set_self _ _ _ (by simp), hv]
    intro hc
    have h0 := congrFun (Option.some.inj hc) 0
    norm_num at h0

end ForceFrame

section Growth

variable {R : Type} [LinearOrderedField R]

theorem foldlM_steps {β : Type} (f : β → Nat → Option β) (P : β → Prop)
    (hstep : ∀ b i b', P b → f b i = some b' → P b') :
    ∀ (l : List Nat) (b r : β), P b → l.foldlM f b = some r →
      ∀ i, i ∈ l → ∃ acc acc', P acc ∧ f acc i = some acc' := by
  intro l
  induction l with
  | nil =>
    intro b r _ _ i hi
    simp at hi
  | cons x xs ih =>
    intro b r hb h i hi
    simp only [List.foldlM_cons, Option.bind_eq_bind, Option.bind_eq_some] at h
    obtain ⟨b1, h1, h2⟩ := h
    rcases List.mem_cons.mp hi with e | hmem
    · subst e
      exact ⟨b, b1, hb, h1⟩
    · exact ih b1 r (hstep b x b1 hb h1) h2 i hmem

theorem addForce_some_sizes (M : MathOps R) (st : PolynomialSpringsForceField R)
    (f1 f2 p1 p2 : List (Vec3 R))
    (r : PolynomialSpringsForceField R × List (Vec3 R) × List (Vec3 R))
    (h : st.addForce M f1 f2 p1 p2 = some r) :
    st.resolved.m_firstObjectIndices.length ≤ st.resolved.m_weightedCoordinateDifference.length
    ∧ st.resolved.m_firstObjectIndices.length ≤ st.resolved.m_differential.length := by
  rw [addForce_eq_fold] at h
  have key := foldlM_steps
    (fun acc i => PolynomialSpringsForceField.addForceSpring M
      (if st.resolved.d_compressible then -1 else 0) p1 p2 (st.resolved.groupOf i) acc i)
    (fun (acc : PolynomialSpringsForceField R × List (Vec3 R) × List (Vec3 R)) =>
      PolynomialSpringsForceField.SameFrame st.resolved acc.1)
    (by
      intro acc i acc' hP hstep
      obtain ⟨s, g1, g2⟩ := acc
      obtain ⟨hfr', -, -⟩ := addForceSpring_frame M _ p1 p2 g1 g2 s _ i acc' hstep
      exact sameFrame_trans hP hfr')
    _ _ r (sameFrame_refl _) h
  have hall : ∀ i, i < st.resolved.m_firstObjectIndices.length →
      i < st.resolved.m_weightedCoordinateDifference.length
      ∧ i < st.resolved.m_differential.length := by
    intro i hi
    obtain ⟨acc, acc', hP, hstep⟩ := key i (List.mem_range.mpr hi)
    obtain ⟨s, g1, g2⟩ := acc
    obtain ⟨a, b, x1, x2, fa, fb, flag, z0, F, F', Jold, -, -, -, -, -, -, -, -, hJ, hw, -⟩ :=
      addForceSpring_inv M _ p1 p2 g1 g2 s _ i acc' hstep
    have hJ' := lt_length_of_getElem? _ _ _ hJ
    rw [hP.direction] at hw
    rw [hP.differential] at hJ'
    exact ⟨hw, hJ'⟩
  constructor
  · by_contra hc
    exact absurd (hall _ (not_le.mp hc)).1 (lt_irrefl _)
  · by_contra hc
    exact absurd (hall _ (not_le.mp hc)).2 (lt_irrefl _)

theorem anchored_addForce_some_sizes (M : MathOps R)
    (st st1 : PolynomialRestShapeSpringsForceField R) (f p1 p0 : List (Vec3 R))
    (hp0 : st.getExtPosition = some p0)
    (hres : (if st.d_recomputeIndices then st.recomputeIndices else some st) = some st1)
    (r : PolynomialRestShapeSpringsForceField R × List (Vec3 R))
    (h : st.addForce M f p1 = some r) :
    st1.m_indices.length ≤ st1.m_weightedCoordinateDifference.length
    ∧ st1.m_indices.length ≤ st1.m_differential.length := by
  rw [anchored_addForce_eq_fold M st st1 f p1 p0 hp0 hres] at h
  have key := foldlM_steps
    (fun acc i => PolynomialRestShapeSpringsForceField.addForceSpring M p1 p0
      (st1.groupOf i) acc i)
    (fun (acc : PolynomialRestShapeSpringsForceField R × List (Vec3 R)) =>
      PolynomialRestShapeSpringsForceField.SameFrame st1 acc.1)
    (by
      intro acc i acc' hP hstep
      obtain ⟨s, g⟩ := acc
      obtain ⟨hfr', -, -⟩ := anchored_addForceSpring_frame M p1 p0 g s _ i acc' hstep
      exact anchored_sameFrame_trans hP hfr')
    _ _ r (anchored_sameFrame_refl _) h
  have hall : ∀ i, i < st1.m_indices.length →
      i < st1.m_weightedCoordinateDifference.length ∧ i < st1.m_differential.length := by
    intro i hi
    obtain ⟨acc, acc', hP, hstep⟩ := key i (List.mem_range.mpr hi)
    obtain ⟨s, g⟩ := acc
    obtain ⟨a, e, x1, x0, fa, z, F, F', Jold, -, -, -, -, -, -, hJ, -, -, -, hw, -⟩ :=
      anchored_addForceSpring_inv M p1 p0 g s _ i acc' hstep
    have hJ' := lt_length_of_getElem? _ _ _ hJ
    rw [hP.direction] at hw
    rw [hP.differential] at hJ'
    exact ⟨hw, hJ'⟩
  constructor
  · by_contra hc
    exact absurd (hall _ (not_le.mp hc)).1 (lt_irrefl _)
  · by_contra hc
    exact absurd (hall _ (not_le.mp hc)).2 (lt_irrefl _)

theorem bwdInit_regrownInteraction :
    (PolynomialSpringsForceField.configured [] [] [1] [1] 0 ([1] : List ℚ) true false
      1 1).bwdInit = some regrownInteraction := by
  simp [PolynomialSpringsForceField.bwdInit, regrownInteraction,
    PolynomialSpringsForceField.configured, PolynomialSpringsForceField.recomputeIndices, resize,
    PolynomialSpringsForceField.initZeroLengthLoop, setAt, fillPolynomialsMap, List.range_succ]

theorem bwdInit_regrownAnchored :
    (PolynomialRestShapeSpringsForceField.configured [] [1] [1] [] true ([1] : List ℚ) 0 0 1
      [0] none).bwdInit = some regrownAnchored := by
  simp [PolynomialRestShapeSpringsForceField.bwdInit, regrownAnchored,
    PolynomialRestShapeSpringsForceField.configured,
    PolynomialRestShapeSpringsForceField.recomputeIndices, resize, fillPolynomialsMap,
    List.range_succ]

/-- C32. Fields with `recompute_indices` set, initialised by `bwdInit` while
their states have one point: every working array has one entry. When the states
have grown to two points, `addForce` re-resolves two springs but does not resize
the working arrays, and the loop body for the second spring writes
`m_weightedCoordinateDifference[1]` (anchored: `m_coordinateSquaredNorm[1]`)
past the end of an array of size one: the call is undefined, in both fields. -/
theorem addForce_after_growth :
    (PolynomialSpringsForceField.configured [] [] [1] [1] 0 ([1] : List ℚ) true false
      1 1).bwdInit = some regrownInteraction
    ∧ regrownInteraction.m_weightedCoordinateDifference.length = 1
    ∧ ({ regrownInteraction with mstate1Size := 2, mstate2Size := 2 } :
        PolynomialSpringsForceField ℚ).resolved.m_firstObjectIndices = [0, 1]
    ∧ ({ regrownInteraction with mstate1Size := 2, mstate2Size := 2 } :
        PolynomialSpringsForceField ℚ).addForce ratOps [0, 0] [0, 0] [0, 0]
          [![1, 0, 0], ![1, 0, 0]] = none
    ∧ (PolynomialRestShapeSpringsForceField.configured [] [1] [1] [] true ([1] : List ℚ) 0 0 1
      [0] none).bwdInit = some regrownAnchored
    ∧ regrownAnchored.m_coordinateSquaredNorm.length = 1
    ∧ ({ regrownAnchored with mstateSize := 2, mstateRestPosition := [0, 0] } :
        PolynomialRestShapeSpringsForceField ℚ).recomputeIndices
        = some { regrownAnchored with
            mstateSize := 2, mstateRestPosition := [0, 0], m_indices := [0, 1],
            m_ext_indices := [0, 1] }
    ∧ ({ regrownAnchored with mstateSize := 2, mstateRestPosition := [0, 0] } :
        PolynomialRestShapeSpringsForceField ℚ).addForce ratOps [0, 0]
          [![1, 0, 0], ![1, 0, 0]] = none := by
  have hres : ({ regrownInteraction with mstate1Size := 2, mstate2Size := 2 } :
      PolynomialSpringsForceField ℚ).resolved.m_firstObjectIndices = [0, 1] := by
    simp [regrownInteraction, PolynomialSpringsForceField.resolved,
      PolynomialSpringsForceField.recomputeIndices, PolynomialSpringsForceField.configured,
      List.range_succ]
  have hresa : ({ regrownAnchored with mstateSize := 2, mstateRestPosition := [0, 0] } :
      PolynomialRestShapeSpringsForceField ℚ).recomputeIndices
      = some { regrownAnchored with
          mstateSize := 2, mstateRestPosition := [0, 0], m_indices := [0, 1],
          m_ext_indices := [0, 1] } := by
    simp [regrownAnchored, PolynomialRestShapeSpringsForceField.recomputeIndices,
      PolynomialRestShapeSpringsForceField.configured, List.range_succ]
  refine ⟨bwdInit_regrownInteraction, rfl, hres, ?_, bwdInit_regrownAnchored, rfl, hresa, ?_⟩
  · cases h : ({ regrownInteraction with mstate1Size := 2, mstate2Size := 2 } :
        PolynomialSpringsForceField ℚ).addForce ratOps [0, 0] [0, 0] [0, 0]
          [![1, 0, 0], ![1, 0, 0]] with
    | none => rfl
    | some r =>
      have hs := (addForce_some_sizes ratOps _ _ _ _ _ r h).1
      rw [hres] at hs
      have hw : ({ regrownInteraction with mstate1Size := 2, mstate2Size := 2 } :
          PolynomialSpringsForceField ℚ).resolved.m_weightedCoordinateDifference.length = 1 := by
        obtain ⟨l1, l2, e⟩ := resolved_form ({ regrownInteraction with
          mstate1Size := 2, mstate2Size := 2 } : PolynomialSpringsForceField ℚ)
        rw [e]
        rfl
      rw [hw] at hs
      simp at hs
  · cases h : ({ regrownAnchored with mstateSize := 2, mstateRestPosition := [0, 0] } :
        PolynomialRestShapeSpringsForceField ℚ).addForce ratOps [0, 0]
          [![1, 0, 0], ![1, 0, 0]] with
    | none => rfl
    | some r =>
      have hs := (anchored_addForce_some_sizes ratOps
        ({ regrownAnchored with mstateSize := 2, mstateRestPosition := [0, 0] } :
          PolynomialRestShapeSpringsForceField ℚ)
        { regrownAnchored with
          mstateSize := 2, mstateRestPosition := [0, 0], m_indices := [0, 1],
          m_ext_indices := [0, 1] }
        [0, 0] [![1, 0, 0], ![1, 0, 0]] [0, 0] rfl hresa r h).1
      simp [regrownAnchored, PolynomialRestShapeSpringsForceField.configured] at hs

end Growth

section AnchoredProduct

variable {R : Type} [LinearOrderedField R]

open PolynomialRestShapeSpringsForceField

theorem getD_set_other {α : Type} (l : List α) (a j : Nat) (x d : α) (h : j ≠ a) :
    (l.set a x).getD j d = l.getD j d := by
  rw [List.getD_eq_getElem?_getD, List.getD_eq_getElem?_getD, getElem?_set_other l a j x h]

theorem anchored_addKToMatrix_adds (st : PolynomialRestShapeSpringsForceField R) (kFact : R)
    (mref : MatrixRef) (address : Nat) (hm : mref.matrix = some address)
    (hJ : st.m_indices.length ≤ st.m_differential.length) (s : MatrixStore R) :
    ∃ s', st.addKToMatrix kFact mref s = some s'
      ∧ (∀ r c, s' address r c = s address r c
          + ∑ index in Finset.range st.m_indices.length,
              springDiagonal kFact mref.offset (st.m_indices.getD index 0)
                (st.m_differential.getD index 0) r c)
      ∧ ∀ x, x ≠ address → s' x = s x := by
  unfold PolynomialRestShapeSpringsForceField.addKToMatrix
  simp only [← list_sum_range]
  apply foldlM_store_adds address
  intro index hindex s
  have hlt := List.mem_range.mp hindex
  exact anchored_addKToMatrixSpring_adds st kFact mref address index _ _ hm
    (getElem?_eq_some_getD _ _ 0 hlt) (getElem?_eq_some_getD _ _ 0 (lt_of_lt_of_le hlt hJ)) s

theorem anchored_addDForce_adds (st : PolynomialRestShapeSpringsForceField R) (kFactor : R)
    (df dx : List (Vec3 R))
    (hJ : st.m_indices.length ≤ st.m_differential.length)
    (ha : ∀ i, i < st.m_indices.length → st.m_indices.getD i 0 < dx.length)
    (hdf : df.length = dx.length) :
    ∃ df', st.addDForce kFactor df dx = some df' ∧ df'.length = df.length
      ∧ ∀ (j : Nat) (c : Fin 3), (df'.getD j 0) c = (df.getD j 0) c
          + ∑ i in Finset.range st.m_indices.length,
              if st.m_indices.getD i 0 = j then
                (st.m_differential.getD i 0) c * (dx.getD (st.m_indices.getD i 0) 0) c * kFactor
              else 0 := by
  unfold PolynomialRestShapeSpringsForceField.addDForce
  apply foldlM_range_invariant (addDForceSpring st kFactor dx)
    (fun k (acc : List (Vec3 R)) => acc.length = df.length
      ∧ ∀ (j : Nat) (c : Fin 3), (acc.getD j 0) c = (df.getD j 0) c
          + ∑ i in Finset.range k,
              if st.m_indices.getD i 0 = j then
                (st.m_differential.getD i 0) c * (dx.getD (st.m_indices.getD i 0) 0) c * kFactor
              else 0)
  · intro k acc hk hinv
    obtain ⟨hlen, hval⟩ := hinv
    have hak := ha k hk
    have hacc : st.m_indices.getD k 0 < acc.length := by
      rw [hlen, hdf]
      exact hak
    refine ⟨_, anchored_addDForceSpring_eq st kFactor dx acc k _ _ _ _
      (getElem?_eq_some_getD _ _ 0 hk) (getElem?_eq_some_getD _ _ 0 (lt_of_lt_of_le hk hJ))
      (getElem?_eq_some_getD _ _ 0 hak) (getElem?_eq_some_getD _ _ 0 hacc), ?_, ?_⟩
    · rw [List.length_set]
      exact hlen
    · intro j c
      rw [Finset.sum_range_succ]
      by_cases hj : st.m_indices.getD k 0 = j
      · subst hj
        rw [getD_set_self _ _ _ _ hacc, if_pos rfl, hval]
        ring
      · rw [getD_set_other _ _ _ _ _ (fun e => hj e.symm), if_neg hj, hval, add_zero]
  · exact ⟨rfl, fun j c => by simp⟩

theorem springDiagonal_apply (kFact : R) (a j j' : Nat) (J : Vec3 R) (p q : Fin 3) :
    springDiagonal kFact 0 a J (3 * j + p) (3 * j' + q)
      = if a = j ∧ j' = j ∧ q = p then -(kFact * J p) else 0 := by
  have hp := p.isLt
  have hq := q.isLt
  unfold springDiagonal
  by_cases h : a = j ∧ j' = j ∧ q = p
  · rw [if_pos h]
    obtain ⟨h1, h2, h3⟩ := h
    subst h1 h2 h3
    rw [Finset.sum_eq_single q]
    · rw [if_pos ⟨by omega, by omega⟩]
    · intro d _ hd
      rw [if_neg]
      rintro ⟨h1, -⟩
      apply hd
      apply Fin.ext
      omega
    · intro h
      exact absurd (Finset.mem_univ _) h
  · rw [if_neg h]
    apply Finset.sum_eq_zero
    intro d _
    rw [if_neg]
    rintro ⟨h1, h2⟩
    have hd := d.isLt
    apply h
    refine ⟨by omega, by omega, ?_⟩
    apply Fin.ext
    omega

theorem springDiagonal_mulVec (kFact : R) (a j : Nat) (J : Vec3 R) (dx : List (Vec3 R))
    (p : Fin 3) (ha : a < dx.length) :
    (∑ j' in Finset.range dx.length, ∑ q : Fin 3,
      springDiagonal kFact 0 a J (3 * j + p) (3 * j' + q) * (dx.getD j' 0) q)
      = if a = j then -(kFact * J p) * (dx.getD j 0) p else 0 := by
  simp only [springDiagonal_apply]
  by_cases h : a = j
  · subst h
    rw [if_pos rfl, Finset.sum_eq_single a, Finset.sum_eq_single p]
    · rw [if_pos ⟨rfl, rfl, rfl⟩]
    · intro q _ hq
      rw [if_neg (fun e => hq e.2.2), zero_mul]
    · intro h
      exact absurd (Finset.mem_univ _) h
    · intro j' _ hj'
      apply Finset.sum_eq_zero
      intro q _
      rw [if_neg (fun e => hj' e.2.1), zero_mul]
    · intro h
      exact absurd (Finset.mem_range.mpr ha) h
  · rw [if_neg h]
    apply Finset.sum_eq_zero
    intro j' _
    apply Finset.sum_eq_zero
    intro q _
    rw [if_neg (fun e => h e.1), zero_mul]

theorem anchored_matVec_eq_neg (st : PolynomialRestShapeSpringsForceField R) (kFact : R)
    (mref : MatrixRef) (address : Nat) (dx : List (Vec3 R))
    (hm : mref.matrix = some address) (ho : mref.offset = 0)
    (hJ : st.m_indices.length ≤ st.m_differential.length)
    (ha : ∀ i, i < st.m_indices.length → st.m_indices.getD i 0 < dx.length) :
    ∃ store' df', st.addKToMatrix kFact mref (fun _ _ _ => 0) = some store'
      ∧ st.addDForce kFact (List.replicate dx.length 0) dx = some df'
      ∧ ∀ (j : Nat) (p : Fin 3), matVec (store' address) dx (3 * j + p) = -((df'.getD j 0) p) := by
  obtain ⟨store', h1, he, -⟩ := anchored_addKToMatrix_adds st kFact mref address hm hJ
    (fun _ _ _ => 0)
  obtain ⟨df', h2, -, hd⟩ := anchored_addDForce_adds st kFact (List.replicate dx.length 0) dx
    hJ ha (by simp)
  refine ⟨store', df', h1, h2, ?_⟩
  intro j p
  have hz : ((List.replicate dx.length (0 : Vec3 R)).getD j 0) p = 0 := by
    rw [List.getD_eq_getElem?_getD]
    by_cases hj : j < dx.length
    · rw [List.getElem?_replicate_of_lt hj]
      rfl
    · rw [List.getElem?_eq_none (by simpa using hj)]
      rfl
  rw [hd, hz, zero_add, ← Finset.sum_neg_distrib]
  unfold matVec
  simp only [he, ho, zero_add, Finset.sum_mul]
  rw [Finset.sum_congr rfl (fun x _ => Finset.sum_comm), Finset.sum_comm]
  apply Finset.sum_congr rfl
  intro i hi
  have hlt := Finset.mem_range.mp hi
  rw [springDiagonal_mulVec kFact _ j _ dx p (ha i hlt)]
  by_cases h : st.m_indices.getD i 0 = j
  · rw [if_pos h, if_pos h, h]
    ring
  · rw [if_neg h, if_neg h, neg_zero]

theorem diagonalSpring_addDForce :
    diagonalSpring.addDForce 1 [0, 0] [0, ![1, 1, 1]] = some [0, ![1, 2, 3]] := by
  have h := anchored_addDForceSpring_eq diagonalSpring 1 [0, ![1, 1, 1]] [0, 0] 0 1
    ![1, 2, 3] ![1, 1, 1] 0 rfl rfl rfl rfl
  have e : diagonalSpring.addDForce 1 [0, 0] [0, ![1, 1, 1]]
      = addDForceSpring diagonalSpring 1 [0, ![1, 1, 1]] [0, 0] 0 := by
    have e1 : List.range diagonalSpring.m_indices.length = [0] := rfl
    rw [PolynomialRestShapeSpringsForceField.addDForce, e1]
    simp only [List.foldlM_cons, List.foldlM_nil, Option.bind_eq_bind]
    cases addDForceSpring diagonalSpring 1 [0, ![1, 1, 1]] [0, 0] 0 <;> rfl
  rw [e, h]
  simp only [List.set_cons_succ, List.set_cons_zero, Option.some.injEq, List.cons.injEq,
    true_and, and_true]
  funext c
  fin_cases c <;> simp

/-- C35. For the anchored field whose one spring sits at node `1` with cached
diagonal `(1, 2, 3)`, `kFactor = 1` and `dx = [(0,0,0), (1,1,1)]`: `addDForce`
adds `delta[1] = (1, 2, 3)` to a zero `df`, while the matrix that `addKToMatrix`
assembles into a zero matrix at offset `0` gives the rows
`(M * dx)[3], [4], [5] = -1, -2, -3`: the product is `-delta`, not `delta`. -/
theorem anchored_matrix_product_opposite :
    ∃ store' df',
      diagonalSpring.addKToMatrix 1 ⟨some 0, 0⟩ (fun _ _ _ => 0) = some store'
      ∧ diagonalSpring.addDForce 1 (List.replicate 2 0) [0, ![1, 1, 1]] = some df'
      ∧ df' = [0, ![1, 2, 3]]
      ∧ matVec (store' 0) [0, ![1, 1, 1]] 3 = -1
      ∧ matVec (store' 0) [0, ![1, 1, 1]] 4 = -2
      ∧ matVec (store' 0) [0, ![1, 1, 1]] 5 = -3 := by
  obtain ⟨store', df', h1, h2, hp⟩ := anchored_matVec_eq_neg diagonalSpring 1 ⟨some 0, 0⟩ 0
    [0, ![1, 1, 1]] rfl rfl (le_refl 1)
    (by
      intro i hi
      have hi0 : i = 0 := by
        simpa [diagonalSpring, PolynomialRestShapeSpringsForceField.configured] using hi
      subst hi0
      simp [diagonalSpring, PolynomialRestShapeSpringsForceField.configured])
  have e : df' = [0, ![1, 2, 3]] := by
    have h3 : diagonalSpring.addDForce 1 (List.replicate 2 0) [0, ![1, 1, 1]]
        = some [0, ![1, 2, 3]] := diagonalSpring_addDForce
    exact Option.some.inj (h2.symm.trans h3)
  have h2' : diagonalSpring.addDForce 1 (List.replicate 2 0) [0, ![1, 1, 1]] = some df' := h2
  refine ⟨store', df', h1, h2', e, ?_, ?_, ?_⟩
  · have h := hp 1 0
    rw [e] at h
    simpa using h
  · have h := hp 1 1
    rw [e] at h
    simpa using h
  · have h := hp 1 2
    rw [e] at h
    simpa using h

end AnchoredProduct

section InteractionProduct

variable {R : Type} [LinearOrderedField R]

open PolynomialSpringsForceField

theorem addDForce_adds (st : PolynomialSpringsForceField R) (kFactor : R)
    (df1 df2 dx1 dx2 : List (Vec3 R))
    (h2 : st.m_firstObjectIndices.length ≤ st.m_secondObjectIndices.length)
    (hJ : st.m_firstObjectIndices.length ≤ st.m_differential.length)
    (ha : ∀ i, i < st.m_firstObjectIndices.length → st.m_firstObjectIndices.getD i 0 < dx1.length)
    (hb : ∀ i, i < st.m_firstObjectIndices.length →
      st.m_secondObjectIndices.getD i 0 < dx2.length)
    (hd1 : df1.length = dx1.length) (hd2 : df2.length = dx2.length) :
    ∃ r, st.addDForce kFactor df1 df2 dx1 dx2 = some r
      ∧ r.1.length = df1.length ∧ r.2.length = df2.length
      ∧ ∀ (j : Nat) (p : Fin 3),
        (r.1.getD j 0) p = (df1.getD j 0) p
          + ∑ i in Finset.range st.m_firstObjectIndices.length,
              (if st.m_firstObjectIndices.getD i 0 = j then
                (kFactor • mulVec3 (st.m_differential.getD i 0)
                  (dx2.getD (st.m_secondObjectIndices.getD i 0) 0
                    - dx1.getD (st.m_firstObjectIndices.getD i 0) 0)) p
              else 0)
        ∧ (r.2.getD j 0) p = (df2.getD j 0) p
          - ∑ i in Finset.range st.m_firstObjectIndices.length,
              (if st.m_secondObjectIndices.getD i 0 = j then
                (kFactor • mulVec3 (st.m_differential.getD i 0)
                  (dx2.getD (st.m_secondObjectIndices.getD i 0) 0
                    - dx1.getD (st.m_firstObjectIndices.getD i 0) 0)) p
              else 0) := by
  unfold PolynomialSpringsForceField.addDForce
  obtain ⟨r, hr, hl1, hl2, hv⟩ := foldlM_range_invariant (addDForceSpring st kFactor dx1 dx2)
    (fun k (acc : List (Vec3 R) × List (Vec3 R)) =>
      acc.1.length = df1.length ∧ acc.2.length = df2.length
      ∧ ∀ (j : Nat) (p : Fin 3),
        (acc.1.getD j 0) p = (df1.getD j 0) p
          + ∑ i in Finset.range k,
              (if st.m_firstObjectIndices.getD i 0 = j then
                (kFactor • mulVec3 (st.m_differential.getD i 0)
                  (dx2.getD (st.m_secondObjectIndices.getD i 0) 0
                    - dx1.getD (st.m_firstObjectIndices.getD i 0) 0)) p
              else 0)
        ∧ (acc.2.getD j 0) p = (df2.getD j 0) p
          - ∑ i in Finset.range k,
              (if st.m_secondObjectIndices.getD i 0 = j then
                (kFactor • mulVec3 (st.m_differential.getD i 0)
                  (dx2.getD (st.m_secondObjectIndices.getD i 0) 0
                    - dx1.getD (st.m_firstObjectIndices.getD i 0) 0)) p
              else 0))
    st.m_firstObjectIndices.length
    (by
      intro k acc hk hinv
      obtain ⟨hlen1, hlen2, hval⟩ := hinv
      have hak := ha k hk
      have hbk := hb k hk
      have hacc1 : st.m_firstObjectIndices.getD k 0 < acc.1.length := by
        rw [hlen1, hd1]
        exact hak
      have hacc2 : st.m_secondObjectIndices.getD k 0 < acc.2.length := by
        rw [hlen2, hd2]
        exact hbk
      refine ⟨_, addDForceSpring_eq st kFactor dx1 dx2 acc.1 acc.2 k _ _ _ _ _ _ _
        (getElem?_eq_some_getD _ _ 0 hk) (getElem?_eq_some_getD _ _ 0 (lt_of_lt_of_le hk h2))
        (getElem?_eq_some_getD _ _ 0 (lt_of_lt_of_le hk hJ))
        (getElem?_eq_some_getD _ _ 0 hak) (getElem?_eq_some_getD _ _ 0 hbk)
        (getElem?_eq_some_getD _ _ 0 hacc1) (getElem?_eq_some_getD _ _ 0 hacc2), ?_, ?_, ?_⟩
      · rw [List.length_set]
        exact hlen1
      · rw [List.length_set]
        exact hlen2
      · intro j p
        rw [Finset.sum_range_succ, Finset.sum_range_succ]
        constructor
        · by_cases hj : st.m_firstObjectIndices.getD k 0 = j
          · subst hj
            rw [getD_set_self _ _ _ _ hacc1, if_pos rfl, Pi.add_apply, (hval _ p).1]
            ring
          · rw [getD_set_other _ _ _ _ _ (fun e => hj e.symm), if_neg hj, (hval _ p).1,
              add_zero]
        · by_cases hj : st.m_secondObjectIndices.getD k 0 = j
          · subst hj
            rw [getD_set_self _ _ _ _ hacc2, if_pos rfl, Pi.sub_apply, (hval _ p).2]
            ring
          · rw [getD_set_other _ _ _ _ _ (fun e => hj e.symm), if_neg hj, (hval _ p).2,
              add_zero])
    (df1, df2) ⟨rfl, rfl, fun j p => by simp⟩
  exact ⟨r, hr, hl1, hl2, hv⟩

theorem springBlocks_apply (kFact : R) (a b j j' : Nat) (J : Mat3 R) (p q : Fin 3) :
    springBlocks kFact 0 a b J (3 * j + p) (3 * j' + q)
      = (if j = a ∧ j' = a then -(kFact * J p q) else 0)
        + (if j = a ∧ j' = b then kFact * J p q else 0)
        + (if j = b ∧ j' = a then kFact * J p q else 0)
        + (if j = b ∧ j' = b then -(kFact * J p q) else 0) := by
  have h := springBlocks_block kFact 0 a b j j' J p q
  simp only [zero_add] at h
  exact h

theorem sum_pick (m a : Nat) (ha : a < m) (f : Nat → R) :
    (∑ j' in Finset.range m, if j' = a then f j' else 0) = f a := by
  rw [Finset.sum_ite_eq' (Finset.range m) a f, if_pos (Finset.mem_range.mpr ha)]

theorem springBlocks_mulVec (kFact : R) (a b j : Nat) (J : Mat3 R) (dx : List (Vec3 R))
    (p : Fin 3) (ha : a < dx.length) (hb : b < dx.length) :
    (∑ j' in Finset.range dx.length, ∑ q : Fin 3,
      springBlocks kFact 0 a b J (3 * j + p) (3 * j' + q) * (dx.getD j' 0) q)
      = (if a = j then (kFact • mulVec3 J (dx.getD b 0 - dx.getD a 0)) p else 0)
        - (if b = j then (kFact • mulVec3 J (dx.getD b 0 - dx.getD a 0)) p else 0) := by
  simp only [springBlocks_apply]
  rw [Finset.sum_comm]
  by_cases h1 : j = a <;> by_cases h2 : j = b
  · subst h1
    subst h2
    simp only [true_and, add_mul, ite_mul, zero_mul, Finset.sum_add_distrib,
      sum_pick _ _ ha, if_true]
    simp [Fin.sum_univ_three]
    ring
  · subst h1
    have h2' : ¬ b = j := fun e => h2 e.symm
    simp only [true_and, h2, false_and, if_false, add_zero, add_mul, ite_mul, zero_mul,
      Finset.sum_add_distrib, sum_pick _ _ ha, sum_pick _ _ hb, if_true, h2', sub_zero]
    simp [Fin.sum_univ_three, mulVec3]
    ring
  · subst h2
    have h1' : ¬ a = j := fun e => h1 e.symm
    simp only [true_and, h1, false_and, if_false, zero_add, add_mul, ite_mul, zero_mul,
      Finset.sum_add_distrib, sum_pick _ _ ha, sum_pick _ _ hb, if_true, h1', zero_sub]
    simp [Fin.sum_univ_three, mulVec3]
    ring
  · have h1' : ¬ a = j := fun e => h1 e.symm
    have h2' : ¬ b = j := fun e => h2 e.symm
    simp [h1, h2, h1', h2']

theorem addDForceSameStateSpring_eq (st : PolynomialSpringsForceField R) (kFactor : R)
    (dx df : List (Vec3 R)) (index a b : Nat) (J : Mat3 R) (x1 x2 d1 d2 : Vec3 R)
    (ha : st.m_firstObjectIndices[index]? = some a)
    (hb : st.m_secondObjectIndices[index]? = some b)
    (hJ : st.m_differential[index]? = some J)
    (hx1 : dx[a]? = some x1) (hx2 : dx[b]? = some x2)
    (hd1 : df[a]? = some d1)
    (hd2 : (df.set a (d1 + kFactor • mulVec3 J (x2 - x1)))[b]? = some d2) :
    st.addDForceSameStateSpring kFactor dx df index
      = some ((df.set a (d1 + kFactor • mulVec3 J (x2 - x1))).set b
          (d2 - kFactor • mulVec3 J (x2 - x1))) := by
  simp only [addDForceSameStateSpring, ha, hb, hJ, hx1, hx2, hd1, hd2, Option.bind_eq_bind,
    Option.some_bind, setAt_eq_some df a _ (lt_length_of_getElem? _ _ _ hd1),
    setAt_eq_some _ b _ (lt_length_of_getElem? _ _ _ hd2)]

theorem addDForceSameState_adds (st : PolynomialSpringsForceField R) (kFactor : R)
    (df dx : List (Vec3 R))
    (h2 : st.m_firstObjectIndices.length ≤ st.m_secondObjectIndices.length)
    (hJ : st.m_firstObjectIndices.length ≤ st.m_differential.length)
    (ha : ∀ i, i < st.m_firstObjectIndices.length → st.m_firstObjectIndices.getD i 0 < dx.length)
    (hb : ∀ i, i < st.m_firstObjectIndices.length →
      st.m_secondObjectIndices.getD i 0 < dx.length)
    (hd : df.length = dx.length) :
    ∃ df', st.addDForceSameState kFactor df dx = some df' ∧ df'.length = df.length
      ∧ ∀ (j : Nat) (p : Fin 3),
        (df'.getD j 0) p = (df.getD j 0) p
          + ∑ i in Finset.range st.m_firstObjectIndices.length,
              ((if st.m_firstObjectIndices.getD i 0 = j then
                (kFactor • mulVec3 (st.m_differential.getD i 0)
                  (dx.getD (st.m_secondObjectIndices.getD i 0) 0
                    - dx.getD (st.m_firstObjectIndices.getD i 0) 0)) p
              else 0)
              - (if st.m_secondObjectIndices.getD i 0 = j then
                (kFactor • mulVec3 (st.m_differential.getD i 0)
                  (dx.getD (st.m_secondObjectIndices.getD i 0) 0
                    - dx.getD (st.m_firstObjectIndices.getD i 0) 0)) p
              else 0)) := by
  unfold PolynomialSpringsForceField.addDForceSameState
  apply foldlM_range_invariant (st.addDForceSameStateSpring kFactor dx)
    (fun k (acc : List (Vec3 R)) => acc.length = df.length
      ∧ ∀ (j : Nat) (p : Fin 3),
        (acc.getD j 0) p = (df.getD j 0) p
          + ∑ i in Finset.range k,
              ((if st.m_firstObjectIndices.getD i 0 = j then
                (kFactor • mulVec3 (st.m_differential.getD i 0)
                  (dx.getD (st.m_secondObjectIndices.getD i 0) 0
                    - dx.getD (st.m_firstObjectIndices.getD i 0) 0)) p
              else 0)
              - (if st.m_secondObjectIndices.getD i 0 = j then
                (kFactor • mulVec3 (st.m_differential.getD i 0)
                  (dx.getD (st.m_secondObjectIndices.getD i 0) 0
                    - dx.getD (st.m_firstObjectIndices.getD i 0) 0)) p
              else 0)))
  · intro k acc hk hinv
    obtain ⟨hlen, hval⟩ := hinv
    have hak := ha k hk
    have hbk := hb k hk
    have hacc1 : st.m_firstObjectIndices.getD k 0 < acc.length := by
      rw [hlen, hd]
      exact hak
    have hacc2 : st.m_secondObjectIndices.getD k 0
        < (acc.set (st.m_firstObjectIndices.getD k 0)
          (acc.getD (st.m_firstObjectIndices.getD k 0) 0
            + kFactor • mulVec3 (st.m_differential.getD k 0)
              (dx.getD (st.m_secondObjectIndices.getD k 0) 0
                - dx.getD (st.m_firstObjectIndices.getD k 0) 0))).length := by
      rw [List.length_set, hlen, hd]
      exact hbk
    refine ⟨_, addDForceSameStateSpring_eq st kFactor dx acc k _ _ _ _ _ _ _
      (getElem?_eq_some_getD _ _ 0 hk) (getElem?_eq_some_getD _ _ 0 (lt_of_lt_of_le hk h2))
      (getElem?_eq_some_getD _ _ 0 (lt_of_lt_of_le hk hJ))
      (getElem?_eq_some_getD _ _ 0 hak) (getElem?_eq_some_getD _ _ 0 hbk)
      (getElem?_eq_some_getD _ _ 0 hacc1) (getElem?_eq_some_getD _ _ 0 hacc2), ?_, ?_⟩
    · rw [List.length_set, List.length_set]
      exact hlen
    · intro j p
      rw [Finset.sum_range_succ]
      by_cases hjb : st.m_secondObjectIndices.getD k 0 = j
      · rw [hjb] at hacc2 ⊢
        rw [getD_set_self _ _ _ _ hacc2, if_pos rfl, Pi.sub_apply]
        by_cases hja : st.m_firstObjectIndices.getD k 0 = j
        · rw [hja] at hacc1 ⊢
          rw [getD_set_self _ _ _ _ hacc1, if_pos rfl, Pi.add_apply, hval]
          ring
        · rw [getD_set_other _ _ _ _ _ (fun e => hja e.symm), if_neg hja, hval]
          ring
      · rw [getD_set_other _ _ _ _ _ (fun e => hjb e.symm), if_neg hjb]
        by_cases hja : st.m_firstObjectIndices.getD k 0 = j
        · rw [hja] at hacc1 ⊢
          rw [getD_set_self _ _ _ _ hacc1, if_pos rfl, Pi.add_apply, hval]
          ring
        · rw [getD_set_other _ _ _ _ _ (fun e => hja e.symm), if_neg hja, hval]
          ring
  · exact ⟨rfl, fun j p => by simp⟩

theorem replicate_getD_zero (n j : Nat) (p : Fin 3) :
    ((List.replicate n (0 : Vec3 R)).getD j 0) p = 0 := by
  rw [List.getD_eq_getElem?_getD]
  by_cases hj : j < n
  · rw [List.getElem?_replicate_of_lt hj]
    rfl
  · rw [List.getElem?_eq_none (by simpa using hj)]
    rfl

/-- C34. Interaction field with one state (`mstate1 == mstate2`), a non-null
matrix at offset `0`, all accesses in bounds. Let `M` be the matrix that
`addKToMatrix` assembles into a zero matrix, and `delta` what `addDForce` adds,
with the same factor and `dx1 = dx2 = dx`, to a zero `df`: the vector left by
the loop run on the one vector `df` that both references denote, which is also
the sum of the two vectors left when `df1` and `df2` are kept apart. Then both
calls return and every row of `M * dx` is the component of `delta`:
`(M * dx)[3 j + p] = delta[j][p]`. -/
theorem addKToMatrix_mul_eq_addDForce (st : PolynomialSpringsForceField R) (kFact : R)
    (mref11 mref22 : MatrixRef) (mref12 mref21 : InteractionMatrixRef) (address : Nat)
    (dx : List (Vec3 R))
    (hm : mref11.matrix = some address) (ho : mref11.offset = 0)
    (h2 : st.m_firstObjectIndices.length ≤ st.m_secondObjectIndices.length)
    (hJ : st.m_firstObjectIndices.length ≤ st.m_differential.length)
    (ha : ∀ i, i < st.m_firstObjectIndices.length → st.m_firstObjectIndices.getD i 0 < dx.length)
    (hb : ∀ i, i < st.m_firstObjectIndices.length →
      st.m_secondObjectIndices.getD i 0 < dx.length) :
    ∃ store' delta df1' df2',
      st.addKToMatrix kFact true mref11 mref22 mref12 mref21 (fun _ _ _ => 0) = some store'
      ∧ st.addDForceSameState kFact (List.replicate dx.length 0) dx = some delta
      ∧ st.addDForce kFact (List.replicate dx.length 0) (List.replicate dx.length 0) dx dx
          = some (df1', df2')
      ∧ ∀ (j : Nat) (p : Fin 3),
          matVec (store' address) dx (3 * j + p) = (delta.getD j 0) p
          ∧ (delta.getD j 0) p = (df1'.getD j 0) p + (df2'.getD j 0) p := by
  obtain ⟨store', h1, he, -⟩ := addKToMatrix_same_adds st kFact mref11 mref22 mref12 mref21
    address hm h2 hJ (fun _ _ _ => 0)
  obtain ⟨delta, h3, -, hs⟩ := addDForceSameState_adds st kFact (List.replicate dx.length 0) dx
    h2 hJ ha hb (by simp)
  obtain ⟨r, h4, -, -, hd⟩ := addDForce_adds st kFact (List.replicate dx.length 0)
    (List.replicate dx.length 0) dx dx h2 hJ ha hb (by simp) (by simp)
  refine ⟨store', delta, r.1, r.2, h1, h3, h4, ?_⟩
  intro j p
  constructor
  · rw [hs, replicate_getD_zero, zero_add]
    unfold matVec
    simp only [he, ho, zero_add, Finset.sum_mul]
    rw [Finset.sum_congr rfl (fun x _ => Finset.sum_comm), Finset.sum_comm]
    apply Finset.sum_congr rfl
    intro i hi
    have hlt := Finset.mem_range.mp hi
    exact springBlocks_mulVec kFact _ _ j _ dx p (ha i hlt) (hb i hlt)
  · rw [hs, (hd j p).1, (hd j p).2, replicate_getD_zero, zero_add, zero_add, zero_sub,
      Finset.sum_sub_distrib]
    ring

theorem addKToMatrix_mul_eq_addDForce_witness :
    ∃ store' delta df1' df2',
      pairSpring.addKToMatrix 2 true ⟨some 0, 0⟩ ⟨some 0, 0⟩ ⟨some 0, 0, 0⟩ ⟨some 0, 0, 0⟩
        (fun _ _ _ => 0) = some store'
      ∧ pairSpring.addDForceSameState 2
          (List.replicate ([![1, 0, 0], ![0, 1, 1]] : List (Vec3 ℚ)).length 0)
          [![1, 0, 0], ![0, 1, 1]] = some delta
      ∧ pairSpring.addDForce 2
          (List.replicate ([![1, 0, 0], ![0, 1, 1]] : List (Vec3 ℚ)).length 0)
          (List.replicate ([![1, 0, 0], ![0, 1, 1]] : List (Vec3 ℚ)).length 0)
          [![1, 0, 0], ![0, 1, 1]] [![1, 0, 0], ![0, 1, 1]] = some (df1', df2')
      ∧ ∀ (j : Nat) (p : Fin 3),
          matVec (store' 0) [![1, 0, 0], ![0, 1, 1]] (3 * j + p) = (delta.getD j 0) p
          ∧ (delta.getD j 0) p = (df1'.getD j 0) p + (df2'.getD j 0) p :=
  addKToMatrix_mul_eq_addDForce pairSpring 2 ⟨some 0, 0⟩ ⟨some 0, 0⟩ ⟨some 0, 0, 0⟩
    ⟨some 0, 0, 0⟩ 0 [![1, 0, 0], ![0, 1, 1]] rfl rfl (le_refl 1) (le_refl 1)
    (by
      intro i hi
      have hi0 : i = 0 := by
        simpa [pairSpring, PolynomialSpringsForceField.configured] using hi
      subst hi0
      simp [pairSpring, PolynomialSpringsForceField.configured])
    (by
      intro i hi
      have hi0 : i = 0 := by
        simpa [pairSpring, PolynomialSpringsForceField.configured] using hi
      subst hi0
      simp [pairSpring, PolynomialSpringsForceField.configured])

end InteractionProduct

section ResolverGuarantee

variable {R : Type} [LinearOrderedField R]

theorem recomputeIndices_le (st : PolynomialSpringsForceField R) :
    st.recomputeIndices.m_firstObjectIndices.length
      ≤ st.recomputeIndices.m_secondObjectIndices.length := by
  unfold PolynomialSpringsForceField.recomputeIndices
  simp only []
  split_ifs with h1 h2 h3 <;> simp_all

theorem anchored_recomputeIndices_le (st st' : PolynomialRestShapeSpringsForceField R)
    (h : st.recomputeIndices = some st') : st'.m_indices.length ≤ st'.m_ext_indices.length := by
  unfold PolynomialRestShapeSpringsForceField.recomputeIndices at h
  by_cases he : st.external_points.isEmpty = true
  · by_cases hu : st.useRestMState = true
    · rw [if_pos he, if_pos hu] at h
      simp only [Option.bind_eq_bind, Option.pure_def, Option.bind_eq_some,
        Option.some_bind] at h
      obtain ⟨p0, _, h⟩ := h
      split_ifs at h <;>
      · cases h
        first | exact le_refl _ | (simp only [] ; omega)
    · rw [if_pos he, if_neg hu] at h
      simp only [Option.bind_eq_bind, Option.pure_def, Option.some_bind] at h
      split_ifs at h <;>
      · cases h
        first | exact le_refl _ | (simp only [] ; omega)
  · rw [if_neg he] at h
    simp only [Option.bind_eq_bind, Option.pure_def, Option.some_bind] at h
    split_ifs at h <;>
    · cases h
      first | exact le_refl _ | (simp only [] ; omega)

theorem foldlM_congr_mem {α σ : Type} (f g : σ → α → Option σ) (l : List α)
    (h : ∀ x ∈ l, ∀ s, f s x = g s x) : ∀ s, l.foldlM f s = l.foldlM g s := by
  induction l with
  | nil => intro s; rfl
  | cons x xs ih =>
    intro s
    rw [List.foldlM_cons, List.foldlM_cons, h x (List.mem_cons_self x xs) s]
    cases g s x with
    | none => rfl
    | some s1 => exact ih (fun y hy => h y (List.mem_cons_of_mem x hy)) s1

theorem foldlM_map_commute {σ : Type} (f : σ → Nat → Option σ) (T : σ → σ) (P : σ → Prop)
    (hP : ∀ b i b', P b → f b i = some b' → P b') (l : List Nat)
    (hc : ∀ i ∈ l, ∀ b, P b → f (T b) i = (f b i).map T) :
    ∀ b, P b → l.foldlM f (T b) = (l.foldlM f b).map T := by
  induction l with
  | nil => intro b _; rfl
  | cons x xs ih =>
    intro b hb
    rw [List.foldlM_cons, List.foldlM_cons, hc x (List.mem_cons_self x xs) b hb]
    cases hx : f b x with
    | none => rfl
    | some b1 =>
      exact ih (fun y hy => hc y (List.mem_cons_of_mem x hy)) b1 (hP b x b1 hb hx)

theorem addForceSpring_second (M : MathOps R) (cv : R) (p1 p2 f1 f2 : List (Vec3 R))
    (st : PolynomialSpringsForceField R) (g i : Nat) (l2 : List Nat)
    (h : l2[i]? = st.m_secondObjectIndices[i]?) :
    PolynomialSpringsForceField.addForceSpring M cv p1 p2 g
        ({ st with m_secondObjectIndices := l2 }, f1, f2) i
      = (PolynomialSpringsForceField.addForceSpring M cv p1 p2 g (st, f1, f2) i).map
          (fun r => ({ r.1 with m_secondObjectIndices := l2 }, r.2)) := by
  cases hr : PolynomialSpringsForceField.addForceSpring M cv p1 p2 g (st, f1, f2) i with
  | some r =>
    obtain ⟨a, b, x1, x2, fa, fb, flag, z0, F, F', Jold, ha, hb, hx1, hx2, hfa, hfb, hflag, hz0,
      hJ, hw, hl, hs, hg, hF, hF'⟩ := addForceSpring_inv M cv p1 p2 f1 f2 st g i r hr
    rw [addForceSpring_eq M cv p1 p2 f1 f2 st g i a b x1 x2 fa fb flag z0 F F' Jold
      ha hb hx1 hx2 hfa hfb hflag hz0 hJ hw hl hs hg hF hF'] at hr
    cases hr
    rw [addForceSpring_eq M cv p1 p2 f1 f2 { st with m_secondObjectIndices := l2 } g i a b x1 x2
      fa fb flag z0 F F' Jold ha (h.trans hb) hx1 hx2 hfa hfb hflag hz0 hJ hw hl hs hg hF hF']
    rfl
  | none =>
    cases hr2 : PolynomialSpringsForceField.addForceSpring M cv p1 p2 g
        ({ st with m_secondObjectIndices := l2 }, f1, f2) i with
    | none => rfl
    | some r2 =>
      obtain ⟨a, b, x1, x2, fa, fb, flag, z0, F, F', Jold, ha, hb, hx1, hx2, hfa, hfb, hflag,
        hz0, hJ, hw, hl, hs, hg, hF, hF'⟩ := addForceSpring_inv M cv p1 p2 f1 f2 _ g i r2 hr2
      rw [addForceSpring_eq M cv p1 p2 f1 f2 st g i a b x1 x2 fa fb flag z0 F F' Jold
        ha (h.symm.trans hb) hx1 hx2 hfa hfb hflag hz0 hJ hw hl hs hg hF hF'] at hr
      cases hr

theorem anchored_addForceSpring_ext (M : MathOps R) (p1 p0 f : List (Vec3 R))
    (st : PolynomialRestShapeSpringsForceField R) (g i : Nat) (e2 : List Nat)
    (h : e2[i]? = st.m_ext_indices[i]?) :
    PolynomialRestShapeSpringsForceField.addForceSpring M p1 p0 g
        ({ st with m_ext_indices := e2 }, f) i
      = (PolynomialRestShapeSpringsForceField.addForceSpring M p1 p0 g (st, f) i).map
          (fun r => ({ r.1 with m_ext_indices := e2 }, r.2)) := by
  cases hr : PolynomialRestShapeSpringsForceField.addForceSpring M p1 p0 g (st, f) i with
  | some r =>
    obtain ⟨a, e, x1, x0, fa, z, F, F', Jold, ha, he, hx1, hx0, hfa, hz, hJ, hn, hs, hl, hw,
      hF, hF'⟩ := anchored_addForceSpring_inv M p1 p0 f st g i r hr
    rw [anchored_addForceSpring_eq M p1 p0 f st g i a e x1 x0 fa z F F' Jold ha he hx1 hx0
      hfa hz hJ hn hs hl hw hF hF'] at hr
    cases hr
    have he2 : (if st.useRestMState then e2[i]? else some a) = some e := by
      rw [h]
      exact he
    rw [anchored_addForceSpring_eq M p1 p0 f { st with m_ext_indices := e2 } g i a e x1 x0 fa
      z F F' Jold ha he2 hx1 hx0 hfa hz hJ hn hs hl hw hF hF']
    rfl
  | none =>
    cases hr2 : PolynomialRestShapeSpringsForceField.addForceSpring M p1 p0 g
        ({ st with m_ext_indices := e2 }, f) i with
    | none => rfl
    | some r2 =>
      obtain ⟨a, e, x1, x0, fa, z, F, F', Jold, ha, he, hx1, hx0, hfa, hz, hJ, hn, hs, hl, hw,
        hF, hF'⟩ := anchored_addForceSpring_inv M p1 p0 f _ g i r2 hr2
      have he2 : (if st.useRestMState then e2[i]? else some a) = some e := he
      rw [h] at he2
      rw [anchored_addForceSpring_eq M p1 p0 f st g i a e x1 x0 fa z F F' Jold ha he2
        hx1 hx0 hfa hz hJ hn hs hl hw hF hF'] at hr
      cases hr

theorem addForce_second (M : MathOps R) (st : PolynomialSpringsForceField R) (l2 : List Nat)
    (f1 f2 p1 p2 : List (Vec3 R)) (hrec : st.d_recomputeIndices = false)
    (hl : ∀ i, i < st.m_firstObjectIndices.length → l2[i]? = st.m_secondObjectIndices[i]?) :
    ({ st with m_secondObjectIndices := l2 } : PolynomialSpringsForceField R).addForce M
        f1 f2 p1 p2
      = (st.addForce M f1 f2 p1 p2).map
          (fun r => ({ r.1 with m_secondObjectIndices := l2 }, r.2)) := by
  have e1 : st.resolved = st := by
    unfold PolynomialSpringsForceField.resolved
    rw [hrec]
    rfl
  have e2 : ({ st with m_secondObjectIndices := l2 } : PolynomialSpringsForceField R).resolved
      = { st with m_secondObjectIndices := l2 } := by
    unfold PolynomialSpringsForceField.resolved
    simp only [hrec]
    rfl
  rw [addForce_eq_fold, addForce_eq_fold, e1, e2]
  exact foldlM_map_commute
    (fun acc i => PolynomialSpringsForceField.addForceSpring M
      (if st.d_compressible then -1 else 0) p1 p2 (st.groupOf i) acc i)
    (fun r => ({ r.1 with m_secondObjectIndices := l2 }, r.2))
    (fun acc => PolynomialSpringsForceField.SameFrame st acc.1)
    (by
      intro acc i acc' hP hstep
      obtain ⟨s, g1, g2⟩ := acc
      obtain ⟨hfr', -, -⟩ := addForceSpring_frame M _ p1 p2 g1 g2 s _ i acc' hstep
      exact sameFrame_trans hP hfr')
    _
    (by
      intro i hi acc hP
      obtain ⟨s, g1, g2⟩ := acc
      have hP' : s.m_secondObjectIndices = st.m_secondObjectIndices := hP.second
      exact addForceSpring_second M _ p1 p2 g1 g2 s _ i l2
        (by rw [hP']; exact hl i (List.mem_range.mp hi)))
    (st, resize f1 p1.length 0, resize f2 p2.length 0) (sameFrame_refl st)

theorem anchored_addForce_ext (M : MathOps R) (st : PolynomialRestShapeSpringsForceField R)
    (e2 : List Nat) (f p1 : List (Vec3 R)) (hrec : st.d_recomputeIndices = false)
    (hl : ∀ i, i < st.m_indices.length → e2[i]? = st.m_ext_indices[i]?) :
    ({ st with m_ext_indices := e2 } : PolynomialRestShapeSpringsForceField R).addForce M f p1
      = (st.addForce M f p1).map (fun r => ({ r.1 with m_ext_indices := e2 }, r.2)) := by
  cases hp0 : st.getExtPosition with
  | none =>
    have hp0' : ({ st with m_ext_indices := e2 } :
        PolynomialRestShapeSpringsForceField R).getExtPosition = none := hp0
    unfold PolynomialRestShapeSpringsForceField.addForce
    rw [hp0, hp0']
    rfl
  | some p0 =>
    have hp0' : ({ st with m_ext_indices := e2 } :
        PolynomialRestShapeSpringsForceField R).getExtPosition = some p0 := hp0
    rw [anchored_addForce_eq_fold M st st f p1 p0 hp0 (by rw [hrec]; rfl),
      anchored_addForce_eq_fold M _ { st with m_ext_indices := e2 } f p1 p0 hp0'
        (by simp only [hrec]; rfl)]
    exact foldlM_map_commute
      (fun acc i => PolynomialRestShapeSpringsForceField.addForceSpring M p1 p0
        (st.groupOf i) acc i)
      (fun r => ({ r.1 with m_ext_indices := e2 }, r.2))
      (fun acc => PolynomialRestShapeSpringsForceField.SameFrame st acc.1)
      (by
        intro acc i acc' hP hstep
        obtain ⟨s, g⟩ := acc
        obtain ⟨hfr', -, -⟩ := anchored_addForceSpring_frame M p1 p0 g s _ i acc' hstep
        exact anchored_sameFrame_trans hP hfr')
      _
      (by
        intro i hi acc hP
        obtain ⟨s, g⟩ := acc
        have hP' : s.m_ext_indices = st.m_ext_indices := hP.ext_indices
        exact anchored_addForceSpring_ext M p1 p0 g s _ i e2
          (by rw [hP']; exact hl i (List.mem_range.mp hi)))
      (st, resize f p1.length 0) (anchored_sameFrame_refl st)

theorem addDForce_second (st : PolynomialSpringsForceField R) (l2 : List Nat) (kFactor : R)
    (df1 df2 dx1 dx2 : List (Vec3 R))
    (hl : ∀ i, i < st.m_firstObjectIndices.length → l2[i]? = st.m_secondObjectIndices[i]?) :
    ({ st with m_secondObjectIndices := l2 } : PolynomialSpringsForceField R).addDForce
        kFactor df1 df2 dx1 dx2 = st.addDForce kFactor df1 df2 dx1 dx2 := by
  unfold PolynomialSpringsForceField.addDForce
  apply foldlM_congr_mem
  intro i hi acc
  simp only [PolynomialSpringsForceField.addDForceSpring, hl i (List.mem_range.mp hi)]

theorem addKToMatrixSpring_second (st : PolynomialSpringsForceField R) (l2 : List Nat)
    (kFact : R)
    (entry : Nat → Nat → Fin 3 → Fin 3 → R → MatrixStore R → Option (MatrixStore R))
    (L : List Nat) (i : Nat) (h : l2[i]? = st.m_secondObjectIndices[i]?) (s : MatrixStore R) :
    PolynomialSpringsForceField.addKToMatrixSpring { st with m_secondObjectIndices := l2 } kFact
        entry s i = st.addKToMatrixSpring kFact entry s i
    ∧ PolynomialSpringsForceField.addSubKToMatrixSpring { st with m_secondObjectIndices := l2 }
        kFact entry L s i = st.addSubKToMatrixSpring kFact entry L s i := by
  constructor
  · simp only [PolynomialSpringsForceField.addKToMatrixSpring, h]
  · simp only [PolynomialSpringsForceField.addSubKToMatrixSpring, h]

theorem addKToMatrix_second (st : PolynomialSpringsForceField R) (l2 : List Nat) (kFact : R)
    (sameState : Bool) (mref11 mref22 : MatrixRef) (mref12 mref21 : InteractionMatrixRef)
    (L : List Nat) (store : MatrixStore R)
    (hl : ∀ i, i < st.m_firstObjectIndices.length → l2[i]? = st.m_secondObjectIndices[i]?) :
    ({ st with m_secondObjectIndices := l2 } : PolynomialSpringsForceField R).addKToMatrix
        kFact sameState mref11 mref22 mref12 mref21 store
      = st.addKToMatrix kFact sameState mref11 mref22 mref12 mref21 store
    ∧ ({ st with m_secondObjectIndices := l2 } : PolynomialSpringsForceField R).addSubKToMatrix
        kFact sameState mref11 mref22 mref12 mref21 L store
      = st.addSubKToMatrix kFact sameState mref11 mref22 mref12 mref21 L store := by
  have hk : ∀ entry : Nat → Nat → Fin 3 → Fin 3 → R → MatrixStore R → Option (MatrixStore R),
      (List.range st.m_firstObjectIndices.length).foldlM
        (PolynomialSpringsForceField.addKToMatrixSpring
          { st with m_secondObjectIndices := l2 } kFact entry) store
      = (List.range st.m_firstObjectIndices.length).foldlM
        (st.addKToMatrixSpring kFact entry) store := by
    intro entry
    apply foldlM_congr_mem
    intro i hi s
    exact (addKToMatrixSpring_second st l2 kFact entry L i (hl i (List.mem_range.mp hi)) s).1
  have hsub : ∀ entry : Nat → Nat → Fin 3 → Fin 3 → R → MatrixStore R → Option (MatrixStore R),
      (List.range st.m_firstObjectIndices.length).foldlM
        (PolynomialSpringsForceField.addSubKToMatrixSpring
          { st with m_secondObjectIndices := l2 } kFact entry L) store
      = (List.range st.m_firstObjectIndices.length).foldlM
        (st.addSubKToMatrixSpring kFact entry L) store := by
    intro entry
    apply foldlM_congr_mem
    intro i hi s
    exact (addKToMatrixSpring_second st l2 kFact entry L i (hl i (List.mem_range.mp hi)) s).2
  constructor
  · unfold PolynomialSpringsForceField.addKToMatrix
    simp only [hk]
  · unfold PolynomialSpringsForceField.addSubKToMatrix
    simp only [hsub]

theorem anchored_addForce_resolve_none (M : MathOps R)
    (st : PolynomialRestShapeSpringsForceField R) (f p1 : List (Vec3 R))
    (hc : st.d_recomputeIndices = true) (hr : st.recomputeIndices = none) :
    st.addForce M f p1 = none := by
  unfold PolynomialRestShapeSpringsForceField.addForce
  cases st.getExtPosition with
  | none => rfl
  | some p0 =>
    simp only [Option.bind_eq_bind, Option.some_bind, if_pos hc, hr, Option.none_bind]

theorem addForce_second_any (M : MathOps R) (st : PolynomialSpringsForceField R) (l2 : List Nat)
    (f1 f2 p1 p2 : List (Vec3 R))
    (hl : ∀ i, i < st.m_firstObjectIndices.length → l2[i]? = st.m_secondObjectIndices[i]?) :
    (({ st with m_secondObjectIndices := l2 } : PolynomialSpringsForceField R).addForce M
        f1 f2 p1 p2).map (fun r => ({ r.1 with m_secondObjectIndices := l2 }, r.2))
      = (st.addForce M f1 f2 p1 p2).map
          (fun r => ({ r.1 with m_secondObjectIndices := l2 }, r.2)) := by
  by_cases hc : st.d_recomputeIndices = true
  · have e : ({ st with m_secondObjectIndices := l2 } : PolynomialSpringsForceField R).resolved
        = st.resolved := by
      unfold PolynomialSpringsForceField.resolved
      rw [if_pos hc, if_pos (show ({ st with m_secondObjectIndices := l2 } :
        PolynomialSpringsForceField R).d_recomputeIndices = true from hc)]
      rfl
    rw [addForce_eq_fold, addForce_eq_fold, e]
  · rw [addForce_second M st l2 f1 f2 p1 p2 (by simpa using hc) hl, Option.map_map]
    rfl

theorem anchored_addForce_ext_any (M : MathOps R) (st : PolynomialRestShapeSpringsForceField R)
    (e2 : List Nat) (f p1 : List (Vec3 R))
    (hl : ∀ i, i < st.m_indices.length → e2[i]? = st.m_ext_indices[i]?) :
    (({ st with m_ext_indices := e2 } : PolynomialRestShapeSpringsForceField R).addForce M
        f p1).map (fun r => ({ r.1 with m_ext_indices := e2 }, r.2))
      = (st.addForce M f p1).map (fun r => ({ r.1 with m_ext_indices := e2 }, r.2)) := by
  by_cases hc : st.d_recomputeIndices = true
  · have e : ({ st with m_ext_indices := e2 } :
        PolynomialRestShapeSpringsForceField R).recomputeIndices = st.recomputeIndices := rfl
    have hc' : ({ st with m_ext_indices := e2 } :
        PolynomialRestShapeSpringsForceField R).d_recomputeIndices = true := hc
    cases hp0 : st.getExtPosition with
    | none =>
      have hp0' : ({ st with m_ext_indices := e2 } :
          PolynomialRestShapeSpringsForceField R).getExtPosition = none := hp0
      unfold PolynomialRestShapeSpringsForceField.addForce
      rw [hp0, hp0']
      rfl
    | some p0 =>
      have hp0' : ({ st with m_ext_indices := e2 } :
          PolynomialRestShapeSpringsForceField R).getExtPosition = some p0 := hp0
      cases hr : st.recomputeIndices with
      | none =>
        rw [anchored_addForce_resolve_none M st f p1 hc hr,
          anchored_addForce_resolve_none M _ f p1 hc' (e.trans hr)]
      | some st1 =>
        rw [anchored_addForce_eq_fold M st st1 f p1 p0 hp0 (by rw [if_pos hc]; exact hr),
          anchored_addForce_eq_fold M _ st1 f p1 p0 hp0' (by rw [if_pos hc', e]; exact hr)]
  · rw [anchored_addForce_ext M st e2 f p1 (by simpa using hc) hl, Option.map_map]
    rfl

/-- C38. After `recomputeIndices()` the first resolved list is never longer than
the second in either variant, so the second list can be read at every spring
position below the length of the first. Replacing the second list by any list
with the same entries below the length of the first changes nothing in what
`addForce`, `addDForce`, `addKToMatrix` and `addSubKToMatrix` return, the
stored second list itself apart. -/
theorem resolved_second_list_tail_unused (M : MathOps R) (sti : PolynomialSpringsForceField R)
    (sta sta' : PolynomialRestShapeSpringsForceField R) (l2 e2 : List Nat)
    (hres : sta.recomputeIndices = some sta')
    (hl : ∀ i, i < sti.recomputeIndices.m_firstObjectIndices.length →
      l2[i]? = sti.recomputeIndices.m_secondObjectIndices[i]?)
    (he : ∀ i, i < sta'.m_indices.length → e2[i]? = sta'.m_ext_indices[i]?) :
    (sti.recomputeIndices.m_firstObjectIndices.length
        ≤ sti.recomputeIndices.m_secondObjectIndices.length
      ∧ ∀ i, i < sti.recomputeIndices.m_firstObjectIndices.length →
          ∃ b, sti.recomputeIndices.m_secondObjectIndices[i]? = some b)
    ∧ (sta'.m_indices.length ≤ sta'.m_ext_indices.length
      ∧ ∀ i, i < sta'.m_indices.length → ∃ e, sta'.m_ext_indices[i]? = some e)
    ∧ (∀ f1 f2 p1 p2 : List (Vec3 R),
        (PolynomialSpringsForceField.addForce M
            { sti.recomputeIndices with m_secondObjectIndices := l2 } f1 f2 p1 p2).map
            (fun r => ({ r.1 with m_secondObjectIndices := l2 }, r.2))
          = (sti.recomputeIndices.addForce M f1 f2 p1 p2).map
            (fun r => ({ r.1 with m_secondObjectIndices := l2 }, r.2)))
    ∧ (∀ (kFactor : R) (df1 df2 dx1 dx2 : List (Vec3 R)),
        PolynomialSpringsForceField.addDForce
            { sti.recomputeIndices with m_secondObjectIndices := l2 } kFactor df1 df2 dx1 dx2
          = sti.recomputeIndices.addDForce kFactor df1 df2 dx1 dx2)
    ∧ (∀ (kFact : R) (sameState : Bool) (mref11 mref22 : MatrixRef)
        (mref12 mref21 : InteractionMatrixRef) (addSubIndex : List Nat) (store : MatrixStore R),
        PolynomialSpringsForceField.addKToMatrix
            { sti.recomputeIndices with m_secondObjectIndices := l2 } kFact sameState
            mref11 mref22 mref12 mref21 store
          = sti.recomputeIndices.addKToMatrix kFact sameState mref11 mref22 mref12 mref21 store
        ∧ PolynomialSpringsForceField.addSubKToMatrix
            { sti.recomputeIndices with m_secondObjectIndices := l2 } kFact sameState
            mref11 mref22 mref12 mref21 addSubIndex store
          = sti.recomputeIndices.addSubKToMatrix kFact sameState mref11 mref22 mref12 mref21
              addSubIndex store)
    ∧ (∀ f p1 : List (Vec3 R),
        (PolynomialRestShapeSpringsForceField.addForce M { sta' with m_ext_indices := e2 }
            f p1).map (fun r => ({ r.1 with m_ext_indices := e2 }, r.2))
          = (sta'.addForce M f p1).map (fun r => ({ r.1 with m_ext_indices := e2 }, r.2)))
    ∧ (∀ (kFactor : R) (df dx : List (Vec3 R)),
        PolynomialRestShapeSpringsForceField.addDForce { sta' with m_ext_indices := e2 }
            kFactor df dx = sta'.addDForce kFactor df dx)
    ∧ (∀ (kFact : R) (mref : MatrixRef) (addSubIndex : List Nat) (store : MatrixStore R),
        PolynomialRestShapeSpringsForceField.addKToMatrix { sta' with m_ext_indices := e2 }
            kFact mref store = sta'.addKToMatrix kFact mref store
        ∧ PolynomialRestShapeSpringsForceField.addSubKToMatrix
            { sta' with m_ext_indices := e2 } kFact mref addSubIndex store
          = sta'.addSubKToMatrix kFact mref addSubIndex store) := by
  have h1 := recomputeIndices_le sti
  have h2 := anchored_recomputeIndices_le sta sta' hres
  refine ⟨⟨h1, ?_⟩, ⟨h2, ?_⟩, ?_, ?_, ?_, ?_, ?_, ?_⟩
  · intro i hi
    exact ⟨_, List.getElem?_eq_getElem (lt_of_lt_of_le hi h1)⟩
  · intro i hi
    exact ⟨_, List.getElem?_eq_getElem (lt_of_lt_of_le hi h2)⟩
  · intro f1 f2 p1 p2
    exact addForce_second_any M _ l2 f1 f2 p1 p2 hl
  · intro kFactor df1 df2 dx1 dx2
    exact addDForce_second _ l2 kFactor df1 df2 dx1 dx2 hl
  · intro kFact sameState mref11 mref22 mref12 mref21 addSubIndex store
    exact addKToMatrix_second _ l2 kFact sameState mref11 mref22 mref12 mref21 addSubIndex
      store hl
  · intro f p1
    exact anchored_addForce_ext_any M _ e2 f p1 he
  · intro kFactor df dx
    rfl
  · intro kFact mref addSubIndex store
    exact ⟨rfl, rfl⟩

theorem resolved_second_list_tail_unused_witness :
    ((PolynomialSpringsForceField.configured [0] [1, 0] [1] [1] 0 [1] false false 2 2 :
        PolynomialSpringsForceField ℚ).recomputeIndices.m_firstObjectIndices = [0]
      ∧ (PolynomialSpringsForceField.configured [0] [1, 0] [1] [1] 0 [1] false false 2 2 :
        PolynomialSpringsForceField ℚ).recomputeIndices.m_secondObjectIndices = [1, 0]
      ∧ diagonalSpring.recomputeIndices = some diagonalSpring)
    ∧ (∀ f1 f2 p1 p2 : List (Vec3 ℚ),
        (PolynomialSpringsForceField.addForce ratOps
            { (PolynomialSpringsForceField.configured [0] [1, 0] [1] [1] 0 [1] false false 2 2 :
                PolynomialSpringsForceField ℚ).recomputeIndices with
              m_secondObjectIndices := [1, 5, 6] } f1 f2 p1 p2).map
            (fun r => ({ r.1 with m_secondObjectIndices := [1, 5, 6] }, r.2))
          = ((PolynomialSpringsForceField.configured [0] [1, 0] [1] [1] 0 [1] false false 2 2 :
                PolynomialSpringsForceField ℚ).recomputeIndices.addForce ratOps f1 f2 p1 p2).map
            (fun r => ({ r.1 with m_secondObjectIndices := [1, 5, 6] }, r.2)))
    ∧ (∀ f p1 : List (Vec3 ℚ),
        (PolynomialRestShapeSpringsForceField.addForce ratOps
            { diagonalSpring with m_ext_indices := [0] } f p1).map
            (fun r => ({ r.1 with m_ext_indices := [0] }, r.2))
          = (diagonalSpring.addForce ratOps f p1).map
            (fun r => ({ r.1 with m_ext_indices := [0] }, r.2))) :=
  have h := resolved_second_list_tail_unused ratOps
    (PolynomialSpringsForceField.configured [0] [1, 0] [1] [1] 0 [1] false false 2 2)
    diagonalSpring diagonalSpring [1, 5, 6] [0] rfl
    (by
      intro i hi
      have hi' : i < 1 := hi
      interval_cases i
      rfl)
    (by
      intro i hi
      have hi' : i < 1 := hi
      interval_cases i
      rfl)
  ⟨⟨rfl, rfl, rfl⟩, h.2.2.1, h.2.2.2.2.2.1⟩

end ResolverGuarantee

end Sofa
